import Mathlib

/-!
# EverCBOR (`src/cbor/steel/impl/out/CBOR.c`): a shallow embedding and its verification

Conventions of the embedding.

* `uint8_t`, `uint16_t`, `uint32_t`, `uint64_t` and `size_t` values are natural numbers; a
  reduction `% 2 ^ w` is written wherever the C arithmetic can leave the width `w`.
  `size_t` is 64 bits wide (the source asserts `UINT64_MAX <= SIZE_MAX`).
* A pointer `uint8_t *a` is the list of the bytes stored from `a` to the end of the buffer it
  points into, so `a + k` is `a.drop k` and `a[i]` is `a.getD i 0` reduced mod `2 ^ 8`.
  A read past the end of the buffer (undefined behaviour in C) yields `0`.
* An out-parameter (`uint32_t *perr`, `bool *perr`) is passed in and returned.
* A `while` loop is a recursive function on a fuel argument; the top-level function supplies
  a fuel that the loop provably never exhausts on the inputs it is specified for.
-/

namespace CBOR

/-! ## Constants -/

def VALIDATOR_ERROR_NOT_ENOUGH_DATA : Nat := 1

def VALIDATOR_ERROR_CONSTRAINT_FAILED : Nat := 2

def validate_recursive_error_not_enough_data : Nat := 1

def MIN_SIMPLE_VALUE_LONG_ARGUMENT : Nat := 32

def MAX_SIMPLE_VALUE_ADDITIONAL_INFO : Nat := 23

def ADDITIONAL_INFO_LONG_ARGUMENT_8_BITS : Nat := 24

def ADDITIONAL_INFO_UNASSIGNED_MIN : Nat := 28

def ADDITIONAL_INFO_LONG_ARGUMENT_16_BITS : Nat := 25

def ADDITIONAL_INFO_LONG_ARGUMENT_32_BITS : Nat := 26

def ADDITIONAL_INFO_LONG_ARGUMENT_64_BITS : Nat := 27

def MIN_DETERMINISTIC_UINT8 : Nat := 24

def MIN_DETERMINISTIC_UINT16 : Nat := 256

def MIN_DETERMINISTIC_UINT32 : Nat := 65536

def MIN_DETERMINISTIC_UINT64 : Nat := 4294967296

def MIN_DETERMINISTIC_UINT8_AS_UINT64 : Nat := 24

def MIN_DETERMINISTIC_UINT16_AS_UINT64 : Nat := 256

def MIN_DETERMINISTIC_UINT32_AS_UINT64 : Nat := 65536

/-- Modelled from the spec: the macro `CBOR_MAJOR_TYPE_BYTE_STRING` of the header `CBOR.h`,
which is not among the sources; section 3 numbers the major types 0-7 in the order
unsigned-int, negative-int, byte-string, text-string, array, map, tag, simple/float. -/
def CBOR_MAJOR_TYPE_BYTE_STRING : Nat := 2

/-- Modelled from the spec: the macro `CBOR_MAJOR_TYPE_TEXT_STRING` of `CBOR.h` (major type 3). -/
def CBOR_MAJOR_TYPE_TEXT_STRING : Nat := 3

/-- Modelled from the spec: the macro `CBOR_MAJOR_TYPE_ARRAY` of `CBOR.h` (major type 4). -/
def CBOR_MAJOR_TYPE_ARRAY : Nat := 4

/-- Modelled from the spec: the macro `CBOR_MAJOR_TYPE_MAP` of `CBOR.h` (major type 5). -/
def CBOR_MAJOR_TYPE_MAP : Nat := 5

/-- Modelled from the spec: the macro `CBOR_MAJOR_TYPE_TAGGED` of `CBOR.h` (major type 6). -/
def CBOR_MAJOR_TYPE_TAGGED : Nat := 6

/-- Modelled from the spec: the macro `CBOR_MAJOR_TYPE_SIMPLE_VALUE` of `CBOR.h` (major type 7). -/
def CBOR_MAJOR_TYPE_SIMPLE_VALUE : Nat := 7

/-- The width of `size_t` and `uint64_t`: values range over `[0, SIZE_MOD)`. -/
def SIZE_MOD : Nat := 18446744073709551616

/-! ## Byte codec (lines 24-193) -/

/-- `get_bitfield_gen8`: `op1 = (uint8_t)(x << (8 - hi))`, result `(uint8_t)(op1 >> (8 - hi + lo))`. -/
def get_bitfield_gen8 (x lo hi : Nat) : Nat :=
  let op1 := (x <<< (8 - hi)) % 256
  (op1 >>> (8 - hi + lo)) % 256

/-- `set_bitfield_gen8`; every intermediate is a `uint8_t`, and `~op2` on a byte is `255 - op2`. -/
def set_bitfield_gen8 (x lo hi v : Nat) : Nat :=
  let op0 := 255
  let op1 := (op0 >>> (8 - (hi - lo))) % 256
  let op2 := (op1 <<< lo) % 256
  let op3 := 255 - op2
  let op4 := (x &&& op3) % 256
  let op5 := (v <<< lo) % 256
  (op4 ||| op5) % 256

/-- `read_u8`: the byte `a[0]`. -/
def read_u8 (a : List Nat) : Nat :=
  a.getD 0 0 % 256

/-- `read_u16`: big-endian, `a[1] + a[0] * 256`. -/
def read_u16 (a : List Nat) : Nat :=
  let last := a.getD 1 0 % 256
  let last1 := a.getD 0 0 % 256
  let n := last1
  (last + n * 256) % 65536

/-- `read_u32`: big-endian over four bytes. -/
def read_u32 (a : List Nat) : Nat :=
  let last := a.getD 3 0 % 256
  let last1 := a.getD 2 0 % 256
  let last2 := a.getD 1 0 % 256
  let last3 := a.getD 0 0 % 256
  let n := last3
  let n0 := (last2 + n * 256) % 4294967296
  let n1 := (last1 + n0 * 256) % 4294967296
  (last + n1 * 256) % 4294967296

/-- `read_u64`: big-endian over eight bytes. -/
def read_u64 (a : List Nat) : Nat :=
  let last := a.getD 7 0 % 256
  let last1 := a.getD 6 0 % 256
  let last2 := a.getD 5 0 % 256
  let last3 := a.getD 4 0 % 256
  let last4 := a.getD 3 0 % 256
  let last5 := a.getD 2 0 % 256
  let last6 := a.getD 1 0 % 256
  let last7 := a.getD 0 0 % 256
  let n := last7
  let n0 := (last6 + n * 256) % SIZE_MOD
  let n1 := (last5 + n0 * 256) % SIZE_MOD
  let n2 := (last4 + n1 * 256) % SIZE_MOD
  let n3 := (last3 + n2 * 256) % SIZE_MOD
  let n4 := (last2 + n3 * 256) % SIZE_MOD
  let n5 := (last1 + n4 * 256) % SIZE_MOD
  (last + n5 * 256) % SIZE_MOD

/-- `write_u8 x a`: the bytes stored at `a[0..1)`. -/
def write_u8 (x : Nat) : List Nat :=
  [x % 256]

/-- `write_u16 x a`: the bytes stored at `a[0..2)`, `a[0] = (uint8_t)(x / 256)`, `a[1] = (uint8_t)x`. -/
def write_u16 (x : Nat) : List Nat :=
  let lo := x % 256
  let hi := x / 256
  [hi % 256, lo]

/-- `write_u32 x a`: the bytes stored at `a[0..4)`. -/
def write_u32 (x : Nat) : List Nat :=
  let lo := x % 256
  let hi := x / 256
  let lo1 := hi % 256
  let hi1 := hi / 256
  let lo2 := hi1 % 256
  let hi2 := hi1 / 256
  [hi2 % 256, lo2, lo1, lo]

/-- `write_u64 x a`: the bytes stored at `a[0..8)`. -/
def write_u64 (x : Nat) : List Nat :=
  let lo := x % 256
  let hi := x / 256
  let lo1 := hi % 256
  let hi1 := hi / 256
  let lo2 := hi1 % 256
  let hi2 := hi1 / 256
  let lo3 := hi2 % 256
  let hi3 := hi2 / 256
  let lo4 := hi3 % 256
  let hi4 := hi3 / 256
  let lo5 := hi4 % 256
  let hi5 := hi4 / 256
  let lo6 := hi5 % 256
  let hi6 := hi5 / 256
  [hi6 % 256, lo6, lo5, lo4, lo3, lo2, lo1, lo]

/-! ## Header codec and jump engine (lines 195-449, 962-1007) -/

/-- `jump_header_`: the length of the head at `a`. -/
def jump_header_ (a : List Nat) : Nat :=
  let len1 := 1
  let v := read_u8 a
  if get_bitfield_gen8 v 0 5 = ADDITIONAL_INFO_LONG_ARGUMENT_8_BITS then
    if get_bitfield_gen8 v 5 8 = CBOR_MAJOR_TYPE_SIMPLE_VALUE then len1 + 1 else len1 + 1
  else if get_bitfield_gen8 v 0 5 = ADDITIONAL_INFO_LONG_ARGUMENT_16_BITS then len1 + 2
  else if get_bitfield_gen8 v 0 5 = ADDITIONAL_INFO_LONG_ARGUMENT_32_BITS then len1 + 4
  else if get_bitfield_gen8 v 0 5 = ADDITIONAL_INFO_LONG_ARGUMENT_64_BITS then len1 + 8
  else len1 + 0

/-- `read_header_major_type`. -/
def read_header_major_type (a : List Nat) : Nat :=
  let v := read_u8 a
  get_bitfield_gen8 v 5 8

/-- `read_header_argument_as_uint64`. -/
def read_header_argument_as_uint64 (a : List Nat) : Nat :=
  let len1 := 1
  let v := read_u8 a
  let ar := a.drop len1
  if get_bitfield_gen8 v 0 5 = ADDITIONAL_INFO_LONG_ARGUMENT_8_BITS then
    if get_bitfield_gen8 v 5 8 = CBOR_MAJOR_TYPE_SIMPLE_VALUE then read_u8 ar else read_u8 ar
  else if get_bitfield_gen8 v 0 5 = ADDITIONAL_INFO_LONG_ARGUMENT_16_BITS then read_u16 ar
  else if get_bitfield_gen8 v 0 5 = ADDITIONAL_INFO_LONG_ARGUMENT_32_BITS then read_u32 ar
  else if get_bitfield_gen8 v 0 5 = ADDITIONAL_INFO_LONG_ARGUMENT_64_BITS then read_u64 ar
  else get_bitfield_gen8 v 0 5

/-- `read_argument_as_uint64_`. -/
def read_argument_as_uint64_ (a : List Nat) : Nat :=
  read_header_argument_as_uint64 a

/-- The block repeated in every branch of `jump_leaf` (e.g. lines 249-263): the head length
`len` plus, for a byte or text string, the argument `v1`; the sum is a `size_t`. -/
def jump_leaf_payload (v v1 len : Nat) : Nat :=
  let res :=
    if get_bitfield_gen8 v 5 8 = CBOR_MAJOR_TYPE_BYTE_STRING
        ∨ get_bitfield_gen8 v 5 8 = CBOR_MAJOR_TYPE_TEXT_STRING then v1 else 0
  (len + res) % SIZE_MOD

/-- `jump_leaf`: the length of the head at `a` plus the string payload it announces. -/
def jump_leaf (a : List Nat) : Nat :=
  let len1 := 1
  let v := read_u8 a
  let ar := a.drop len1
  if get_bitfield_gen8 v 0 5 = ADDITIONAL_INFO_LONG_ARGUMENT_8_BITS then
    if get_bitfield_gen8 v 5 8 = CBOR_MAJOR_TYPE_SIMPLE_VALUE then
      jump_leaf_payload v (read_u8 ar) (len1 + 1)
    else
      jump_leaf_payload v (read_u8 ar) (len1 + 1)
  else if get_bitfield_gen8 v 0 5 = ADDITIONAL_INFO_LONG_ARGUMENT_16_BITS then
    jump_leaf_payload v (read_u16 ar) (len1 + 2)
  else if get_bitfield_gen8 v 0 5 = ADDITIONAL_INFO_LONG_ARGUMENT_32_BITS then
    jump_leaf_payload v (read_u32 ar) (len1 + 4)
  else if get_bitfield_gen8 v 0 5 = ADDITIONAL_INFO_LONG_ARGUMENT_64_BITS then
    jump_leaf_payload v (read_u64 ar) (len1 + 8)
  else
    jump_leaf_payload v (get_bitfield_gen8 v 0 5) (len1 + 0)

/-- `count_remaining_data_items a bound perr`: the result and the new `*perr`. -/
def count_remaining_data_items (a : List Nat) (bound perr : Nat) : Nat × Nat :=
  let major_type := read_header_major_type a
  if major_type = CBOR_MAJOR_TYPE_ARRAY then
    (read_header_argument_as_uint64 a, perr)
  else if major_type = CBOR_MAJOR_TYPE_MAP then
    let arg := read_header_argument_as_uint64 a
    let half := arg
    let overflow : Bool := if half > bound then true else decide (bound - half < half)
    if overflow then (0, VALIDATOR_ERROR_NOT_ENOUGH_DATA)
    else (half + half, perr)
  else if major_type = CBOR_MAJOR_TYPE_TAGGED then (1, perr)
  else (0, perr)

/-- `jump_count_remaining_data_items`: the unchecked child count (`half + half` may wrap). -/
def jump_count_remaining_data_items (a : List Nat) : Nat :=
  let major_type := read_header_major_type a
  if major_type = CBOR_MAJOR_TYPE_ARRAY then read_header_argument_as_uint64 a
  else if major_type = CBOR_MAJOR_TYPE_MAP then
    let half := read_header_argument_as_uint64 a
    (half + half) % SIZE_MOD
  else if major_type = CBOR_MAJOR_TYPE_TAGGED then 1
  else 0

/-- The loop of `jump_raw_data_item_` (lines 989-1001) on the state `r` (bytes consumed) and
`r1` (items pending). -/
def jump_raw_data_item_loop : Nat → List Nat → Nat → Nat → Nat
  | 0, _, r, _ => r
  | fuel + 1, a0, r, r1 =>
    if r1 ≠ 0 then
      let n := r1
      let consumed := r
      let a := a0.drop consumed
      let consumed1 := jump_leaf a
      let n_ := jump_count_remaining_data_items a
      let new_count := (n_ + n + SIZE_MOD - 1) % SIZE_MOD
      jump_raw_data_item_loop fuel a0 ((consumed + consumed1) % SIZE_MOD) new_count
    else r

/-- `jump_raw_data_item_`: the length of the data item at `a0`. Each turn of the loop skips a
leaf of at least one byte, so on an item that lies within the buffer the loop makes at most
`a0.length` turns; that is the fuel. -/
def jump_raw_data_item_ (a0 : List Nat) : Nat :=
  jump_raw_data_item_loop (a0.length + 1) a0 0 1

/-- `jump_raw_data_item`. -/
def jump_raw_data_item (a : List Nat) : Nat :=
  jump_raw_data_item_ a

/-! ## Validator (lines 451-960) -/

/-- The block repeated in every branch of `validate_raw_data_item_` (e.g. lines 525-563): from
the initial byte `v`, the argument `arg` and the head length `len3`, the length of the leaf
and the new `*perr`. -/
def validate_leaf_payload (v arg len1 len3 perr : Nat) : Nat × Nat :=
  if get_bitfield_gen8 v 5 8 = CBOR_MAJOR_TYPE_BYTE_STRING
      ∨ get_bitfield_gen8 v 5 8 = CBOR_MAJOR_TYPE_TEXT_STRING then
    if arg ≤ len1 - len3 then (len3 + arg, perr)
    else (len3 + 0, VALIDATOR_ERROR_NOT_ENOUGH_DATA)
  else
    if 0 ≤ len1 - len3 then (len3 + 0, perr)
    else (len3 + 0, VALIDATOR_ERROR_NOT_ENOUGH_DATA)

/-- One long-argument branch of `validate_raw_data_item_` (lines 504-571, 575-642, 646-713,
717-784, 788-855): the branches differ only in the width of the argument, the function that
reads it and the least value they accept. -/
def validate_long_argument (v : Nat) (ar : List Nat) (len1 len11 len2 width min_value : Nat)
    (read_arg : List Nat → Nat) (perr : Nat) : Nat × Nat :=
  let r4 := if width ≤ len2 then 0 else VALIDATOR_ERROR_NOT_ENOUGH_DATA
  let len12 := if width ≤ len2 then width else 0
  let e1 := r4
  if e1 = 0 then
    let v1 := read_arg ar
    if ¬ (min_value ≤ v1) then (0, VALIDATOR_ERROR_CONSTRAINT_FAILED)
    else validate_leaf_payload v v1 len1 (len11 + len12) perr
  else (0, e1)

/-- Lines 472-926 of `validate_raw_data_item_`: validation of the leaf at `a` with `len1`
bytes available; returns `consumed1` and the new `*perr`. -/
def validate_leaf (a : List Nat) (len1 perr : Nat) : Nat × Nat :=
  let r3 := if 1 ≤ len1 then 0 else VALIDATOR_ERROR_NOT_ENOUGH_DATA
  let len11 := if 1 ≤ len1 then 1 else 0
  let e := r3
  if e = 0 then
    let v := read_u8 a
    let ite : Bool :=
      if get_bitfield_gen8 v 5 8 = CBOR_MAJOR_TYPE_SIMPLE_VALUE then
        decide (get_bitfield_gen8 v 0 5 ≤ ADDITIONAL_INFO_LONG_ARGUMENT_8_BITS)
      else true
    if ¬ (ite = true ∧ get_bitfield_gen8 v 0 5 < ADDITIONAL_INFO_UNASSIGNED_MIN) then
      (0, VALIDATOR_ERROR_CONSTRAINT_FAILED)
    else
      let ar := a.drop len11
      let len2 := len1 - len11
      if get_bitfield_gen8 v 0 5 = ADDITIONAL_INFO_LONG_ARGUMENT_8_BITS then
        if get_bitfield_gen8 v 5 8 = CBOR_MAJOR_TYPE_SIMPLE_VALUE then
          validate_long_argument v ar len1 len11 len2 1 MIN_SIMPLE_VALUE_LONG_ARGUMENT read_u8 perr
        else
          validate_long_argument v ar len1 len11 len2 1 MIN_DETERMINISTIC_UINT8 read_u8 perr
      else if get_bitfield_gen8 v 0 5 = ADDITIONAL_INFO_LONG_ARGUMENT_16_BITS then
        validate_long_argument v ar len1 len11 len2 2 MIN_DETERMINISTIC_UINT16 read_u16 perr
      else if get_bitfield_gen8 v 0 5 = ADDITIONAL_INFO_LONG_ARGUMENT_32_BITS then
        validate_long_argument v ar len1 len11 len2 4 MIN_DETERMINISTIC_UINT32 read_u32 perr
      else if get_bitfield_gen8 v 0 5 = ADDITIONAL_INFO_LONG_ARGUMENT_64_BITS then
        validate_long_argument v ar len1 len11 len2 8 MIN_DETERMINISTIC_UINT64 read_u64 perr
      else
        let r4 := if 0 ≤ len2 then 0 else VALIDATOR_ERROR_NOT_ENOUGH_DATA
        let len12 := 0
        let e1 := r4
        if e1 = 0 then
          validate_leaf_payload v (get_bitfield_gen8 v 0 5) len1 (len11 + len12) perr
        else (0, e1)
  else (0, e)

/-- The loop of `validate_raw_data_item_` (lines 456-954) on the state `r` (bytes consumed),
`r1` (items pending) and `*perr`; returns the final `r` and `*perr`. -/
def validate_raw_data_item_loop : Nat → List Nat → Nat → Nat → Nat → Nat → Nat × Nat
  | 0, _, _, r, _, perr => (r, perr)
  | fuel + 1, a0, len, r, r1, perr =>
    let n := r1
    if n = 0 then (r, perr)
    else
      let consumed := r
      let len1 := len - consumed
      if n > len1 then (r, validate_recursive_error_not_enough_data)
      else
        let a := a0.drop consumed
        let consumed1 := (validate_leaf a len1 perr).1
        let err := (validate_leaf a len1 perr).2
        if err ≠ 0 then (r, err)
        else
          let rem := len1 - n
          let n_ := (count_remaining_data_items a rem err).1
          let err1 := (count_remaining_data_items a rem err).2
          let overflow : Bool := if err1 = 0 then decide (n_ > rem) else true
          if overflow then
            (r, if err1 = 0 then validate_recursive_error_not_enough_data else err1)
          else
            validate_raw_data_item_loop fuel a0 len (consumed + consumed1) (n_ + n - 1) err1

/-- `validate_raw_data_item_ a0 len perr`: the byte count returned and the final `*perr`.
Every turn of the loop that continues consumes at least one of the `len` bytes, so the loop
makes at most `len + 1` turns; that is the fuel. -/
def validate_raw_data_item_ (a0 : List Nat) (len perr : Nat) : Nat × Nat :=
  validate_raw_data_item_loop (len + 1) a0 len 0 1 perr

/-- `validate_raw_data_item`. -/
def validate_raw_data_item (a : List Nat) (len err : Nat) : Nat × Nat :=
  validate_raw_data_item_ a len err

/-! ## Values (types of `CBOR.h`) -/

/-- Modelled from the spec: the tagged union `cbor` of the header `CBOR.h`, which is not among
the sources; the seven variants are those of section 3 and the fields are the ones the
functions of `CBOR.c` access. A payload pointer is the list of the elements stored from it on;
a map entry `cbor_map_entry` is the pair of its key and its value. -/
inductive cbor where
  | CBOR_Case_Int64 (cbor_int_type : Nat) (cbor_int_value : Nat)
  | CBOR_Case_String (cbor_string_type : Nat) (cbor_string_length : Nat)
      (cbor_string_payload : List Nat)
  | CBOR_Case_Tagged (cbor_tagged0_tag : Nat) (cbor_tagged0_payload : cbor)
  | CBOR_Case_Array (cbor_array_length : Nat) (cbor_array_payload : List cbor)
  | CBOR_Case_Map (cbor_map_length : Nat) (cbor_map_payload : List (cbor × cbor))
  | CBOR_Case_Simple_value (value : Nat)
  | CBOR_Case_Serialized (cbor_serialized_size : Nat) (cbor_serialized_payload : List Nat)

/-- Modelled from the spec: the result record `cbor_read_t` of `CBOR.h` (section 6:
`{ok, value, remainder_ptr, remainder_len}`), with the field names used by `cbor_read_`. -/
structure cbor_read_t where
  cbor_read_is_success : Bool
  cbor_read_payload : cbor
  cbor_read_remainder : List Nat
  cbor_read_remainder_length : Nat

/-- `cbor_dummy` (line 2008). -/
def cbor_dummy : cbor := cbor.CBOR_Case_Simple_value 0

/-- `cbor_map_entry_key`. -/
def cbor_map_entry_key (x : cbor × cbor) : cbor := x.1

/-- `cbor_map_entry_value`. -/
def cbor_map_entry_value (x : cbor × cbor) : cbor := x.2

/-- `read_valid_cbor_from_buffer_with_size_strong`. -/
def read_valid_cbor_from_buffer_with_size_strong (a : List Nat) (alen : Nat) : cbor :=
  cbor.CBOR_Case_Serialized alen a

/-! ## Size computation (lines 1025-1106, 1175-1375, 1790-1902, 2147-2157) -/

/-- The block repeated in every branch of `size_comp_uint64_header` and of
`size_comp_simple_value` (e.g. lines 1208-1234): one byte for the initial byte, then `k`
bytes of argument, each subtraction guarded by a comparison that raises `*perr`. -/
def size_comp_head (k sz : Nat) (perr : Bool) : Nat × Bool :=
  let sz1 := if sz < 1 then sz else sz - 1
  let perr1 := if sz < 1 then true else perr
  let err := perr1
  if err then (sz1, perr1)
  else if sz1 < k then (sz1, true) else (sz1 - k, perr1)

/-- The closing block of `size_comp_simple_value`, `size_comp_int64` and `size_comp_string`
(e.g. lines 1355-1374): `k` more bytes unless `*perr` is already raised. -/
def size_comp_payload (k sz1 : Nat) (perr : Bool) : Nat × Bool :=
  let err := perr
  if err then (sz1, perr)
  else if sz1 < k then (sz1, true) else (sz1 - k, perr)

/-- `size_comp_simple_value`. -/
def size_comp_simple_value (x sz : Nat) (perr : Bool) : Nat × Bool :=
  let r :=
    if x ≤ MAX_SIMPLE_VALUE_ADDITIONAL_INFO then size_comp_head 0 sz perr
    else size_comp_head 1 sz perr
  size_comp_payload 0 r.1 r.2

/-- `size_comp_uint64_header`. -/
def size_comp_uint64_header (x sz : Nat) (perr : Bool) : Nat × Bool :=
  if x < MIN_DETERMINISTIC_UINT8_AS_UINT64 then size_comp_head 0 sz perr
  else if x < MIN_DETERMINISTIC_UINT16_AS_UINT64 then size_comp_head 1 sz perr
  else if x < MIN_DETERMINISTIC_UINT32_AS_UINT64 then size_comp_head 2 sz perr
  else if x < MIN_DETERMINISTIC_UINT64 then size_comp_head 4 sz perr
  else size_comp_head 8 sz perr

/-- `size_comp_int64`. -/
def size_comp_int64 (x sz : Nat) (perr : Bool) : Nat × Bool :=
  let r := size_comp_uint64_header x sz perr
  size_comp_payload 0 r.1 r.2

/-- `size_comp_string`. -/
def size_comp_string (x sz : Nat) (perr : Bool) : Nat × Bool :=
  let r := size_comp_uint64_header x sz perr
  size_comp_payload x r.1 r.2

/-- `size_comp_for_serialized` on the fields of a `Serialized` value. -/
def size_comp_for_serialized (cbor_serialized_size sz : Nat) (perr : Bool) : Nat × Bool :=
  if cbor_serialized_size > sz then (sz, true)
  else (sz - cbor_serialized_size, perr)

mutual
/-- `cbor_size_comp c sz perr`: the budget left and the new `*perr`. The branches for
`Int64`, `Simple_value` and `String` are `size_comp_for_int64`, `size_comp_for_simple_value`
and `size_comp_for_string` at a value of that variant, where the destructor returns the
stored fields. -/
def cbor_size_comp : cbor → Nat → Bool → Nat × Bool
  | .CBOR_Case_Int64 _ value, sz, perr => size_comp_int64 value sz perr
  | .CBOR_Case_Simple_value value, sz, perr => size_comp_simple_value value sz perr
  | .CBOR_Case_String _ len _, sz, perr => size_comp_string len sz perr
  | .CBOR_Case_Tagged tag payload, sz, perr =>
    let r := size_comp_uint64_header tag sz perr
    let err1 := r.2
    if err1 then r
    else cbor_size_comp payload r.1 r.2
  | .CBOR_Case_Array len payload, sz, perr =>
    let r := size_comp_uint64_header len sz perr
    let err1 := r.2
    if err1 then r
    else cbor_size_comp_array_loop payload len 0 r.1 r.2
  | .CBOR_Case_Map len payload, sz, perr =>
    let r := size_comp_uint64_header len sz perr
    let err1 := r.2
    if err1 then r
    else cbor_size_comp_map_loop payload len 0 r.1 r.2
  | .CBOR_Case_Serialized size _, sz, perr => size_comp_for_serialized size sz perr
/-- The loop of the `Array` branch of `cbor_size_comp` (lines 1826-1841) on the state `r`
(index), `r1` (budget) and `*perr`. The first argument is the payload from index `r` on; the
payload ending before `r` reaches the length is a read outside the array, where the model
stops. -/
def cbor_size_comp_array_loop : List cbor → Nat → Nat → Nat → Bool → Nat × Bool
  | [], _, _, r1, perr => (r1, perr)
  | x :: rest, len, r, r1, perr =>
    if ¬ perr ∧ r < len then
      let res := cbor_size_comp x r1 perr
      let err0 := res.2
      if ¬ err0 then cbor_size_comp_array_loop rest len (r + 1) res.1 res.2
      else (r1, res.2)
    else (r1, perr)
/-- The loop of the `Map` branch of `cbor_size_comp` (lines 1866-1890). -/
def cbor_size_comp_map_loop : List (cbor × cbor) → Nat → Nat → Nat → Bool → Nat × Bool
  | [], _, _, r1, perr => (r1, perr)
  | x :: rest, len, r, r1, perr =>
    if ¬ perr ∧ r < len then
      let k := cbor_size_comp x.1 r1 perr
      let err0 := k.2
      let res := if err0 then k else cbor_size_comp x.2 k.1 k.2
      let err1 := res.2
      if ¬ err1 then cbor_size_comp_map_loop rest len (r + 1) res.1 res.2
      else (r1, res.2)
    else (r1, perr)
end

/-! ## Writer (lines 1018-1023, 1108-1173, 1377-1525, 1904-2006, 2159-2173, 2462-2480) -/

/-- The output cursor `LowParse_SteelST_L2ROutput_t` together with the memory it writes:
`buf` is the caller's output buffer, `ptr` the offset of `*out.ptr` in it and `len` the value
of `*out.len`. -/
structure L2ROutput where
  buf : List Nat
  ptr : Nat
  len : Nat

/-- Subtraction of `size_t` values. -/
def size_sub (x y : Nat) : Nat :=
  (x + SIZE_MOD - y) % SIZE_MOD

/-- Stores the bytes `xs` at the offsets `p, p + 1, ...` of `buf`; a store outside the buffer
(undefined behaviour in C) is dropped. -/
def store (buf : List Nat) (p : Nat) : List Nat → List Nat
  | [] => buf
  | x :: xs => store (buf.set p x) (p + 1) xs

/-- `memcpy(p_dst, p_src, n)` with `p_dst` at offset `p` of `buf`. -/
def memcpy (buf : List Nat) (p : Nat) (src : List Nat) (n : Nat) : List Nat :=
  store buf p (src.take n)

/-- `write_initial_byte t x a`: the byte stored at `a[0]`. -/
def write_initial_byte (t x : Nat) : List Nat :=
  write_u8 (set_bitfield_gen8 (set_bitfield_gen8 0 0 5 x) 5 8 t)

/-- The cursor update written out at every emission (e.g. lines 1382-1387, 1391-1396): the
bytes `bytes` are stored at `*out.ptr`, which advances by `n` while `*out.len` drops by `n`. -/
def l2r_emit (out : L2ROutput) (n : Nat) (bytes : List Nat) : L2ROutput :=
  let res := out.ptr
  let xlen := out.len
  { buf := store out.buf res bytes, ptr := res + n, len := size_sub xlen n }

/-- `l2r_write_simple_value`. -/
def l2r_write_simple_value (x : Nat) (out : L2ROutput) : L2ROutput :=
  let out1 :=
    if x ≤ MAX_SIMPLE_VALUE_ADDITIONAL_INFO then
      l2r_emit (l2r_emit out 1 (write_initial_byte CBOR_MAJOR_TYPE_SIMPLE_VALUE x)) 0 []
    else
      l2r_emit
        (l2r_emit out 1
          (write_initial_byte CBOR_MAJOR_TYPE_SIMPLE_VALUE ADDITIONAL_INFO_LONG_ARGUMENT_8_BITS))
        1 (write_u8 x)
  l2r_emit out1 0 []

/-- `l2r_write_uint64_header`; the casts `(uint8_t)x`, `(uint16_t)x`, `(uint32_t)x` reduce `x`. -/
def l2r_write_uint64_header (ty x : Nat) (out : L2ROutput) : L2ROutput :=
  if x < MIN_DETERMINISTIC_UINT8_AS_UINT64 then
    l2r_emit (l2r_emit out 1 (write_initial_byte ty (x % 256))) 0 []
  else if x < MIN_DETERMINISTIC_UINT16_AS_UINT64 then
    l2r_emit (l2r_emit out 1 (write_initial_byte ty ADDITIONAL_INFO_LONG_ARGUMENT_8_BITS))
      1 (write_u8 (x % 256))
  else if x < MIN_DETERMINISTIC_UINT32_AS_UINT64 then
    l2r_emit (l2r_emit out 1 (write_initial_byte ty ADDITIONAL_INFO_LONG_ARGUMENT_16_BITS))
      2 (write_u16 (x % 65536))
  else if x < MIN_DETERMINISTIC_UINT64 then
    l2r_emit (l2r_emit out 1 (write_initial_byte ty ADDITIONAL_INFO_LONG_ARGUMENT_32_BITS))
      4 (write_u32 (x % 4294967296))
  else
    l2r_emit (l2r_emit out 1 (write_initial_byte ty ADDITIONAL_INFO_LONG_ARGUMENT_64_BITS))
      8 (write_u64 (x % SIZE_MOD))

/-- `l2r_write_int64`. -/
def l2r_write_int64 (ty x : Nat) (out : L2ROutput) : L2ROutput :=
  l2r_emit (l2r_write_uint64_header ty x out) 0 []

/-- `l2r_write_cbor_string` on the fields of a `String` value: the head, then `memcpy` of
`len` payload bytes. -/
def l2r_write_cbor_string (cbor_string_type cbor_string_length : Nat)
    (cbor_string_payload : List Nat) (out : L2ROutput) : L2ROutput :=
  let out1 := l2r_write_uint64_header cbor_string_type cbor_string_length out
  let len := cbor_string_length
  { buf := memcpy out1.buf out1.ptr cbor_string_payload len,
    ptr := out1.ptr + len, len := size_sub out1.len len }

/-- `l2r_writer_for_serialized` on the fields of a `Serialized` value. -/
def l2r_writer_for_serialized (cbor_serialized_size : Nat) (cbor_serialized_payload : List Nat)
    (out : L2ROutput) : L2ROutput :=
  { buf := memcpy out.buf out.ptr cbor_serialized_payload cbor_serialized_size,
    ptr := out.ptr + cbor_serialized_size, len := size_sub out.len cbor_serialized_size }

mutual
/-- `cbor_l2r_write c out`: the memory and the cursor after the call (the pointer the C
function returns, the position of the cursor before the call, is not used by any caller). -/
def cbor_l2r_write : cbor → L2ROutput → L2ROutput
  | .CBOR_Case_Int64 ty value, out => l2r_write_int64 ty value out
  | .CBOR_Case_Simple_value value, out => l2r_write_simple_value value out
  | .CBOR_Case_String ty len payload, out => l2r_write_cbor_string ty len payload out
  | .CBOR_Case_Tagged tag payload, out =>
    cbor_l2r_write payload (l2r_write_uint64_header CBOR_MAJOR_TYPE_TAGGED tag out)
  | .CBOR_Case_Array len payload, out =>
    let out1 := l2r_emit (l2r_write_uint64_header CBOR_MAJOR_TYPE_ARRAY len out) 0 []
    cbor_l2r_write_array_loop payload len 0 out1
  | .CBOR_Case_Map len payload, out =>
    let out1 := l2r_emit (l2r_write_uint64_header CBOR_MAJOR_TYPE_MAP len out) 0 []
    cbor_l2r_write_map_loop payload len 0 out1
  | .CBOR_Case_Serialized size payload, out => l2r_writer_for_serialized size payload out
/-- The loop of the `Array` branch of `cbor_l2r_write` (lines 1934-1943) on the index `r`;
the first argument is the payload from index `r` on. -/
def cbor_l2r_write_array_loop : List cbor → Nat → Nat → L2ROutput → L2ROutput
  | [], _, _, out => out
  | x :: rest, len, r, out =>
    if r < len then cbor_l2r_write_array_loop rest len (r + 1) (cbor_l2r_write x out)
    else out
/-- The loop of the `Map` branch of `cbor_l2r_write` (lines 1965-1976). -/
def cbor_l2r_write_map_loop : List (cbor × cbor) → Nat → Nat → L2ROutput → L2ROutput
  | [], _, _, out => out
  | x :: rest, len, r, out =>
    if r < len then
      cbor_l2r_write_map_loop rest len (r + 1) (cbor_l2r_write x.2 (cbor_l2r_write x.1 out))
    else out
end

/-- `cbor_write c out sz`: the value returned and the contents of the buffer `out` after the
call. -/
def cbor_write (c : cbor) (out : List Nat) (sz : Nat) : Nat × List Nat :=
  let r := cbor_size_comp c sz false
  let sz_ := r.1
  let err := r.2
  if err then (0, out)
  else
    let res := sz - sz_
    let w : L2ROutput := { buf := out, ptr := 0, len := sz }
    (res, (cbor_l2r_write c w).buf)

/-! ## Reading (lines 1536-1611, 2701-2878) -/

/-- The loop of `deterministically_encoded_cbor_map_key_order_impl` (lines 1561-1599) on the
state `r`, `r1` (the two cursors), `r2`, `r3` (bytes left) and `r4` (the comparison). -/
def map_key_order_loop : Nat → List Nat → List Nat → Nat → Nat → Int → Int
  | 0, _, _, _, _, r4 => r4
  | fuel + 1, r, r1, r2, r3, r4 =>
    if r4 = 0 ∧ r2 > 0 ∧ r3 > 0 then
      let a := r
      let na_ := r2 - 1
      let b := r1
      let nb_ := r3 - 1
      let x1 := read_u8 a
      let x2 := read_u8 b
      let comp : Int := (x1 : Int) - (x2 : Int)
      if comp ≠ 0 then map_key_order_loop fuel r r1 r2 r3 comp
      else if na_ = 0 then
        if nb_ ≠ 0 then map_key_order_loop fuel r r1 na_ nb_ (-1)
        else map_key_order_loop fuel r r1 na_ nb_ r4
      else if nb_ = 0 then map_key_order_loop fuel r r1 na_ nb_ 1
      else map_key_order_loop fuel (a.drop 1) (b.drop 1) na_ nb_ r4
    else r4

/-- `deterministically_encoded_cbor_map_key_order_impl`: whether the item at `a1` is strictly
below the item at `a2`. The loop makes at most `n1` turns followed by one test. -/
def deterministically_encoded_cbor_map_key_order_impl (a1 a2 : List Nat) : Bool :=
  let n1 := jump_raw_data_item_ a1
  let n2 := jump_raw_data_item_ a2
  let res2 : Int :=
    if n1 = 0 then
      if n2 = 0 then 0 else -1
    else if n2 = 0 then 1
    else map_key_order_loop (n1 + 1) a1 a2 n1 n2 0
  decide (res2 < 0)

/-- `cbor_read_`. -/
def cbor_read_ (a : List Nat) (sz : Nat) : cbor_read_t :=
  let r := validate_raw_data_item a sz 0
  let sz_ := r.1
  let err := r.2
  if err = 0 then
    { cbor_read_is_success := true,
      cbor_read_payload := read_valid_cbor_from_buffer_with_size_strong a sz_,
      cbor_read_remainder := a.drop sz_,
      cbor_read_remainder_length := sz - sz_ }
  else
    { cbor_read_is_success := false,
      cbor_read_payload := cbor_dummy,
      cbor_read_remainder := a,
      cbor_read_remainder_length := sz }

/-- `cbor_read`. -/
def cbor_read (a : List Nat) (sz : Nat) : cbor_read_t :=
  cbor_read_ a sz

/-- The inner loop of `cbor_read_deterministically_encoded` (lines 2801-2821) over the
entries of one map: `r5` counts the key pairs still to compare, `r4` is the cursor on the
current key and `r6` the result so far. -/
def map_entries_order_loop : Nat → List Nat → Bool → Bool
  | 0, _, r6 => r6
  | n2_ + 1, r4, r6 =>
    if r6 then
      let a2 := r4
      let s1 := jump_raw_data_item_ a2
      let ar := a2.drop s1
      let s2 := jump_raw_data_item_ ar
      let sz1 := (s1 + s2) % SIZE_MOD
      let a21 := a2.drop sz1
      map_entries_order_loop n2_ a21 (deterministically_encoded_cbor_map_key_order_impl a2 a21)
    else r6

/-- Lines 2778-2831: the check made at the head `a1`, which is `true` unless `a1` is a map
with two adjacent keys out of order. -/
def check_map_at (a1 : List Nat) : Bool :=
  let major_type := read_header_major_type a1
  if major_type = CBOR_MAJOR_TYPE_MAP then
    let n1 := read_argument_as_uint64_ a1
    let ac := a1.drop (jump_header_ a1)
    if n1 < 2 then true
    else map_entries_order_loop (n1 - 1) ac true
  else true

/-- The outer loop of `cbor_read_deterministically_encoded` (lines 2770-2859) on the state
`r` (the result so far), `r1` (the cursor) and `r2` (items pending); the loop condition is
`r2 != 0 && r`. -/
def deterministic_loop : Nat → Bool → List Nat → Nat → Bool
  | 0, r, _, _ => r
  | fuel + 1, r, r1, r2 =>
    let n := r2
    let n_pred := size_sub n 1
    let a1 := r1
    let r_ := if r then check_map_at a1 else r
    let a2 := a1.drop (jump_leaf a1)
    let nl := jump_count_remaining_data_items a1
    let n_ := (nl + n_pred) % SIZE_MOD
    if n_ ≠ 0 ∧ r_ = true then deterministic_loop fuel r_ a2 n_
    else r_

/-- `cbor_read_deterministically_encoded`. The outer loop skips a leaf of at least one byte
at every turn, so it makes at most as many turns as the payload has bytes. -/
def cbor_read_deterministically_encoded (a : List Nat) (sz : Nat) : cbor_read_t :=
  let res := cbor_read_ a sz
  if ¬ res.cbor_read_is_success then res
  else
    match res.cbor_read_payload with
    | .CBOR_Case_Serialized _ payload =>
      let test := deterministic_loop (payload.length + 1) true payload 1
      if test then res
      else
        { cbor_read_is_success := false,
          cbor_read_payload := res.cbor_read_payload,
          cbor_read_remainder := res.cbor_read_remainder,
          cbor_read_remainder_length := res.cbor_read_remainder_length }
    | _ => res

/-! ## Reference notions (sections 3 and 4 of the specification)

The definitions below do not translate code: they state, in the words of the specification,
what the code is compared with. -/

/-- The additional info (low five bits) of the initial byte at `a`. -/
def head_info (a : List Nat) : Nat :=
  get_bitfield_gen8 (read_u8 a) 0 5

/-- Section 4.D step c: the additional info of the head at `a` is neither reserved (28-30)
nor indefinite (31), and a head of major type 7 uses an additional info of at most 24. -/
def head_assigned (a : List Nat) : Prop :=
  (read_header_major_type a = CBOR_MAJOR_TYPE_SIMPLE_VALUE →
      head_info a ≤ ADDITIONAL_INFO_LONG_ARGUMENT_8_BITS) ∧
    head_info a < ADDITIONAL_INFO_UNASSIGNED_MIN

instance head_assigned_decidable (a : List Nat) : Decidable (head_assigned a) := by
  unfold head_assigned
  infer_instance

/-- The least argument that the head at `a` may carry in the width it uses (section 4.B;
for the one-byte form of major type 7 the least simple value is 32). -/
def head_min_value (a : List Nat) : Nat :=
  if head_info a = 24 then
    if read_header_major_type a = 7 then 32 else 24
  else if head_info a = 25 then 256
  else if head_info a = 26 then 65536
  else if head_info a = 27 then 4294967296
  else 0

/-- The head at `a` uses the least width that holds its argument. -/
def head_minimal (a : List Nat) : Prop :=
  head_min_value a ≤ read_header_argument_as_uint64 a

instance head_minimal_decidable (a : List Nat) : Decidable (head_minimal a) := by
  unfold head_minimal
  infer_instance

/-- The number of payload bytes that follow the head at `a`: its argument for a byte or
text string, none otherwise. -/
def leaf_payload (a : List Nat) : Nat :=
  if read_header_major_type a = 2 ∨ read_header_major_type a = 3 then
    read_header_argument_as_uint64 a
  else 0

/-- The length of the leaf at `a` (glossary: a head plus, for strings, its payload). -/
def leaf_length (a : List Nat) : Nat :=
  jump_header_ a + leaf_payload a

/-- The number of immediate children of the head at `a`, in exact arithmetic (section 4.C:
`N` for arrays, `2N` for maps, 1 for tags, 0 otherwise). -/
def leaf_children (a : List Nat) : Nat :=
  if read_header_major_type a = 4 then read_header_argument_as_uint64 a
  else if read_header_major_type a = 5 then
    read_header_argument_as_uint64 a + read_header_argument_as_uint64 a
  else if read_header_major_type a = 6 then 1
  else 0

/-- The leaf at `a` is well formed: its head is assigned and minimal. -/
def leaf_valid (a : List Nat) : Prop :=
  head_assigned a ∧ head_minimal a

instance leaf_valid_decidable (a : List Nat) : Decidable (leaf_valid a) := by
  unfold leaf_valid
  infer_instance

/-- One turn of the validator loop that continues, from the state with `r` bytes consumed and
`r1` items pending: what the tests of the loop body establish (`k` is the length of the leaf
and `n_` the number of its children). -/
structure ValidateTurn (a0 : List Nat) (len r r1 k n_ : Nat) : Prop where
  pending : r1 ≠ 0
  fits : r1 ≤ len - r
  leaf : validate_leaf (a0.drop r) (len - r) 0 = (k, 0)
  count : count_remaining_data_items (a0.drop r) (len - r - r1) 0 = (n_, 0)
  bound : n_ ≤ len - r - r1

/-- The states at which the loop of `validate_raw_data_item_`, run on `(a0, len)` with
`*perr = 0`, stands at the top of a turn: `r` bytes consumed and `r1` items pending. -/
inductive ValidatorReaches (a0 : List Nat) (len : Nat) : Nat → Nat → Prop where
  | start : ValidatorReaches a0 len 0 1
  | turn (r r1 k n_ : Nat) : ValidatorReaches a0 len r r1 → ValidateTurn a0 len r r1 k n_ →
      ValidatorReaches a0 len (r + k) (n_ + r1 - 1)

/-- The iterative walk of sections 4.C and 4.D over well-formed leaves: from the offset `p`
of `a` with `n` items pending, the walk ends at the offset `q`. -/
inductive Walk (a : List Nat) : Nat → Nat → Nat → Prop where
  | done (p : Nat) : Walk a p 0 p
  | step (p n q : Nat) : n ≠ 0 → leaf_valid (a.drop p) →
      Walk a (p + leaf_length (a.drop p)) (leaf_children (a.drop p) + n - 1) q → Walk a p n q

/-- Section 4.B, `write_uint_head`: the head of major type `t` and argument `x` in the minimal
encoding, the initial byte `t * 32 + AI` followed by the argument bytes in big-endian order. -/
def ser_head (t x : Nat) : List Nat :=
  if x < 24 then [t * 32 + x]
  else if x < 256 then [t * 32 + 24, x]
  else if x < 65536 then [t * 32 + 25, x / 256 % 256, x % 256]
  else if x < 4294967296 then
    [t * 32 + 26, x / 16777216 % 256, x / 65536 % 256, x / 256 % 256, x % 256]
  else
    [t * 32 + 27, x / 72057594037927936 % 256, x / 281474976710656 % 256,
      x / 1099511627776 % 256, x / 4294967296 % 256, x / 16777216 % 256, x / 65536 % 256,
      x / 256 % 256, x % 256]

mutual
/-- Section 4.G, pass 2: the reference serialization of a value, by recursion on its shape. -/
def ser : cbor → List Nat
  | .CBOR_Case_Int64 t v => ser_head t v
  | .CBOR_Case_Simple_value v => if v ≤ 23 then [7 * 32 + v] else [7 * 32 + 24, v]
  | .CBOR_Case_String t len payload => ser_head t len ++ payload.take len
  | .CBOR_Case_Tagged tag payload => ser_head 6 tag ++ ser payload
  | .CBOR_Case_Array len items => ser_head 4 len ++ ser_items items
  | .CBOR_Case_Map len entries => ser_head 5 len ++ ser_entries entries
  | .CBOR_Case_Serialized size bytes => bytes.take size
/-- The serializations of the items of an array, in index order. -/
def ser_items : List cbor → List Nat
  | [] => []
  | x :: rest => ser x ++ ser_items rest
/-- The serializations of the entries of a map, in index order: each key, then its value. -/
def ser_entries : List (cbor × cbor) → List Nat
  | [] => []
  | x :: rest => ser x.1 ++ ser x.2 ++ ser_entries rest
end

mutual
/-- Section 3, invariants: the fields of a value lie in the range of their C types (a major
type has three bits), a string or a serialized value has at least the bytes it announces
behind its payload pointer, and the payload of an array or a map has exactly `length`
elements. -/
def cbor_wf : cbor → Prop
  | .CBOR_Case_Int64 t v => t < 8 ∧ v < SIZE_MOD
  | .CBOR_Case_Simple_value v => v < 256
  | .CBOR_Case_String t len payload => t < 8 ∧ len < SIZE_MOD ∧ len ≤ payload.length
  | .CBOR_Case_Tagged tag payload => tag < SIZE_MOD ∧ cbor_wf payload
  | .CBOR_Case_Array len items => len < SIZE_MOD ∧ len = items.length ∧ cbor_wf_items items
  | .CBOR_Case_Map len entries =>
    len < SIZE_MOD ∧ len = entries.length ∧ cbor_wf_entries entries
  | .CBOR_Case_Serialized size bytes => size < SIZE_MOD ∧ size ≤ bytes.length
/-- Every item of the list is well formed. -/
def cbor_wf_items : List cbor → Prop
  | [] => True
  | x :: rest => cbor_wf x ∧ cbor_wf_items rest
/-- Every key and every value of the list is well formed. -/
def cbor_wf_entries : List (cbor × cbor) → Prop
  | [] => True
  | x :: rest => cbor_wf x.1 ∧ cbor_wf x.2 ∧ cbor_wf_entries rest
end

/-- The size computation `r` (a function of the budget) is exact for a serialization of `s`
bytes: it returns the budget less `s` when the budget covers `s`, and raises the error flag
otherwise. -/
def SizeCompExact (r : Nat → Nat × Bool) (s : Nat) : Prop :=
  ∀ sz, (s ≤ sz → r sz = (sz - s, false)) ∧ (sz < s → (r sz).2 = true)

/-- The cursor `out2` results from `out` by writing `bytes` at the cursor: the bytes stand at
the old cursor, the cursor has advanced past them and the rest of the buffer is unchanged. -/
def Wrote (out out2 : L2ROutput) (bytes : List Nat) : Prop :=
  out2.buf = out.buf.take out.ptr ++ bytes ++ out.buf.drop (out.ptr + bytes.length) ∧
    out2.ptr = out.ptr + bytes.length

/-- The bytes of `a` from the offset `p` up to the offset `q`. -/
def slice (a : List Nat) (p q : Nat) : List Nat :=
  (a.drop p).take (q - p)

/-- Byte-lexicographic comparison of two byte strings (section 4.H): the first differing byte
decides, and a proper prefix comes before every string that extends it. -/
def bytes_cmp : List Nat → List Nat → Ordering
  | [], [] => Ordering.eq
  | [], _ :: _ => Ordering.lt
  | _ :: _, [] => Ordering.gt
  | x :: xs, y :: ys =>
    if x < y then Ordering.lt else if y < x then Ordering.gt else bytes_cmp xs ys

/-- Strict byte-lexicographic order. -/
def bytes_lt (l1 l2 : List Nat) : Bool :=
  bytes_cmp l1 l2 == Ordering.lt

/-- The sign of a comparison result of the C code (`int16_t`). -/
def int_sign (i : Int) : Ordering :=
  if i < 0 then Ordering.lt else if i = 0 then Ordering.eq else Ordering.gt

/-- Nesting: the data item at offset `s` of `a` is the data item at offset `p` itself or lies
in it at some depth. Child number `i` of the item at `p` starts at the offset `c` where the
`i` items that follow the leaf of `p` end. -/
inductive SubItem (a : List Nat) : Nat → Nat → Prop where
  | self (p : Nat) : SubItem a p p
  | child (p i c s : Nat) : leaf_valid (a.drop p) → i < leaf_children (a.drop p) →
      Walk a (p + leaf_length (a.drop p)) i c → SubItem a c s → SubItem a p s

/-- The data item at offset `s` of `a` is a map with more than `j + 1` entries, whose key
number `j` occupies the offsets `k1` to `v1` and whose key number `j + 1` occupies the offsets
`k2` to `e2` (the value number `j` lying between `v1` and `k2`). -/
structure AdjacentKeys (a : List Nat) (s j k1 v1 k2 e2 : Nat) : Prop where
  is_map : read_header_major_type (a.drop s) = 5
  valid : leaf_valid (a.drop s)
  index : j + 1 < read_header_argument_as_uint64 (a.drop s)
  key1 : Walk a (s + leaf_length (a.drop s)) (2 * j) k1
  end1 : Walk a k1 1 v1
  value1 : Walk a v1 1 k2
  end2 : Walk a k2 1 e2

/-- The heads that the iterative walk from the offset `p` with `n` items pending passes. -/
inductive Visits (a : List Nat) : Nat → Nat → Nat → Prop where
  | here (p n : Nat) : n ≠ 0 → Visits a p n p
  | later (p n s : Nat) : n ≠ 0 → leaf_valid (a.drop p) →
      Visits a (p + leaf_length (a.drop p)) (leaf_children (a.drop p) + n - 1) s →
      Visits a p n s

/-! ## Comparison and array access (lines 2041-2145, 2186-2413)

A destructor applied to a value of another variant ends the program (`KRML_HOST_EXIT`); the
functions that can reach such a call return an `Option`, `none` standing for that exit. -/

/-- `destr_cbor_serialized`: the size and the payload pointer of a `Serialized` value. -/
def destr_cbor_serialized (c : cbor) : Option (Nat × List Nat) :=
  match c with
  | .CBOR_Case_Serialized size payload => some (size, payload)
  | _ => none

/-- The test `tag == CBOR_Case_Serialized`. -/
def is_CBOR_Case_Serialized (c : cbor) : Bool :=
  match c with
  | .CBOR_Case_Serialized _ _ => true
  | _ => false

/-- `cbor_compare_aux`. Its loop (lines 2088-2126) is, statement for statement, the loop of
`deterministically_encoded_cbor_map_key_order_impl`; it makes at most `size1` turns followed
by one test. -/
def cbor_compare_aux (a1 a2 : cbor) : Int :=
  if is_CBOR_Case_Serialized a1 = true ∧ is_CBOR_Case_Serialized a2 = true then
    match destr_cbor_serialized a1, destr_cbor_serialized a2 with
    | some s1, some s2 =>
      let res0 : Int :=
        if s1.1 = 0 then
          if s2.1 = 0 then 0 else -1
        else if s2.1 = 0 then 1
        else map_key_order_loop (s1.1 + 1) s1.2 s2.2 s1.1 s2.1 0
      let i := res0
      if i < 0 then -1 else if 0 < i then 1 else 0
    | _, _ => 2
  else 2

/-- `read_major_type`. -/
def read_major_type (a : List Nat) : Nat :=
  read_header_major_type a

/-- `read_argument_as_uint64`. -/
def read_argument_as_uint64 (a : List Nat) : Nat :=
  read_argument_as_uint64_ a

/-- `focus_array_with_ghost_length`: the pointer past the head at `a`. -/
def focus_array_with_ghost_length (a : List Nat) : List Nat :=
  a.drop (jump_header_ a)

/-- `cbor_array_length`. -/
def cbor_array_length (a : cbor) : Option Nat :=
  match a with
  | .CBOR_Case_Array len _ => some len
  | .CBOR_Case_Serialized _ payload => some (read_argument_as_uint64 payload)
  | _ => none

/-- `cbor_array_index_case_array`: `ar.cbor_array_payload[i]`; an index outside the payload
(a read outside the array in C) yields `cbor_dummy`. -/
def cbor_array_index_case_array (payload : List cbor) (i : Nat) : cbor :=
  payload.getD i cbor_dummy

/-- The loop of `cbor_array_index_case_serialized` (lines 2230-2244) on the state `r` (the
loop flag), `r1` (elements skipped) and `r2` (the cursor). -/
def cbor_array_index_loop : Nat → Nat → Bool → Nat → List Nat → List Nat
  | 0, _, _, _, r2 => r2
  | fuel + 1, i, r, r1, r2 =>
    if r then
      let e1 := r2
      let sz := jump_raw_data_item e1
      let e_ := e1.drop sz
      let n1 := r1
      let n_ := (n1 + 1) % SIZE_MOD
      let cont_ := decide (n_ < i)
      cbor_array_index_loop fuel i cont_ n_ e_
    else r2

/-- `cbor_array_index_case_serialized` on the payload pointer of a `Serialized` value; the
loop makes `i` turns. -/
def cbor_array_index_case_serialized (payload : List Nat) (i : Nat) : cbor :=
  let a1 := focus_array_with_ghost_length payload
  let e := a1
  let cont := decide (0 < i)
  let elt := cbor_array_index_loop i i cont 0 e
  let sz := jump_raw_data_item elt
  read_valid_cbor_from_buffer_with_size_strong elt sz

/-- `cbor_array_index`. -/
def cbor_array_index (a : cbor) (i : Nat) : Option cbor :=
  match a with
  | .CBOR_Case_Array _ payload => some (cbor_array_index_case_array payload i)
  | .CBOR_Case_Serialized _ payload => some (cbor_array_index_case_serialized payload i)
  | _ => none

/-- Modelled from the spec: the payload of `cbor_array_iterator_t` (declared in `CBOR.h`, not
among the sources), which section 4.F gives as either a pointer into an array of values or a
byte cursor. -/
inductive cbor_array_iterator_payload_t where
  | CBOR_Array_Iterator_Payload_Array (a : List cbor)
  | CBOR_Array_Iterator_Payload_Serialized (a : List Nat)

/-- Modelled from the spec: the iterator record `cbor_array_iterator_t` of `CBOR.h`: the
count of the elements that remain and the payload. -/
structure cbor_array_iterator_t where
  cbor_array_iterator_length : Nat
  cbor_array_iterator_payload : cbor_array_iterator_payload_t

/-- `cbor_array_iterator_init` (with `cbor_array_iterator_init_array` and
`cbor_array_iterator_init_serialized`). -/
def cbor_array_iterator_init (a : cbor) : Option cbor_array_iterator_t :=
  match a with
  | .CBOR_Case_Array len payload =>
    some { cbor_array_iterator_length := len,
           cbor_array_iterator_payload :=
             cbor_array_iterator_payload_t.CBOR_Array_Iterator_Payload_Array payload }
  | .CBOR_Case_Serialized _ payload =>
    some { cbor_array_iterator_length := read_argument_as_uint64 payload,
           cbor_array_iterator_payload :=
             cbor_array_iterator_payload_t.CBOR_Array_Iterator_Payload_Serialized
               (focus_array_with_ghost_length payload) }
  | _ => none

/-- `cbor_array_iterator_is_done`. -/
def cbor_array_iterator_is_done (i : cbor_array_iterator_t) : Bool :=
  decide (i.cbor_array_iterator_length = 0)

/-- `cbor_array_iterator_next pi` (with `cbor_array_iterator_next_array` and
`cbor_array_iterator_next_serialized`): the element returned and the iterator stored in
`*pi`. The count is decremented as a `uint64_t`; `a[0]` of an exhausted array payload (a read
outside the array in C) yields `cbor_dummy`. -/
def cbor_array_iterator_next (pi : cbor_array_iterator_t) : cbor × cbor_array_iterator_t :=
  let i1 := pi
  match i1.cbor_array_iterator_payload with
  | .CBOR_Array_Iterator_Payload_Array a =>
    let len_ := (i1.cbor_array_iterator_length + SIZE_MOD - 1) % SIZE_MOD
    let res := a.getD 0 cbor_dummy
    let ar_ := a.drop 1
    (res, { cbor_array_iterator_length := len_,
            cbor_array_iterator_payload :=
              cbor_array_iterator_payload_t.CBOR_Array_Iterator_Payload_Array ar_ })
  | .CBOR_Array_Iterator_Payload_Serialized a =>
    let len_ := (i1.cbor_array_iterator_length + SIZE_MOD - 1) % SIZE_MOD
    let sz := jump_raw_data_item a
    let a_ := a.drop sz
    let res := read_valid_cbor_from_buffer_with_size_strong a sz
    (res, { cbor_array_iterator_length := len_,
            cbor_array_iterator_payload :=
              cbor_array_iterator_payload_t.CBOR_Array_Iterator_Payload_Serialized a_ })

/-- The loop of `cbor_read_array` (lines 2396-2410) on the state `r` (the index), `r1` (the
cursor) and the contents of the caller's buffer `a0`. -/
def cbor_read_array_loop : Nat → Nat → Nat → List Nat → List cbor → List cbor
  | 0, _, _, _, a0 => a0
  | fuel + 1, n0_as_sz, r, r1, a0 =>
    if r < n0_as_sz then
      let r2 := r1
      let sz := jump_raw_data_item r2
      let r_ := r2.drop sz
      let n := r
      let n_ := n + 1
      let c := read_valid_cbor_from_buffer_with_size_strong r2 sz
      cbor_read_array_loop fuel n0_as_sz n_ r_ (a0.set n c)
    else a0

/-- `cbor_read_array input a0 len`: the pointer returned and the contents of the caller's
buffer `a0` after the call; the loop makes `len` turns. -/
def cbor_read_array (input : cbor) (a0 : List cbor) (len : Nat) :
    Option (List cbor × List cbor) :=
  match input with
  | .CBOR_Case_Array _ payload => some (payload, a0)
  | .CBOR_Case_Serialized _ payload =>
    let a := focus_array_with_ghost_length payload
    let res := cbor_read_array_loop len len 0 a a0
    some (res, res)
  | _ => none

/-- The state of an iterator after `k` calls of `cbor_array_iterator_next`. -/
def cbor_array_iterator_after : Nat → cbor_array_iterator_t → cbor_array_iterator_t
  | 0, i => i
  | k + 1, i => cbor_array_iterator_after k (cbor_array_iterator_next i).2

/-- The cursor reached from `e` by jumping over `k` consecutive data items (section 4.F: the
serialized accessors walk from the start by repeated `jump_data_item` calls). -/
def skip_items : Nat → List Nat → List Nat
  | 0, e => e
  | k + 1, e => skip_items k (e.drop (jump_raw_data_item e))

/-- The serialized slice that starts at the cursor `e`: the pointer with the length of the
data item it points to. -/
def slice_at (e : List Nat) : cbor :=
  cbor.CBOR_Case_Serialized (jump_raw_data_item e) e

mutual
/-- Section 3, the variants of a value and their invariants: an `Int64` has major type 0 or
1, a `String` has major type 2 or 3 and at least `length` payload bytes, a simple value is
not in the reserved range 24 to 31, the payload of an array or a map has exactly `length`
elements, and a `Serialized` value points at `size` bytes that validate as exactly one data
item. -/
def cbor_valid : cbor → Prop
  | .CBOR_Case_Int64 t v => (t = 0 ∨ t = 1) ∧ v < SIZE_MOD
  | .CBOR_Case_Simple_value v => v < 256 ∧ ¬ (24 ≤ v ∧ v ≤ 31)
  | .CBOR_Case_String t len payload => (t = 2 ∨ t = 3) ∧ len < SIZE_MOD ∧ len ≤ payload.length
  | .CBOR_Case_Tagged tag payload => tag < SIZE_MOD ∧ cbor_valid payload
  | .CBOR_Case_Array len items =>
    len < SIZE_MOD ∧ len = items.length ∧ cbor_valid_items items
  | .CBOR_Case_Map len entries =>
    len < SIZE_MOD ∧ len = entries.length ∧ cbor_valid_entries entries
  | .CBOR_Case_Serialized size bytes =>
    size < SIZE_MOD ∧ size ≤ bytes.length ∧ validate_raw_data_item bytes size 0 = (size, 0)
/-- Every item of the list satisfies the invariants of section 3. -/
def cbor_valid_items : List cbor → Prop
  | [] => True
  | x :: rest => cbor_valid x ∧ cbor_valid_items rest
/-- Every key and every value of the list satisfies the invariants of section 3. -/
def cbor_valid_entries : List (cbor × cbor) → Prop
  | [] => True
  | x :: rest => cbor_valid x.1 ∧ cbor_valid x.2 ∧ cbor_valid_entries rest
end

/-! ## Constructors and destructors (lines 1009-1016, 1644-1672, 1762-1788, 2423-2452,
2482-2627) -/

/-- Modelled from the spec: the record `cbor_int` of `CBOR.h` (section 3,
`Int64{type, value}`), with the field names used by `cbor_destr_int64`. -/
structure cbor_int where
  cbor_int_type : Nat
  cbor_int_value : Nat

/-- Modelled from the spec: the record `cbor_string` of `CBOR.h` (section 3,
`String{type, length, payload}`), with the field names used by `cbor_destr_string`. -/
structure cbor_string where
  cbor_string_type : Nat
  cbor_string_length : Nat
  cbor_string_payload : List Nat

/-- Modelled from the spec: the record `cbor_tagged` of `CBOR.h` (section 4.F,
`tagged_parts(v) -> (tag, payload)`), with the field names used by `cbor_destr_tagged`. -/
structure cbor_tagged where
  cbor_tagged_tag : Nat
  cbor_tagged_payload : cbor

/-- `focus_tagged`: the pointer past the head at `a`. -/
def focus_tagged (a : List Nat) : List Nat :=
  a.drop (jump_header_ a)

/-- `focus_string`: the pointer past the head at `a`. -/
def focus_string (a : List Nat) : List Nat :=
  a.drop (jump_header_ a)

/-- `focus_map_with_ghost_length`: the pointer past the head at `a`. -/
def focus_map_with_ghost_length (a : List Nat) : List Nat :=
  a.drop (jump_header_ a)

/-- `read_int64`. -/
def read_int64 (a : List Nat) : Nat :=
  read_argument_as_uint64_ a

/-- `read_simple_value`. -/
def read_simple_value (a : List Nat) : Nat :=
  let len1 := 1
  let v := read_u8 a
  let ar := a.drop len1
  if get_bitfield_gen8 v 0 5 = ADDITIONAL_INFO_LONG_ARGUMENT_8_BITS then read_u8 ar
  else get_bitfield_gen8 v 0 5

/-- `cbor_constr_int64`. -/
def cbor_constr_int64 (ty value : Nat) : cbor :=
  cbor.CBOR_Case_Int64 ty value

/-- `cbor_constr_string`. -/
def cbor_constr_string (typ : Nat) (a : List Nat) (len : Nat) : cbor :=
  cbor.CBOR_Case_String typ len a

/-- `cbor_constr_simple_value`. -/
def cbor_constr_simple_value (value : Nat) : cbor :=
  cbor.CBOR_Case_Simple_value value

/-- `cbor_constr_tagged tag a`, on the value that the pointer `a` points to. -/
def cbor_constr_tagged (tag : Nat) (a : cbor) : cbor :=
  cbor.CBOR_Case_Tagged tag a

/-- `cbor_constr_map`. -/
def cbor_constr_map (a : List (cbor × cbor)) (len : Nat) : cbor :=
  cbor.CBOR_Case_Map len a

/-- `cbor_destr_string`. -/
def cbor_destr_string (c : cbor) : Option cbor_string :=
  match c with
  | .CBOR_Case_String typ len payload =>
    some { cbor_string_type := typ, cbor_string_length := len, cbor_string_payload := payload }
  | .CBOR_Case_Serialized _ cbor_serialized_payload =>
    let typ := read_major_type cbor_serialized_payload
    let len := read_argument_as_uint64 cbor_serialized_payload
    let lpayload := focus_string cbor_serialized_payload
    some { cbor_string_type := typ, cbor_string_length := len, cbor_string_payload := lpayload }
  | _ => none

/-- `cbor_destr_simple_value`. -/
def cbor_destr_simple_value (c : cbor) : Option Nat :=
  match c with
  | .CBOR_Case_Simple_value value => some value
  | .CBOR_Case_Serialized _ cbor_serialized_payload =>
    some (read_simple_value cbor_serialized_payload)
  | _ => none

/-- `cbor_destr_int64`. -/
def cbor_destr_int64 (c : cbor) : Option cbor_int :=
  match c with
  | .CBOR_Case_Int64 ty value => some { cbor_int_type := ty, cbor_int_value := value }
  | .CBOR_Case_Serialized _ cbor_serialized_payload =>
    let typ := read_major_type cbor_serialized_payload
    let value := read_int64 cbor_serialized_payload
    some { cbor_int_type := typ, cbor_int_value := value }
  | _ => none

/-- `cbor_destr_tagged` (with `destr_cbor_tagged0`). -/
def cbor_destr_tagged (a : cbor) : Option cbor_tagged :=
  match a with
  | .CBOR_Case_Tagged tag pl => some { cbor_tagged_tag := tag, cbor_tagged_payload := pl }
  | .CBOR_Case_Serialized _ cbor_serialized_payload =>
    let tag := read_argument_as_uint64 cbor_serialized_payload
    let s_ := focus_tagged cbor_serialized_payload
    let sz := jump_raw_data_item s_
    let pl := read_valid_cbor_from_buffer_with_size_strong s_ sz
    some { cbor_tagged_tag := tag, cbor_tagged_payload := pl }
  | _ => none

/-- `cbor_get_major_type`. -/
def cbor_get_major_type (a : cbor) : Nat :=
  match a with
  | .CBOR_Case_Map _ _ => CBOR_MAJOR_TYPE_MAP
  | .CBOR_Case_Array _ _ => CBOR_MAJOR_TYPE_ARRAY
  | .CBOR_Case_Tagged _ _ => CBOR_MAJOR_TYPE_TAGGED
  | .CBOR_Case_Simple_value _ => CBOR_MAJOR_TYPE_SIMPLE_VALUE
  | .CBOR_Case_String typ _ _ => typ
  | .CBOR_Case_Int64 ty _ => ty
  | .CBOR_Case_Serialized _ cbor_serialized_payload => read_major_type cbor_serialized_payload

/-! ## Map iterator (lines 1674-1760, 2643-2699) -/

/-- `cbor_map_length` (with `destr_cbor_map`). -/
def cbor_map_length (a : cbor) : Option Nat :=
  match a with
  | .CBOR_Case_Map len _ => some len
  | .CBOR_Case_Serialized _ payload => some (read_argument_as_uint64 payload)
  | _ => none

/-- `cbor_mk_map_entry`. -/
def cbor_mk_map_entry (k v : cbor) : cbor × cbor :=
  (k, v)

/-- Modelled from the spec: the payload of `cbor_map_iterator_t` (declared in `CBOR.h`, not
among the sources), which section 4.F gives as either a pointer into an array of entries or a
byte cursor. -/
inductive cbor_map_iterator_payload_t where
  | CBOR_Map_Iterator_Payload_Map (a : List (cbor × cbor))
  | CBOR_Map_Iterator_Payload_Serialized (a : List Nat)

/-- Modelled from the spec: the iterator record `cbor_map_iterator_t` of `CBOR.h`: the count
of the entries that remain and the payload. -/
structure cbor_map_iterator_t where
  cbor_map_iterator_length : Nat
  cbor_map_iterator_payload : cbor_map_iterator_payload_t

/-- `cbor_map_iterator_init` (with `cbor_map_iterator_init_map` and
`cbor_map_iterator_init_serialized`). -/
def cbor_map_iterator_init (a : cbor) : Option cbor_map_iterator_t :=
  match a with
  | .CBOR_Case_Map len payload =>
    some { cbor_map_iterator_length := len,
           cbor_map_iterator_payload :=
             cbor_map_iterator_payload_t.CBOR_Map_Iterator_Payload_Map payload }
  | .CBOR_Case_Serialized _ payload =>
    some { cbor_map_iterator_length := read_argument_as_uint64 payload,
           cbor_map_iterator_payload :=
             cbor_map_iterator_payload_t.CBOR_Map_Iterator_Payload_Serialized
               (focus_map_with_ghost_length payload) }
  | _ => none

/-- `cbor_map_iterator_is_done`. -/
def cbor_map_iterator_is_done (i : cbor_map_iterator_t) : Bool :=
  decide (i.cbor_map_iterator_length = 0)

/-- `cbor_map_iterator_next pi` (with `cbor_map_iterator_next_map` and
`cbor_map_iterator_next_serialized`): the entry returned and the iterator stored in `*pi`.
The count is decremented as a `uint64_t`; `a[0]` of an exhausted payload of entries (a read
outside the array in C) yields a pair of `cbor_dummy`. -/
def cbor_map_iterator_next (pi : cbor_map_iterator_t) : (cbor × cbor) × cbor_map_iterator_t :=
  let i1 := pi
  match i1.cbor_map_iterator_payload with
  | .CBOR_Map_Iterator_Payload_Map a =>
    let len_ := (i1.cbor_map_iterator_length + SIZE_MOD - 1) % SIZE_MOD
    let res := a.getD 0 (cbor_dummy, cbor_dummy)
    let ar_ := a.drop 1
    (res, { cbor_map_iterator_length := len_,
            cbor_map_iterator_payload :=
              cbor_map_iterator_payload_t.CBOR_Map_Iterator_Payload_Map ar_ })
  | .CBOR_Map_Iterator_Payload_Serialized a =>
    let len_ := (i1.cbor_map_iterator_length + SIZE_MOD - 1) % SIZE_MOD
    let sz_key := jump_raw_data_item a
    let ar := a.drop sz_key
    let sz_value := jump_raw_data_item ar
    let a_ := ar.drop sz_value
    let res_key := read_valid_cbor_from_buffer_with_size_strong a sz_key
    let res_value := read_valid_cbor_from_buffer_with_size_strong ar sz_value
    let res1 := cbor_mk_map_entry res_key res_value
    (res1, { cbor_map_iterator_length := len_,
             cbor_map_iterator_payload :=
               cbor_map_iterator_payload_t.CBOR_Map_Iterator_Payload_Serialized a_ })

/-- The state of an iterator after `k` calls of `cbor_map_iterator_next`. -/
def cbor_map_iterator_after : Nat → cbor_map_iterator_t → cbor_map_iterator_t
  | 0, i => i
  | k + 1, i => cbor_map_iterator_after k (cbor_map_iterator_next i).2

/-- The entries that the first `k` calls of `cbor_map_iterator_next` yield, in order. -/
def cbor_map_iterator_entries : Nat → cbor_map_iterator_t → List (cbor × cbor)
  | 0, _ => []
  | k + 1, i =>
    (cbor_map_iterator_next i).1 :: cbor_map_iterator_entries k (cbor_map_iterator_next i).2

/-- The data item at offset `s` of `a` is a map with more than `i` entries, whose key number
`i` occupies the offsets `k` to `v`. -/
structure MapKey (a : List Nat) (s i k v : Nat) : Prop where
  is_map : read_header_major_type (a.drop s) = 5
  valid : leaf_valid (a.drop s)
  index : i < read_header_argument_as_uint64 (a.drop s)
  key : Walk a (s + leaf_length (a.drop s)) (2 * i) k
  stop : Walk a k 1 v

/-! ## The loop of the validator as a state machine, and its reads -/

/-- The locals of the loop of `validate_raw_data_item_` (lines 453-455) with `*perr`: `r` is
the count of bytes consumed, `r1` the count of items pending and `r2` the loop flag. -/
structure validate_state where
  r : Nat
  r1 : Nat
  r2 : Bool
  perr : Nat

/-- One run of the body of the loop of `validate_raw_data_item_` (lines 458-953) on the state
`s`. -/
def validate_raw_data_item_body (a0 : List Nat) (len : Nat) (s : validate_state) :
    validate_state :=
  let n := s.r1
  if n = 0 then { s with r2 := false }
  else
    let consumed := s.r
    let len1 := len - consumed
    if n > len1 then
      { s with perr := validate_recursive_error_not_enough_data, r2 := false }
    else
      let a := a0.drop consumed
      let consumed1 := (validate_leaf a len1 s.perr).1
      let err := (validate_leaf a len1 s.perr).2
      if err ≠ 0 then { s with perr := err, r2 := false }
      else
        let rem := len1 - n
        let n_ := (count_remaining_data_items a rem err).1
        let err1 := (count_remaining_data_items a rem err).2
        let overflow : Bool := if err1 = 0 then decide (n_ > rem) else true
        if overflow then
          { s with
            perr := if err1 = 0 then validate_recursive_error_not_enough_data else err1,
            r2 := false }
        else { r := consumed + consumed1, r1 := n_ + n - 1, r2 := true, perr := err1 }

/-- A read of `width` bytes of the input through a pointer from which `avail` bytes of the
input remain: the value `v` read, or `none` when the read would pass the end of the input. -/
def read_within (avail width v : Nat) : Option Nat :=
  if width ≤ avail then some v else none

/-- `validate_long_argument` with its read checked against the `avail` bytes of input that
remain at `ar`. -/
def validate_long_argument_checked (v : Nat) (ar : List Nat)
    (avail len1 len11 len2 width min_value : Nat) (read_arg : List Nat → Nat) (perr : Nat) :
    Option (Nat × Nat) :=
  let r4 := if width ≤ len2 then 0 else VALIDATOR_ERROR_NOT_ENOUGH_DATA
  let len12 := if width ≤ len2 then width else 0
  let e1 := r4
  if e1 = 0 then
    match read_within avail width (read_arg ar) with
    | none => none
    | some v1 =>
      if ¬ (min_value ≤ v1) then some (0, VALIDATOR_ERROR_CONSTRAINT_FAILED)
      else some (validate_leaf_payload v v1 len1 (len11 + len12) perr)
  else some (0, e1)

/-- `validate_leaf` (lines 472-926 of `validate_raw_data_item_`) with every read checked
against the `avail` bytes of input that remain at `a`. -/
def validate_leaf_checked (a : List Nat) (avail len1 perr : Nat) : Option (Nat × Nat) :=
  let r3 := if 1 ≤ len1 then 0 else VALIDATOR_ERROR_NOT_ENOUGH_DATA
  let len11 := if 1 ≤ len1 then 1 else 0
  let e := r3
  if e = 0 then
    match read_within avail 1 (read_u8 a) with
    | none => none
    | some v =>
      let ite : Bool :=
        if get_bitfield_gen8 v 5 8 = CBOR_MAJOR_TYPE_SIMPLE_VALUE then
          decide (get_bitfield_gen8 v 0 5 ≤ ADDITIONAL_INFO_LONG_ARGUMENT_8_BITS)
        else true
      if ¬ (ite = true ∧ get_bitfield_gen8 v 0 5 < ADDITIONAL_INFO_UNASSIGNED_MIN) then
        some (0, VALIDATOR_ERROR_CONSTRAINT_FAILED)
      else
        let ar := a.drop len11
        let avail_ar := avail - len11
        let len2 := len1 - len11
        if get_bitfield_gen8 v 0 5 = ADDITIONAL_INFO_LONG_ARGUMENT_8_BITS then
          if get_bitfield_gen8 v 5 8 = CBOR_MAJOR_TYPE_SIMPLE_VALUE then
            validate_long_argument_checked v ar avail_ar len1 len11 len2 1
              MIN_SIMPLE_VALUE_LONG_ARGUMENT read_u8 perr
          else
            validate_long_argument_checked v ar avail_ar len1 len11 len2 1
              MIN_DETERMINISTIC_UINT8 read_u8 perr
        else if get_bitfield_gen8 v 0 5 = ADDITIONAL_INFO_LONG_ARGUMENT_16_BITS then
          validate_long_argument_checked v ar avail_ar len1 len11 len2 2
            MIN_DETERMINISTIC_UINT16 read_u16 perr
        else if get_bitfield_gen8 v 0 5 = ADDITIONAL_INFO_LONG_ARGUMENT_32_BITS then
          validate_long_argument_checked v ar avail_ar len1 len11 len2 4
            MIN_DETERMINISTIC_UINT32 read_u32 perr
        else if get_bitfield_gen8 v 0 5 = ADDITIONAL_INFO_LONG_ARGUMENT_64_BITS then
          validate_long_argument_checked v ar avail_ar len1 len11 len2 8
            MIN_DETERMINISTIC_UINT64 read_u64 perr
        else
          let r4 := if 0 ≤ len2 then 0 else VALIDATOR_ERROR_NOT_ENOUGH_DATA
          let len12 := 0
          let e1 := r4
          if e1 = 0 then
            some (validate_leaf_payload v (get_bitfield_gen8 v 0 5) len1 (len11 + len12) perr)
          else some (0, e1)
  else some (0, e)

/-- `read_header_major_type` with its read checked against the `avail` bytes that remain. -/
def read_header_major_type_checked (a : List Nat) (avail : Nat) : Option Nat :=
  match read_within avail 1 (read_u8 a) with
  | none => none
  | some v => some (get_bitfield_gen8 v 5 8)

/-- `read_header_argument_as_uint64` with its reads checked against the `avail` bytes that
remain at `a`. -/
def read_header_argument_as_uint64_checked (a : List Nat) (avail : Nat) : Option Nat :=
  let len1 := 1
  match read_within avail 1 (read_u8 a) with
  | none => none
  | some v =>
    let ar := a.drop len1
    let avail_ar := avail - len1
    if get_bitfield_gen8 v 0 5 = ADDITIONAL_INFO_LONG_ARGUMENT_8_BITS then
      if get_bitfield_gen8 v 5 8 = CBOR_MAJOR_TYPE_SIMPLE_VALUE then
        read_within avail_ar 1 (read_u8 ar)
      else read_within avail_ar 1 (read_u8 ar)
    else if get_bitfield_gen8 v 0 5 = ADDITIONAL_INFO_LONG_ARGUMENT_16_BITS then
      read_within avail_ar 2 (read_u16 ar)
    else if get_bitfield_gen8 v 0 5 = ADDITIONAL_INFO_LONG_ARGUMENT_32_BITS then
      read_within avail_ar 4 (read_u32 ar)
    else if get_bitfield_gen8 v 0 5 = ADDITIONAL_INFO_LONG_ARGUMENT_64_BITS then
      read_within avail_ar 8 (read_u64 ar)
    else some (get_bitfield_gen8 v 0 5)

/-- `count_remaining_data_items` with its reads checked against the `avail` bytes of input
that remain at `a`. -/
def count_remaining_data_items_checked (a : List Nat) (avail bound perr : Nat) :
    Option (Nat × Nat) :=
  match read_header_major_type_checked a avail with
  | none => none
  | some major_type =>
    if major_type = CBOR_MAJOR_TYPE_ARRAY then
      match read_header_argument_as_uint64_checked a avail with
      | none => none
      | some arg => some (arg, perr)
    else if major_type = CBOR_MAJOR_TYPE_MAP then
      match read_header_argument_as_uint64_checked a avail with
      | none => none
      | some arg =>
        let half := arg
        let overflow : Bool := if half > bound then true else decide (bound - half < half)
        if overflow then some (0, VALIDATOR_ERROR_NOT_ENOUGH_DATA)
        else some (half + half, perr)
    else if major_type = CBOR_MAJOR_TYPE_TAGGED then some (1, perr)
    else some (0, perr)

/-- The loop of `validate_raw_data_item_` with every read of the input `(a0, len)` checked:
at the pointer `a0 + consumed`, `len - consumed` bytes of the input remain. -/
def validate_raw_data_item_loop_checked :
    Nat → List Nat → Nat → Nat → Nat → Nat → Option (Nat × Nat)
  | 0, _, _, r, _, perr => some (r, perr)
  | fuel + 1, a0, len, r, r1, perr =>
    let n := r1
    if n = 0 then some (r, perr)
    else
      let consumed := r
      let len1 := len - consumed
      if n > len1 then some (r, validate_recursive_error_not_enough_data)
      else
        let a := a0.drop consumed
        let avail := len - consumed
        match validate_leaf_checked a avail len1 perr with
        | none => none
        | some (consumed1, err) =>
          if err ≠ 0 then some (r, err)
          else
            let rem := len1 - n
            match count_remaining_data_items_checked a avail rem err with
            | none => none
            | some (n_, err1) =>
              let overflow : Bool := if err1 = 0 then decide (n_ > rem) else true
              if overflow then
                some (r, if err1 = 0 then validate_recursive_error_not_enough_data else err1)
              else
                validate_raw_data_item_loop_checked fuel a0 len (consumed + consumed1)
                  (n_ + n - 1) err1

/-- `validate_raw_data_item_` with every read of the input checked. -/
def validate_raw_data_item_checked (a0 : List Nat) (len perr : Nat) : Option (Nat × Nat) :=
  validate_raw_data_item_loop_checked (len + 1) a0 len 0 1 perr

mutual
/-- The value is built from the constructed variants alone, with no `Serialized` sub-value,
and the payload of each of its strings has exactly the declared length. -/
def cbor_plain : cbor → Prop
  | .CBOR_Case_Int64 _ _ => True
  | .CBOR_Case_Simple_value _ => True
  | .CBOR_Case_String _ len payload => len = payload.length
  | .CBOR_Case_Tagged _ payload => cbor_plain payload
  | .CBOR_Case_Array _ items => cbor_plain_items items
  | .CBOR_Case_Map _ entries => cbor_plain_entries entries
  | .CBOR_Case_Serialized _ _ => False
/-- Every item of the list is built from the constructed variants alone. -/
def cbor_plain_items : List cbor → Prop
  | [] => True
  | x :: rest => cbor_plain x ∧ cbor_plain_items rest
/-- Every key and every value of the list is built from the constructed variants alone. -/
def cbor_plain_entries : List (cbor × cbor) → Prop
  | [] => True
  | x :: rest => cbor_plain x.1 ∧ cbor_plain x.2 ∧ cbor_plain_entries rest
end

/-! # Theorems -/

/-! ## Bit fields and the closed form of the leaf validation -/

theorem get_bitfield_gen8_major (v : Nat) : get_bitfield_gen8 v 5 8 = v % 256 / 32 := by
  unfold get_bitfield_gen8
  simp only [Nat.shiftLeft_eq, Nat.shiftRight_eq_div_pow]
  norm_num
  omega

theorem get_bitfield_gen8_info (v : Nat) : get_bitfield_gen8 v 0 5 = v % 32 := by
  unfold get_bitfield_gen8
  simp only [Nat.shiftLeft_eq, Nat.shiftRight_eq_div_pow]
  norm_num
  omega

theorem read_u8_lt (a : List Nat) : read_u8 a < 256 := by
  unfold read_u8
  omega

theorem read_header_major_type_lt (a : List Nat) : read_header_major_type a < 8 := by
  unfold read_header_major_type
  rw [get_bitfield_gen8_major]
  omega

theorem head_info_lt (a : List Nat) : head_info a < 32 := by
  unfold head_info
  rw [get_bitfield_gen8_info]
  omega

theorem jump_header_pos (a : List Nat) : 1 ≤ jump_header_ a ∧ jump_header_ a ≤ 9 := by
  simp only [jump_header_]
  split_ifs <;> omega

/-- The leaf validation of `validate_raw_data_item_` in closed form. -/
theorem validate_leaf_eq (a : List Nat) (len1 perr : Nat) :
    validate_leaf a len1 perr =
      if len1 < 1 then (0, VALIDATOR_ERROR_NOT_ENOUGH_DATA)
      else if ¬ head_assigned a then (0, VALIDATOR_ERROR_CONSTRAINT_FAILED)
      else if len1 < jump_header_ a then (0, VALIDATOR_ERROR_NOT_ENOUGH_DATA)
      else if ¬ head_minimal a then (0, VALIDATOR_ERROR_CONSTRAINT_FAILED)
      else if leaf_payload a ≤ len1 - jump_header_ a then (leaf_length a, perr)
      else (jump_header_ a, VALIDATOR_ERROR_NOT_ENOUGH_DATA) := by
  unfold validate_leaf validate_long_argument validate_leaf_payload head_assigned head_minimal
    head_min_value leaf_length leaf_payload jump_header_ read_header_argument_as_uint64
    read_header_major_type head_info
  simp only [VALIDATOR_ERROR_NOT_ENOUGH_DATA, VALIDATOR_ERROR_CONSTRAINT_FAILED,
    ADDITIONAL_INFO_LONG_ARGUMENT_8_BITS, ADDITIONAL_INFO_LONG_ARGUMENT_16_BITS,
    ADDITIONAL_INFO_LONG_ARGUMENT_32_BITS, ADDITIONAL_INFO_LONG_ARGUMENT_64_BITS,
    ADDITIONAL_INFO_UNASSIGNED_MIN, CBOR_MAJOR_TYPE_SIMPLE_VALUE, CBOR_MAJOR_TYPE_BYTE_STRING,
    CBOR_MAJOR_TYPE_TEXT_STRING, MIN_SIMPLE_VALUE_LONG_ARGUMENT, MIN_DETERMINISTIC_UINT8,
    MIN_DETERMINISTIC_UINT16, MIN_DETERMINISTIC_UINT32, MIN_DETERMINISTIC_UINT64]
  by_cases hl : len1 < 1
  · simp [hl, Nat.not_le.mpr hl]
  have hl' : 1 ≤ len1 := by omega
  simp only [hl, hl', if_true, if_false]
  generalize get_bitfield_gen8 (read_u8 a) 0 5 = info
  generalize get_bitfield_gen8 (read_u8 a) 5 8 = mt
  generalize read_u8 (List.drop 1 a) = a8
  generalize read_u16 (List.drop 1 a) = a16
  generalize read_u32 (List.drop 1 a) = a32
  generalize read_u64 (List.drop 1 a) = a64
  have e1 : (1 ≤ len1 - 1) = ¬ (len1 < 1 + 1) := by simp; omega
  have e2 : (2 ≤ len1 - 1) = ¬ (len1 < 1 + 2) := by simp; omega
  have e4 : (4 ≤ len1 - 1) = ¬ (len1 < 1 + 4) := by simp; omega
  have e8 : (8 ≤ len1 - 1) = ¬ (len1 < 1 + 8) := by simp; omega
  simp only [e1, e2, e4, e8]
  by_cases h24 : info = 24
  · subst h24
    by_cases h7 : mt = 7
    · subst h7
      by_cases hw : len1 < 1 + 1
      · simp [hw]
      · by_cases hm : 32 ≤ a8 <;> simp [hw, hm]
    · by_cases hw : len1 < 1 + 1
      · simp [hw, h7]
      · by_cases hm : 24 ≤ a8 <;> simp [hw, hm, h7]
        by_cases hs : mt = 2 ∨ mt = 3 <;> simp [hs]
  by_cases h25 : info = 25
  · subst h25
    by_cases hw : len1 < 1 + 2
    · simp [hw]
    · by_cases hm : 256 ≤ a16 <;> simp [hw, hm]
      by_cases hs : mt = 2 ∨ mt = 3 <;> simp [hs]
  by_cases h26 : info = 26
  · subst h26
    by_cases hw : len1 < 1 + 4
    · simp [hw]
    · by_cases hm : 65536 ≤ a32 <;> simp [hw, hm]
      by_cases hs : mt = 2 ∨ mt = 3 <;> simp [hs]
  by_cases h27 : info = 27
  · subst h27
    by_cases hw : len1 < 1 + 8
    · simp [hw]
    · by_cases hm : 4294967296 ≤ a64 <;> simp [hw, hm]
      by_cases hs : mt = 2 ∨ mt = 3 <;> simp [hs]
  simp only [h24, h25, h26, h27, if_false]
  by_cases h28 : info < 28
  · by_cases h7 : mt = 7
    · subst h7
      have : info ≤ 24 ∨ ¬ info ≤ 24 := by omega
      rcases this with h | h <;> simp [h, h28, hl]
    · by_cases hs : mt = 2 ∨ mt = 3 <;> simp [hs, h28, h7, hl]
  · simp [h28]

/-- The child count of `validate_raw_data_item_` in closed form. -/
theorem count_remaining_data_items_eq (a : List Nat) (bound perr : Nat) :
    count_remaining_data_items a bound perr =
      if read_header_major_type a = 5 ∧ bound < leaf_children a then
        (0, VALIDATOR_ERROR_NOT_ENOUGH_DATA)
      else (leaf_children a, perr) := by
  simp only [count_remaining_data_items, leaf_children, CBOR_MAJOR_TYPE_ARRAY,
    CBOR_MAJOR_TYPE_MAP, CBOR_MAJOR_TYPE_TAGGED]
  generalize read_header_major_type a = mt
  generalize read_header_argument_as_uint64 a = arg
  by_cases h4 : mt = 4
  · subst h4; simp
  by_cases h5 : mt = 5
  · subst h5
    by_cases h : arg > bound
    · have : bound < arg + arg := by omega
      simp [h, this]
    · by_cases h' : bound - arg < arg
      · have : bound < arg + arg := by omega
        simp [h, h', this]
      · have : ¬ bound < arg + arg := by omega
        simp [h, h', this]
  by_cases h6 : mt = 6 <;> simp [h4, h5, h6]

/-- What a successful leaf validation means. -/
theorem validate_leaf_ok_iff (a : List Nat) (len1 k : Nat) :
    validate_leaf a len1 0 = (k, 0) ↔ leaf_valid a ∧ k = leaf_length a ∧ k ≤ len1 := by
  rw [validate_leaf_eq]
  have hj := jump_header_pos a
  unfold leaf_valid leaf_length VALIDATOR_ERROR_NOT_ENOUGH_DATA VALIDATOR_ERROR_CONSTRAINT_FAILED
  by_cases h1 : len1 < 1
  · simp only [h1, if_true, Prod.mk.injEq]; omega
  by_cases h2 : head_assigned a
  swap
  · simp [h1, h2]
  by_cases h3 : len1 < jump_header_ a
  · simp only [h1, h2, h3, if_true, if_false, not_true, Prod.mk.injEq]; omega
  by_cases h4 : head_minimal a
  swap
  · simp [h1, h2, h3, h4]
  by_cases h5 : leaf_payload a ≤ len1 - jump_header_ a
  · simp only [h1, h2, h3, h4, h5, if_true, if_false, not_true, Prod.mk.injEq, true_and]
    constructor
    · rintro ⟨rfl, -⟩; exact ⟨rfl, by omega⟩
    · rintro ⟨rfl, -⟩; exact ⟨rfl, trivial⟩
  · simp only [h1, h2, h3, h4, h5, if_true, if_false, not_true, Prod.mk.injEq, true_and]
    omega

/-- What a turn of the validator loop that continues means. -/
theorem validateTurn_iff (a0 : List Nat) (len r r1 k n_ : Nat) :
    ValidateTurn a0 len r r1 k n_ ↔
      r1 ≠ 0 ∧ leaf_valid (a0.drop r) ∧ k = leaf_length (a0.drop r) ∧
        n_ = leaf_children (a0.drop r) ∧ k ≤ len - r ∧ n_ + r1 ≤ len - r := by
  constructor
  · rintro ⟨h1, h2, h3, h4, h5⟩
    rw [validate_leaf_ok_iff] at h3
    rw [count_remaining_data_items_eq] at h4
    split_ifs at h4 with hc
    · simp [VALIDATOR_ERROR_NOT_ENOUGH_DATA] at h4
    · simp only [Prod.mk.injEq, and_true] at h4
      exact ⟨h1, h3.1, h3.2.1, h4.symm, h3.2.2, by omega⟩
  · rintro ⟨h1, h2, h3, h4, h5, h6⟩
    refine ⟨h1, by omega, (validate_leaf_ok_iff _ _ _).2 ⟨h2, h3, h5⟩, ?_, by omega⟩
    rw [count_remaining_data_items_eq, if_neg (by omega), h4]

/-! ## The loop of the validator -/

theorem validate_raw_data_item_loop_succ (f : Nat) (a0 : List Nat) (len r r1 perr : Nat) :
    validate_raw_data_item_loop (f + 1) a0 len r r1 perr =
      if r1 = 0 then (r, perr)
      else if r1 > len - r then (r, validate_recursive_error_not_enough_data)
      else if (validate_leaf (a0.drop r) (len - r) perr).2 ≠ 0 then
        (r, (validate_leaf (a0.drop r) (len - r) perr).2)
      else if (if (count_remaining_data_items (a0.drop r) (len - r - r1)
              (validate_leaf (a0.drop r) (len - r) perr).2).2 = 0
            then decide ((count_remaining_data_items (a0.drop r) (len - r - r1)
              (validate_leaf (a0.drop r) (len - r) perr).2).1 > len - r - r1) else true) = true then
        (r, if (count_remaining_data_items (a0.drop r) (len - r - r1)
              (validate_leaf (a0.drop r) (len - r) perr).2).2 = 0
            then validate_recursive_error_not_enough_data
            else (count_remaining_data_items (a0.drop r) (len - r - r1)
              (validate_leaf (a0.drop r) (len - r) perr).2).2)
      else validate_raw_data_item_loop f a0 len
        (r + (validate_leaf (a0.drop r) (len - r) perr).1)
        ((count_remaining_data_items (a0.drop r) (len - r - r1)
              (validate_leaf (a0.drop r) (len - r) perr).2).1 + r1 - 1)
        (count_remaining_data_items (a0.drop r) (len - r - r1)
              (validate_leaf (a0.drop r) (len - r) perr).2).2 := by
  rfl

theorem validate_raw_data_item_loop_done (f : Nat) (a0 : List Nat) (len r perr : Nat) :
    validate_raw_data_item_loop (f + 1) a0 len r 0 perr = (r, perr) := by
  rfl

theorem validate_raw_data_item_loop_turn (f : Nat) (a0 : List Nat) (len r r1 k n_ : Nat)
    (h : ValidateTurn a0 len r r1 k n_) :
    validate_raw_data_item_loop (f + 1) a0 len r r1 0 =
      validate_raw_data_item_loop f a0 len (r + k) (n_ + r1 - 1) 0 := by
  obtain ⟨h1, h2, h3, h4, h5⟩ := h
  rw [validate_raw_data_item_loop_succ]
  simp only [h3, h4]
  simp [h1, Nat.not_lt.mpr h2, Nat.not_lt.mpr h5]

/-- A turn that does not continue stops the loop with a result that does not depend on the
fuel: the error it raises, with the bytes consumed so far. -/
theorem validate_raw_data_item_loop_stop (a0 : List Nat) (len r r1 : Nat)
    (h1 : r1 ≠ 0) (h : ¬ ∃ k n_, ValidateTurn a0 len r r1 k n_) :
    ∃ e, e ≠ 0 ∧ ∀ f, validate_raw_data_item_loop (f + 1) a0 len r r1 0 = (r, e) := by
  by_cases h2 : r1 > len - r
  · refine ⟨validate_recursive_error_not_enough_data, by decide, fun f => ?_⟩
    rw [validate_raw_data_item_loop_succ, if_neg h1, if_pos h2]
  by_cases h3 : (validate_leaf (a0.drop r) (len - r) 0).2 ≠ 0
  · refine ⟨_, h3, fun f => ?_⟩
    rw [validate_raw_data_item_loop_succ, if_neg h1, if_neg h2, if_pos h3]
  have h3' : (validate_leaf (a0.drop r) (len - r) 0).2 = 0 := by simpa using h3
  by_cases h5 : (count_remaining_data_items (a0.drop r) (len - r - r1) 0).2 = 0
  · by_cases h6 : (count_remaining_data_items (a0.drop r) (len - r - r1) 0).1 > len - r - r1
    · refine ⟨validate_recursive_error_not_enough_data, by decide, fun f => ?_⟩
      rw [validate_raw_data_item_loop_succ, if_neg h1, if_neg h2, if_neg h3, h3']
      simp only [h5, if_true, h6, decide_True]
    · exact absurd ⟨_, _, h1, Nat.le_of_not_gt h2, Prod.ext rfl h3', Prod.ext rfl h5,
        Nat.le_of_not_gt h6⟩ h
  · refine ⟨_, h5, fun f => ?_⟩
    rw [validate_raw_data_item_loop_succ, if_neg h1, if_neg h2, if_neg h3, h3']
    simp only [h5, if_false, if_true]

theorem validate_raw_data_item_loop_inv (f : Nat) (a0 : List Nat) (len r r1 : Nat)
    (h1 : r1 ≠ 0) (h : (validate_raw_data_item_loop (f + 1) a0 len r r1 0).2 = 0) :
    ∃ k n_, ValidateTurn a0 len r r1 k n_ := by
  by_contra hn
  obtain ⟨e, he, heq⟩ := validate_raw_data_item_loop_stop a0 len r r1 h1 hn
  rw [heq f] at h
  exact he h

theorem ValidateTurn.leaf_bounds {a0 : List Nat} {len r r1 k n_ : Nat}
    (h : ValidateTurn a0 len r r1 k n_) : 1 ≤ k ∧ k ≤ len - r := by
  obtain ⟨-, -, h3, -, h5, -⟩ := (validateTurn_iff _ _ _ _ _ _).1 h
  have := jump_header_pos (a0.drop r)
  unfold leaf_length at h3
  omega

/-- The fuel is irrelevant once it exceeds the number of bytes left. -/
theorem validate_raw_data_item_loop_fuel (f g : Nat) (a0 : List Nat) (len r r1 : Nat)
    (hf : len - r < f) (hg : len - r < g) :
    validate_raw_data_item_loop f a0 len r r1 0 = validate_raw_data_item_loop g a0 len r r1 0 := by
  induction f generalizing g r r1 with
  | zero => omega
  | succ f ih =>
    obtain ⟨g, rfl⟩ : ∃ g', g = g' + 1 := ⟨g - 1, by omega⟩
    by_cases h1 : r1 = 0
    · subst h1; rfl
    by_cases ht : ∃ k n_, ValidateTurn a0 len r r1 k n_
    · obtain ⟨k, n_, ht⟩ := ht
      have hb := ht.leaf_bounds
      have := ht.fits
      rw [validate_raw_data_item_loop_turn f a0 len r r1 k n_ ht,
        validate_raw_data_item_loop_turn g a0 len r r1 k n_ ht]
      exact ih g (r + k) _ (by omega) (by omega)
    · obtain ⟨e, -, he⟩ := validate_raw_data_item_loop_stop a0 len r r1 h1 ht
      rw [he f, he g]

/-- A successful run consumes at least one byte per pending item and stays within `len`. -/
theorem validate_raw_data_item_loop_bounds (f : Nat) (a0 : List Nat) (len r r1 : Nat)
    (hf : len - r < f) (hr : r ≤ len)
    (h : (validate_raw_data_item_loop f a0 len r r1 0).2 = 0) :
    r + r1 ≤ (validate_raw_data_item_loop f a0 len r r1 0).1 ∧
      (validate_raw_data_item_loop f a0 len r r1 0).1 ≤ len := by
  induction f generalizing r r1 with
  | zero => omega
  | succ f ih =>
    by_cases h1 : r1 = 0
    · subst h1
      rw [validate_raw_data_item_loop_done]
      simpa using hr
    · obtain ⟨k, n_, ht⟩ := validate_raw_data_item_loop_inv f a0 len r r1 h1 h
      have hb := ht.leaf_bounds
      have := ht.fits
      rw [validate_raw_data_item_loop_turn f a0 len r r1 k n_ ht] at h ⊢
      have := ih (r + k) (n_ + r1 - 1) (by omega) (by omega) h
      omega

/-- The length of the buffer is irrelevant once it covers the bytes consumed: a run that
succeeds on `(a0, len)` and stops at `c` succeeds, at `c`, on `(a0, len2)` whenever
`c ≤ len2`. -/
theorem validate_raw_data_item_loop_relen (f g : Nat) (a0 : List Nat) (len len2 r r1 c : Nat)
    (hf : len - r < f) (hg : len2 - r < g) (hr : r ≤ len) (hc : c ≤ len2)
    (h : validate_raw_data_item_loop f a0 len r r1 0 = (c, 0)) :
    validate_raw_data_item_loop g a0 len2 r r1 0 = (c, 0) := by
  induction f generalizing g r r1 with
  | zero => omega
  | succ f ih =>
    obtain ⟨g, rfl⟩ : ∃ g', g = g' + 1 := ⟨g - 1, by omega⟩
    by_cases h1 : r1 = 0
    · subst h1
      rw [validate_raw_data_item_loop_done] at h ⊢
      exact h
    · obtain ⟨k, n_, ht⟩ := validate_raw_data_item_loop_inv f a0 len r r1 h1 (by rw [h])
      have hb := ht.leaf_bounds
      have hfit := ht.fits
      rw [validate_raw_data_item_loop_turn f a0 len r r1 k n_ ht] at h
      have hbd := validate_raw_data_item_loop_bounds f a0 len (r + k) (n_ + r1 - 1)
        (by omega) (by omega) (by rw [h])
      rw [h] at hbd
      simp only at hbd
      obtain ⟨t1, t2, t3, t4, t5, t6⟩ := (validateTurn_iff _ _ _ _ _ _).1 ht
      have ht2 : ValidateTurn a0 len2 r r1 k n_ :=
        (validateTurn_iff _ _ _ _ _ _).2 ⟨t1, t2, t3, t4, by omega, by omega⟩
      rw [validate_raw_data_item_loop_turn g a0 len2 r r1 k n_ ht2]
      exact ih g (r + k) _ (by omega) (by omega) (by omega) h

/-- The run of the validator from a state it reaches is the rest of the whole run. -/
theorem validatorReaches_run (a0 : List Nat) (len r r1 : Nat)
    (h : ValidatorReaches a0 len r r1) :
    r ≤ len ∧
      validate_raw_data_item_ a0 len 0 = validate_raw_data_item_loop (len - r + 1) a0 len r r1 0 := by
  induction h with
  | start => exact ⟨Nat.zero_le _, rfl⟩
  | turn r r1 k n_ _ ht ih =>
    have hb := ht.leaf_bounds
    have hfit := ht.fits
    have hp := ht.pending
    refine ⟨by omega, ?_⟩
    rw [ih.2, show len - r + 1 = (len - r) + 1 from rfl,
      validate_raw_data_item_loop_turn (len - r) a0 len r r1 k n_ ht]
    exact validate_raw_data_item_loop_fuel _ _ _ _ _ _ (by omega) (by omega)

/-- The result of validation as a run of the loop with any sufficient fuel. -/
theorem validate_raw_data_item_eq_loop (f : Nat) (a0 : List Nat) (len : Nat) (hf : len < f) :
    validate_raw_data_item a0 len 0 = validate_raw_data_item_loop f a0 len 0 1 0 := by
  unfold validate_raw_data_item validate_raw_data_item_
  exact validate_raw_data_item_loop_fuel _ _ _ _ _ _ (by omega) (by omega)

/-- Validation that succeeds consumes at least one byte and at most `len`. -/
theorem validate_raw_data_item_bounds (a0 : List Nat) (len : Nat)
    (h : (validate_raw_data_item a0 len 0).2 = 0) :
    1 ≤ (validate_raw_data_item a0 len 0).1 ∧ (validate_raw_data_item a0 len 0).1 ≤ len := by
  have := validate_raw_data_item_loop_bounds (len + 1) a0 len 0 1 (by omega) (Nat.zero_le _) h
  unfold validate_raw_data_item validate_raw_data_item_
  omega

/-- Validation of the bytes consumed alone succeeds and consumes them all. -/
theorem validate_raw_data_item_relen (a0 : List Nat) (len len2 c : Nat)
    (h : validate_raw_data_item a0 len 0 = (c, 0)) (hc : c ≤ len2) :
    validate_raw_data_item a0 len2 0 = (c, 0) :=
  validate_raw_data_item_loop_relen (len + 1) (len2 + 1) a0 len len2 0 1 c (by omega) (by omega)
    (Nat.zero_le _) hc h

/-! ## Reading: the entry points -/

theorem cbor_read_success_iff (a : List Nat) (sz : Nat) :
    (cbor_read a sz).cbor_read_is_success = true ↔ (validate_raw_data_item a sz 0).2 = 0 := by
  unfold cbor_read cbor_read_
  by_cases h : (validate_raw_data_item a sz 0).2 = 0 <;> simp [h]

theorem cbor_read_of_ok (a : List Nat) (sz c : Nat) (h : validate_raw_data_item a sz 0 = (c, 0)) :
    cbor_read a sz =
      { cbor_read_is_success := true,
        cbor_read_payload := cbor.CBOR_Case_Serialized c a,
        cbor_read_remainder := a.drop c,
        cbor_read_remainder_length := sz - c } := by
  unfold cbor_read cbor_read_
  simp [h, read_valid_cbor_from_buffer_with_size_strong]

theorem cbor_read_of_error (a : List Nat) (sz : Nat) (h : (validate_raw_data_item a sz 0).2 ≠ 0) :
    cbor_read a sz =
      { cbor_read_is_success := false,
        cbor_read_payload := cbor_dummy,
        cbor_read_remainder := a,
        cbor_read_remainder_length := sz } := by
  unfold cbor_read cbor_read_
  simp [h]

theorem cbor_read_deterministically_encoded_of_error (a : List Nat) (sz : Nat)
    (h : (validate_raw_data_item a sz 0).2 ≠ 0) :
    cbor_read_deterministically_encoded a sz = cbor_read a sz := by
  have h2 := cbor_read_of_error a sz h
  unfold cbor_read at h2
  unfold cbor_read_deterministically_encoded cbor_read
  rw [h2]
  simp

theorem cbor_read_deterministically_encoded_of_ok (a : List Nat) (sz c : Nat)
    (h : validate_raw_data_item a sz 0 = (c, 0)) :
    cbor_read_deterministically_encoded a sz =
      if deterministic_loop (a.length + 1) true a 1 = true then cbor_read a sz
      else { cbor_read_is_success := false,
             cbor_read_payload := cbor.CBOR_Case_Serialized c a,
             cbor_read_remainder := a.drop c,
             cbor_read_remainder_length := sz - c } := by
  have h2 := cbor_read_of_ok a sz c h
  unfold cbor_read at h2
  unfold cbor_read_deterministically_encoded cbor_read
  rw [h2]
  simp

/-- A well-formed leaf that does not fit in the bytes available fails for want of data. -/
theorem validate_leaf_short (a : List Nat) (len1 : Nat) (hv : leaf_valid a)
    (hn : ¬ leaf_length a ≤ len1) :
    (validate_leaf a len1 0).2 = VALIDATOR_ERROR_NOT_ENOUGH_DATA := by
  rw [validate_leaf_eq]
  obtain ⟨hv1, hv2⟩ := hv
  unfold leaf_length at hn
  by_cases h1 : len1 < 1
  · rw [if_pos h1]
  rw [if_neg h1, if_neg (not_not.2 hv1)]
  by_cases h3 : len1 < jump_header_ a
  · rw [if_pos h3]
  rw [if_neg h3, if_neg (not_not.2 hv2), if_neg (by omega)]

/-- A run that stops on a well-formed leaf stops because the data is short. -/
theorem validate_raw_data_item_loop_short (g : Nat) (a : List Nat) (k r r1 : Nat)
    (h1 : r1 ≠ 0) (hv : leaf_valid (a.drop r))
    (hn : ¬ (leaf_length (a.drop r) ≤ k - r ∧ leaf_children (a.drop r) + r1 ≤ k - r)) :
    validate_raw_data_item_loop (g + 1) a k r r1 0 = (r, VALIDATOR_ERROR_NOT_ENOUGH_DATA) := by
  rw [validate_raw_data_item_loop_succ, if_neg h1]
  by_cases h2 : r1 > k - r
  · rw [if_pos h2]; rfl
  rw [if_neg h2]
  by_cases h3 : leaf_length (a.drop r) ≤ k - r
  · have hl : validate_leaf (a.drop r) (k - r) 0 = (leaf_length (a.drop r), 0) :=
      (validate_leaf_ok_iff _ _ _).2 ⟨hv, rfl, h3⟩
    have h5 : ¬ (leaf_children (a.drop r) + r1 ≤ k - r) := fun h => hn ⟨h3, h⟩
    rw [hl]
    simp only [ne_eq, not_true_eq_false, if_false]
    by_cases h6 : read_header_major_type (a.drop r) = 5 ∧ k - r - r1 < leaf_children (a.drop r)
    · have hc : count_remaining_data_items (a.drop r) (k - r - r1) 0 =
          (0, VALIDATOR_ERROR_NOT_ENOUGH_DATA) := by
        rw [count_remaining_data_items_eq, if_pos h6]
      rw [hc]
      simp [VALIDATOR_ERROR_NOT_ENOUGH_DATA]
    · have h7 : leaf_children (a.drop r) > k - r - r1 := by omega
      have hc : count_remaining_data_items (a.drop r) (k - r - r1) 0 =
          (leaf_children (a.drop r), 0) := by
        rw [count_remaining_data_items_eq, if_neg h6]
      rw [hc]
      simp [h7, VALIDATOR_ERROR_NOT_ENOUGH_DATA, validate_recursive_error_not_enough_data]
  · have hl := validate_leaf_short (a.drop r) (k - r) hv h3
    rw [if_pos (by rw [hl]; decide), hl]

/-- Truncation: a run that succeeds on `(a, len)` and stops at `c` fails for want of data on
`(a, k)` for every `k < c`. -/
theorem validate_raw_data_item_loop_truncated (f g : Nat) (a : List Nat) (len k r r1 c : Nat)
    (hf : len - r < f) (hg : k - r < g) (hr : r ≤ len) (h1 : r1 ≠ 0)
    (h : validate_raw_data_item_loop f a len r r1 0 = (c, 0)) (hk : k < c) :
    (validate_raw_data_item_loop g a k r r1 0).2 = VALIDATOR_ERROR_NOT_ENOUGH_DATA := by
  induction f generalizing g r r1 with
  | zero => omega
  | succ f ih =>
    obtain ⟨g, rfl⟩ : ∃ g', g = g' + 1 := ⟨g - 1, by omega⟩
    obtain ⟨k0, n_, ht⟩ := validate_raw_data_item_loop_inv f a len r r1 h1 (by rw [h])
    have hb := ht.leaf_bounds
    have hfit := ht.fits
    rw [validate_raw_data_item_loop_turn f a len r r1 k0 n_ ht] at h
    obtain ⟨t1, t2, t3, t4, t5, t6⟩ := (validateTurn_iff _ _ _ _ _ _).1 ht
    by_cases hc : leaf_length (a.drop r) ≤ k - r ∧ leaf_children (a.drop r) + r1 ≤ k - r
    · have ht2 : ValidateTurn a k r r1 k0 n_ :=
        (validateTurn_iff _ _ _ _ _ _).2 ⟨t1, t2, t3, t4, by omega, by omega⟩
      rw [validate_raw_data_item_loop_turn g a k r r1 k0 n_ ht2]
      by_cases hz : n_ + r1 - 1 = 0
      · exfalso
        obtain ⟨f, rfl⟩ : ∃ f', f = f' + 1 := ⟨f - 1, by omega⟩
        rw [hz, validate_raw_data_item_loop_done] at h
        simp only [Prod.mk.injEq, and_true] at h
        omega
      · exact ih g (r + k0) _ (by omega) (by omega) (by omega) hz h
    · rw [validate_raw_data_item_loop_short g a k r r1 h1 t2 hc]

/-- The state that the validator reaches where it reads a head: the leaf validation that
follows, in closed form. -/
theorem validate_raw_data_item_at_head (a : List Nat) (len r r1 : Nat)
    (hreach : ValidatorReaches a len r r1) (hp : r1 ≠ 0) (hfit : r1 ≤ len - r)
    (e : Nat) (he : e ≠ 0) (hleaf : (validate_leaf (a.drop r) (len - r) 0).2 = e) :
    validate_raw_data_item a len 0 = (r, e) := by
  unfold validate_raw_data_item
  rw [(validatorReaches_run a len r r1 hreach).2, validate_raw_data_item_loop_succ, if_neg hp,
    if_neg (Nat.not_lt.2 hfit), hleaf, if_pos he]

/-- A head that is not assigned, or not minimal with its argument present, fails the leaf
validation with `CONSTRAINT_FAILED`. -/
theorem validate_leaf_constraint_failed (a : List Nat) (len1 : Nat) (h1 : 1 ≤ len1)
    (h : ¬ head_assigned a ∨ (jump_header_ a ≤ len1 ∧ ¬ head_minimal a)) :
    (validate_leaf a len1 0).2 = VALIDATOR_ERROR_CONSTRAINT_FAILED := by
  rw [validate_leaf_eq, if_neg (by omega)]
  by_cases ha : head_assigned a
  · rcases h with h | ⟨h2, h3⟩
    · exact absurd ha h
    · rw [if_neg (not_not.2 ha), if_neg (by omega), if_pos h3]
  · rw [if_pos ha]

/-! ## Claims on the validator and the entry points -/

theorem cbor_read_fails_of_error (a : List Nat) (sz e : Nat) (r : Nat) (he : e ≠ 0)
    (h : validate_raw_data_item a sz 0 = (r, e)) :
    (cbor_read a sz).cbor_read_is_success = false ∧
      (cbor_read_deterministically_encoded a sz).cbor_read_is_success = false := by
  have h2 : (validate_raw_data_item a sz 0).2 ≠ 0 := by rw [h]; exact he
  rw [cbor_read_deterministically_encoded_of_error a sz h2, cbor_read_of_error a sz h2]
  exact ⟨rfl, rfl⟩

/-- C2. Validator consumes prefix: when `cbor_read` succeeds on `(a, len)` with a payload of
`c` bytes, then `c ≤ len`, the remainder is `a + c` with length `len - c`, and `cbor_read` on
the consumed bytes alone, `(a, c)`, succeeds with a payload of exactly `c` bytes and an empty
remainder. -/
theorem cbor_read_consumes_prefix (a : List Nat) (len : Nat)
    (h : (cbor_read a len).cbor_read_is_success = true) :
    ∃ c, (cbor_read a len).cbor_read_payload = cbor.CBOR_Case_Serialized c a ∧ c ≤ len ∧
      (cbor_read a len).cbor_read_remainder = a.drop c ∧
      (cbor_read a len).cbor_read_remainder_length = len - c ∧
      (cbor_read a c).cbor_read_is_success = true ∧
      (cbor_read a c).cbor_read_payload = cbor.CBOR_Case_Serialized c a ∧
      (cbor_read a c).cbor_read_remainder = a.drop c ∧
      (cbor_read a c).cbor_read_remainder_length = 0 := by
  have h0 := (cbor_read_success_iff a len).1 h
  have hv : validate_raw_data_item a len 0 = ((validate_raw_data_item a len 0).1, 0) :=
    Prod.ext rfl h0
  have hb := validate_raw_data_item_bounds a len h0
  have hv2 := validate_raw_data_item_relen a len _ _ hv (Nat.le_refl _)
  refine ⟨(validate_raw_data_item a len 0).1, ?_, hb.2, ?_, ?_, ?_, ?_, ?_, ?_⟩
  · rw [cbor_read_of_ok a len _ hv]
  · rw [cbor_read_of_ok a len _ hv]
  · rw [cbor_read_of_ok a len _ hv]
  · rw [cbor_read_of_ok a _ _ hv2]
  · rw [cbor_read_of_ok a _ _ hv2]
  · rw [cbor_read_of_ok a _ _ hv2]
  · rw [cbor_read_of_ok a _ _ hv2]
    exact Nat.sub_self _

theorem cbor_read_consumes_prefix_witness :
    (cbor_read [0x83, 0x01, 0x02, 0x03, 0xff] 5).cbor_read_is_success = true ∧
    ∃ c, (cbor_read [0x83, 0x01, 0x02, 0x03, 0xff] 5).cbor_read_payload =
        cbor.CBOR_Case_Serialized c [0x83, 0x01, 0x02, 0x03, 0xff] ∧ c ≤ 5 ∧
      (cbor_read [0x83, 0x01, 0x02, 0x03, 0xff] 5).cbor_read_remainder =
        List.drop c [0x83, 0x01, 0x02, 0x03, 0xff] ∧
      (cbor_read [0x83, 0x01, 0x02, 0x03, 0xff] 5).cbor_read_remainder_length = 5 - c ∧
      (cbor_read [0x83, 0x01, 0x02, 0x03, 0xff] c).cbor_read_is_success = true ∧
      (cbor_read [0x83, 0x01, 0x02, 0x03, 0xff] c).cbor_read_payload =
        cbor.CBOR_Case_Serialized c [0x83, 0x01, 0x02, 0x03, 0xff] ∧
      (cbor_read [0x83, 0x01, 0x02, 0x03, 0xff] c).cbor_read_remainder =
        List.drop c [0x83, 0x01, 0x02, 0x03, 0xff] ∧
      (cbor_read [0x83, 0x01, 0x02, 0x03, 0xff] c).cbor_read_remainder_length = 0 :=
  ⟨by decide, cbor_read_consumes_prefix [0x83, 0x01, 0x02, 0x03, 0xff] 5 (by decide)⟩

/-- C6. Strict rejects non-minimal heads: when the validator, run on `(a, len)`, reaches a head
(at offset `r`, with `r1 ≠ 0` items pending that fit in the bytes left) of major type other
than 7, whose argument bytes are present, and which is encoded with additional info 24, 25,
26 or 27 while its argument is below 24, 2^8, 2^16 or 2^32 respectively, validation stops
there with `CONSTRAINT_FAILED` and `cbor_read_deterministically_encoded` fails. -/
theorem strict_rejects_non_minimal_head (a : List Nat) (len r r1 : Nat)
    (hreach : ValidatorReaches a len r r1) (hp : r1 ≠ 0) (hfit : r1 ≤ len - r)
    (hmt : read_header_major_type (a.drop r) ≠ 7)
    (hpresent : jump_header_ (a.drop r) ≤ len - r)
    (hsmall : (head_info (a.drop r) = 24 ∧ read_header_argument_as_uint64 (a.drop r) < 24) ∨
      (head_info (a.drop r) = 25 ∧ read_header_argument_as_uint64 (a.drop r) < 256) ∨
      (head_info (a.drop r) = 26 ∧ read_header_argument_as_uint64 (a.drop r) < 65536) ∨
      (head_info (a.drop r) = 27 ∧ read_header_argument_as_uint64 (a.drop r) < 4294967296)) :
    validate_raw_data_item a len 0 = (r, VALIDATOR_ERROR_CONSTRAINT_FAILED) ∧
      (cbor_read_deterministically_encoded a len).cbor_read_is_success = false := by
  have hmin : ¬ head_minimal (a.drop r) := by
    unfold head_minimal head_min_value
    rcases hsmall with ⟨h, h'⟩ | ⟨h, h'⟩ | ⟨h, h'⟩ | ⟨h, h'⟩ <;> simp [h, hmt] <;> omega
  have hleaf := validate_leaf_constraint_failed (a.drop r) (len - r) (by omega)
    (Or.inr ⟨hpresent, hmin⟩)
  have hv := validate_raw_data_item_at_head a len r r1 hreach hp hfit _ (by decide) hleaf
  exact ⟨hv, (cbor_read_fails_of_error a len _ r (by decide) hv).2⟩

theorem strict_rejects_non_minimal_head_witness :
    validate_raw_data_item [0x82, 0x01, 0x19, 0x00, 0xff] 5 0
        = (2, VALIDATOR_ERROR_CONSTRAINT_FAILED) ∧
      (cbor_read_deterministically_encoded [0x82, 0x01, 0x19, 0x00, 0xff] 5).cbor_read_is_success
        = false :=
  strict_rejects_non_minimal_head [0x82, 0x01, 0x19, 0x00, 0xff] 5 2 1
    (ValidatorReaches.turn 1 2 1 0
      (ValidatorReaches.turn 0 1 1 2 ValidatorReaches.start
        ⟨by decide, by decide, by decide, by decide, by decide⟩)
      ⟨by decide, by decide, by decide, by decide, by decide⟩)
    (by decide) (by decide) (by decide) (by decide) (Or.inr (Or.inl ⟨by decide, by decide⟩))

/-- C7 (counterexample). On the two bytes `18 00` plain `cbor_read` does not succeed. -/
theorem cbor_read_rejects_18_00 :
    ¬ ((cbor_read [0x18, 0x00] 2).cbor_read_is_success = true ∧
      (cbor_read_deterministically_encoded [0x18, 0x00] 2).cbor_read_is_success = false) := by
  decide

/-- C7 (amended). Plain `cbor_read` rejects every head that is not minimally encoded: when the
validator, run on `(a, len)`, reaches a head (at offset `r`, with `r1 ≠ 0` items pending that
fit in the bytes left), of any major type, whose argument bytes are present, and which is
encoded with additional info 24, 25, 26 or 27 while its argument is below 24, 2^8, 2^16 or
2^32 respectively, validation stops there with `CONSTRAINT_FAILED`, `cbor_read` fails,
`cbor_read_deterministically_encoded` fails, and the latter returns the very result of
`cbor_read`: head minimality is checked by the validator that the two entry points share. -/
theorem cbor_read_checks_head_minimality (a : List Nat) (len r r1 : Nat)
    (hreach : ValidatorReaches a len r r1) (hp : r1 ≠ 0) (hfit : r1 ≤ len - r)
    (hpresent : jump_header_ (a.drop r) ≤ len - r)
    (hsmall : (head_info (a.drop r) = 24 ∧ read_header_argument_as_uint64 (a.drop r) < 24) ∨
      (head_info (a.drop r) = 25 ∧ read_header_argument_as_uint64 (a.drop r) < 256) ∨
      (head_info (a.drop r) = 26 ∧ read_header_argument_as_uint64 (a.drop r) < 65536) ∨
      (head_info (a.drop r) = 27 ∧ read_header_argument_as_uint64 (a.drop r) < 4294967296)) :
    validate_raw_data_item a len 0 = (r, VALIDATOR_ERROR_CONSTRAINT_FAILED) ∧
      (cbor_read a len).cbor_read_is_success = false ∧
      (cbor_read_deterministically_encoded a len).cbor_read_is_success = false ∧
      cbor_read_deterministically_encoded a len = cbor_read a len := by
  have hmin : ¬ head_minimal (a.drop r) := by
    unfold head_minimal head_min_value
    rcases hsmall with ⟨h, h'⟩ | ⟨h, h'⟩ | ⟨h, h'⟩ | ⟨h, h'⟩
    · rw [if_pos h]
      by_cases h7 : read_header_major_type (a.drop r) = 7
      · rw [if_pos h7]; omega
      · rw [if_neg h7]; omega
    · rw [if_neg (by omega), if_pos h]; omega
    · rw [if_neg (by omega), if_neg (by omega), if_pos h]; omega
    · rw [if_neg (by omega), if_neg (by omega), if_neg (by omega), if_pos h]; omega
  have hleaf := validate_leaf_constraint_failed (a.drop r) (len - r) (by omega)
    (Or.inr ⟨hpresent, hmin⟩)
  have hv := validate_raw_data_item_at_head a len r r1 hreach hp hfit _ (by decide) hleaf
  have hf := cbor_read_fails_of_error a len _ r (by decide) hv
  refine ⟨hv, hf.1, hf.2, ?_⟩
  apply cbor_read_deterministically_encoded_of_error
  rw [hv]
  exact (show VALIDATOR_ERROR_CONSTRAINT_FAILED ≠ 0 by decide)

theorem cbor_read_checks_head_minimality_witness :
    validate_raw_data_item [0x18, 0x00] 2 0 = (0, VALIDATOR_ERROR_CONSTRAINT_FAILED) ∧
      (cbor_read [0x18, 0x00] 2).cbor_read_is_success = false ∧
      (cbor_read_deterministically_encoded [0x18, 0x00] 2).cbor_read_is_success = false ∧
      cbor_read_deterministically_encoded [0x18, 0x00] 2 = cbor_read [0x18, 0x00] 2 :=
  cbor_read_checks_head_minimality [0x18, 0x00] 2 0 1 ValidatorReaches.start
    (by decide) (by decide) (by decide) (Or.inl ⟨by decide, by decide⟩)

/-- C12 (the code at the failing input). On `A2 61 62 02 61 61 01` (a map whose keys are out of
order) `cbor_read_deterministically_encoded` fails, yet the remainder it returns is the
pointer past the seven bytes, with remainder length 0, instead of the input and 7. -/
theorem cbor_read_deterministically_encoded_failure_remainder :
    (cbor_read_deterministically_encoded
        [0xA2, 0x61, 0x62, 0x02, 0x61, 0x61, 0x01] 7).cbor_read_is_success = false ∧
      (cbor_read_deterministically_encoded
        [0xA2, 0x61, 0x62, 0x02, 0x61, 0x61, 0x01] 7).cbor_read_remainder = [] ∧
      (cbor_read_deterministically_encoded
        [0xA2, 0x61, 0x62, 0x02, 0x61, 0x61, 0x01] 7).cbor_read_remainder_length = 0 := by
  decide

/-- C13. Reserved and indefinite additional-info values are always rejected: when the
validator, run on `(a, len)`, reaches a head byte (at offset `r`, with `r1 ≠ 0` items
pending that fit in the bytes left) whose additional info is 28, 29, 30 or 31, whatever its
major type, validation fails with `CONSTRAINT_FAILED` and both `cbor_read` and
`cbor_read_deterministically_encoded` fail. -/
theorem reserved_additional_info_rejected (a : List Nat) (len r r1 : Nat)
    (hreach : ValidatorReaches a len r r1) (hp : r1 ≠ 0) (hfit : r1 ≤ len - r)
    (hinfo : 28 ≤ head_info (a.drop r)) :
    validate_raw_data_item a len 0 = (r, VALIDATOR_ERROR_CONSTRAINT_FAILED) ∧
      (cbor_read a len).cbor_read_is_success = false ∧
      (cbor_read_deterministically_encoded a len).cbor_read_is_success = false := by
  have hna : ¬ head_assigned (a.drop r) := by
    unfold head_assigned ADDITIONAL_INFO_UNASSIGNED_MIN
    omega
  have hleaf := validate_leaf_constraint_failed (a.drop r) (len - r) (by omega) (Or.inl hna)
  have hv := validate_raw_data_item_at_head a len r r1 hreach hp hfit _ (by decide) hleaf
  exact ⟨hv, cbor_read_fails_of_error a len _ r (by decide) hv⟩

theorem reserved_additional_info_rejected_witness :
    validate_raw_data_item [0x1F] 1 0 = (0, VALIDATOR_ERROR_CONSTRAINT_FAILED) ∧
      (cbor_read [0x1F] 1).cbor_read_is_success = false ∧
      (cbor_read_deterministically_encoded [0x1F] 1).cbor_read_is_success = false :=
  reserved_additional_info_rejected [0x1F] 1 0 1 ValidatorReaches.start (by decide) (by decide)
    (by decide)

/-- C14. When the validator, run on `(a, len)`, reaches a head of major type 7 with additional
info 24 followed by its argument byte: if the argument byte is in `[0, 31]` validation fails
with `CONSTRAINT_FAILED`; if it is at least 32 the head is accepted as a two-byte leaf. -/
theorem simple_value_long_argument (a : List Nat) (len r r1 : Nat)
    (hreach : ValidatorReaches a len r r1) (hp : r1 ≠ 0) (hfit : r1 ≤ len - r)
    (hmt : read_header_major_type (a.drop r) = 7) (hinfo : head_info (a.drop r) = 24)
    (hpresent : 2 ≤ len - r) :
    (read_u8 ((a.drop r).drop 1) ≤ 31 →
        validate_raw_data_item a len 0 = (r, VALIDATOR_ERROR_CONSTRAINT_FAILED)) ∧
      (32 ≤ read_u8 ((a.drop r).drop 1) → validate_leaf (a.drop r) (len - r) 0 = (2, 0)) := by
  have hinfo' : get_bitfield_gen8 (read_u8 (a.drop r)) 0 5 = 24 := hinfo
  have hmt' : get_bitfield_gen8 (read_u8 (a.drop r)) 5 8 = 7 := hmt
  have harg : read_header_argument_as_uint64 (a.drop r) = read_u8 ((a.drop r).drop 1) := by
    simp [read_header_argument_as_uint64, hinfo', ADDITIONAL_INFO_LONG_ARGUMENT_8_BITS]
  have hjump : jump_header_ (a.drop r) = 2 := by
    simp [jump_header_, hinfo', ADDITIONAL_INFO_LONG_ARGUMENT_8_BITS]
  have hminv : head_min_value (a.drop r) = 32 := by
    simp [head_min_value, hinfo, hmt]
  constructor
  · intro h
    have hmin : ¬ head_minimal (a.drop r) := by
      unfold head_minimal
      rw [hminv, harg]
      omega
    have hleaf := validate_leaf_constraint_failed (a.drop r) (len - r) (by omega)
      (Or.inr ⟨by omega, hmin⟩)
    exact validate_raw_data_item_at_head a len r r1 hreach hp hfit _ (by decide) hleaf
  · intro h
    rw [validate_leaf_ok_iff]
    refine ⟨⟨?_, ?_⟩, ?_, hpresent⟩
    · unfold head_assigned
      rw [hinfo]
      exact ⟨fun _ => by decide, by decide⟩
    · unfold head_minimal
      rw [hminv, harg]
      exact h
    · unfold leaf_length leaf_payload
      rw [hjump, hmt]
      simp

theorem simple_value_long_argument_witness :
    (read_u8 ((List.drop 0 [0xF8, 0x1F]).drop 1) ≤ 31 →
        validate_raw_data_item [0xF8, 0x1F] 2 0 = (0, VALIDATOR_ERROR_CONSTRAINT_FAILED)) ∧
      (32 ≤ read_u8 ((List.drop 0 [0xF8, 0x1F]).drop 1) →
        validate_leaf (List.drop 0 [0xF8, 0x1F]) (2 - 0) 0 = (2, 0)) :=
  simple_value_long_argument [0xF8, 0x1F] 2 0 1 ValidatorReaches.start (by decide) (by decide)
    (by decide) (by decide) (by decide)

/-- C15. Truncation yields NotEnoughData: when validation succeeds on `(a, len)` with consumed
count `c`, validating the first `k` bytes, `(a, k)`, fails with `NOT_ENOUGH_DATA` for every
`k < c` (never `CONSTRAINT_FAILED`, never success); and the empty input always fails with
`NOT_ENOUGH_DATA`. -/
theorem truncation_yields_not_enough_data (a : List Nat) (len c k : Nat)
    (h : validate_raw_data_item a len 0 = (c, 0)) (hk : k < c) :
    (validate_raw_data_item a k 0).2 = VALIDATOR_ERROR_NOT_ENOUGH_DATA ∧
      (cbor_read a k).cbor_read_is_success = false ∧
      ∀ b : List Nat, validate_raw_data_item b 0 0 = (0, VALIDATOR_ERROR_NOT_ENOUGH_DATA) := by
  have h1 : (validate_raw_data_item a k 0).2 = VALIDATOR_ERROR_NOT_ENOUGH_DATA :=
    validate_raw_data_item_loop_truncated (len + 1) (k + 1) a len k 0 1 c (by omega) (by omega)
      (Nat.zero_le _) (by decide) h hk
  refine ⟨h1, ?_, fun b => rfl⟩
  rw [cbor_read_of_error a k (by rw [h1]; decide)]

theorem truncation_yields_not_enough_data_witness :
    validate_raw_data_item [0xA2, 0x61, 0x61, 0x01, 0x61, 0x62, 0x02] 7 0 = (7, 0) ∧
    (validate_raw_data_item [0xA2, 0x61, 0x61, 0x01, 0x61, 0x62, 0x02] 4 0).2
        = VALIDATOR_ERROR_NOT_ENOUGH_DATA ∧
      (cbor_read [0xA2, 0x61, 0x61, 0x01, 0x61, 0x62, 0x02] 4).cbor_read_is_success = false ∧
      ∀ b : List Nat, validate_raw_data_item b 0 0 = (0, VALIDATOR_ERROR_NOT_ENOUGH_DATA) :=
  ⟨by decide,
    truncation_yields_not_enough_data [0xA2, 0x61, 0x61, 0x01, 0x61, 0x62, 0x02] 7 7 4
      (by decide) (by decide)⟩

/-! ## Size computation -/

theorem ser_head_length (t x : Nat) :
    (ser_head t x).length =
      if x < 24 then 1 else if x < 256 then 2 else if x < 65536 then 3
      else if x < 4294967296 then 5 else 9 := by
  unfold ser_head
  split_ifs <;> rfl

theorem ser_head_length_pos (t x : Nat) : 1 ≤ (ser_head t x).length := by
  rw [ser_head_length]
  split_ifs <;> omega

theorem size_comp_head_eq (k sz : Nat) :
    size_comp_head k sz false =
      if 1 + k ≤ sz then (sz - (1 + k), false) else (if sz < 1 then sz else sz - 1, true) := by
  unfold size_comp_head
  by_cases h1 : sz < 1
  · have : sz = 0 := by omega
    subst this
    simp
  · by_cases h2 : sz - 1 < k
    · have : ¬ (1 + k ≤ sz) := by omega
      simp [h1, h2, this]
    · have : 1 + k ≤ sz := by omega
      simp [h1, h2, this]; omega

/-- The head size computation is exact: it succeeds when the budget covers the minimal head,
and raises the error flag otherwise. -/
theorem size_comp_uint64_header_eq (t x sz : Nat) :
    size_comp_uint64_header x sz false =
      if (ser_head t x).length ≤ sz then (sz - (ser_head t x).length, false)
      else ((size_comp_uint64_header x sz false).1, true) := by
  rw [ser_head_length]
  unfold size_comp_uint64_header
  simp only [MIN_DETERMINISTIC_UINT8_AS_UINT64, MIN_DETERMINISTIC_UINT16_AS_UINT64,
    MIN_DETERMINISTIC_UINT32_AS_UINT64, MIN_DETERMINISTIC_UINT64, size_comp_head_eq]
  split_ifs <;> rfl

theorem size_comp_payload_eq (k sz1 : Nat) :
    size_comp_payload k sz1 false = if k ≤ sz1 then (sz1 - k, false) else (sz1, true) := by
  unfold size_comp_payload
  by_cases h : sz1 < k
  · simp [h, Nat.not_le.mpr h]
  · simp [h, Nat.le_of_not_lt h]

theorem size_comp_payload_err (k sz1 : Nat) : size_comp_payload k sz1 true = (sz1, true) := by
  unfold size_comp_payload
  simp

theorem size_comp_for_serialized_eq (size sz : Nat) :
    size_comp_for_serialized size sz false =
      if size ≤ sz then (sz - size, false) else (sz, true) := by
  unfold size_comp_for_serialized
  by_cases h : size > sz
  · simp [h, Nat.not_le.mpr h]
  · simp [h, Nat.le_of_not_lt h]


theorem sizeCompExact_head (t x : Nat) :
    SizeCompExact (fun sz => size_comp_uint64_header x sz false) (ser_head t x).length := by
  intro sz
  constructor
  · intro h
    show size_comp_uint64_header x sz false = _
    rw [size_comp_uint64_header_eq t, if_pos h]
  · intro h
    show (size_comp_uint64_header x sz false).2 = true
    rw [size_comp_uint64_header_eq t, if_neg (by omega)]

/-- Composition of two exact size computations run one after the other. -/
theorem sizeCompExact_seq (r1 : Nat → Nat × Bool) (r2 : Nat → Nat × Bool) (s1 s2 : Nat)
    (h1 : SizeCompExact r1 s1) (h2 : SizeCompExact r2 s2) :
    SizeCompExact (fun sz => if (r1 sz).2 then r1 sz else r2 (r1 sz).1) (s1 + s2) := by
  intro sz
  constructor
  · intro h
    have := (h1 sz).1 (by omega)
    simp only [this]
    have := (h2 (sz - s1)).1 (by omega)
    simp [this]
    omega
  · intro h
    by_cases hs : s1 ≤ sz
    · have := (h1 sz).1 hs
      simp only [this]
      have := (h2 (sz - s1)).2 (by omega)
      simpa using this
    · have := (h1 sz).2 (by omega)
      simp [this]

theorem sizeCompExact_congr (r r2 : Nat → Nat × Bool) (s s2 : Nat) (h : SizeCompExact r s)
    (hr : ∀ sz, r2 sz = r sz) (hs : s2 = s) : SizeCompExact r2 s2 := by
  subst hs
  intro sz
  rw [hr sz]
  exact h sz

mutual
/-- The size computation is exact on every well-formed value. -/
theorem cbor_size_comp_exact : ∀ c : cbor, cbor_wf c →
    SizeCompExact (fun sz => cbor_size_comp c sz false) (ser c).length
  | .CBOR_Case_Int64 t v, _ => by
    refine sizeCompExact_congr _ _ _ _ (sizeCompExact_head t v) (fun sz => ?_) (by simp [ser])
    simp only [cbor_size_comp, size_comp_int64]
    rw [size_comp_uint64_header_eq t]
    split_ifs <;> simp [size_comp_payload_eq, size_comp_payload_err]
  | .CBOR_Case_Simple_value v, _ => by
    intro sz
    simp only [cbor_size_comp, size_comp_simple_value, ser, MAX_SIMPLE_VALUE_ADDITIONAL_INFO,
      size_comp_head_eq]
    by_cases hv : v ≤ 23
    · simp only [hv, if_true, List.length_singleton]
      by_cases h : 1 + 0 ≤ sz
      · simp [h, size_comp_payload_eq]
        omega
      · simp [h, size_comp_payload_err]
    · simp only [hv, if_false, List.length_cons, List.length_nil]
      by_cases h : 1 + 1 ≤ sz
      · simp [h, size_comp_payload_eq]
      · simp [h, size_comp_payload_err]
  | .CBOR_Case_String t len payload, hwf => by
    have hl : (payload.take len).length = len := by
      simp only [cbor_wf] at hwf
      simp [List.length_take]; omega
    have hp : SizeCompExact (fun sz => size_comp_payload len sz false) len := by
      intro sz
      simp only [size_comp_payload_eq]
      constructor
      · intro h; rw [if_pos h]
      · intro h; rw [if_neg (by omega)]
    refine sizeCompExact_congr _ _ _ _ (sizeCompExact_seq _ _ _ _ (sizeCompExact_head t len) hp)
      (fun sz => ?_) (by simp [ser, hl])
    simp only [cbor_size_comp, size_comp_string]
    by_cases h : (size_comp_uint64_header len sz false).2 = true
    · rw [if_pos h]
      have : size_comp_uint64_header len sz false =
          ((size_comp_uint64_header len sz false).1, true) := Prod.ext rfl h
      rw [this, size_comp_payload_err]
    · rw [if_neg h]
      have h' : (size_comp_uint64_header len sz false).2 = false := by simpa using h
      rw [h']
  | .CBOR_Case_Tagged tag payload, hwf => by
    simp only [cbor_wf] at hwf
    refine sizeCompExact_congr _ _ _ _
      (sizeCompExact_seq _ _ _ _ (sizeCompExact_head 6 tag) (cbor_size_comp_exact payload hwf.2))
      (fun sz => ?_) (by simp [ser])
    simp only [cbor_size_comp]
    by_cases h : (size_comp_uint64_header tag sz false).2 = true
    · rw [if_pos h, if_pos h]
    · rw [if_neg h, if_neg h]
      have h' : (size_comp_uint64_header tag sz false).2 = false := by simpa using h
      rw [h']
  | .CBOR_Case_Array len items, hwf => by
    simp only [cbor_wf] at hwf
    refine sizeCompExact_congr _ _ _ _
      (sizeCompExact_seq _ _ _ _ (sizeCompExact_head 4 len)
        (cbor_size_comp_array_loop_exact items hwf.2.2 len 0 (by omega)))
      (fun sz => ?_) (by simp [ser])
    simp only [cbor_size_comp]
    by_cases h : (size_comp_uint64_header len sz false).2 = true
    · rw [if_pos h, if_pos h]
    · rw [if_neg h, if_neg h]
      have h' : (size_comp_uint64_header len sz false).2 = false := by simpa using h
      rw [h']
  | .CBOR_Case_Map len entries, hwf => by
    simp only [cbor_wf] at hwf
    refine sizeCompExact_congr _ _ _ _
      (sizeCompExact_seq _ _ _ _ (sizeCompExact_head 5 len)
        (cbor_size_comp_map_loop_exact entries hwf.2.2 len 0 (by omega)))
      (fun sz => ?_) (by simp [ser])
    simp only [cbor_size_comp]
    by_cases h : (size_comp_uint64_header len sz false).2 = true
    · rw [if_pos h, if_pos h]
    · rw [if_neg h, if_neg h]
      have h' : (size_comp_uint64_header len sz false).2 = false := by simpa using h
      rw [h']
  | .CBOR_Case_Serialized size bytes, hwf => by
    simp only [cbor_wf] at hwf
    intro sz
    simp only [cbor_size_comp, ser, size_comp_for_serialized_eq, List.length_take,
      Nat.min_eq_left hwf.2]
    constructor
    · intro h; rw [if_pos h]
    · intro h; rw [if_neg (by omega)]
/-- The loop over the items of an array computes the size of their serializations. -/
theorem cbor_size_comp_array_loop_exact : ∀ items : List cbor, cbor_wf_items items →
    ∀ len r, r + items.length = len →
    SizeCompExact (fun sz => cbor_size_comp_array_loop items len r sz false)
      (ser_items items).length
  | [], _, len, r, _ => by
    intro sz
    simp [cbor_size_comp_array_loop, ser_items]
  | x :: rest, hwf, len, r, hlen => by
    simp only [cbor_wf_items] at hwf
    simp only [List.length_cons] at hlen
    have h1 := cbor_size_comp_exact x hwf.1
    have h2 := cbor_size_comp_array_loop_exact rest hwf.2 len (r + 1) (by omega)
    intro sz
    have hr : r < len := by omega
    simp only [cbor_size_comp_array_loop, ser_items, List.length_append, hr, and_true,
      Bool.false_eq_true, not_false_eq_true, if_true]
    constructor
    · intro h
      have e1 := (h1 sz).1 (by omega)
      simp only at e1
      rw [e1]
      simp only [Bool.false_eq_true, not_false_eq_true, if_true]
      have e2 := (h2 (sz - (ser x).length)).1 (by omega)
      simp only at e2
      rw [e2]
      simp; omega
    · intro h
      by_cases hs : (ser x).length ≤ sz
      · have e1 := (h1 sz).1 hs
        simp only at e1
        rw [e1]
        simp only [Bool.false_eq_true, not_false_eq_true, if_true]
        exact (h2 (sz - (ser x).length)).2 (by omega)
      · have e1 := (h1 sz).2 (by omega)
        simp only at e1
        simp [e1]
/-- The loop over the entries of a map computes the size of their serializations. -/
theorem cbor_size_comp_map_loop_exact : ∀ entries : List (cbor × cbor),
    cbor_wf_entries entries → ∀ len r, r + entries.length = len →
    SizeCompExact (fun sz => cbor_size_comp_map_loop entries len r sz false)
      (ser_entries entries).length
  | [], _, len, r, _ => by
    intro sz
    simp [cbor_size_comp_map_loop, ser_entries]
  | x :: rest, hwf, len, r, hlen => by
    simp only [cbor_wf_entries] at hwf
    simp only [List.length_cons] at hlen
    have h1 := cbor_size_comp_exact x.1 hwf.1
    have h2 := cbor_size_comp_exact x.2 hwf.2.1
    have h3 := cbor_size_comp_map_loop_exact rest hwf.2.2 len (r + 1) (by omega)
    intro sz
    have hr : r < len := by omega
    simp only [cbor_size_comp_map_loop, ser_entries, List.length_append, hr, and_true,
      Bool.false_eq_true, not_false_eq_true, if_true]
    by_cases hs1 : (ser x.1).length ≤ sz
    · have e1 := (h1 sz).1 hs1
      simp only at e1
      rw [e1]
      simp only [Bool.false_eq_true, if_false]
      by_cases hs2 : (ser x.2).length ≤ sz - (ser x.1).length
      · have e2 := (h2 (sz - (ser x.1).length)).1 hs2
        simp only at e2
        rw [e2]
        simp only [Bool.false_eq_true, not_false_eq_true, if_true]
        constructor
        · intro h
          have e3 := (h3 (sz - (ser x.1).length - (ser x.2).length)).1 (by omega)
          simp only at e3
          rw [e3]
          simp; omega
        · intro h
          exact (h3 (sz - (ser x.1).length - (ser x.2).length)).2 (by omega)
      · have e2 := (h2 (sz - (ser x.1).length)).2 (by omega)
        simp only at e2
        simp only [e2, not_true_eq_false, if_false]
        constructor
        · intro h; omega
        · intro _; trivial
    · have e1 := (h1 sz).2 (by omega)
      simp only at e1
      simp only [e1, if_true, not_true_eq_false, if_false]
      constructor
      · intro h; omega
      · intro _; trivial
end

/-! ## The writer -/

theorem store_length (buf : List Nat) (p : Nat) (xs : List Nat) :
    (store buf p xs).length = buf.length := by
  induction xs generalizing buf p with
  | nil => rfl
  | cons x xs ih => simp [store, ih]

/-- Storing `xs` over the middle part of a buffer replaces that part. -/
theorem store_append (l1 old l2 xs : List Nat) (h : old.length = xs.length) :
    store (l1 ++ old ++ l2) l1.length xs = l1 ++ xs ++ l2 := by
  induction xs generalizing l1 old with
  | nil =>
    have : old = [] := List.length_eq_zero.mp h
    subst this
    simp [store]
  | cons x xs ih =>
    obtain ⟨o, old, rfl⟩ : ∃ o old2, old = o :: old2 := by
      cases old with
      | nil => simp at h
      | cons o old2 => exact ⟨o, old2, rfl⟩
    simp only [List.length_cons, Nat.add_right_cancel_iff] at h
    have e : (l1 ++ o :: old ++ l2).set l1.length x = (l1 ++ [x]) ++ old ++ l2 := by
      simp [List.set_append]
    have := ih (l1 ++ [x]) old h
    simp only [List.length_append, List.length_singleton] at this
    rw [store, e, this]
    simp

/-- Storing `xs` at offset `p` of a buffer that has room for it. -/
theorem store_eq (buf : List Nat) (p : Nat) (xs : List Nat) (h : p + xs.length ≤ buf.length) :
    store buf p xs = buf.take p ++ xs ++ buf.drop (p + xs.length) := by
  have e : buf = buf.take p ++ (buf.drop p).take xs.length ++ buf.drop (p + xs.length) := by
    rw [List.append_assoc, ← List.drop_drop, List.take_append_drop, List.take_append_drop]
  have hl : (buf.take p).length = p := by simp; omega
  have := store_append (buf.take p) ((buf.drop p).take xs.length) (buf.drop (p + xs.length)) xs
    (by simp; omega)
  rw [hl, ← e] at this
  exact this


theorem wrote_nil (out : L2ROutput) (len : Nat) :
    Wrote out { buf := out.buf, ptr := out.ptr, len := len } [] := by
  unfold Wrote
  simp

theorem wrote_trans (out out1 out2 : L2ROutput) (b1 b2 : List Nat)
    (hcap : out.ptr + b1.length + b2.length ≤ out.buf.length)
    (h1 : Wrote out out1 b1) (h2 : Wrote out1 out2 b2) : Wrote out out2 (b1 ++ b2) := by
  obtain ⟨h1b, h1p⟩ := h1
  obtain ⟨h2b, h2p⟩ := h2
  have hl : (out.buf.take out.ptr).length = out.ptr := by simp; omega
  constructor
  · rw [h2b, h1p, h1b]
    have e1 : (out.buf.take out.ptr ++ b1 ++ out.buf.drop (out.ptr + b1.length)).take
        (out.ptr + b1.length) = out.buf.take out.ptr ++ b1 := by
      rw [List.take_append_of_le_length (by simp; omega)]
      rw [List.take_of_length_le (by simp)]
    have e2 : (out.buf.take out.ptr ++ b1 ++ out.buf.drop (out.ptr + b1.length)).drop
        (out.ptr + b1.length + b2.length) = out.buf.drop (out.ptr + (b1 ++ b2).length) := by
      rw [List.drop_append_eq_append_drop, List.drop_of_length_le (by simp; omega)]
      simp only [List.length_append, List.length_take, List.nil_append, List.drop_drop]
      congr 1
      omega
    rw [e1, e2]
    simp
  · rw [h2p, h1p]
    simp
    omega

theorem l2r_emit_buf (out : L2ROutput) (n : Nat) (bytes : List Nat) :
    (l2r_emit out n bytes).buf = store out.buf out.ptr bytes := by
  unfold l2r_emit
  simp only []

theorem l2r_emit_ptr (out : L2ROutput) (n : Nat) (bytes : List Nat) :
    (l2r_emit out n bytes).ptr = out.ptr + n := by
  unfold l2r_emit
  simp only []

theorem l2r_emit_wrote (out : L2ROutput) (bytes : List Nat)
    (hcap : out.ptr + bytes.length ≤ out.buf.length) :
    Wrote out (l2r_emit out bytes.length bytes) bytes :=
  ⟨by rw [l2r_emit_buf]; exact store_eq _ _ _ hcap, by rw [l2r_emit_ptr]⟩

theorem wrote_emit_nil (out out1 : L2ROutput) (bytes : List Nat) (h : Wrote out out1 bytes) :
    Wrote out (l2r_emit out1 0 []) bytes := by
  obtain ⟨h1, h2⟩ := h
  refine ⟨?_, ?_⟩
  · rw [l2r_emit_buf, store, h1]
  · rw [l2r_emit_ptr, h2]
    rfl

theorem set_bitfield_gen8_initial_byte :
    ∀ t < 8, ∀ x < 32, set_bitfield_gen8 (set_bitfield_gen8 0 0 5 x) 5 8 t % 256 = t * 32 + x := by
  intro t ht
  interval_cases t <;> decide

theorem write_initial_byte_eq (t x : Nat) (ht : t < 8) (hx : x < 32) :
    write_initial_byte t x = [t * 32 + x] := by
  unfold write_initial_byte write_u8
  rw [set_bitfield_gen8_initial_byte t ht x hx]

theorem div_mod_byte (x a b : Nat) (hb : 256 ∣ b) : x % (a * b) / a % 256 = x / a % 256 := by
  rw [Nat.mod_mul_right_div_self, Nat.mod_mod_of_dvd _ hb]

theorem write_u16_eq (x : Nat) : write_u16 (x % 65536) = [x / 256 % 256, x % 256] := by
  unfold write_u16
  simp only [List.cons.injEq, and_true]
  constructor <;> omega

theorem write_u32_eq (x : Nat) :
    write_u32 (x % 4294967296) =
      [x / 16777216 % 256, x / 65536 % 256, x / 256 % 256, x % 256] := by
  unfold write_u32
  simp only [List.cons.injEq, and_true, Nat.div_div_eq_div_mul, Nat.reduceMul]
  refine ⟨?_, ?_, ?_, ?_⟩
  · exact div_mod_byte x 16777216 256 (by decide)
  · exact div_mod_byte x 65536 65536 (by decide)
  · exact div_mod_byte x 256 16777216 (by decide)
  · exact Nat.mod_mod_of_dvd x (by decide)

theorem write_u64_eq (x : Nat) :
    write_u64 (x % SIZE_MOD) =
      [x / 72057594037927936 % 256, x / 281474976710656 % 256, x / 1099511627776 % 256,
        x / 4294967296 % 256, x / 16777216 % 256, x / 65536 % 256, x / 256 % 256, x % 256] := by
  unfold write_u64 SIZE_MOD
  simp only [List.cons.injEq, and_true, Nat.div_div_eq_div_mul, Nat.reduceMul]
  refine ⟨?_, ?_, ?_, ?_, ?_, ?_, ?_, ?_⟩
  · exact div_mod_byte x 72057594037927936 256 (by decide)
  · exact div_mod_byte x 281474976710656 65536 (by decide)
  · exact div_mod_byte x 1099511627776 16777216 (by decide)
  · exact div_mod_byte x 4294967296 4294967296 (by decide)
  · exact div_mod_byte x 16777216 1099511627776 (by decide)
  · exact div_mod_byte x 65536 281474976710656 (by decide)
  · exact div_mod_byte x 256 72057594037927936 (by decide)
  · exact Nat.mod_mod_of_dvd x (by decide)
/-- The head writer emits the minimal head. -/
theorem l2r_write_uint64_header_wrote (ty x : Nat) (out : L2ROutput) (ht : ty < 8)
    (hcap : out.ptr + (ser_head ty x).length ≤ out.buf.length) :
    Wrote out (l2r_write_uint64_header ty x out) (ser_head ty x) := by
  rw [ser_head_length] at hcap
  unfold l2r_write_uint64_header ser_head
  simp only [MIN_DETERMINISTIC_UINT8_AS_UINT64, MIN_DETERMINISTIC_UINT16_AS_UINT64,
    MIN_DETERMINISTIC_UINT32_AS_UINT64, MIN_DETERMINISTIC_UINT64,
    ADDITIONAL_INFO_LONG_ARGUMENT_8_BITS, ADDITIONAL_INFO_LONG_ARGUMENT_16_BITS,
    ADDITIONAL_INFO_LONG_ARGUMENT_32_BITS, ADDITIONAL_INFO_LONG_ARGUMENT_64_BITS] at hcap ⊢
  have two : ∀ (b : Nat) (rest : List Nat), out.ptr + (1 + rest.length) ≤ out.buf.length →
      Wrote out (l2r_emit (l2r_emit out 1 [b]) rest.length rest) (b :: rest) := by
    intro b rest hc
    have h1 : Wrote out (l2r_emit out 1 [b]) [b] :=
      l2r_emit_wrote out [b] (by simp; omega)
    have h2 : Wrote (l2r_emit out 1 [b]) (l2r_emit (l2r_emit out 1 [b]) rest.length rest) rest :=
      l2r_emit_wrote _ rest (by
        rw [l2r_emit_buf, l2r_emit_ptr, store_length]; omega)
    exact wrote_trans out _ _ [b] rest (by simp; omega) h1 h2
  by_cases h1 : x < 24
  · simp only [h1, if_true] at hcap ⊢
    rw [write_initial_byte_eq ty (x % 256) ht (by omega), show x % 256 = x by omega]
    exact wrote_emit_nil out _ _ (l2r_emit_wrote out [_] (by simp; omega))
  by_cases h2 : x < 256
  · simp only [h1, h2, if_true, if_false] at hcap ⊢
    rw [write_initial_byte_eq ty 24 ht (by omega), write_u8, Nat.mod_mod,
      show x % 256 = x by omega]
    exact two _ [x] (by simp; omega)
  by_cases h3 : x < 65536
  · simp only [h1, h2, h3, if_true, if_false] at hcap ⊢
    rw [write_initial_byte_eq ty 25 ht (by omega), write_u16_eq]
    exact two _ [_, _] (by simp; omega)
  by_cases h4 : x < 4294967296
  · simp only [h1, h2, h3, h4, if_true, if_false] at hcap ⊢
    rw [write_initial_byte_eq ty 26 ht (by omega), write_u32_eq]
    exact two _ [_, _, _, _] (by simp; omega)
  · simp only [h1, h2, h3, h4, if_false] at hcap ⊢
    rw [write_initial_byte_eq ty 27 ht (by omega), write_u64_eq]
    exact two _ [_, _, _, _, _, _, _, _] (by simp; omega)

theorem wrote_length (out out1 : L2ROutput) (b : List Nat) (h : Wrote out out1 b)
    (hcap : out.ptr + b.length ≤ out.buf.length) : out1.buf.length = out.buf.length := by
  rw [h.1]
  simp
  omega

theorem l2r_write_cbor_string_buf (t len : Nat) (payload : List Nat) (out : L2ROutput) :
    (l2r_write_cbor_string t len payload out).buf =
      store (l2r_write_uint64_header t len out).buf (l2r_write_uint64_header t len out).ptr
        (payload.take len) := by
  unfold l2r_write_cbor_string memcpy
  simp only []

theorem l2r_write_cbor_string_ptr (t len : Nat) (payload : List Nat) (out : L2ROutput) :
    (l2r_write_cbor_string t len payload out).ptr =
      (l2r_write_uint64_header t len out).ptr + len := by
  unfold l2r_write_cbor_string
  simp only []

theorem l2r_writer_for_serialized_buf (size : Nat) (payload : List Nat) (out : L2ROutput) :
    (l2r_writer_for_serialized size payload out).buf =
      store out.buf out.ptr (payload.take size) := by
  unfold l2r_writer_for_serialized memcpy
  simp only []

theorem l2r_writer_for_serialized_ptr (size : Nat) (payload : List Nat) (out : L2ROutput) :
    (l2r_writer_for_serialized size payload out).ptr = out.ptr + size := by
  unfold l2r_writer_for_serialized
  simp only []

/-- Writing a serialized value copies its bytes. -/
theorem l2r_writer_for_serialized_wrote (size : Nat) (payload : List Nat) (out : L2ROutput)
    (hs : size ≤ payload.length) (hcap : out.ptr + size ≤ out.buf.length) :
    Wrote out (l2r_writer_for_serialized size payload out) (payload.take size) := by
  have hl : (payload.take size).length = size := by simp; omega
  refine ⟨?_, ?_⟩
  · rw [l2r_writer_for_serialized_buf]
    exact store_eq _ _ _ (by omega)
  · rw [l2r_writer_for_serialized_ptr, hl]

theorem l2r_write_simple_value_wrote (v : Nat) (out : L2ROutput) (hv : v < 256)
    (hcap : out.ptr + (ser (cbor.CBOR_Case_Simple_value v)).length ≤ out.buf.length) :
    Wrote out (l2r_write_simple_value v out) (ser (cbor.CBOR_Case_Simple_value v)) := by
  unfold l2r_write_simple_value
  simp only [ser, MAX_SIMPLE_VALUE_ADDITIONAL_INFO, CBOR_MAJOR_TYPE_SIMPLE_VALUE,
    ADDITIONAL_INFO_LONG_ARGUMENT_8_BITS] at hcap ⊢
  by_cases h : v ≤ 23
  · simp only [h, if_true] at hcap ⊢
    rw [write_initial_byte_eq 7 v (by omega) (by omega)]
    exact wrote_emit_nil out _ _ (wrote_emit_nil out _ _ (l2r_emit_wrote out [_] hcap))
  · simp only [h, if_false] at hcap ⊢
    rw [write_initial_byte_eq 7 24 (by omega) (by omega), write_u8, Nat.mod_eq_of_lt hv]
    apply wrote_emit_nil
    have h1 : Wrote out (l2r_emit out 1 [7 * 32 + 24]) [7 * 32 + 24] :=
      l2r_emit_wrote out [_] (by simp at hcap ⊢; omega)
    have h2 : Wrote (l2r_emit out 1 [7 * 32 + 24]) (l2r_emit (l2r_emit out 1 [7 * 32 + 24]) 1 [v])
        [v] :=
      l2r_emit_wrote _ [v] (by
        rw [l2r_emit_buf, l2r_emit_ptr, store_length]; simp at hcap ⊢; omega)
    exact wrote_trans out _ _ [_] [v] (by simp at hcap ⊢; omega) h1 h2

mutual
/-- The writer emits the reference serialization at the cursor and advances the cursor past
it, leaving the rest of the buffer as it was. -/
theorem cbor_l2r_write_wrote : ∀ c : cbor, cbor_wf c → ∀ out : L2ROutput,
    out.ptr + (ser c).length ≤ out.buf.length → Wrote out (cbor_l2r_write c out) (ser c)
  | .CBOR_Case_Int64 t v, hwf, out, hcap => by
    simp only [cbor_wf] at hwf
    simp only [ser] at hcap ⊢
    simp only [cbor_l2r_write, l2r_write_int64]
    exact wrote_emit_nil out _ _ (l2r_write_uint64_header_wrote t v out hwf.1 hcap)
  | .CBOR_Case_Simple_value v, hwf, out, hcap => by
    simp only [cbor_wf] at hwf
    simp only [cbor_l2r_write]
    exact l2r_write_simple_value_wrote v out hwf hcap
  | .CBOR_Case_String t len payload, hwf, out, hcap => by
    simp only [cbor_wf] at hwf
    have hl : (payload.take len).length = len := by simp; omega
    simp only [ser, List.length_append, hl] at hcap ⊢
    simp only [cbor_l2r_write]
    have h1 := l2r_write_uint64_header_wrote t len out hwf.1 (by omega)
    have hlen := wrote_length _ _ _ h1 (by omega)
    refine wrote_trans out _ _ _ _ (by rw [hl]; omega) h1 ⟨?_, ?_⟩
    · rw [l2r_write_cbor_string_buf]
      exact store_eq _ _ _ (by rw [hlen, h1.2, hl]; omega)
    · rw [l2r_write_cbor_string_ptr, hl]
  | .CBOR_Case_Tagged tag payload, hwf, out, hcap => by
    simp only [cbor_wf] at hwf
    simp only [ser, List.length_append] at hcap ⊢
    simp only [cbor_l2r_write, CBOR_MAJOR_TYPE_TAGGED]
    have h1 := l2r_write_uint64_header_wrote 6 tag out (by omega) (by omega)
    have hlen := wrote_length _ _ _ h1 (by omega)
    exact wrote_trans out _ _ _ _ (by omega) h1
      (cbor_l2r_write_wrote payload hwf.2 _ (by rw [hlen, h1.2]; omega))
  | .CBOR_Case_Array len items, hwf, out, hcap => by
    simp only [cbor_wf] at hwf
    simp only [ser, List.length_append] at hcap ⊢
    simp only [cbor_l2r_write, CBOR_MAJOR_TYPE_ARRAY]
    have h1 := wrote_emit_nil out _ _ (l2r_write_uint64_header_wrote 4 len out (by omega)
      (by omega))
    have hlen := wrote_length _ _ _ h1 (by omega)
    exact wrote_trans out _ _ _ _ (by omega) h1
      (cbor_l2r_write_array_loop_wrote items hwf.2.2 len 0 (by omega) _
        (by rw [hlen, h1.2]; omega))
  | .CBOR_Case_Map len entries, hwf, out, hcap => by
    simp only [cbor_wf] at hwf
    simp only [ser, List.length_append] at hcap ⊢
    simp only [cbor_l2r_write, CBOR_MAJOR_TYPE_MAP]
    have h1 := wrote_emit_nil out _ _ (l2r_write_uint64_header_wrote 5 len out (by omega)
      (by omega))
    have hlen := wrote_length _ _ _ h1 (by omega)
    exact wrote_trans out _ _ _ _ (by omega) h1
      (cbor_l2r_write_map_loop_wrote entries hwf.2.2 len 0 (by omega) _
        (by rw [hlen, h1.2]; omega))
  | .CBOR_Case_Serialized size bytes, hwf, out, hcap => by
    simp only [cbor_wf] at hwf
    have hl : (bytes.take size).length = size := by simp; omega
    simp only [ser, hl] at hcap ⊢
    simp only [cbor_l2r_write]
    exact l2r_writer_for_serialized_wrote size bytes out hwf.2 hcap
/-- The loop over the items of an array emits their serializations in index order. -/
theorem cbor_l2r_write_array_loop_wrote : ∀ items : List cbor, cbor_wf_items items →
    ∀ len r, r + items.length = len → ∀ out : L2ROutput,
    out.ptr + (ser_items items).length ≤ out.buf.length →
    Wrote out (cbor_l2r_write_array_loop items len r out) (ser_items items)
  | [], _, len, r, _, out, _ => by
    simp only [cbor_l2r_write_array_loop, ser_items]
    exact wrote_nil out out.len
  | x :: rest, hwf, len, r, hlen, out, hcap => by
    simp only [cbor_wf_items] at hwf
    simp only [List.length_cons] at hlen
    simp only [ser_items, List.length_append] at hcap ⊢
    have hr : r < len := by omega
    simp only [cbor_l2r_write_array_loop, hr, if_true]
    have h1 := cbor_l2r_write_wrote x hwf.1 out (by omega)
    have hl := wrote_length _ _ _ h1 (by omega)
    exact wrote_trans out _ _ _ _ (by omega) h1
      (cbor_l2r_write_array_loop_wrote rest hwf.2 len (r + 1) (by omega) _
        (by rw [hl, h1.2]; omega))
/-- The loop over the entries of a map emits each key and then its value, in index order. -/
theorem cbor_l2r_write_map_loop_wrote : ∀ entries : List (cbor × cbor),
    cbor_wf_entries entries → ∀ len r, r + entries.length = len → ∀ out : L2ROutput,
    out.ptr + (ser_entries entries).length ≤ out.buf.length →
    Wrote out (cbor_l2r_write_map_loop entries len r out) (ser_entries entries)
  | [], _, len, r, _, out, _ => by
    simp only [cbor_l2r_write_map_loop, ser_entries]
    exact wrote_nil out out.len
  | x :: rest, hwf, len, r, hlen, out, hcap => by
    simp only [cbor_wf_entries] at hwf
    simp only [List.length_cons] at hlen
    simp only [ser_entries, List.length_append] at hcap ⊢
    have hr : r < len := by omega
    simp only [cbor_l2r_write_map_loop, hr, if_true]
    have h1 := cbor_l2r_write_wrote x.1 hwf.1 out (by omega)
    have hl1 := wrote_length _ _ _ h1 (by omega)
    have h2 := cbor_l2r_write_wrote x.2 hwf.2.1 (cbor_l2r_write x.1 out)
      (by rw [hl1, h1.2]; omega)
    have h12 := wrote_trans out _ _ _ _ (by omega) h1 h2
    have hl2 := wrote_length _ _ _ h12 (by simp; omega)
    exact wrote_trans out _ _ _ _ (by simp; omega) h12
      (cbor_l2r_write_map_loop_wrote rest hwf.2.2 len (r + 1) (by omega) _
        (by rw [hl2, h12.2]; simp; omega))
end

/-! ## Claims on the writer -/

/-- The top-level writer on a well-formed value whose serialization fits. -/
theorem cbor_write_ok (c : cbor) (hwf : cbor_wf c) (out : List Nat) (sz : Nat)
    (hs : (ser c).length ≤ sz) (hcap : sz ≤ out.length) :
    cbor_write c out sz = ((ser c).length, ser c ++ out.drop (ser c).length) := by
  have h1 := (cbor_size_comp_exact c hwf sz).1 hs
  simp only at h1
  have h2 := cbor_l2r_write_wrote c hwf { buf := out, ptr := 0, len := sz }
    (by simp only [Nat.zero_add]; omega)
  unfold cbor_write
  simp only [h1, Bool.false_eq_true, if_false]
  rw [h2.1]
  simp
  omega

/-- The top-level writer with a capacity below the size of the serialization. -/
theorem cbor_write_short (c : cbor) (hwf : cbor_wf c) (out : List Nat) (sz : Nat)
    (hs : sz < (ser c).length) : cbor_write c out sz = (0, out) := by
  have h1 := (cbor_size_comp_exact c hwf sz).2 hs
  simp only at h1
  unfold cbor_write
  simp only [h1, if_true]

/-- The top-level writer on a serialized value: the bytes are copied. -/
theorem cbor_write_serialized (c : Nat) (a out : List Nat) (sz : Nat) (hc : c ≤ a.length)
    (hs : c ≤ sz) (hcap : sz ≤ out.length) :
    cbor_write (cbor.CBOR_Case_Serialized c a) out sz = (c, a.take c ++ out.drop c) := by
  have h2 := l2r_writer_for_serialized_wrote c a { buf := out, ptr := 0, len := sz } hc
    (by simp only [Nat.zero_add]; omega)
  have hl : (a.take c).length = c := by simp; omega
  unfold cbor_write
  simp only [cbor_size_comp, size_comp_for_serialized_eq, if_pos hs, Bool.false_eq_true,
    if_false, cbor_l2r_write]
  rw [h2.1, hl]
  simp
  omega

/-- C1. Round-trip (serialized identity): when `cbor_read` succeeds on a buffer `a` of at least
`len` bytes with a payload of `c` bytes, `cbor_write` of that payload into any output buffer
of capacity `sz ≥ c` returns `c`, and the `c` bytes written are exactly `a[0..c)` (the rest
of the output buffer is unchanged). -/
theorem round_trip_serialized (a : List Nat) (len : Nat) (hlen : len ≤ a.length)
    (h : (cbor_read a len).cbor_read_is_success = true) :
    ∃ c, (cbor_read a len).cbor_read_payload = cbor.CBOR_Case_Serialized c a ∧
      ∀ (out : List Nat) (sz : Nat), c ≤ sz → sz ≤ out.length →
        cbor_write (cbor_read a len).cbor_read_payload out sz = (c, a.take c ++ out.drop c) := by
  have h0 := (cbor_read_success_iff a len).1 h
  have hv : validate_raw_data_item a len 0 = ((validate_raw_data_item a len 0).1, 0) :=
    Prod.ext rfl h0
  have hb := validate_raw_data_item_bounds a len h0
  refine ⟨(validate_raw_data_item a len 0).1, by rw [cbor_read_of_ok a len _ hv], ?_⟩
  intro out sz hs hcap
  rw [cbor_read_of_ok a len _ hv]
  exact cbor_write_serialized _ a out sz (by omega) hs hcap

theorem round_trip_serialized_witness :
    (1 : Nat) ≤ [0x00].length ∧ (cbor_read [0x00] 1).cbor_read_is_success = true ∧
    ∃ c, (cbor_read [0x00] 1).cbor_read_payload = cbor.CBOR_Case_Serialized c [0x00] ∧
      ∀ (out : List Nat) (sz : Nat), c ≤ sz → sz ≤ out.length →
        cbor_write (cbor_read [0x00] 1).cbor_read_payload out sz
          = (c, List.take c [0x00] ++ out.drop c) :=
  ⟨by decide, by decide, round_trip_serialized [0x00] 1 (by decide) (by decide)⟩

/-- C3. Size-compute exactness: for every well-formed value `v` whose reference encoding has
`s` bytes and every capacity `sz ≥ s`, `cbor_size_comp v sz` returns `sz - s` without raising
the error flag and `cbor_write v out sz` returns `s`; `cbor_write` succeeds with capacity
exactly `s`, and with any smaller capacity (in particular `s - 1`) the error flag is raised
and `cbor_write` returns 0. -/
theorem size_comp_exactness (v : cbor) (hwf : cbor_wf v) (out : List Nat) :
    (∀ sz, (ser v).length ≤ sz →
        cbor_size_comp v sz false = (sz - (ser v).length, false) ∧
        (cbor_write v out sz).1 = (ser v).length) ∧
      (cbor_write v out (ser v).length).1 = (ser v).length ∧
      (∀ sz, sz < (ser v).length →
        (cbor_size_comp v sz false).2 = true ∧ (cbor_write v out sz).1 = 0) := by
  have key : ∀ sz, (ser v).length ≤ sz →
      cbor_size_comp v sz false = (sz - (ser v).length, false) ∧
        (cbor_write v out sz).1 = (ser v).length := by
    intro sz hs
    have h1 := (cbor_size_comp_exact v hwf sz).1 hs
    simp only at h1
    refine ⟨h1, ?_⟩
    unfold cbor_write
    simp only [h1, Bool.false_eq_true, if_false]
    omega
  refine ⟨key, (key _ (Nat.le_refl _)).2, ?_⟩
  intro sz hs
  refine ⟨(cbor_size_comp_exact v hwf sz).2 hs, ?_⟩
  rw [cbor_write_short v hwf out sz hs]

theorem size_comp_exactness_witness :
    cbor_wf (cbor.CBOR_Case_Array 2
      [cbor.CBOR_Case_Int64 0 1000, cbor.CBOR_Case_String 3 2 [0x61, 0x62]]) ∧
    ((∀ sz, (ser (cbor.CBOR_Case_Array 2
          [cbor.CBOR_Case_Int64 0 1000, cbor.CBOR_Case_String 3 2 [0x61, 0x62]])).length ≤ sz →
        cbor_size_comp (cbor.CBOR_Case_Array 2
          [cbor.CBOR_Case_Int64 0 1000, cbor.CBOR_Case_String 3 2 [0x61, 0x62]]) sz false
          = (sz - (ser (cbor.CBOR_Case_Array 2
          [cbor.CBOR_Case_Int64 0 1000, cbor.CBOR_Case_String 3 2 [0x61, 0x62]])).length, false) ∧
        (cbor_write (cbor.CBOR_Case_Array 2
          [cbor.CBOR_Case_Int64 0 1000, cbor.CBOR_Case_String 3 2 [0x61, 0x62]]) [] sz).1
          = (ser (cbor.CBOR_Case_Array 2
          [cbor.CBOR_Case_Int64 0 1000, cbor.CBOR_Case_String 3 2 [0x61, 0x62]])).length) ∧
      (cbor_write (cbor.CBOR_Case_Array 2
          [cbor.CBOR_Case_Int64 0 1000, cbor.CBOR_Case_String 3 2 [0x61, 0x62]]) []
        (ser (cbor.CBOR_Case_Array 2
          [cbor.CBOR_Case_Int64 0 1000, cbor.CBOR_Case_String 3 2 [0x61, 0x62]])).length).1
        = (ser (cbor.CBOR_Case_Array 2
          [cbor.CBOR_Case_Int64 0 1000, cbor.CBOR_Case_String 3 2 [0x61, 0x62]])).length ∧
      (∀ sz, sz < (ser (cbor.CBOR_Case_Array 2
          [cbor.CBOR_Case_Int64 0 1000, cbor.CBOR_Case_String 3 2 [0x61, 0x62]])).length →
        (cbor_size_comp (cbor.CBOR_Case_Array 2
          [cbor.CBOR_Case_Int64 0 1000, cbor.CBOR_Case_String 3 2 [0x61, 0x62]]) sz false).2
          = true ∧
        (cbor_write (cbor.CBOR_Case_Array 2
          [cbor.CBOR_Case_Int64 0 1000, cbor.CBOR_Case_String 3 2 [0x61, 0x62]]) [] sz).1 = 0)) :=
  ⟨by simp [cbor_wf, cbor_wf_items, SIZE_MOD],
    size_comp_exactness _ (by simp [cbor_wf, cbor_wf_items, SIZE_MOD]) []⟩

/-- C4. The writer is all-or-nothing: for every well-formed value `v` and every capacity `sz`
strictly smaller than the encoded size of `v`, `cbor_write v out sz` returns 0 and leaves
every byte of the output buffer unchanged. -/
theorem writer_all_or_nothing (v : cbor) (hwf : cbor_wf v) (out : List Nat) (sz : Nat)
    (hs : sz < (ser v).length) : cbor_write v out sz = (0, out) :=
  cbor_write_short v hwf out sz hs

theorem writer_all_or_nothing_witness :
    cbor_wf (cbor.CBOR_Case_Tagged 1 (cbor.CBOR_Case_Int64 0 1363896240)) ∧
    5 < (ser (cbor.CBOR_Case_Tagged 1 (cbor.CBOR_Case_Int64 0 1363896240))).length ∧
    cbor_write (cbor.CBOR_Case_Tagged 1 (cbor.CBOR_Case_Int64 0 1363896240))
      [9, 9, 9, 9, 9, 9, 9, 9] 5 = (0, [9, 9, 9, 9, 9, 9, 9, 9]) :=
  ⟨by simp [cbor_wf, SIZE_MOD], by decide,
    writer_all_or_nothing _ (by simp [cbor_wf, SIZE_MOD]) _ 5 (by decide)⟩

/-- C5. The bytes emitted by `cbor_l2r_write` and `cbor_write` on a well-formed value are the
reference serialization `ser`, defined by recursion on the value (`ser_head` for integers,
strings, tags, arrays and maps; array items and map entries in index order; serialized bytes
verbatim): `cbor_l2r_write` stores `ser v` at the cursor and advances the cursor past it, and
`cbor_write` with a sufficient capacity returns its length and leaves `ser v` at the start
of the output buffer. -/
theorem writer_emits_reference_serialization (v : cbor) (hwf : cbor_wf v) :
    (∀ out : L2ROutput, out.ptr + (ser v).length ≤ out.buf.length →
        (cbor_l2r_write v out).buf =
            out.buf.take out.ptr ++ ser v ++ out.buf.drop (out.ptr + (ser v).length) ∧
          (cbor_l2r_write v out).ptr = out.ptr + (ser v).length) ∧
      (∀ (out : List Nat) (sz : Nat), (ser v).length ≤ sz → sz ≤ out.length →
        cbor_write v out sz = ((ser v).length, ser v ++ out.drop (ser v).length)) :=
  ⟨fun out hcap => cbor_l2r_write_wrote v hwf out hcap,
    fun out sz hs hcap => cbor_write_ok v hwf out sz hs hcap⟩

theorem writer_emits_reference_serialization_witness :
    cbor_wf (cbor.CBOR_Case_Map 2
      [(cbor.CBOR_Case_String 3 1 [0x62], cbor.CBOR_Case_Int64 0 2),
       (cbor.CBOR_Case_String 3 1 [0x61], cbor.CBOR_Case_Int64 0 1)]) ∧
    ser (cbor.CBOR_Case_Map 2
      [(cbor.CBOR_Case_String 3 1 [0x62], cbor.CBOR_Case_Int64 0 2),
       (cbor.CBOR_Case_String 3 1 [0x61], cbor.CBOR_Case_Int64 0 1)])
      = [0xA2, 0x61, 0x62, 0x02, 0x61, 0x61, 0x01] ∧
    ((∀ out : L2ROutput, out.ptr + (ser (cbor.CBOR_Case_Map 2
      [(cbor.CBOR_Case_String 3 1 [0x62], cbor.CBOR_Case_Int64 0 2),
       (cbor.CBOR_Case_String 3 1 [0x61], cbor.CBOR_Case_Int64 0 1)])).length ≤ out.buf.length →
        (cbor_l2r_write (cbor.CBOR_Case_Map 2
      [(cbor.CBOR_Case_String 3 1 [0x62], cbor.CBOR_Case_Int64 0 2),
       (cbor.CBOR_Case_String 3 1 [0x61], cbor.CBOR_Case_Int64 0 1)]) out).buf =
            out.buf.take out.ptr ++ ser (cbor.CBOR_Case_Map 2
      [(cbor.CBOR_Case_String 3 1 [0x62], cbor.CBOR_Case_Int64 0 2),
       (cbor.CBOR_Case_String 3 1 [0x61], cbor.CBOR_Case_Int64 0 1)]) ++
            out.buf.drop (out.ptr + (ser (cbor.CBOR_Case_Map 2
      [(cbor.CBOR_Case_String 3 1 [0x62], cbor.CBOR_Case_Int64 0 2),
       (cbor.CBOR_Case_String 3 1 [0x61], cbor.CBOR_Case_Int64 0 1)])).length) ∧
          (cbor_l2r_write (cbor.CBOR_Case_Map 2
      [(cbor.CBOR_Case_String 3 1 [0x62], cbor.CBOR_Case_Int64 0 2),
       (cbor.CBOR_Case_String 3 1 [0x61], cbor.CBOR_Case_Int64 0 1)]) out).ptr =
            out.ptr + (ser (cbor.CBOR_Case_Map 2
      [(cbor.CBOR_Case_String 3 1 [0x62], cbor.CBOR_Case_Int64 0 2),
       (cbor.CBOR_Case_String 3 1 [0x61], cbor.CBOR_Case_Int64 0 1)])).length) ∧
      (∀ (out : List Nat) (sz : Nat), (ser (cbor.CBOR_Case_Map 2
      [(cbor.CBOR_Case_String 3 1 [0x62], cbor.CBOR_Case_Int64 0 2),
       (cbor.CBOR_Case_String 3 1 [0x61], cbor.CBOR_Case_Int64 0 1)])).length ≤ sz →
        sz ≤ out.length →
        cbor_write (cbor.CBOR_Case_Map 2
      [(cbor.CBOR_Case_String 3 1 [0x62], cbor.CBOR_Case_Int64 0 2),
       (cbor.CBOR_Case_String 3 1 [0x61], cbor.CBOR_Case_Int64 0 1)]) out sz =
          ((ser (cbor.CBOR_Case_Map 2
      [(cbor.CBOR_Case_String 3 1 [0x62], cbor.CBOR_Case_Int64 0 2),
       (cbor.CBOR_Case_String 3 1 [0x61], cbor.CBOR_Case_Int64 0 1)])).length,
           ser (cbor.CBOR_Case_Map 2
      [(cbor.CBOR_Case_String 3 1 [0x62], cbor.CBOR_Case_Int64 0 2),
       (cbor.CBOR_Case_String 3 1 [0x61], cbor.CBOR_Case_Int64 0 1)]) ++
           out.drop (ser (cbor.CBOR_Case_Map 2
      [(cbor.CBOR_Case_String 3 1 [0x62], cbor.CBOR_Case_Int64 0 2),
       (cbor.CBOR_Case_String 3 1 [0x61], cbor.CBOR_Case_Int64 0 1)])).length))) :=
  ⟨by simp [cbor_wf, cbor_wf_entries, SIZE_MOD], by decide,
    writer_emits_reference_serialization _ (by simp [cbor_wf, cbor_wf_entries, SIZE_MOD])⟩

/-- A successful strict read returns the result of the plain read. -/
theorem cbor_read_deterministically_encoded_success (a : List Nat) (sz : Nat)
    (h : (cbor_read_deterministically_encoded a sz).cbor_read_is_success = true) :
    (validate_raw_data_item a sz 0).2 = 0 ∧
      deterministic_loop (a.length + 1) true a 1 = true ∧
      cbor_read_deterministically_encoded a sz = cbor_read a sz := by
  by_cases h0 : (validate_raw_data_item a sz 0).2 = 0
  · have hv : validate_raw_data_item a sz 0 = ((validate_raw_data_item a sz 0).1, 0) :=
      Prod.ext rfl h0
    rw [cbor_read_deterministically_encoded_of_ok a sz _ hv] at h ⊢
    by_cases ht : deterministic_loop (a.length + 1) true a 1 = true
    · rw [if_pos ht]
      exact ⟨h0, ht, rfl⟩
    · rw [if_neg ht] at h
      exact Bool.noConfusion h
  · rw [cbor_read_deterministically_encoded_of_error a sz h0,
      cbor_read_of_error a sz h0] at h
    exact Bool.noConfusion h

/-- C10. Deterministic idempotence: when `cbor_read_deterministically_encoded` succeeds on a
buffer `a` of at least `len` bytes, its payload is the serialized value of the `c` bytes
consumed (`c = len` when the remainder is empty), and `cbor_write` of that payload into a
buffer of capacity at least `c` returns `c` and reproduces `a[0..c)` exactly. -/
theorem deterministic_idempotence (a : List Nat) (len : Nat) (hlen : len ≤ a.length)
    (h : (cbor_read_deterministically_encoded a len).cbor_read_is_success = true) :
    ∃ c, c ≤ len ∧
      (cbor_read_deterministically_encoded a len).cbor_read_payload
        = cbor.CBOR_Case_Serialized c a ∧
      (cbor_read_deterministically_encoded a len).cbor_read_remainder_length = len - c ∧
      ∀ (out : List Nat) (sz : Nat), c ≤ sz → sz ≤ out.length →
        cbor_write (cbor_read_deterministically_encoded a len).cbor_read_payload out sz
          = (c, a.take c ++ out.drop c) := by
  obtain ⟨h0, -, he⟩ := cbor_read_deterministically_encoded_success a len h
  have hv : validate_raw_data_item a len 0 = ((validate_raw_data_item a len 0).1, 0) :=
    Prod.ext rfl h0
  have hb := validate_raw_data_item_bounds a len h0
  rw [he, cbor_read_of_ok a len _ hv]
  exact ⟨_, hb.2, rfl, rfl, fun out sz hs hcap =>
    cbor_write_serialized _ a out sz (by omega) hs hcap⟩

theorem deterministic_idempotence_witness :
    (6 : Nat) ≤ [0xC1, 0x1A, 0x51, 0x4B, 0x67, 0xB0].length ∧
    (cbor_read_deterministically_encoded
      [0xC1, 0x1A, 0x51, 0x4B, 0x67, 0xB0] 6).cbor_read_is_success = true ∧
    ∃ c, c ≤ 6 ∧
      (cbor_read_deterministically_encoded [0xC1, 0x1A, 0x51, 0x4B, 0x67, 0xB0] 6).cbor_read_payload
        = cbor.CBOR_Case_Serialized c [0xC1, 0x1A, 0x51, 0x4B, 0x67, 0xB0] ∧
      (cbor_read_deterministically_encoded
        [0xC1, 0x1A, 0x51, 0x4B, 0x67, 0xB0] 6).cbor_read_remainder_length = 6 - c ∧
      ∀ (out : List Nat) (sz : Nat), c ≤ sz → sz ≤ out.length →
        cbor_write (cbor_read_deterministically_encoded
            [0xC1, 0x1A, 0x51, 0x4B, 0x67, 0xB0] 6).cbor_read_payload out sz
          = (c, List.take c [0xC1, 0x1A, 0x51, 0x4B, 0x67, 0xB0] ++ out.drop c) :=
  ⟨by decide, by decide,
    deterministic_idempotence [0xC1, 0x1A, 0x51, 0x4B, 0x67, 0xB0] 6 (by decide) (by decide)⟩

/-! ## The iterative walk -/

theorem leaf_length_pos (a : List Nat) : 1 ≤ leaf_length a := by
  have := jump_header_pos a
  unfold leaf_length
  omega

/-- A walk passes at least one byte per pending item. -/
theorem Walk.bounds {a : List Nat} {p n q : Nat} (h : Walk a p n q) : p + n ≤ q := by
  induction h with
  | done p => omega
  | step p n q hn _ _ ih =>
    have := leaf_length_pos (a.drop p)
    omega

/-- A walk ends at one offset only. -/
theorem Walk.unique {a : List Nat} {p n q q2 : Nat} (h : Walk a p n q) (h2 : Walk a p n q2) :
    q = q2 := by
  induction h generalizing q2 with
  | done p =>
    cases h2 with
    | done => rfl
    | step _ _ _ hn _ _ => exact absurd rfl hn
  | step p n q hn _ _ ih =>
    cases h2 with
    | done => exact absurd rfl hn
    | step _ _ _ _ _ hw => exact ih hw

theorem Walk.step_inv {a : List Nat} {p n q : Nat} (h : Walk a p n q) (hn : n ≠ 0) :
    leaf_valid (a.drop p) ∧
      Walk a (p + leaf_length (a.drop p)) (leaf_children (a.drop p) + n - 1) q := by
  cases h with
  | done => exact absurd rfl hn
  | step _ _ _ _ hv hw => exact ⟨hv, hw⟩

/-- A walk over `n + m` items is a walk over `n` items followed by a walk over `m` items. -/
theorem Walk.split {a : List Nat} {p N q : Nat} (h : Walk a p N q) :
    ∀ n m, N = n + m → ∃ q1, Walk a p n q1 ∧ Walk a q1 m q := by
  induction h with
  | done p =>
    intro n m hN
    have hn : n = 0 := by omega
    have hm : m = 0 := by omega
    subst hn hm
    exact ⟨p, Walk.done p, Walk.done p⟩
  | step p N q hN hv hw ih =>
    intro n m hnm
    by_cases hn : n = 0
    · subst hn
      have : m = N := by omega
      subst this
      exact ⟨p, Walk.done p, Walk.step p m q hN hv hw⟩
    · obtain ⟨q1, h1, h2⟩ := ih (leaf_children (a.drop p) + n - 1) m (by omega)
      exact ⟨q1, Walk.step p n q1 hn hv h1, h2⟩

theorem Walk.append {a : List Nat} {p n q1 m q : Nat} (h1 : Walk a p n q1)
    (h2 : Walk a q1 m q) : Walk a p (n + m) q := by
  induction h1 with
  | done p => simpa using h2
  | step p n q1 hn hv _ ih =>
    refine Walk.step p (n + m) q (by omega) hv ?_
    have := ih h2
    rwa [show leaf_children (a.drop p) + (n + m) - 1 = leaf_children (a.drop p) + n - 1 + m
      by omega]

/-- A data item is its leaf followed by its children. -/
theorem Walk.item_iff {a : List Nat} {p q : Nat} :
    Walk a p 1 q ↔
      leaf_valid (a.drop p) ∧ Walk a (p + leaf_length (a.drop p)) (leaf_children (a.drop p)) q := by
  constructor
  · intro h
    have := h.step_inv (by decide)
    simpa using this
  · rintro ⟨hv, hw⟩
    exact Walk.step p 1 q (by decide) hv (by simpa using hw)

/-- Walks on a buffer and on the buffer from an offset on. -/
theorem Walk.drop_iff {a : List Nat} {s p n q : Nat} :
    Walk (a.drop s) p n q ↔ Walk a (s + p) n (s + q) := by
  constructor
  · intro h
    induction h with
    | done p => exact Walk.done _
    | step p n q hn hv _ ih =>
      rw [List.drop_drop] at hv ih
      rw [← Nat.add_assoc] at ih
      exact Walk.step _ _ _ hn hv ih
  · intro h
    generalize hp : s + p = p2 at h
    generalize hq : s + q = q2 at h
    induction h generalizing p q with
    | done p2 =>
      have : p = q := by omega
      subst this
      exact Walk.done _
    | step p2 n q2 hn hv hw ih =>
      subst hp
      have hb := hw.bounds
      have e : List.drop p (List.drop s a) = List.drop (s + p) a := by
        rw [List.drop_drop]
      refine Walk.step _ _ _ hn (by rwa [e]) ?_
      rw [e]
      exact ih (by omega) hq

/-- A successful run of the validator follows a walk. -/
theorem walk_of_validate_loop (f : Nat) (a : List Nat) (len p n c : Nat)
    (hf : len - p < f) (hp : p ≤ len)
    (h : validate_raw_data_item_loop f a len p n 0 = (c, 0)) : Walk a p n c := by
  induction f generalizing p n with
  | zero => omega
  | succ f ih =>
    by_cases h1 : n = 0
    · subst h1
      rw [validate_raw_data_item_loop_done] at h
      simp only [Prod.mk.injEq, and_true] at h
      subst h
      exact Walk.done p
    · obtain ⟨k, n_, ht⟩ := validate_raw_data_item_loop_inv f a len p n h1 (by rw [h])
      have hb := ht.leaf_bounds
      have hfit := ht.fits
      rw [validate_raw_data_item_loop_turn f a len p n k n_ ht] at h
      obtain ⟨t1, t2, t3, t4, t5, t6⟩ := (validateTurn_iff _ _ _ _ _ _).1 ht
      subst t3 t4
      exact Walk.step p n c h1 t2 (ih _ _ (by omega) (by omega) h)

/-- A walk that ends within `len` is a successful run of the validator. -/
theorem validate_loop_of_walk (f : Nat) (a : List Nat) (len p n c : Nat)
    (hw : Walk a p n c) (hc : c ≤ len) (hf : len - p < f) :
    validate_raw_data_item_loop f a len p n 0 = (c, 0) := by
  induction hw generalizing f with
  | done p =>
    obtain ⟨f, rfl⟩ : ∃ f', f = f' + 1 := ⟨f - 1, by omega⟩
    rw [validate_raw_data_item_loop_done]
  | step p n q hn hv hw ih =>
    obtain ⟨f, rfl⟩ : ∃ f', f = f' + 1 := ⟨f - 1, by omega⟩
    have hb := hw.bounds
    have hl := leaf_length_pos (a.drop p)
    have ht : ValidateTurn a len p n (leaf_length (a.drop p)) (leaf_children (a.drop p)) :=
      (validateTurn_iff _ _ _ _ _ _).2 ⟨hn, hv, rfl, rfl, by omega, by omega⟩
    rw [validate_raw_data_item_loop_turn f a len p n _ _ ht]
    exact ih f hc (by omega)

theorem walk_of_validate (a : List Nat) (len c : Nat)
    (h : validate_raw_data_item a len 0 = (c, 0)) : Walk a 0 1 c ∧ c ≤ len := by
  have hb := validate_raw_data_item_bounds a len (by rw [h])
  rw [h] at hb
  exact ⟨walk_of_validate_loop (len + 1) a len 0 1 c (by omega) (Nat.zero_le _) h, hb.2⟩

theorem validate_of_walk (a : List Nat) (len c : Nat) (hw : Walk a 0 1 c) (hc : c ≤ len) :
    validate_raw_data_item a len 0 = (c, 0) :=
  validate_loop_of_walk (len + 1) a len 0 1 c hw hc (by omega)

/-! ## The jump engine -/

theorem read_header_argument_as_uint64_lt (a : List Nat) :
    read_header_argument_as_uint64 a < SIZE_MOD := by
  simp only [read_header_argument_as_uint64, read_u8, read_u16, read_u32, read_u64, SIZE_MOD]
  have := get_bitfield_gen8_info (List.getD a 0 0 % 256)
  split_ifs <;> omega

theorem jump_leaf_eq (a : List Nat) : jump_leaf a = leaf_length a % SIZE_MOD := by
  simp only [jump_leaf, jump_leaf_payload, leaf_length, leaf_payload, jump_header_,
    read_header_argument_as_uint64, read_header_major_type, CBOR_MAJOR_TYPE_BYTE_STRING,
    CBOR_MAJOR_TYPE_TEXT_STRING]
  split_ifs <;> rfl

theorem jump_count_remaining_data_items_eq (a : List Nat) :
    jump_count_remaining_data_items a = leaf_children a % SIZE_MOD := by
  have h := read_header_argument_as_uint64_lt a
  simp only [jump_count_remaining_data_items, leaf_children, CBOR_MAJOR_TYPE_ARRAY,
    CBOR_MAJOR_TYPE_MAP, CBOR_MAJOR_TYPE_TAGGED]
  simp only [SIZE_MOD] at h ⊢
  split_ifs <;> omega

theorem jump_raw_data_item_loop_zero (f : Nat) (a0 : List Nat) (r : Nat) :
    jump_raw_data_item_loop f a0 r 0 = r := by
  cases f <;> simp [jump_raw_data_item_loop]

theorem jump_raw_data_item_loop_succ (f : Nat) (a0 : List Nat) (r n : Nat) (hn : n ≠ 0) :
    jump_raw_data_item_loop (f + 1) a0 r n =
      jump_raw_data_item_loop f a0 ((r + jump_leaf (a0.drop r)) % SIZE_MOD)
        ((jump_count_remaining_data_items (a0.drop r) + n + SIZE_MOD - 1) % SIZE_MOD) := by
  simp only [jump_raw_data_item_loop, hn, ne_eq, not_false_eq_true, if_true]

/-- The jump loop follows the walk, given fuel for every leaf and offsets that fit a
`size_t`. -/
theorem jump_raw_data_item_loop_of_walk (f : Nat) (a0 : List Nat) (r n q : Nat)
    (hw : Walk a0 r n q) (hq : q < SIZE_MOD) (hf : q - r < f) :
    jump_raw_data_item_loop f a0 r n = q := by
  induction hw generalizing f with
  | done p => exact jump_raw_data_item_loop_zero f a0 p
  | step p n q hn hv hw ih =>
    obtain ⟨f, rfl⟩ : ∃ f', f = f' + 1 := ⟨f - 1, by omega⟩
    have hb := hw.bounds
    have hl := leaf_length_pos (a0.drop p)
    rw [jump_raw_data_item_loop_succ f a0 p n hn, jump_leaf_eq,
      jump_count_remaining_data_items_eq]
    have e1 : (p + leaf_length (a0.drop p) % SIZE_MOD) % SIZE_MOD
        = p + leaf_length (a0.drop p) := by
      simp only [SIZE_MOD] at hq ⊢
      omega
    have e2 : (leaf_children (a0.drop p) % SIZE_MOD + n + SIZE_MOD - 1) % SIZE_MOD
        = leaf_children (a0.drop p) + n - 1 := by
      simp only [SIZE_MOD] at hq ⊢
      omega
    rw [e1, e2]
    exact ih f hq (by omega)

/-- The jump over the data item at offset `p` of `a` returns its length. -/
theorem jump_raw_data_item_of_walk (a : List Nat) (p q : Nat) (hw : Walk a p 1 q)
    (hq : q ≤ a.length) (hq2 : q < SIZE_MOD) : jump_raw_data_item_ (a.drop p) = q - p := by
  have hb := hw.bounds
  have hw2 : Walk (a.drop p) 0 1 (q - p) := by
    rw [Walk.drop_iff]
    have : p + (q - p) = q := by omega
    rw [this]
    exact hw
  unfold jump_raw_data_item_
  apply jump_raw_data_item_loop_of_walk _ _ _ _ _ hw2
  · simp only [SIZE_MOD] at hq2 ⊢
    omega
  · simp only [List.length_drop]
    omega

/-- C11. Jump equals structural walk: when `validate_raw_data_item` succeeds on a buffer `a`
of at least `len` bytes (`len` a `size_t`) with consumed count `c`, `jump_raw_data_item a`
returns exactly `c`. -/
theorem jump_equals_validated_length (a : List Nat) (len c : Nat) (hlen : len ≤ a.length)
    (hsz : len < SIZE_MOD) (h : validate_raw_data_item a len 0 = (c, 0)) :
    jump_raw_data_item a = c := by
  obtain ⟨hw, hc⟩ := walk_of_validate a len c h
  have := jump_raw_data_item_of_walk a 0 c hw (by omega) (by omega)
  simpa [jump_raw_data_item] using this

theorem jump_equals_validated_length_witness :
    (12 : Nat) ≤
      [0x82, 0xA1, 0x61, 0x61, 0xC1, 0x18, 0x64, 0x43, 0x01, 0x02, 0x03, 0xFF].length ∧
    (12 : Nat) < SIZE_MOD ∧
    validate_raw_data_item
      [0x82, 0xA1, 0x61, 0x61, 0xC1, 0x18, 0x64, 0x43, 0x01, 0x02, 0x03, 0xFF] 12 0 = (11, 0) ∧
    jump_raw_data_item
      [0x82, 0xA1, 0x61, 0x61, 0xC1, 0x18, 0x64, 0x43, 0x01, 0x02, 0x03, 0xFF] = 11 :=
  ⟨by decide, by decide, by decide,
    jump_equals_validated_length _ 12 11 (by decide) (by decide) (by decide)⟩

/-! ## Byte-lexicographic comparison -/

theorem map_key_order_loop_exit (f : Nat) (r r1 : List Nat) (r2 r3 : Nat) (r4 : Int)
    (h : r4 ≠ 0 ∨ r2 = 0 ∨ r3 = 0) : map_key_order_loop f r r1 r2 r3 r4 = r4 := by
  cases f with
  | zero => rfl
  | succ f =>
    have : ¬ (r4 = 0 ∧ r2 > 0 ∧ r3 > 0) := by omega
    simp only [map_key_order_loop, this, if_false]

theorem bytes_cmp_eq_iff (l1 l2 : List Nat) : bytes_cmp l1 l2 = Ordering.eq ↔ l1 = l2 := by
  induction l1 generalizing l2 with
  | nil => cases l2 <;> simp [bytes_cmp]
  | cons x xs ih =>
    cases l2 with
    | nil => simp [bytes_cmp]
    | cons y ys =>
      simp only [bytes_cmp, List.cons.injEq]
      by_cases h1 : x < y
      · simp [h1]; omega
      · by_cases h2 : y < x
        · simp [h1, h2]; omega
        · have : x = y := by omega
          simp [h1, h2, this, ih]

/-- The comparison loop of the C code computes the byte-lexicographic comparison of the two
byte strings it is given. -/
theorem map_key_order_loop_sign (f : Nat) (r r1 : List Nat) (n1 n2 : Nat)
    (h1 : n1 ≤ r.length) (h2 : n2 ≤ r1.length) (hb1 : ∀ x ∈ r, x < 256)
    (hb2 : ∀ x ∈ r1, x < 256) (hn1 : 0 < n1) (hn2 : 0 < n2) (hf : n1 ≤ f) :
    int_sign (map_key_order_loop f r r1 n1 n2 0) = bytes_cmp (r.take n1) (r1.take n2) := by
  induction f generalizing r r1 n1 n2 with
  | zero => omega
  | succ f ih =>
    obtain ⟨x, xs, rfl⟩ : ∃ x xs, r = x :: xs := by
      cases r with
      | nil => simp at h1; omega
      | cons x xs => exact ⟨x, xs, rfl⟩
    obtain ⟨y, ys, rfl⟩ : ∃ y ys, r1 = y :: ys := by
      cases r1 with
      | nil => simp at h2; omega
      | cons y ys => exact ⟨y, ys, rfl⟩
    obtain ⟨m1, rfl⟩ : ∃ m, n1 = m + 1 := ⟨n1 - 1, by omega⟩
    obtain ⟨m2, rfl⟩ : ∃ m, n2 = m + 1 := ⟨n2 - 1, by omega⟩
    have hx : x < 256 := hb1 x (List.mem_cons_self _ _)
    have hy : y < 256 := hb2 y (List.mem_cons_self _ _)
    have hc : ((0 : Int) = 0 ∧ m1 + 1 > 0 ∧ m2 + 1 > 0) := ⟨rfl, by omega, by omega⟩
    simp only [List.length_cons] at h1 h2
    simp only [map_key_order_loop, hc, and_self, if_true, read_u8, List.getD_cons_zero,
      Nat.mod_eq_of_lt hx, Nat.mod_eq_of_lt hy, Nat.add_sub_cancel, List.take_succ_cons,
      bytes_cmp, List.drop_succ_cons, List.drop_zero]
    by_cases hxy : x < y
    · have hne : (x : Int) - (y : Int) ≠ 0 := by omega
      rw [if_pos hne, map_key_order_loop_exit _ _ _ _ _ _ (Or.inl hne), if_pos hxy]
      unfold int_sign
      rw [if_pos (by omega)]
    by_cases hyx : y < x
    · have hne : (x : Int) - (y : Int) ≠ 0 := by omega
      rw [if_pos hne, map_key_order_loop_exit _ _ _ _ _ _ (Or.inl hne), if_neg hxy, if_pos hyx]
      unfold int_sign
      rw [if_neg (by omega), if_neg (by omega)]
    have hne : ¬ ((x : Int) - (y : Int) ≠ 0) := by omega
    rw [if_neg hne, if_neg hxy, if_neg hyx]
    by_cases hm1 : m1 = 0
    · subst hm1
      by_cases hm2 : m2 = 0
      · subst hm2
        simp only [if_true, ne_eq, not_true_eq_false, if_false]
        rw [map_key_order_loop_exit _ _ _ _ _ _ (Or.inr (Or.inl rfl))]
        simp [bytes_cmp, int_sign]
      · simp only [if_true, ne_eq, hm2, not_false_eq_true]
        rw [map_key_order_loop_exit _ _ _ _ _ _ (Or.inl (by decide))]
        obtain ⟨z, zs, rfl⟩ : ∃ z zs, ys = z :: zs := by
          cases ys with
          | nil => simp at h2; omega
          | cons z zs => exact ⟨z, zs, rfl⟩
        obtain ⟨m, rfl⟩ : ∃ m, m2 = m + 1 := ⟨m2 - 1, by omega⟩
        simp [bytes_cmp, int_sign]
    · rw [if_neg hm1]
      by_cases hm2 : m2 = 0
      · subst hm2
        rw [if_pos rfl, map_key_order_loop_exit _ _ _ _ _ _ (Or.inl (by decide))]
        obtain ⟨z, zs, rfl⟩ : ∃ z zs, xs = z :: zs := by
          cases xs with
          | nil => simp at h1; omega
          | cons z zs => exact ⟨z, zs, rfl⟩
        obtain ⟨m, rfl⟩ : ∃ m, m1 = m + 1 := ⟨m1 - 1, by omega⟩
        simp [bytes_cmp, int_sign]
      · rw [if_neg hm2]
        exact ih xs ys m1 m2 (by omega) (by omega)
          (fun z hz => hb1 z (List.mem_cons_of_mem _ hz))
          (fun z hz => hb2 z (List.mem_cons_of_mem _ hz)) (by omega) (by omega) (by omega)

/-- The result of the comparison that precedes the final test of `cbor_compare_aux` and of
`deterministically_encoded_cbor_map_key_order_impl`, on two byte strings of sizes `n1` and
`n2`. -/
theorem compare_sizes_sign (r r1 : List Nat) (n1 n2 : Nat)
    (h1 : n1 ≤ r.length) (h2 : n2 ≤ r1.length) (hb1 : ∀ x ∈ r, x < 256)
    (hb2 : ∀ x ∈ r1, x < 256) :
    int_sign (if n1 = 0 then (if n2 = 0 then (0 : Int) else -1)
        else if n2 = 0 then 1 else map_key_order_loop (n1 + 1) r r1 n1 n2 0)
      = bytes_cmp (r.take n1) (r1.take n2) := by
  by_cases hn1 : n1 = 0
  · subst hn1
    by_cases hn2 : n2 = 0
    · subst hn2
      simp [bytes_cmp, int_sign]
    · obtain ⟨z, zs, rfl⟩ : ∃ z zs, r1 = z :: zs := by
        cases r1 with
        | nil => simp at h2; omega
        | cons z zs => exact ⟨z, zs, rfl⟩
      obtain ⟨m, rfl⟩ : ∃ m, n2 = m + 1 := ⟨n2 - 1, by omega⟩
      simp [bytes_cmp, int_sign]
  · by_cases hn2 : n2 = 0
    · subst hn2
      obtain ⟨z, zs, rfl⟩ : ∃ z zs, r = z :: zs := by
        cases r with
        | nil => simp at h1; omega
        | cons z zs => exact ⟨z, zs, rfl⟩
      obtain ⟨m, rfl⟩ : ∃ m, n1 = m + 1 := ⟨n1 - 1, by omega⟩
      simp [bytes_cmp, int_sign]
    · rw [if_neg hn1, if_neg hn2]
      exact map_key_order_loop_sign _ r r1 n1 n2 h1 h2 hb1 hb2 (by omega) (by omega) (by omega)

/-- The key-order test compares the two items as byte strings. -/
theorem deterministically_encoded_cbor_map_key_order_impl_eq (a1 a2 : List Nat)
    (h1 : jump_raw_data_item_ a1 ≤ a1.length) (h2 : jump_raw_data_item_ a2 ≤ a2.length)
    (hb1 : ∀ x ∈ a1, x < 256) (hb2 : ∀ x ∈ a2, x < 256) :
    deterministically_encoded_cbor_map_key_order_impl a1 a2 =
      bytes_lt (a1.take (jump_raw_data_item_ a1)) (a2.take (jump_raw_data_item_ a2)) := by
  have h := compare_sizes_sign a1 a2 _ _ h1 h2 hb1 hb2
  unfold deterministically_encoded_cbor_map_key_order_impl bytes_lt
  simp only
  rw [← h]
  generalize (if jump_raw_data_item_ a1 = 0 then (if jump_raw_data_item_ a2 = 0 then (0 : Int)
      else -1) else if jump_raw_data_item_ a2 = 0 then 1 else
      map_key_order_loop (jump_raw_data_item_ a1 + 1) a1 a2 (jump_raw_data_item_ a1)
        (jump_raw_data_item_ a2) 0) = i
  unfold int_sign
  by_cases hi : i < 0
  · simp only [hi, if_true, decide_True]
    rfl
  · by_cases hi0 : i = 0
    · simp only [hi, hi0, if_false, if_true, decide_False, lt_self_iff_false]
      rfl
    · simp only [hi, hi0, if_false, decide_False]
      rfl

/-- C16. For every pair of `Serialized` values (each with at least `size` bytes behind its
payload pointer), `cbor_compare_aux` returns -1, 0 or 1 according to whether the byte
sequence of the first (its payload truncated to its size) is lexicographically less than,
equal to, or greater than that of the second, bytes being compared as unsigned and a proper
prefix ordering first; it returns 0 exactly when both have the same size and bytes. -/
theorem cbor_compare_aux_serialized (s1 s2 : Nat) (p1 p2 : List Nat)
    (h1 : s1 ≤ p1.length) (h2 : s2 ≤ p2.length) (hb1 : ∀ x ∈ p1, x < 256)
    (hb2 : ∀ x ∈ p2, x < 256) :
    cbor_compare_aux (cbor.CBOR_Case_Serialized s1 p1) (cbor.CBOR_Case_Serialized s2 p2) =
        (match bytes_cmp (p1.take s1) (p2.take s2) with
          | Ordering.lt => -1
          | Ordering.eq => 0
          | Ordering.gt => 1) ∧
      (cbor_compare_aux (cbor.CBOR_Case_Serialized s1 p1) (cbor.CBOR_Case_Serialized s2 p2) = 0
        ↔ s1 = s2 ∧ p1.take s1 = p2.take s2) := by
  have h := compare_sizes_sign p1 p2 s1 s2 h1 h2 hb1 hb2
  have heq := bytes_cmp_eq_iff (p1.take s1) (p2.take s2)
  have hlen : p1.take s1 = p2.take s2 → s1 = s2 := by
    intro e
    have := congrArg List.length e
    simp only [List.length_take] at this
    omega
  simp only [cbor_compare_aux, is_CBOR_Case_Serialized, destr_cbor_serialized, and_self,
    if_true]
  rw [← h] at heq ⊢
  generalize (if s1 = 0 then (if s2 = 0 then (0 : Int) else -1)
        else if s2 = 0 then 1 else map_key_order_loop (s1 + 1) p1 p2 s1 s2 0) = i at heq ⊢
  unfold int_sign at heq ⊢
  by_cases hi : i < 0
  · simp only [hi, if_true] at heq ⊢
    refine ⟨trivial, ?_⟩
    constructor
    · intro h0; exact absurd h0 (by decide)
    · rintro ⟨-, e⟩; exact absurd (heq.2 e) (by decide)
  · by_cases hi0 : i = 0
    · subst hi0
      simp only [lt_self_iff_false, if_false, if_true] at heq ⊢
      exact ⟨trivial, fun _ => ⟨hlen (heq.1 trivial), heq.1 trivial⟩, fun _ => trivial⟩
    · have hpos : 0 < i := by omega
      simp only [hi, hi0, hpos, if_false, if_true] at heq ⊢
      refine ⟨trivial, ?_⟩
      constructor
      · intro h0; exact absurd h0 (by decide)
      · rintro ⟨-, e⟩; exact absurd (heq.2 e) (by decide)

theorem cbor_compare_aux_serialized_witness :
    (2 : Nat) ≤ [0x61, 0x61, 0xFF].length ∧ (2 : Nat) ≤ [0x61, 0x62].length ∧
    (∀ x ∈ [0x61, 0x61, 0xFF], x < 256) ∧ (∀ x ∈ [0x61, 0x62], x < 256) ∧
    (cbor_compare_aux (cbor.CBOR_Case_Serialized 2 [0x61, 0x61, 0xFF])
        (cbor.CBOR_Case_Serialized 2 [0x61, 0x62]) =
        (match bytes_cmp (List.take 2 [0x61, 0x61, 0xFF]) (List.take 2 [0x61, 0x62]) with
          | Ordering.lt => -1
          | Ordering.eq => 0
          | Ordering.gt => 1) ∧
      (cbor_compare_aux (cbor.CBOR_Case_Serialized 2 [0x61, 0x61, 0xFF])
        (cbor.CBOR_Case_Serialized 2 [0x61, 0x62]) = 0
        ↔ 2 = 2 ∧ List.take 2 [0x61, 0x61, 0xFF] = List.take 2 [0x61, 0x62])) :=
  ⟨by decide, by decide, by decide, by decide,
    cbor_compare_aux_serialized 2 2 [0x61, 0x61, 0xFF] [0x61, 0x62] (by decide) (by decide)
      (by decide) (by decide)⟩

/-- C17. `cbor_compare_aux` returns the Incomparable code 2 if and only if at least one of its
two arguments is not of the `Serialized` variant: on every pair of constructed values and
every mixed pair the result is 2 whatever their contents, and on two `Serialized` values it
is -1, 0 or 1. -/
theorem cbor_compare_aux_incomparable (a1 a2 : cbor) :
    cbor_compare_aux a1 a2 = 2 ↔
      ¬ (is_CBOR_Case_Serialized a1 = true ∧ is_CBOR_Case_Serialized a2 = true) := by
  by_cases h : is_CBOR_Case_Serialized a1 = true ∧ is_CBOR_Case_Serialized a2 = true
  · simp only [h, and_self, not_true_eq_false, iff_false]
    obtain ⟨h1, h2⟩ := h
    cases a1 <;> simp only [is_CBOR_Case_Serialized, Bool.false_eq_true] at h1
    cases a2 <;> simp only [is_CBOR_Case_Serialized, Bool.false_eq_true] at h2
    simp only [cbor_compare_aux, is_CBOR_Case_Serialized, destr_cbor_serialized, and_self,
      if_true]
    split_ifs <;> decide
  · simp only [cbor_compare_aux, h, if_false, not_false_eq_true]

/-! ## Array access -/

theorem cbor_array_index_loop_stop (f i r1 : Nat) (e : List Nat) :
    cbor_array_index_loop f i false r1 e = e := by
  cases f <;> simp [cbor_array_index_loop]

/-- The index loop skips the items that its counter still has to pass. -/
theorem cbor_array_index_loop_eq (f i r1 : Nat) (e : List Nat) (h1 : r1 < i)
    (hi : i < SIZE_MOD) (hf : i - r1 ≤ f) :
    cbor_array_index_loop f i true r1 e = skip_items (i - r1) e := by
  induction f generalizing r1 e with
  | zero => omega
  | succ f ih =>
    have e1 : (r1 + 1) % SIZE_MOD = r1 + 1 := by
      simp only [SIZE_MOD] at hi ⊢
      omega
    obtain ⟨m, hm⟩ : ∃ m, i - r1 = m + 1 := ⟨i - r1 - 1, by omega⟩
    simp only [cbor_array_index_loop, if_true, e1]
    rw [hm, skip_items]
    by_cases h2 : r1 + 1 < i
    · simp only [h2, decide_True]
      rw [ih (r1 + 1) _ h2 (by omega)]
      congr 1
      omega
    · simp only [h2, decide_False]
      rw [cbor_array_index_loop_stop]
      have : m = 0 := by omega
      subst this
      rfl

theorem cbor_array_index_case_serialized_eq (payload : List Nat) (i : Nat) (hi : i < SIZE_MOD) :
    cbor_array_index_case_serialized payload i =
      slice_at (skip_items i (focus_array_with_ghost_length payload)) := by
  unfold cbor_array_index_case_serialized slice_at read_valid_cbor_from_buffer_with_size_strong
  by_cases h : 0 < i
  · simp only [h, decide_True]
    rw [cbor_array_index_loop_eq i i 0 _ h hi (by omega)]
    simp
  · have : i = 0 := by omega
    subst this
    simp [cbor_array_index_loop, skip_items]

theorem cbor_array_iterator_next_serialized_eq (n : Nat) (e : List Nat) :
    cbor_array_iterator_next
        { cbor_array_iterator_length := n,
          cbor_array_iterator_payload :=
            cbor_array_iterator_payload_t.CBOR_Array_Iterator_Payload_Serialized e } =
      (slice_at e,
        { cbor_array_iterator_length := (n + SIZE_MOD - 1) % SIZE_MOD,
          cbor_array_iterator_payload :=
            cbor_array_iterator_payload_t.CBOR_Array_Iterator_Payload_Serialized
              (e.drop (jump_raw_data_item e)) }) := by
  unfold cbor_array_iterator_next
  simp only [slice_at, read_valid_cbor_from_buffer_with_size_strong]

theorem cbor_array_iterator_next_array_eq (n : Nat) (l : List cbor) :
    cbor_array_iterator_next
        { cbor_array_iterator_length := n,
          cbor_array_iterator_payload :=
            cbor_array_iterator_payload_t.CBOR_Array_Iterator_Payload_Array l } =
      (l.getD 0 cbor_dummy,
        { cbor_array_iterator_length := (n + SIZE_MOD - 1) % SIZE_MOD,
          cbor_array_iterator_payload :=
            cbor_array_iterator_payload_t.CBOR_Array_Iterator_Payload_Array (l.drop 1) }) := by
  unfold cbor_array_iterator_next
  simp only

/-- The iterator over a serialized array after `k` calls of `next`. -/
theorem cbor_array_iterator_after_serialized (k n : Nat) (e : List Nat) (hk : k ≤ n)
    (hn : n < SIZE_MOD) :
    cbor_array_iterator_after k
        { cbor_array_iterator_length := n,
          cbor_array_iterator_payload :=
            cbor_array_iterator_payload_t.CBOR_Array_Iterator_Payload_Serialized e } =
      { cbor_array_iterator_length := n - k,
        cbor_array_iterator_payload :=
          cbor_array_iterator_payload_t.CBOR_Array_Iterator_Payload_Serialized
            (skip_items k e) } := by
  induction k generalizing n e with
  | zero => simp only [cbor_array_iterator_after, Nat.sub_zero, skip_items]
  | succ k ih =>
    have e1 : (n + SIZE_MOD - 1) % SIZE_MOD = n - 1 := by
      simp only [SIZE_MOD] at hn ⊢
      omega
    rw [cbor_array_iterator_after, cbor_array_iterator_next_serialized_eq, e1]
    simp only
    rw [ih (n - 1) _ (by omega) (by omega), skip_items,
      show n - 1 - k = n - (k + 1) by omega]

/-- The iterator over a constructed array after `k` calls of `next`. -/
theorem cbor_array_iterator_after_array (k n : Nat) (l : List cbor) (hk : k ≤ n)
    (hn : n < SIZE_MOD) :
    cbor_array_iterator_after k
        { cbor_array_iterator_length := n,
          cbor_array_iterator_payload :=
            cbor_array_iterator_payload_t.CBOR_Array_Iterator_Payload_Array l } =
      { cbor_array_iterator_length := n - k,
        cbor_array_iterator_payload :=
          cbor_array_iterator_payload_t.CBOR_Array_Iterator_Payload_Array (l.drop k) } := by
  induction k generalizing n l with
  | zero => simp only [cbor_array_iterator_after, Nat.sub_zero, List.drop_zero]
  | succ k ih =>
    have e1 : (n + SIZE_MOD - 1) % SIZE_MOD = n - 1 := by
      simp only [SIZE_MOD] at hn ⊢
      omega
    rw [cbor_array_iterator_after, cbor_array_iterator_next_array_eq, e1]
    simp only
    rw [ih (n - 1) _ (by omega) (by omega), List.drop_drop,
      show n - 1 - k = n - (k + 1) by omega, Nat.add_comm 1 k]

/-- C18. For every array value with `n` elements, in either representation (a constructed
array of `n` elements, or a `Serialized` value whose head announces `n` elements), the
iterator obtained from `cbor_array_iterator_init` reports `is_done = false` before each of
the first `n` calls to `cbor_array_iterator_next` and `true` after exactly `n` calls, and the
`k`-th call (`k = 0..n-1`) yields the same value as `cbor_array_index v k`. -/
theorem array_iterator_agrees_with_index (v : cbor) (n : Nat) (hn : n < SIZE_MOD)
    (hv : (∃ payload, v = cbor.CBOR_Case_Array n payload ∧ n = payload.length) ∨
      (∃ size payload, v = cbor.CBOR_Case_Serialized size payload ∧
        n = read_argument_as_uint64 payload)) :
    ∃ it, cbor_array_iterator_init v = some it ∧ cbor_array_length v = some n ∧
      (∀ k, k < n →
        cbor_array_iterator_is_done (cbor_array_iterator_after k it) = false ∧
        some (cbor_array_iterator_next (cbor_array_iterator_after k it)).1
          = cbor_array_index v k) ∧
      cbor_array_iterator_is_done (cbor_array_iterator_after n it) = true := by
  rcases hv with ⟨payload, rfl, hl⟩ | ⟨size, payload, rfl, hl⟩
  · refine ⟨_, rfl, rfl, ?_, ?_⟩
    · intro k hk
      rw [cbor_array_iterator_after_array k n payload (by omega) hn]
      refine ⟨?_, ?_⟩
      · simp only [cbor_array_iterator_is_done, decide_eq_false_iff_not]
        omega
      · rw [cbor_array_iterator_next_array_eq]
        simp only [cbor_array_index, cbor_array_index_case_array, Option.some.injEq]
        simp [List.getD_eq_getElem?_getD]
    · rw [cbor_array_iterator_after_array n n payload (Nat.le_refl _) hn]
      simp [cbor_array_iterator_is_done]
  · refine ⟨_, rfl, by rw [hl]; rfl, ?_, ?_⟩
    · intro k hk
      rw [← hl, cbor_array_iterator_after_serialized k n _ (by omega) hn]
      refine ⟨?_, ?_⟩
      · simp only [cbor_array_iterator_is_done, decide_eq_false_iff_not]
        omega
      · rw [cbor_array_iterator_next_serialized_eq]
        simp only [cbor_array_index, Option.some.injEq]
        rw [cbor_array_index_case_serialized_eq payload k (by omega)]
    · rw [← hl, cbor_array_iterator_after_serialized n n _ (Nat.le_refl _) hn]
      simp [cbor_array_iterator_is_done]

theorem array_iterator_agrees_with_index_witness :
    (3 : Nat) < SIZE_MOD ∧
    ((∃ payload, cbor.CBOR_Case_Serialized 4 [0x83, 0x01, 0x02, 0x03]
        = cbor.CBOR_Case_Array 3 payload ∧ 3 = payload.length) ∨
      (∃ size payload, cbor.CBOR_Case_Serialized 4 [0x83, 0x01, 0x02, 0x03]
        = cbor.CBOR_Case_Serialized size payload ∧ 3 = read_argument_as_uint64 payload)) ∧
    (∃ it, cbor_array_iterator_init (cbor.CBOR_Case_Serialized 4 [0x83, 0x01, 0x02, 0x03])
        = some it ∧
      cbor_array_length (cbor.CBOR_Case_Serialized 4 [0x83, 0x01, 0x02, 0x03]) = some 3 ∧
      (∀ k, k < 3 →
        cbor_array_iterator_is_done (cbor_array_iterator_after k it) = false ∧
        some (cbor_array_iterator_next (cbor_array_iterator_after k it)).1
          = cbor_array_index (cbor.CBOR_Case_Serialized 4 [0x83, 0x01, 0x02, 0x03]) k) ∧
      cbor_array_iterator_is_done (cbor_array_iterator_after 3 it) = true) ∧
    (cbor_array_index (cbor.CBOR_Case_Serialized 4 [0x83, 0x01, 0x02, 0x03]) 0).bind
        destr_cbor_serialized = some (1, [0x01, 0x02, 0x03]) ∧
    (cbor_array_index (cbor.CBOR_Case_Serialized 4 [0x83, 0x01, 0x02, 0x03]) 1).bind
        destr_cbor_serialized = some (1, [0x02, 0x03]) ∧
    (cbor_array_index (cbor.CBOR_Case_Serialized 4 [0x83, 0x01, 0x02, 0x03]) 2).bind
        destr_cbor_serialized = some (1, [0x03]) :=
  ⟨by decide, Or.inr ⟨4, [0x83, 0x01, 0x02, 0x03], rfl, by decide⟩,
    array_iterator_agrees_with_index (cbor.CBOR_Case_Serialized 4 [0x83, 0x01, 0x02, 0x03]) 3
      (by decide) (Or.inr ⟨4, [0x83, 0x01, 0x02, 0x03], rfl, by decide⟩),
    by decide, by decide, by decide⟩

theorem cbor_read_array_loop_succ (f n0 r : Nat) (r1 : List Nat) (a0 : List cbor)
    (h : r < n0) :
    cbor_read_array_loop (f + 1) n0 r r1 a0 =
      cbor_read_array_loop f n0 (r + 1) (r1.drop (jump_raw_data_item r1))
        (a0.set r (slice_at r1)) := by
  simp only [cbor_read_array_loop, h, if_true, slice_at,
    read_valid_cbor_from_buffer_with_size_strong]

theorem cbor_read_array_loop_stop (f n0 r : Nat) (r1 : List Nat) (a0 : List cbor)
    (h : n0 ≤ r) : cbor_read_array_loop f n0 r r1 a0 = a0 := by
  cases f with
  | zero => rfl
  | succ f => simp only [cbor_read_array_loop, Nat.not_lt.mpr h, if_false]

/-- The loop of `cbor_read_array` stores at every index from `r` up to `n0` the slice of the
item reached by skipping, and keeps the other cells of the buffer. -/
theorem cbor_read_array_loop_spec (f n0 r : Nat) (r1 : List Nat) (a0 : List cbor)
    (hf : n0 - r ≤ f) (hcap : n0 ≤ a0.length) :
    (cbor_read_array_loop f n0 r r1 a0).length = a0.length ∧
      (∀ k, r ≤ k → k < n0 →
        (cbor_read_array_loop f n0 r r1 a0)[k]? = some (slice_at (skip_items (k - r) r1))) ∧
      (∀ k, k < r ∨ n0 ≤ k → (cbor_read_array_loop f n0 r r1 a0)[k]? = a0[k]?) := by
  induction f generalizing r r1 a0 with
  | zero =>
    rw [cbor_read_array_loop_stop 0 n0 r r1 a0 (by omega)]
    exact ⟨rfl, fun k h1 h2 => by omega, fun k _ => rfl⟩
  | succ f ih =>
    by_cases h : r < n0
    · rw [cbor_read_array_loop_succ f n0 r r1 a0 h]
      obtain ⟨i1, i2, i3⟩ := ih (r + 1) (r1.drop (jump_raw_data_item r1))
        (a0.set r (slice_at r1)) (by omega) (by rw [List.length_set]; exact hcap)
      refine ⟨by rw [i1, List.length_set], ?_, ?_⟩
      · intro k hk1 hk2
        by_cases hkr : k = r
        · subst hkr
          rw [i3 k (Or.inl (by omega)), List.getElem?_set, if_pos rfl, if_pos (by omega),
            Nat.sub_self, skip_items]
        · rw [i2 k (by omega) hk2]
          obtain ⟨m, hm⟩ : ∃ m, k - r = m + 1 := ⟨k - r - 1, by omega⟩
          rw [hm, skip_items, show k - (r + 1) = m by omega]
      · intro k hk
        rw [i3 k (by omega), List.getElem?_set_ne (by omega)]
    · rw [cbor_read_array_loop_stop (f + 1) n0 r r1 a0 (by omega)]
      exact ⟨rfl, fun k h1 h2 => by omega, fun k _ => rfl⟩

/-- C20. `cbor_read_array` on a `Serialized` array called with `len = n` and a caller's buffer
of at least `n` cells returns that buffer after writing, for every `k < n`, the `Serialized`
slice equal to `cbor_array_index input k` into `out[k]` (the other cells are unchanged); on
a constructed `Array` it returns the array's own payload and leaves the caller's buffer
unchanged. -/
theorem cbor_read_array_spec (a0 : List cbor) (n : Nat) (hn : n < SIZE_MOD)
    (hcap : n ≤ a0.length) :
    (∀ (size : Nat) (payload : List Nat),
      ∃ res, cbor_read_array (cbor.CBOR_Case_Serialized size payload) a0 n = some (res, res) ∧
        res.length = a0.length ∧
        (∀ k, k < n →
          res[k]? = cbor_array_index (cbor.CBOR_Case_Serialized size payload) k) ∧
        (∀ k, n ≤ k → res[k]? = a0[k]?)) ∧
      (∀ (len : Nat) (payload : List cbor),
        cbor_read_array (cbor.CBOR_Case_Array len payload) a0 n = some (payload, a0)) := by
  refine ⟨fun size payload => ?_, fun len payload => rfl⟩
  obtain ⟨h1, h2, h3⟩ := cbor_read_array_loop_spec n n 0
    (focus_array_with_ghost_length payload) a0 (by omega) hcap
  refine ⟨_, rfl, h1, ?_, fun k hk => h3 k (Or.inr hk)⟩
  intro k hk
  rw [h2 k (Nat.zero_le _) hk]
  simp only [cbor_array_index, Nat.sub_zero]
  rw [cbor_array_index_case_serialized_eq payload k (by omega)]

theorem cbor_read_array_spec_witness :
    (3 : Nat) < SIZE_MOD ∧ (3 : Nat) ≤ [cbor_dummy, cbor_dummy, cbor_dummy, cbor_dummy].length ∧
    ((∀ (size : Nat) (payload : List Nat),
      ∃ res, cbor_read_array (cbor.CBOR_Case_Serialized size payload)
          [cbor_dummy, cbor_dummy, cbor_dummy, cbor_dummy] 3 = some (res, res) ∧
        res.length = [cbor_dummy, cbor_dummy, cbor_dummy, cbor_dummy].length ∧
        (∀ k, k < 3 →
          res[k]? = cbor_array_index (cbor.CBOR_Case_Serialized size payload) k) ∧
        (∀ k, 3 ≤ k → res[k]? = [cbor_dummy, cbor_dummy, cbor_dummy, cbor_dummy][k]?)) ∧
      (∀ (len : Nat) (payload : List cbor),
        cbor_read_array (cbor.CBOR_Case_Array len payload)
          [cbor_dummy, cbor_dummy, cbor_dummy, cbor_dummy] 3
          = some (payload, [cbor_dummy, cbor_dummy, cbor_dummy, cbor_dummy]))) ∧
    ((cbor_read_array (cbor.CBOR_Case_Serialized 4 [0x83, 0x01, 0x02, 0x03])
        [cbor_dummy, cbor_dummy, cbor_dummy, cbor_dummy] 3).map
      (fun r => r.1.map destr_cbor_serialized)) =
      some [some (1, [0x01, 0x02, 0x03]), some (1, [0x02, 0x03]), some (1, [0x03]), none] :=
  ⟨by decide, by decide,
    cbor_read_array_spec [cbor_dummy, cbor_dummy, cbor_dummy, cbor_dummy] 3 (by decide)
      (by decide),
    by decide⟩

/-! ## The strict-mode pass over the maps of an item -/

theorem Visits.inv {a : List Nat} {p n s : Nat} (h : Visits a p n s) :
    n ≠ 0 ∧ (s = p ∨ (leaf_valid (a.drop p) ∧
      Visits a (p + leaf_length (a.drop p)) (leaf_children (a.drop p) + n - 1) s)) := by
  cases h with
  | here _ _ hn => exact ⟨hn, Or.inl rfl⟩
  | later _ _ _ hn hv hs => exact ⟨hn, Or.inr ⟨hv, hs⟩⟩

theorem Walk.zero_inv {a : List Nat} {p q : Nat} (h : Walk a p 0 q) : q = p := by
  cases h with
  | done => rfl
  | step _ _ _ hn _ _ => exact absurd rfl hn

/-- The item at a head that the walk passes lies within the walk. -/
theorem Visits.item {a : List Nat} {p n s : Nat} (h : Visits a p n s) :
    ∀ q, Walk a p n q → ∃ e, Walk a s 1 e ∧ e ≤ q := by
  induction h with
  | here p n hn =>
    intro q hw
    obtain ⟨q1, h1, h2⟩ := hw.split 1 (n - 1) (by omega)
    exact ⟨q1, h1, by have := h2.bounds; omega⟩
  | later p n s hn hv _ ih =>
    intro q hw
    exact ih q (hw.step_inv hn).2

/-- A nested item is passed by the walk over the items that contain it. -/
theorem visits_of_subItem {a : List Nat} {p n q : Nat} (hw : Walk a p n q) :
    ∀ i ci s, i < n → Walk a p i ci → SubItem a ci s → Visits a p n s := by
  induction hw with
  | done p => intro i ci s hi; omega
  | step p n q hn hv hw ih =>
    intro i ci s hi hwi hsub
    by_cases h0 : i = 0
    · subst h0
      have hci := hwi.zero_inv
      subst hci
      cases hsub with
      | self => exact Visits.here _ n hn
      | child _ i2 c2 _ hv2 hi2 hw2 hs2 =>
        exact Visits.later _ n s hn hv (ih i2 c2 s (by omega) hw2 hs2)
    · have hwi2 := (hwi.step_inv h0).2
      exact Visits.later p n s hn hv
        (ih (leaf_children (a.drop p) + i - 1) ci s (by omega) hwi2 hsub)

/-- A head passed by the walk is an item, or lies in an item, of the items walked. -/
theorem subItem_of_visits {a : List Nat} {p n s : Nat} (h : Visits a p n s) :
    ∃ i ci, i < n ∧ Walk a p i ci ∧ SubItem a ci s := by
  induction h with
  | here p n hn => exact ⟨0, p, by omega, Walk.done p, SubItem.self p⟩
  | later p n s hn hv _ ih =>
    obtain ⟨i2, ci, hi2, hw2, hs⟩ := ih
    by_cases hc : i2 < leaf_children (a.drop p)
    · exact ⟨0, p, by omega, Walk.done p, SubItem.child p i2 ci s hv hc hw2 hs⟩
    · refine ⟨i2 - leaf_children (a.drop p) + 1, ci, by omega, ?_, hs⟩
      refine Walk.step p _ ci (by omega) hv ?_
      rwa [show leaf_children (a.drop p) + (i2 - leaf_children (a.drop p) + 1) - 1 = i2
        by omega]

theorem deterministic_loop_succ (f : Nat) (a1 : List Nat) (n : Nat) :
    deterministic_loop (f + 1) true a1 n =
      if (jump_count_remaining_data_items a1 + size_sub n 1) % SIZE_MOD ≠ 0 ∧
          check_map_at a1 = true then
        deterministic_loop f (check_map_at a1) (a1.drop (jump_leaf a1))
          ((jump_count_remaining_data_items a1 + size_sub n 1) % SIZE_MOD)
      else check_map_at a1 := by
  simp only [deterministic_loop, if_true]

/-- The outer loop of the strict pass succeeds exactly when the map check succeeds at every
head that the walk passes. -/
theorem deterministic_loop_iff (f : Nat) (a : List Nat) (p n q : Nat) (hw : Walk a p n q)
    (hn : n ≠ 0) (hq : q < SIZE_MOD) (hf : q - p ≤ f) :
    deterministic_loop f true (a.drop p) n = true ↔
      ∀ s, Visits a p n s → check_map_at (a.drop s) = true := by
  induction hw generalizing f with
  | done p => exact absurd rfl hn
  | step p n q hn2 hv hw ih =>
    have hb := hw.bounds
    have hl := leaf_length_pos (a.drop p)
    obtain ⟨f, rfl⟩ : ∃ f', f = f' + 1 := ⟨f - 1, by omega⟩
    have e1 : (jump_count_remaining_data_items (a.drop p) + size_sub n 1) % SIZE_MOD
        = leaf_children (a.drop p) + n - 1 := by
      rw [jump_count_remaining_data_items_eq]
      unfold size_sub
      simp only [SIZE_MOD] at hq ⊢
      omega
    have e2 : (a.drop p).drop (jump_leaf (a.drop p)) = a.drop (p + leaf_length (a.drop p)) := by
      rw [jump_leaf_eq, List.drop_drop, Nat.mod_eq_of_lt (by omega)]
    rw [deterministic_loop_succ, e1, e2]
    by_cases hc : check_map_at (a.drop p) = true
    · by_cases hz : leaf_children (a.drop p) + n - 1 = 0
      · rw [if_neg (by rw [hz]; simp), hc]
        simp only [true_iff]
        intro s hs
        rcases hs.inv.2 with rfl | ⟨_, hs2⟩
        · exact hc
        · rw [hz] at hs2
          exact absurd rfl hs2.inv.1
      · rw [if_pos ⟨hz, hc⟩, hc, ih f hz hq (by omega)]
        constructor
        · intro h s hs
          rcases hs.inv.2 with rfl | ⟨_, hs2⟩
          · exact hc
          · exact h s hs2
        · intro h s hs
          exact h s (Visits.later p n s hn2 hv hs)
    · rw [if_neg (fun h => hc h.2)]
      constructor
      · intro h; exact absurd h hc
      · intro h; exact absurd (h p (Visits.here p n hn2)) hc

/-! ## The key-order check of one map -/

theorem map_entries_order_loop_false (m : Nat) (r4 : List Nat) :
    map_entries_order_loop m r4 false = false := by
  cases m with
  | zero => rfl
  | succ m => simp only [map_entries_order_loop, Bool.false_eq_true, if_false]

theorem map_entries_order_loop_succ (m : Nat) (r4 : List Nat) :
    map_entries_order_loop (m + 1) r4 true =
      map_entries_order_loop m
        (r4.drop ((jump_raw_data_item_ r4 +
          jump_raw_data_item_ (r4.drop (jump_raw_data_item_ r4))) % SIZE_MOD))
        (deterministically_encoded_cbor_map_key_order_impl r4
          (r4.drop ((jump_raw_data_item_ r4 +
            jump_raw_data_item_ (r4.drop (jump_raw_data_item_ r4))) % SIZE_MOD))) := by
  simp only [map_entries_order_loop, if_true]

theorem mem_drop_lt {a : List Nat} (hb : ∀ x ∈ a, x < 256) (k : Nat) :
    ∀ x ∈ a.drop k, x < 256 :=
  fun x hx => hb x (List.mem_of_mem_drop hx)

/-- One turn of the inner loop: the cursor moves from the key at `k` to the next key at `k2`,
and the result is the byte order of the two keys. -/
theorem map_entries_order_loop_turn (a : List Nat) (hb : ∀ x ∈ a, x < 256) (m k v k2 e2 : Nat)
    (h1 : Walk a k 1 v) (h2 : Walk a v 1 k2) (h3 : Walk a k2 1 e2) (he : e2 ≤ a.length)
    (he2 : e2 < SIZE_MOD) :
    map_entries_order_loop (m + 1) (a.drop k) true =
      map_entries_order_loop m (a.drop k2) (bytes_lt (slice a k v) (slice a k2 e2)) := by
  have b1 := h1.bounds
  have b2 := h2.bounds
  have b3 := h3.bounds
  have j1 : jump_raw_data_item_ (a.drop k) = v - k :=
    jump_raw_data_item_of_walk a k v h1 (by omega) (by omega)
  have j2 : jump_raw_data_item_ (a.drop v) = k2 - v :=
    jump_raw_data_item_of_walk a v k2 h2 (by omega) (by omega)
  have j3 : jump_raw_data_item_ (a.drop k2) = e2 - k2 :=
    jump_raw_data_item_of_walk a k2 e2 h3 he he2
  have d1 : (a.drop k).drop (v - k) = a.drop v := by
    rw [List.drop_drop, show k + (v - k) = v by omega]
  have hs : (v - k + (k2 - v)) % SIZE_MOD = k2 - k := by
    rw [Nat.mod_eq_of_lt (by omega)]
    omega
  have d2 : (a.drop k).drop (k2 - k) = a.drop k2 := by
    rw [List.drop_drop, show k + (k2 - k) = k2 by omega]
  rw [map_entries_order_loop_succ, j1, d1, j2, hs, d2,
    deterministically_encoded_cbor_map_key_order_impl_eq (a.drop k) (a.drop k2)
      (by rw [j1, List.length_drop]; omega) (by rw [j3, List.length_drop]; omega)
      (mem_drop_lt hb k) (mem_drop_lt hb k2), j1, j3]
  rfl

/-- The inner loop over the entries of a map succeeds exactly when every key is strictly
below the next one in byte-lexicographic order. -/
theorem map_entries_order_loop_iff (a : List Nat) (hb : ∀ x ∈ a, x < 256) (m : Nat) :
    ∀ k e, Walk a k (2 * m + 2) e → e ≤ a.length → e < SIZE_MOD →
      (map_entries_order_loop m (a.drop k) true = true ↔
        ∀ j k1 v1 k2 e2, j < m → Walk a k (2 * j) k1 → Walk a k1 1 v1 → Walk a v1 1 k2 →
          Walk a k2 1 e2 → bytes_lt (slice a k1 v1) (slice a k2 e2) = true) := by
  induction m with
  | zero =>
    intro k e _ _ _
    constructor
    · intro _ j k1 v1 k2 e2 hj
      omega
    · intro _
      rfl
  | succ m ih =>
    intro k e hw he he2
    obtain ⟨v, hkv, r1⟩ := hw.split 1 (2 * m + 3) (by omega)
    obtain ⟨k', hvk, r2⟩ := r1.split 1 (2 * m + 2) (by omega)
    obtain ⟨e', hke, r3⟩ := r2.split 1 (2 * m + 1) (by omega)
    have b3 := r3.bounds
    have hk2 : Walk a k 2 k' := Walk.append hkv hvk
    rw [map_entries_order_loop_turn a hb m k v k' e' hkv hvk hke (by omega) (by omega)]
    constructor
    · intro h j k1 v1 k2 e2 hj w1 w2 w3 w4
      have hbt : bytes_lt (slice a k v) (slice a k' e') = true := by
        by_contra hne
        rw [Bool.not_eq_true] at hne
        rw [hne, map_entries_order_loop_false] at h
        exact Bool.noConfusion h
      rw [hbt] at h
      cases j with
      | zero =>
        have e1 := w1.zero_inv
        subst e1
        have e2_ := Walk.unique hkv w2
        subst e2_
        have e3 := Walk.unique hvk w3
        subst e3
        have e4 := Walk.unique hke w4
        subst e4
        exact hbt
      | succ j =>
        obtain ⟨x, wx, wr⟩ := w1.split 2 (2 * j) (by omega)
        have ex := Walk.unique hk2 wx
        subst ex
        exact (ih k' e r2 he he2).1 h j k1 v1 k2 e2 (by omega) wr w2 w3 w4
    · intro h
      have hbt : bytes_lt (slice a k v) (slice a k' e') = true :=
        h 0 k v k' e' (by omega) (Walk.done k) hkv hvk hke
      rw [hbt]
      refine (ih k' e r2 he he2).2 ?_
      intro j k1 v1 k2 e2 hj w1 w2 w3 w4
      refine h (j + 1) k1 v1 k2 e2 (by omega) ?_ w2 w3 w4
      have := Walk.append hk2 w1
      rwa [show 2 + 2 * j = 2 * (j + 1) by omega] at this

/-- The check made at the head of an item succeeds exactly when the item is not a map with
two adjacent keys out of order. -/
theorem check_map_at_iff (a : List Nat) (hb : ∀ x ∈ a, x < 256) (s e : Nat)
    (hw : Walk a s 1 e) (he : e ≤ a.length) (he2 : e < SIZE_MOD) :
    check_map_at (a.drop s) = true ↔
      ∀ j k1 v1 k2 e2, AdjacentKeys a s j k1 v1 k2 e2 →
        bytes_lt (slice a k1 v1) (slice a k2 e2) = true := by
  obtain ⟨hv, hch⟩ := Walk.item_iff.1 hw
  unfold check_map_at
  simp only [CBOR_MAJOR_TYPE_MAP, read_argument_as_uint64_]
  by_cases hm : read_header_major_type (a.drop s) = 5
  · rw [if_pos hm]
    have hlen : leaf_length (a.drop s) = jump_header_ (a.drop s) := by
      unfold leaf_length leaf_payload
      rw [if_neg (by rw [hm]; decide)]
      rfl
    have hchild : leaf_children (a.drop s) =
        read_header_argument_as_uint64 (a.drop s) + read_header_argument_as_uint64 (a.drop s) := by
      unfold leaf_children
      rw [if_neg (by rw [hm]; decide), if_pos hm]
    by_cases hn : read_header_argument_as_uint64 (a.drop s) < 2
    · rw [if_pos hn]
      simp only [true_iff]
      intro j k1 v1 k2 e2 hadj
      have := hadj.index
      omega
    · rw [if_neg hn, List.drop_drop, ← hlen]
      rw [hchild, show read_header_argument_as_uint64 (a.drop s) +
        read_header_argument_as_uint64 (a.drop s) =
          2 * (read_header_argument_as_uint64 (a.drop s) - 1) + 2 by omega] at hch
      rw [map_entries_order_loop_iff a hb _ _ e hch he he2]
      constructor
      · intro h j k1 v1 k2 e2 hadj
        exact h j k1 v1 k2 e2 (by have := hadj.index; omega) hadj.key1 hadj.end1 hadj.value1
          hadj.end2
      · intro h j k1 v1 k2 e2 hj w1 w2 w3 w4
        exact h j k1 v1 k2 e2 ⟨hm, hv, by omega, w1, w2, w3, w4⟩
  · rw [if_neg hm]
    simp only [true_iff]
    intro j k1 v1 k2 e2 hadj
    exact absurd hadj.is_map hm

/-- The strict pass over a well-formed item succeeds exactly when every map of the item, at
every depth, has each pair of adjacent keys in strictly ascending byte order. -/
theorem deterministic_loop_sorted_iff (a : List Nat) (len c : Nat)
    (hv : validate_raw_data_item a len 0 = (c, 0)) (hlen : len ≤ a.length)
    (hM : len < SIZE_MOD) (hb : ∀ x ∈ a, x < 256) :
    deterministic_loop (a.length + 1) true a 1 = true ↔
      ∀ s j k1 v1 k2 e2, SubItem a 0 s → AdjacentKeys a s j k1 v1 k2 e2 →
        bytes_lt (slice a k1 v1) (slice a k2 e2) = true := by
  obtain ⟨hw, hc⟩ := walk_of_validate a len c hv
  have hcM : c < SIZE_MOD := Nat.lt_of_le_of_lt hc hM
  have h := deterministic_loop_iff (a.length + 1) a 0 1 c hw (by decide) hcM (by omega)
  rw [List.drop_zero] at h
  rw [h]
  constructor
  · intro hall s j k1 v1 k2 e2 hsub hadj
    have hvis : Visits a 0 1 s := visits_of_subItem hw 0 0 s (by decide) (Walk.done 0) hsub
    obtain ⟨e, hwe, hec⟩ := hvis.item c hw
    exact (check_map_at_iff a hb s e hwe (by omega) (by omega)).1 (hall s hvis) j k1 v1 k2 e2
      hadj
  · intro hall s hvis
    obtain ⟨e, hwe, hec⟩ := hvis.item c hw
    obtain ⟨i, ci, hi, hwi, hsub⟩ := subItem_of_visits hvis
    have hi0 : i = 0 := by omega
    subst hi0
    have hci := hwi.zero_inv
    subst hci
    exact (check_map_at_iff a hb s e hwe (by omega) (by omega)).2
      (fun j k1 v1 k2 e2 hadj => hall s j k1 v1 k2 e2 hsub hadj)

theorem Walk.of_eq {a : List Nat} {p q : Nat} (h : p = q) : Walk a p 0 q :=
  h ▸ Walk.done p

/-- The item that validates at the offset `p` is walked from `p`. -/
theorem walk_item_of_validate (a : List Nat) (p len c : Nat)
    (h : validate_raw_data_item (a.drop p) len 0 = (c, 0)) : Walk a p 1 (p + c) :=
  Walk.drop_iff.1 (walk_of_validate (a.drop p) len c h).1

/-- C8. Strict rejects unsorted map keys: on a buffer `a` of at least `len` bytes that
`cbor_read` accepts, if the item read contains at any depth (`SubItem a 0 s`) a map at offset
`s` whose key number `j` (bytes `k1` to `v1`) is not strictly below its key number `j + 1`
(bytes `k2` to `e2`) in byte-lexicographic order, then `cbor_read_deterministically_encoded`
returns `is_success = false`. -/
theorem strict_rejects_unsorted_map_keys (a : List Nat) (len s j k1 v1 k2 e2 : Nat)
    (hlen : len ≤ a.length) (hM : len < SIZE_MOD) (hb : ∀ x ∈ a, x < 256)
    (hok : (cbor_read a len).cbor_read_is_success = true)
    (hsub : SubItem a 0 s) (hadj : AdjacentKeys a s j k1 v1 k2 e2)
    (hlt : bytes_lt (slice a k1 v1) (slice a k2 e2) = false) :
    (cbor_read_deterministically_encoded a len).cbor_read_is_success = false := by
  have h0 := (cbor_read_success_iff a len).1 hok
  have hv : validate_raw_data_item a len 0 = ((validate_raw_data_item a len 0).1, 0) :=
    Prod.ext rfl h0
  rw [cbor_read_deterministically_encoded_of_ok a len _ hv, if_neg]
  intro ht
  have := (deterministic_loop_sorted_iff a len _ hv hlen hM hb).1 ht s j k1 v1 k2 e2 hsub hadj
  rw [hlt] at this
  exact Bool.noConfusion this

theorem strict_rejects_unsorted_map_keys_witness :
    (7 : Nat) ≤ [0xA2, 0x61, 0x62, 0x02, 0x61, 0x61, 0x01].length ∧
    (7 : Nat) < SIZE_MOD ∧
    (∀ x ∈ [0xA2, 0x61, 0x62, 0x02, 0x61, 0x61, 0x01], x < 256) ∧
    (cbor_read [0xA2, 0x61, 0x62, 0x02, 0x61, 0x61, 0x01] 7).cbor_read_is_success = true ∧
    SubItem [0xA2, 0x61, 0x62, 0x02, 0x61, 0x61, 0x01] 0 0 ∧
    AdjacentKeys [0xA2, 0x61, 0x62, 0x02, 0x61, 0x61, 0x01] 0 0 1 3 4 6 ∧
    bytes_lt (slice [0xA2, 0x61, 0x62, 0x02, 0x61, 0x61, 0x01] 1 3)
      (slice [0xA2, 0x61, 0x62, 0x02, 0x61, 0x61, 0x01] 4 6) = false ∧
    (cbor_read_deterministically_encoded [0xA2, 0x61, 0x62, 0x02, 0x61, 0x61, 0x01]
      7).cbor_read_is_success = false :=
  have hadj : AdjacentKeys [0xA2, 0x61, 0x62, 0x02, 0x61, 0x61, 0x01] 0 0 1 3 4 6 :=
    ⟨by decide, by decide, by decide, Walk.of_eq (by decide),
      walk_item_of_validate _ 1 6 2 (by decide), walk_item_of_validate _ 3 4 1 (by decide),
      walk_item_of_validate _ 4 3 2 (by decide)⟩
  ⟨by decide, by decide, by decide, by decide, SubItem.self 0, hadj, by decide,
    strict_rejects_unsorted_map_keys _ 7 0 0 1 3 4 6 (by decide) (by decide) (by decide)
      (by decide) (SubItem.self 0) hadj (by decide)⟩

/-- C9. Strict accepts canonical input: on a buffer `a` of at least `len` bytes that
`cbor_read` accepts, if every map of the item read, at every depth, has each pair of adjacent
keys in strictly ascending byte-lexicographic order of their encodings (a map with fewer than
two entries has no such pair), then `cbor_read_deterministically_encoded` succeeds and returns
exactly the result of `cbor_read`. -/
theorem strict_accepts_canonical_input (a : List Nat) (len : Nat)
    (hlen : len ≤ a.length) (hM : len < SIZE_MOD) (hb : ∀ x ∈ a, x < 256)
    (hok : (cbor_read a len).cbor_read_is_success = true)
    (hsorted : ∀ s j k1 v1 k2 e2, SubItem a 0 s → AdjacentKeys a s j k1 v1 k2 e2 →
      bytes_lt (slice a k1 v1) (slice a k2 e2) = true) :
    cbor_read_deterministically_encoded a len = cbor_read a len ∧
      (cbor_read_deterministically_encoded a len).cbor_read_is_success = true := by
  have h0 := (cbor_read_success_iff a len).1 hok
  have hv : validate_raw_data_item a len 0 = ((validate_raw_data_item a len 0).1, 0) :=
    Prod.ext rfl h0
  have ht := (deterministic_loop_sorted_iff a len _ hv hlen hM hb).2 hsorted
  rw [cbor_read_deterministically_encoded_of_ok a len _ hv, if_pos ht]
  exact ⟨rfl, hok⟩

theorem strict_accepts_canonical_input_witness :
    (7 : Nat) ≤ [0xA2, 0x61, 0x61, 0x01, 0x61, 0x62, 0x02].length ∧
    (7 : Nat) < SIZE_MOD ∧
    (∀ x ∈ [0xA2, 0x61, 0x61, 0x01, 0x61, 0x62, 0x02], x < 256) ∧
    (cbor_read [0xA2, 0x61, 0x61, 0x01, 0x61, 0x62, 0x02] 7).cbor_read_is_success = true ∧
    (∀ s j k1 v1 k2 e2, SubItem [0xA2, 0x61, 0x61, 0x01, 0x61, 0x62, 0x02] 0 s →
      AdjacentKeys [0xA2, 0x61, 0x61, 0x01, 0x61, 0x62, 0x02] s j k1 v1 k2 e2 →
      bytes_lt (slice [0xA2, 0x61, 0x61, 0x01, 0x61, 0x62, 0x02] k1 v1)
        (slice [0xA2, 0x61, 0x61, 0x01, 0x61, 0x62, 0x02] k2 e2) = true) ∧
    (cbor_read_deterministically_encoded [0xA2, 0x61, 0x61, 0x01, 0x61, 0x62, 0x02] 7 =
        cbor_read [0xA2, 0x61, 0x61, 0x01, 0x61, 0x62, 0x02] 7 ∧
      (cbor_read_deterministically_encoded [0xA2, 0x61, 0x61, 0x01, 0x61, 0x62, 0x02]
        7).cbor_read_is_success = true) :=
  have hsorted : ∀ s j k1 v1 k2 e2, SubItem [0xA2, 0x61, 0x61, 0x01, 0x61, 0x62, 0x02] 0 s →
      AdjacentKeys [0xA2, 0x61, 0x61, 0x01, 0x61, 0x62, 0x02] s j k1 v1 k2 e2 →
      bytes_lt (slice [0xA2, 0x61, 0x61, 0x01, 0x61, 0x62, 0x02] k1 v1)
        (slice [0xA2, 0x61, 0x61, 0x01, 0x61, 0x62, 0x02] k2 e2) = true := by
    intro s j k1 v1 k2 e2 _ hadj
    have hs : s = 0 := by
      have hm := hadj.is_map
      by_cases h7 : s < 7
      · interval_cases s
        · rfl
        all_goals exact absurd hm (by decide)
      · rw [List.drop_eq_nil_of_le (by simp only [List.length_cons, List.length_nil]; omega)]
          at hm
        exact absurd hm (by decide)
    subst hs
    have hj : j = 0 := by
      have hi := hadj.index
      have : read_header_argument_as_uint64
          (List.drop 0 [0xA2, 0x61, 0x61, 0x01, 0x61, 0x62, 0x02]) = 2 := by decide
      omega
    subst hj
    have e1 : k1 = 1 := hadj.key1.zero_inv
    subst e1
    have e2_ : v1 = 3 := Walk.unique hadj.end1 (walk_item_of_validate _ 1 6 2 (by decide))
    subst e2_
    have e3 : k2 = 4 := Walk.unique hadj.value1 (walk_item_of_validate _ 3 4 1 (by decide))
    subst e3
    have e4 : e2 = 6 := Walk.unique hadj.end2 (walk_item_of_validate _ 4 3 2 (by decide))
    subst e4
    decide
  ⟨by decide, by decide, by decide, by decide, hsorted,
    strict_accepts_canonical_input _ 7 (by decide) (by decide) (by decide) (by decide) hsorted⟩

/-! ## Reading back a head written in the minimal encoding -/

theorem read_u16_bytes (x : Nat) (hx : x < 65536) (r : List Nat) :
    read_u16 ([x / 256 % 256, x % 256] ++ r) = x := by
  unfold read_u16
  simp only [List.cons_append, List.getD_cons_zero, List.getD_cons_succ]
  omega

theorem read_u32_bytes (x : Nat) (hx : x < 4294967296) (r : List Nat) :
    read_u32 ([x / 16777216 % 256, x / 65536 % 256, x / 256 % 256, x % 256] ++ r) = x := by
  unfold read_u32
  simp only [List.cons_append, List.getD_cons_zero, List.getD_cons_succ]
  omega

theorem read_u64_bytes (x : Nat) (hx : x < SIZE_MOD) (r : List Nat) :
    read_u64 ([x / 72057594037927936 % 256, x / 281474976710656 % 256,
      x / 1099511627776 % 256, x / 4294967296 % 256, x / 16777216 % 256, x / 65536 % 256,
      x / 256 % 256, x % 256] ++ r) = x := by
  unfold read_u64
  simp only [List.cons_append, List.getD_cons_zero, List.getD_cons_succ, SIZE_MOD] at hx ⊢
  omega

theorem read_u8_cons (b : Nat) (r : List Nat) : read_u8 (b :: r) = b % 256 := by
  unfold read_u8
  simp only [List.getD_cons_zero]

theorem head_info_eq (a : List Nat) : head_info a = read_u8 a % 32 := by
  unfold head_info
  rw [get_bitfield_gen8_info]

theorem read_header_major_type_eq (a : List Nat) :
    read_header_major_type a = read_u8 a / 32 := by
  unfold read_header_major_type
  rw [get_bitfield_gen8_major, Nat.mod_eq_of_lt (read_u8_lt a)]

theorem jump_header_eq (a : List Nat) :
    jump_header_ a =
      if head_info a = 24 then 2 else if head_info a = 25 then 3
      else if head_info a = 26 then 5 else if head_info a = 27 then 9 else 1 := by
  simp only [jump_header_, head_info, ADDITIONAL_INFO_LONG_ARGUMENT_8_BITS,
    ADDITIONAL_INFO_LONG_ARGUMENT_16_BITS, ADDITIONAL_INFO_LONG_ARGUMENT_32_BITS,
    ADDITIONAL_INFO_LONG_ARGUMENT_64_BITS]
  split_ifs <;> rfl

theorem read_header_argument_as_uint64_eq (a : List Nat) :
    read_header_argument_as_uint64 a =
      if head_info a = 24 then read_u8 (a.drop 1)
      else if head_info a = 25 then read_u16 (a.drop 1)
      else if head_info a = 26 then read_u32 (a.drop 1)
      else if head_info a = 27 then read_u64 (a.drop 1)
      else head_info a := by
  simp only [read_header_argument_as_uint64, head_info, ADDITIONAL_INFO_LONG_ARGUMENT_8_BITS,
    ADDITIONAL_INFO_LONG_ARGUMENT_16_BITS, ADDITIONAL_INFO_LONG_ARGUMENT_32_BITS,
    ADDITIONAL_INFO_LONG_ARGUMENT_64_BITS]
  split_ifs <;> rfl

/-- The initial byte of a minimal head. -/
theorem ser_head_initial (t x : Nat) (ht : t < 8) (r : List Nat) :
    read_u8 (ser_head t x ++ r) =
      t * 32 + (if x < 24 then x else if x < 256 then 24 else if x < 65536 then 25
        else if x < 4294967296 then 26 else 27) := by
  unfold ser_head
  split_ifs <;> simp only [List.cons_append, read_u8_cons] <;> omega

theorem ser_head_info (t x : Nat) (ht : t < 8) (r : List Nat) :
    head_info (ser_head t x ++ r) =
      if x < 24 then x else if x < 256 then 24 else if x < 65536 then 25
        else if x < 4294967296 then 26 else 27 := by
  rw [head_info_eq, ser_head_initial t x ht]
  split_ifs <;> omega

theorem ser_head_major (t x : Nat) (ht : t < 8) (r : List Nat) :
    read_header_major_type (ser_head t x ++ r) = t := by
  rw [read_header_major_type_eq, ser_head_initial t x ht]
  split_ifs <;> omega

theorem ser_head_jump (t x : Nat) (ht : t < 8) (r : List Nat) :
    jump_header_ (ser_head t x ++ r) = (ser_head t x).length := by
  rw [jump_header_eq, ser_head_info t x ht, ser_head_length]
  split_ifs <;> first | rfl | omega

theorem ser_head_argument (t x : Nat) (ht : t < 8) (hx : x < SIZE_MOD) (r : List Nat) :
    read_header_argument_as_uint64 (ser_head t x ++ r) = x := by
  rw [read_header_argument_as_uint64_eq, ser_head_info t x ht]
  unfold ser_head
  by_cases h1 : x < 24
  · simp only [h1, if_true]
    rw [if_neg (by omega), if_neg (by omega), if_neg (by omega), if_neg (by omega)]
  · by_cases h2 : x < 256
    · simp only [h1, h2, if_true, if_false, List.cons_append, List.drop_succ_cons,
        List.drop_zero, read_u8_cons]
      omega
    · by_cases h3 : x < 65536
      · simp only [h1, h2, h3, if_true, if_false]
        exact read_u16_bytes x h3 r
      · by_cases h4 : x < 4294967296
        · simp only [h1, h2, h3, h4, if_true, if_false]
          exact read_u32_bytes x h4 r
        · simp only [h1, h2, h3, h4, if_true, if_false]
          exact read_u64_bytes x hx r

/-- A minimal head is a well-formed leaf, except a head of major type 7 whose argument is
not a simple value. -/
theorem ser_head_leaf_valid (t x : Nat) (ht : t < 8) (hx : x < SIZE_MOD) (r : List Nat)
    (h7 : t = 7 → x < 256 ∧ ¬ (24 ≤ x ∧ x ≤ 31)) : leaf_valid (ser_head t x ++ r) := by
  unfold leaf_valid head_assigned head_minimal head_min_value
  rw [ser_head_major t x ht, ser_head_argument t x ht hx, ser_head_info t x ht]
  simp only [CBOR_MAJOR_TYPE_SIMPLE_VALUE, ADDITIONAL_INFO_LONG_ARGUMENT_8_BITS,
    ADDITIONAL_INFO_UNASSIGNED_MIN]
  refine ⟨⟨?_, ?_⟩, ?_⟩
  · intro h
    have := h7 h
    split_ifs <;> omega
  · split_ifs <;> omega
  · by_cases h : t = 7
    · have := h7 h
      split_ifs <;> omega
    · split_ifs <;> omega

theorem ser_head_leaf_length (t x : Nat) (ht : t < 8) (hx : x < SIZE_MOD) (r : List Nat) :
    leaf_length (ser_head t x ++ r) =
      (ser_head t x).length + if t = 2 ∨ t = 3 then x else 0 := by
  unfold leaf_length leaf_payload
  rw [ser_head_major t x ht, ser_head_argument t x ht hx, ser_head_jump t x ht]

theorem ser_head_leaf_children (t x : Nat) (ht : t < 8) (hx : x < SIZE_MOD) (r : List Nat) :
    leaf_children (ser_head t x ++ r) =
      if t = 4 then x else if t = 5 then x + x else if t = 6 then 1 else 0 := by
  unfold leaf_children
  rw [ser_head_major t x ht, ser_head_argument t x ht hx]

/-! ## The walk reads only the bytes of the items it passes -/

theorem getD_append_left (s r : List Nat) (i : Nat) (h : i < s.length) :
    (s ++ r).getD i 0 = s.getD i 0 := by
  rw [List.getD_eq_getElem?_getD, List.getD_eq_getElem?_getD, List.getElem?_append_left h]

theorem read_u8_append (s r1 r2 : List Nat) (h : 1 ≤ s.length) :
    read_u8 (s ++ r1) = read_u8 (s ++ r2) := by
  unfold read_u8
  rw [getD_append_left s r1 0 (by omega), getD_append_left s r2 0 (by omega)]

theorem read_u16_append (s r1 r2 : List Nat) (h : 2 ≤ s.length) :
    read_u16 (s ++ r1) = read_u16 (s ++ r2) := by
  unfold read_u16
  rw [getD_append_left s r1 0 (by omega), getD_append_left s r2 0 (by omega),
    getD_append_left s r1 1 (by omega), getD_append_left s r2 1 (by omega)]

theorem read_u32_append (s r1 r2 : List Nat) (h : 4 ≤ s.length) :
    read_u32 (s ++ r1) = read_u32 (s ++ r2) := by
  unfold read_u32
  rw [getD_append_left s r1 0 (by omega), getD_append_left s r2 0 (by omega),
    getD_append_left s r1 1 (by omega), getD_append_left s r2 1 (by omega),
    getD_append_left s r1 2 (by omega), getD_append_left s r2 2 (by omega),
    getD_append_left s r1 3 (by omega), getD_append_left s r2 3 (by omega)]

theorem read_u64_append (s r1 r2 : List Nat) (h : 8 ≤ s.length) :
    read_u64 (s ++ r1) = read_u64 (s ++ r2) := by
  unfold read_u64
  rw [getD_append_left s r1 0 (by omega), getD_append_left s r2 0 (by omega),
    getD_append_left s r1 1 (by omega), getD_append_left s r2 1 (by omega),
    getD_append_left s r1 2 (by omega), getD_append_left s r2 2 (by omega),
    getD_append_left s r1 3 (by omega), getD_append_left s r2 3 (by omega),
    getD_append_left s r1 4 (by omega), getD_append_left s r2 4 (by omega),
    getD_append_left s r1 5 (by omega), getD_append_left s r2 5 (by omega),
    getD_append_left s r1 6 (by omega), getD_append_left s r2 6 (by omega),
    getD_append_left s r1 7 (by omega), getD_append_left s r2 7 (by omega)]

/-- The head at the start of `s ++ r1` is read from `s` alone when `s` holds all its bytes. -/
theorem head_append (s r1 r2 : List Nat) (h : jump_header_ (s ++ r1) ≤ s.length) :
    read_u8 (s ++ r1) = read_u8 (s ++ r2) ∧
      read_header_argument_as_uint64 (s ++ r1) = read_header_argument_as_uint64 (s ++ r2) := by
  have hj := jump_header_pos (s ++ r1)
  have h8 := read_u8_append s r1 r2 (by omega)
  have hi : head_info (s ++ r2) = head_info (s ++ r1) := by
    rw [head_info_eq, head_info_eq, h8]
  refine ⟨h8, ?_⟩
  rw [read_header_argument_as_uint64_eq, read_header_argument_as_uint64_eq, hi,
    List.drop_append_of_le_length (by omega), List.drop_append_of_le_length (by omega)]
  rw [jump_header_eq] at h
  have hl : (s.drop 1).length = s.length - 1 := List.length_drop 1 s
  by_cases c1 : head_info (s ++ r1) = 24
  · rw [if_pos c1, if_pos c1]
    rw [if_pos c1] at h
    exact read_u8_append _ r1 r2 (by omega)
  · rw [if_neg c1, if_neg c1]
    rw [if_neg c1] at h
    by_cases c2 : head_info (s ++ r1) = 25
    · rw [if_pos c2, if_pos c2]
      rw [if_pos c2] at h
      exact read_u16_append _ r1 r2 (by omega)
    · rw [if_neg c2, if_neg c2]
      rw [if_neg c2] at h
      by_cases c3 : head_info (s ++ r1) = 26
      · rw [if_pos c3, if_pos c3]
        rw [if_pos c3] at h
        exact read_u32_append _ r1 r2 (by omega)
      · rw [if_neg c3, if_neg c3]
        rw [if_neg c3] at h
        by_cases c4 : head_info (s ++ r1) = 27
        · rw [if_pos c4, if_pos c4]
          rw [if_pos c4] at h
          exact read_u64_append _ r1 r2 (by omega)
        · rw [if_neg c4, if_neg c4]

/-- Two buffers that share the bytes of a head give the same leaf. -/
theorem leaf_append (s r1 r2 : List Nat) (h : jump_header_ (s ++ r1) ≤ s.length) :
    (leaf_valid (s ++ r1) → leaf_valid (s ++ r2)) ∧
      leaf_length (s ++ r2) = leaf_length (s ++ r1) ∧
      leaf_children (s ++ r2) = leaf_children (s ++ r1) := by
  obtain ⟨h8, ha⟩ := head_append s r1 r2 h
  have hi : head_info (s ++ r2) = head_info (s ++ r1) := by
    rw [head_info_eq, head_info_eq, h8]
  have hm : read_header_major_type (s ++ r2) = read_header_major_type (s ++ r1) := by
    rw [read_header_major_type_eq, read_header_major_type_eq, h8]
  have hj : jump_header_ (s ++ r2) = jump_header_ (s ++ r1) := by
    rw [jump_header_eq, jump_header_eq, hi]
  refine ⟨?_, ?_, ?_⟩
  · unfold leaf_valid head_assigned head_minimal head_min_value
    rw [hi, hm, ha]
    exact id
  · unfold leaf_length leaf_payload
    rw [hj, hm, ha]
  · unfold leaf_children
    rw [hm, ha]

theorem drop_of_append {a s r : List Nat} {p : Nat} (h : a.drop p = s ++ r) :
    a.drop (p + s.length) = r := by
  rw [← List.drop_drop, h, List.drop_left]

/-- The walk over items that end inside the buffer `a` is the walk over the same bytes at any
offset of any other buffer. -/
theorem Walk.transport {a b : List Nat} {p n q : Nat} (hw : Walk a p n q) :
    ∀ p2 r, q ≤ a.length → b.drop p2 = (a.drop p).take (q - p) ++ r →
      Walk b p2 n (p2 + (q - p)) := by
  induction hw with
  | done p =>
    intro p2 r _ _
    rw [Nat.sub_self]
    exact Walk.done p2
  | step p n q hn hv hw ih =>
    intro p2 r hq hr
    have hb := hw.bounds
    have hsl : ((a.drop p).take (q - p)).length = q - p := by
      rw [List.length_take, List.length_drop]
      omega
    have ha : a.drop p = (a.drop p).take (q - p) ++ (a.drop p).drop (q - p) :=
      (List.take_append_drop _ _).symm
    have hjl : jump_header_ (a.drop p) ≤ leaf_length (a.drop p) := by
      unfold leaf_length
      omega
    have hj : jump_header_ ((a.drop p).take (q - p) ++ (a.drop p).drop (q - p)) ≤
        ((a.drop p).take (q - p)).length := by
      rw [← ha, hsl]
      omega
    obtain ⟨c1, c2, c3⟩ := leaf_append _ _ r hj
    rw [← ha] at c1 c2 c3
    rw [← hr] at c1 c2 c3
    have hd : b.drop (p2 + leaf_length (a.drop p)) =
        (a.drop (p + leaf_length (a.drop p))).take (q - (p + leaf_length (a.drop p))) ++ r := by
      rw [← List.drop_drop, hr, List.drop_append_of_le_length (by rw [hsl]; omega),
        List.drop_take, List.drop_drop, Nat.sub_sub]
    have h2 := ih (p2 + leaf_length (a.drop p)) r hq hd
    refine Walk.step p2 n _ hn (c1 hv) ?_
    rw [c2, c3]
    rwa [show p2 + leaf_length (a.drop p) + (q - (p + leaf_length (a.drop p))) = p2 + (q - p)
      by omega] at h2

/-! ## The serialization of a value validates -/

theorem ser_simple_value_eq (v : Nat) (hv : v < 256) :
    ser (cbor.CBOR_Case_Simple_value v) = ser_head 7 v := by
  unfold ser ser_head
  by_cases h : v ≤ 23
  · rw [if_pos h, if_pos (by omega)]
  · rw [if_neg h, if_neg (by omega), if_pos hv]

/-- The item whose head is a minimal head at offset `p`, followed by its payload and by the
items it contains. -/
theorem walk_head (t x : Nat) (ht : t < 8) (hx : x < SIZE_MOD)
    (h7 : t = 7 → x < 256 ∧ ¬ (24 ≤ x ∧ x ≤ 31)) (a : List Nat) (p q : Nat) (r : List Nat)
    (ha : a.drop p = ser_head t x ++ r)
    (hw : Walk a (p + ((ser_head t x).length + if t = 2 ∨ t = 3 then x else 0))
      (if t = 4 then x else if t = 5 then x + x else if t = 6 then 1 else 0) q) :
    Walk a p 1 q := by
  rw [Walk.item_iff, ha, ser_head_leaf_length t x ht hx, ser_head_leaf_children t x ht hx]
  exact ⟨ser_head_leaf_valid t x ht hx r h7, hw⟩

mutual
/-- The serialization of a value that satisfies the invariants is one data item. -/
theorem walk_ser : ∀ v : cbor, cbor_valid v → ∀ (a : List Nat) (p : Nat) (r : List Nat),
    a.drop p = ser v ++ r → Walk a p 1 (p + (ser v).length)
  | .CBOR_Case_Int64 t v, hv, a, p, r, ha => by
    simp only [cbor_valid] at hv
    simp only [ser] at ha ⊢
    refine walk_head t v (by omega) hv.2 (by omega) a p _ r ha ?_
    rw [if_neg (by omega), if_neg (by omega), if_neg (by omega), if_neg (by omega)]
    exact Walk.of_eq rfl
  | .CBOR_Case_Simple_value v, hv, a, p, r, ha => by
    simp only [cbor_valid] at hv
    rw [ser_simple_value_eq v hv.1] at ha ⊢
    refine walk_head 7 v (by omega) (by simp only [SIZE_MOD]; omega) (fun _ => hv) a p _ r ha
      ?_
    rw [if_neg (by omega), if_neg (by omega), if_neg (by omega), if_neg (by omega)]
    exact Walk.of_eq rfl
  | .CBOR_Case_String t len payload, hv, a, p, r, ha => by
    simp only [cbor_valid] at hv
    have hl : (payload.take len).length = len := by
      rw [List.length_take]
      omega
    simp only [ser, List.length_append, hl] at ha ⊢
    rw [List.append_assoc] at ha
    refine walk_head t len (by omega) hv.2.1 (by omega) a p _ _ ha ?_
    rw [if_pos hv.1, if_neg (by omega), if_neg (by omega), if_neg (by omega)]
    exact Walk.of_eq rfl
  | .CBOR_Case_Tagged tag payload, hv, a, p, r, ha => by
    simp only [cbor_valid] at hv
    simp only [ser, List.length_append] at ha ⊢
    rw [List.append_assoc] at ha
    refine walk_head 6 tag (by omega) hv.1 (by omega) a p _ _ ha ?_
    rw [if_neg (by omega), if_neg (by omega), if_neg (by omega), if_pos rfl, Nat.add_zero]
    have := walk_ser payload hv.2 a (p + (ser_head 6 tag).length) r (drop_of_append ha)
    rwa [Nat.add_assoc] at this
  | .CBOR_Case_Array len items, hv, a, p, r, ha => by
    simp only [cbor_valid] at hv
    simp only [ser, List.length_append] at ha ⊢
    rw [List.append_assoc] at ha
    refine walk_head 4 len (by omega) hv.1 (by omega) a p _ _ ha ?_
    rw [if_neg (by omega), if_pos rfl, Nat.add_zero]
    have := walk_ser_items items hv.2.2 a (p + (ser_head 4 len).length) r (drop_of_append ha)
    rwa [Nat.add_assoc, ← hv.2.1] at this
  | .CBOR_Case_Map len entries, hv, a, p, r, ha => by
    simp only [cbor_valid] at hv
    simp only [ser, List.length_append] at ha ⊢
    rw [List.append_assoc] at ha
    refine walk_head 5 len (by omega) hv.1 (by omega) a p _ _ ha ?_
    rw [if_neg (by omega), if_neg (by omega), if_pos rfl, Nat.add_zero]
    have := walk_ser_entries entries hv.2.2 a (p + (ser_head 5 len).length) r
      (drop_of_append ha)
    rwa [Nat.add_assoc, ← hv.2.1] at this
  | .CBOR_Case_Serialized size bytes, hv, a, p, r, ha => by
    simp only [cbor_valid] at hv
    have hl : (bytes.take size).length = size := by
      rw [List.length_take]
      omega
    simp only [ser, hl] at ha ⊢
    have hw := (walk_of_validate bytes size size hv.2.2).1
    have := hw.transport (b := a) p r hv.2.1 (by rw [List.drop_zero, Nat.sub_zero]; exact ha)
    rwa [Nat.sub_zero] at this
/-- The serializations of the items of a list are as many data items in a row. -/
theorem walk_ser_items : ∀ l : List cbor, cbor_valid_items l →
    ∀ (a : List Nat) (p : Nat) (r : List Nat),
    a.drop p = ser_items l ++ r → Walk a p l.length (p + (ser_items l).length)
  | [], _, a, p, r, _ => by
    simp only [ser_items, List.length_nil, Nat.add_zero]
    exact Walk.done p
  | x :: rest, hv, a, p, r, ha => by
    simp only [cbor_valid_items] at hv
    simp only [ser_items, List.length_append, List.length_cons] at ha ⊢
    rw [List.append_assoc] at ha
    have h1 := walk_ser x hv.1 a p _ ha
    have h2 := walk_ser_items rest hv.2 a (p + (ser x).length) r (drop_of_append ha)
    have := Walk.append h1 h2
    rwa [Nat.add_comm 1, Nat.add_assoc] at this
/-- The serializations of the entries of a list are twice as many data items in a row. -/
theorem walk_ser_entries : ∀ l : List (cbor × cbor), cbor_valid_entries l →
    ∀ (a : List Nat) (p : Nat) (r : List Nat),
    a.drop p = ser_entries l ++ r → Walk a p (l.length + l.length) (p + (ser_entries l).length)
  | [], _, a, p, r, _ => by
    simp only [ser_entries, List.length_nil, Nat.add_zero]
    exact Walk.done p
  | x :: rest, hv, a, p, r, ha => by
    simp only [cbor_valid_entries] at hv
    simp only [ser_entries, List.length_append, List.length_cons] at ha ⊢
    rw [List.append_assoc, List.append_assoc] at ha
    have h1 := walk_ser x.1 hv.1 a p _ ha
    have ha2 := drop_of_append ha
    have h2 := walk_ser x.2 hv.2.1 a (p + (ser x.1).length) _ ha2
    have h3 := walk_ser_entries rest hv.2.2 a (p + (ser x.1).length + (ser x.2).length) r
      (drop_of_append ha2)
    have := Walk.append (Walk.append h1 h2) h3
    rwa [show 1 + 1 + (rest.length + rest.length) = rest.length + 1 + (rest.length + 1)
      by omega, show p + (ser x.1).length + (ser x.2).length + (ser_entries rest).length =
        p + ((ser x.1).length + (ser x.2).length + (ser_entries rest).length) by omega] at this
end

/-! ## Reading back a written array -/

mutual
theorem cbor_valid_wf : ∀ v : cbor, cbor_valid v → cbor_wf v
  | .CBOR_Case_Int64 t v, hv => by
    simp only [cbor_valid] at hv
    simp only [cbor_wf]
    omega
  | .CBOR_Case_Simple_value v, hv => by
    simp only [cbor_valid] at hv
    simp only [cbor_wf]
    omega
  | .CBOR_Case_String t len payload, hv => by
    simp only [cbor_valid] at hv
    simp only [cbor_wf]
    omega
  | .CBOR_Case_Tagged tag payload, hv => by
    simp only [cbor_valid] at hv
    simp only [cbor_wf]
    exact ⟨hv.1, cbor_valid_wf payload hv.2⟩
  | .CBOR_Case_Array len items, hv => by
    simp only [cbor_valid] at hv
    simp only [cbor_wf]
    exact ⟨hv.1, hv.2.1, cbor_valid_items_wf items hv.2.2⟩
  | .CBOR_Case_Map len entries, hv => by
    simp only [cbor_valid] at hv
    simp only [cbor_wf]
    exact ⟨hv.1, hv.2.1, cbor_valid_entries_wf entries hv.2.2⟩
  | .CBOR_Case_Serialized size bytes, hv => by
    simp only [cbor_valid] at hv
    simp only [cbor_wf]
    exact ⟨hv.1, hv.2.1⟩
theorem cbor_valid_items_wf : ∀ l : List cbor, cbor_valid_items l → cbor_wf_items l
  | [], _ => by
    simp only [cbor_wf_items]
  | x :: rest, hv => by
    simp only [cbor_valid_items] at hv
    simp only [cbor_wf_items]
    exact ⟨cbor_valid_wf x hv.1, cbor_valid_items_wf rest hv.2⟩
theorem cbor_valid_entries_wf : ∀ l : List (cbor × cbor), cbor_valid_entries l →
    cbor_wf_entries l
  | [], _ => by
    simp only [cbor_wf_entries]
  | x :: rest, hv => by
    simp only [cbor_valid_entries] at hv
    simp only [cbor_wf_entries]
    exact ⟨cbor_valid_wf x.1 hv.1, cbor_valid_wf x.2 hv.2.1, cbor_valid_entries_wf rest hv.2.2⟩
end

/-- The jump over the serialization of a value skips exactly its bytes. -/
theorem jump_raw_data_item_ser (x : cbor) (hv : cbor_valid x) (r : List Nat)
    (hM : (ser x).length < SIZE_MOD) : jump_raw_data_item (ser x ++ r) = (ser x).length := by
  have hw := walk_ser x hv (ser x ++ r) 0 r (List.drop_zero _)
  rw [Nat.zero_add] at hw
  have := jump_raw_data_item_of_walk (ser x ++ r) 0 _ hw
    (by rw [List.length_append]; omega) hM
  rw [List.drop_zero, Nat.sub_zero] at this
  exact this

theorem ser_items_append (l1 l2 : List cbor) :
    ser_items (l1 ++ l2) = ser_items l1 ++ ser_items l2 := by
  induction l1 with
  | nil => simp only [ser_items, List.nil_append]
  | cons x rest ih =>
    rw [List.cons_append]
    simp only [ser_items]
    rw [ih, List.append_assoc]

theorem cbor_valid_items_getD (l : List cbor) (hv : cbor_valid_items l) (i : Nat)
    (hi : i < l.length) : cbor_valid (l.getD i cbor_dummy) := by
  induction l generalizing i with
  | nil => simp only [List.length_nil] at hi; omega
  | cons x rest ih =>
    simp only [cbor_valid_items] at hv
    cases i with
    | zero => simpa only [List.getD_cons_zero] using hv.1
    | succ i =>
      simp only [List.getD_cons_succ]
      exact ih hv.2 i (by simp only [List.length_cons] at hi; omega)

theorem ser_items_drop (l : List cbor) (i : Nat) (hi : i < l.length) :
    ser_items (l.drop i) = ser (l.getD i cbor_dummy) ++ ser_items (l.drop (i + 1)) := by
  induction l generalizing i with
  | nil => simp only [List.length_nil] at hi; omega
  | cons x rest ih =>
    cases i with
    | zero => simp only [List.drop_zero, List.getD_cons_zero, ser_items, List.drop_succ_cons]
    | succ i =>
      simp only [List.drop_succ_cons, List.getD_cons_succ]
      exact ih i (by simp only [List.length_cons] at hi; omega)

/-- Skipping `i` items from the start of the serializations of a list of values leaves the
serializations of the values from index `i` on. -/
theorem skip_items_ser_items (l : List cbor) (hv : cbor_valid_items l) (r : List Nat)
    (hM : (ser_items l).length < SIZE_MOD) (i : Nat) (hi : i ≤ l.length) :
    skip_items i (ser_items l ++ r) = ser_items (l.drop i) ++ r := by
  induction l generalizing i with
  | nil =>
    have : i = 0 := by simpa using hi
    subst this
    simp only [skip_items, List.drop_nil]
  | cons x rest ih =>
    simp only [cbor_valid_items] at hv
    simp only [ser_items, List.length_append] at hM
    cases i with
    | zero => simp only [skip_items, List.drop_zero]
    | succ i =>
      simp only [skip_items, ser_items, List.drop_succ_cons, List.append_assoc]
      rw [jump_raw_data_item_ser x hv.1 _ (by omega), List.drop_left]
      exact ih hv.2 (by omega) i (by simp only [List.length_cons] at hi; omega)

/-- The value read back from the bytes written for a valid value is the serialized slice of
those bytes. -/
theorem cbor_read_written (v : cbor) (hv : cbor_valid v) (r : List Nat) :
    cbor_read (ser v ++ r) (ser v).length =
      { cbor_read_is_success := true,
        cbor_read_payload := cbor.CBOR_Case_Serialized (ser v).length (ser v ++ r),
        cbor_read_remainder := (ser v ++ r).drop (ser v).length,
        cbor_read_remainder_length := (ser v).length - (ser v).length } := by
  have hw := walk_ser v hv (ser v ++ r) 0 r (List.drop_zero _)
  rw [Nat.zero_add] at hw
  exact cbor_read_of_ok _ _ _ (validate_of_walk _ _ _ hw (Nat.le_refl _))

/-- C19. Array access is uniform across representations: let `A` be a constructed array of
`n` items that satisfies the invariants of section 3, written by `cbor_write` into a buffer
of capacity `sz` that holds its encoding, and let `s` be the payload that `cbor_read` returns
on the bytes written. Then the read succeeds, `cbor_array_length s = n = cbor_array_length A`,
and for `i < n`, `cbor_array_index A i` is the item `x_i` while `cbor_array_index s i` is the
serialized slice that starts after the array head and the encodings of the items before
`x_i`, whose size is the length of the encoding of `x_i` and whose first bytes are that
encoding. -/
theorem array_access_uniform (n : Nat) (items : List cbor) (out : List Nat) (sz i : Nat)
    (hv : cbor_valid (cbor.CBOR_Case_Array n items))
    (hs : (ser (cbor.CBOR_Case_Array n items)).length ≤ sz) (hcap : sz ≤ out.length)
    (hM : sz < SIZE_MOD) (hi : i < n) :
    (cbor_read (cbor_write (cbor.CBOR_Case_Array n items) out sz).2
        (cbor_write (cbor.CBOR_Case_Array n items) out sz).1).cbor_read_is_success = true ∧
      cbor_array_length (cbor_read (cbor_write (cbor.CBOR_Case_Array n items) out sz).2
        (cbor_write (cbor.CBOR_Case_Array n items) out sz).1).cbor_read_payload = some n ∧
      cbor_array_length (cbor.CBOR_Case_Array n items) = some n ∧
      cbor_array_index (cbor.CBOR_Case_Array n items) i = some (items.getD i cbor_dummy) ∧
      cbor_array_index (cbor_read (cbor_write (cbor.CBOR_Case_Array n items) out sz).2
          (cbor_write (cbor.CBOR_Case_Array n items) out sz).1).cbor_read_payload i =
        some (cbor.CBOR_Case_Serialized (ser (items.getD i cbor_dummy)).length
          ((cbor_write (cbor.CBOR_Case_Array n items) out sz).2.drop
            ((ser_head 4 n).length + (ser_items (items.take i)).length))) ∧
      ((cbor_write (cbor.CBOR_Case_Array n items) out sz).2.drop
          ((ser_head 4 n).length + (ser_items (items.take i)).length)).take
        (ser (items.getD i cbor_dummy)).length = ser (items.getD i cbor_dummy) := by
  rw [cbor_write_ok _ (cbor_valid_wf _ hv) out sz hs hcap]
  simp only []
  rw [cbor_read_written _ hv]
  simp only []
  generalize out.drop (ser (cbor.CBOR_Case_Array n items)).length = r
  simp only [cbor_valid] at hv
  obtain ⟨hn, hlen, hitems⟩ := hv
  simp only [ser, List.length_append] at hs
  have hil : i < items.length := by omega
  have hb : ser (cbor.CBOR_Case_Array n items) ++ r =
      ser_head 4 n ++ (ser_items items ++ r) := by
    simp only [ser, List.append_assoc]
  have hsplit : ser_items items =
      ser_items (items.take i) ++ (ser (items.getD i cbor_dummy) ++
        ser_items (items.drop (i + 1))) := by
    rw [← ser_items_drop items i hil, ← ser_items_append, List.take_append_drop]
  have hdrop : (ser_head 4 n ++ (ser_items items ++ r)).drop
      ((ser_head 4 n).length + (ser_items (items.take i)).length) =
      ser (items.getD i cbor_dummy) ++ (ser_items (items.drop (i + 1)) ++ r) := by
    rw [← List.drop_drop, List.drop_left]
    nth_rewrite 1 [hsplit]
    rw [List.append_assoc, List.drop_left, List.append_assoc]
  have hxM : (ser (items.getD i cbor_dummy)).length < SIZE_MOD := by
    have := congrArg List.length hsplit
    simp only [List.length_append] at this
    omega
  rw [hb, hdrop]
  refine ⟨trivial, ?_, rfl, rfl, ?_, List.take_left _ _⟩
  · simp only [cbor_array_length, read_argument_as_uint64, read_argument_as_uint64_]
    rw [ser_head_argument 4 n (by decide) hn]
  · simp only [cbor_array_index]
    rw [cbor_array_index_case_serialized_eq _ i (by omega)]
    unfold focus_array_with_ghost_length
    rw [ser_head_jump 4 n (by decide), List.drop_left,
      skip_items_ser_items items hitems r (by omega) i (by omega),
      ser_items_drop items i hil, List.append_assoc]
    unfold slice_at
    rw [jump_raw_data_item_ser _ (cbor_valid_items_getD items hitems i hil) _ hxM]

theorem array_access_uniform_witness :
    cbor_valid (cbor.CBOR_Case_Array 3
      [cbor.CBOR_Case_Int64 0 1000, cbor.CBOR_Case_Serialized 2 [0x61, 0x62],
       cbor.CBOR_Case_Tagged 1 (cbor.CBOR_Case_Simple_value 21)]) ∧
    ser (cbor.CBOR_Case_Array 3
      [cbor.CBOR_Case_Int64 0 1000, cbor.CBOR_Case_Serialized 2 [0x61, 0x62],
       cbor.CBOR_Case_Tagged 1 (cbor.CBOR_Case_Simple_value 21)])
      = [0x83, 0x19, 0x03, 0xE8, 0x61, 0x62, 0xC1, 0xF5] ∧
    (cbor_read (cbor_write (cbor.CBOR_Case_Array 3
      [cbor.CBOR_Case_Int64 0 1000, cbor.CBOR_Case_Serialized 2 [0x61, 0x62],
       cbor.CBOR_Case_Tagged 1 (cbor.CBOR_Case_Simple_value 21)])
        [0, 0, 0, 0, 0, 0, 0, 0, 0, 0] 9).2
      (cbor_write (cbor.CBOR_Case_Array 3
      [cbor.CBOR_Case_Int64 0 1000, cbor.CBOR_Case_Serialized 2 [0x61, 0x62],
       cbor.CBOR_Case_Tagged 1 (cbor.CBOR_Case_Simple_value 21)])
        [0, 0, 0, 0, 0, 0, 0, 0, 0, 0] 9).1).cbor_read_is_success = true ∧
    cbor_array_index (cbor_read (cbor_write (cbor.CBOR_Case_Array 3
      [cbor.CBOR_Case_Int64 0 1000, cbor.CBOR_Case_Serialized 2 [0x61, 0x62],
       cbor.CBOR_Case_Tagged 1 (cbor.CBOR_Case_Simple_value 21)])
        [0, 0, 0, 0, 0, 0, 0, 0, 0, 0] 9).2
      (cbor_write (cbor.CBOR_Case_Array 3
      [cbor.CBOR_Case_Int64 0 1000, cbor.CBOR_Case_Serialized 2 [0x61, 0x62],
       cbor.CBOR_Case_Tagged 1 (cbor.CBOR_Case_Simple_value 21)])
        [0, 0, 0, 0, 0, 0, 0, 0, 0, 0] 9).1).cbor_read_payload 1 =
      some (cbor.CBOR_Case_Serialized 2 [0x61, 0x62, 0xC1, 0xF5, 0, 0]) :=
  have h := array_access_uniform 3
    [cbor.CBOR_Case_Int64 0 1000, cbor.CBOR_Case_Serialized 2 [0x61, 0x62],
      cbor.CBOR_Case_Tagged 1 (cbor.CBOR_Case_Simple_value 21)]
    [0, 0, 0, 0, 0, 0, 0, 0, 0, 0] 9 1
    (by simp [cbor_valid, cbor_valid_items, SIZE_MOD]; decide) (by decide) (by decide)
    (by decide) (by decide)
  ⟨by simp [cbor_valid, cbor_valid_items, SIZE_MOD]; decide, by decide, h.1, h.2.2.2.2.1⟩

/-! ## The remaining length of the output cursor -/

theorem size_sub_eq (x y : Nat) (hy : y ≤ x) (hx : x < SIZE_MOD) : size_sub x y = x - y := by
  unfold size_sub
  simp only [SIZE_MOD] at hx ⊢
  omega

theorem l2r_emit_len (out : L2ROutput) (n : Nat) (bytes : List Nat) :
    (l2r_emit out n bytes).len = size_sub out.len n := by
  unfold l2r_emit
  simp only []

theorem l2r_emit_nil_len (out : L2ROutput) (hx : out.len < SIZE_MOD) :
    (l2r_emit out 0 []).len = out.len := by
  rw [l2r_emit_len, size_sub_eq _ _ (Nat.zero_le _) hx, Nat.sub_zero]

/-- Two emissions in a row lower the remaining length by their total. -/
theorem l2r_emit_emit_len (out : L2ROutput) (n m : Nat) (b1 b2 : List Nat)
    (h : n + m ≤ out.len) (hx : out.len < SIZE_MOD) :
    (l2r_emit (l2r_emit out n b1) m b2).len = out.len - (n + m) := by
  rw [l2r_emit_len, l2r_emit_len, size_sub_eq _ n (by omega) hx,
    size_sub_eq _ m (by omega) (by omega)]
  omega

/-- The head writer lowers the remaining length by the length of the head. -/
theorem l2r_write_uint64_header_len (ty x : Nat) (out : L2ROutput)
    (h : (ser_head ty x).length ≤ out.len) (hx : out.len < SIZE_MOD) :
    (l2r_write_uint64_header ty x out).len = out.len - (ser_head ty x).length := by
  rw [ser_head_length] at h ⊢
  unfold l2r_write_uint64_header
  simp only [MIN_DETERMINISTIC_UINT8_AS_UINT64, MIN_DETERMINISTIC_UINT16_AS_UINT64,
    MIN_DETERMINISTIC_UINT32_AS_UINT64, MIN_DETERMINISTIC_UINT64]
  by_cases h1 : x < 24
  · rw [if_pos h1] at h ⊢
    rw [if_pos h1, l2r_emit_emit_len out 1 0 _ _ (by omega) hx]
  rw [if_neg h1] at h ⊢
  rw [if_neg h1]
  by_cases h2 : x < 256
  · rw [if_pos h2] at h ⊢
    rw [if_pos h2, l2r_emit_emit_len out 1 1 _ _ (by omega) hx]
  rw [if_neg h2] at h ⊢
  rw [if_neg h2]
  by_cases h3 : x < 65536
  · rw [if_pos h3] at h ⊢
    rw [if_pos h3, l2r_emit_emit_len out 1 2 _ _ (by omega) hx]
  rw [if_neg h3] at h ⊢
  rw [if_neg h3]
  by_cases h4 : x < 4294967296
  · rw [if_pos h4] at h ⊢
    rw [if_pos h4, l2r_emit_emit_len out 1 4 _ _ (by omega) hx]
  · rw [if_neg h4] at h ⊢
    rw [if_neg h4, l2r_emit_emit_len out 1 8 _ _ (by omega) hx]

theorem l2r_write_simple_value_len (v : Nat) (out : L2ROutput)
    (h : (ser (cbor.CBOR_Case_Simple_value v)).length ≤ out.len) (hx : out.len < SIZE_MOD) :
    (l2r_write_simple_value v out).len =
      out.len - (ser (cbor.CBOR_Case_Simple_value v)).length := by
  unfold l2r_write_simple_value
  simp only [ser, MAX_SIMPLE_VALUE_ADDITIONAL_INFO] at h ⊢
  by_cases hv : v ≤ 23
  · rw [if_pos hv] at h ⊢
    rw [if_pos hv]
    simp only [List.length_singleton] at h ⊢
    have e := l2r_emit_emit_len out 1 0 (write_initial_byte CBOR_MAJOR_TYPE_SIMPLE_VALUE v) []
      (by omega) hx
    rw [l2r_emit_nil_len _ (by rw [e]; omega), e]
  · rw [if_neg hv] at h ⊢
    rw [if_neg hv]
    simp only [List.length_cons, List.length_nil] at h ⊢
    have e := l2r_emit_emit_len out 1 1
      (write_initial_byte CBOR_MAJOR_TYPE_SIMPLE_VALUE ADDITIONAL_INFO_LONG_ARGUMENT_8_BITS)
      (write_u8 v) (by omega) hx
    rw [l2r_emit_nil_len _ (by rw [e]; omega), e]

theorem l2r_write_cbor_string_len (t len : Nat) (payload : List Nat) (out : L2ROutput) :
    (l2r_write_cbor_string t len payload out).len =
      size_sub (l2r_write_uint64_header t len out).len len := by
  unfold l2r_write_cbor_string
  simp only []

theorem l2r_writer_for_serialized_len (size : Nat) (payload : List Nat) (out : L2ROutput) :
    (l2r_writer_for_serialized size payload out).len = size_sub out.len size := by
  unfold l2r_writer_for_serialized
  simp only []

mutual
/-- The writer lowers the remaining length of the cursor by the length of the serialization. -/
theorem cbor_l2r_write_len : ∀ c : cbor, cbor_wf c → ∀ out : L2ROutput,
    (ser c).length ≤ out.len → out.len < SIZE_MOD →
    (cbor_l2r_write c out).len = out.len - (ser c).length
  | .CBOR_Case_Int64 t v, _, out, h, hx => by
    simp only [ser] at h ⊢
    simp only [cbor_l2r_write, l2r_write_int64]
    have e := l2r_write_uint64_header_len t v out h hx
    rw [l2r_emit_nil_len _ (by rw [e]; omega), e]
  | .CBOR_Case_Simple_value v, _, out, h, hx => by
    simp only [cbor_l2r_write]
    exact l2r_write_simple_value_len v out h hx
  | .CBOR_Case_String t len payload, hwf, out, h, hx => by
    simp only [cbor_wf] at hwf
    have hl : (payload.take len).length = len := by
      rw [List.length_take]
      omega
    simp only [ser, List.length_append, hl] at h ⊢
    simp only [cbor_l2r_write]
    rw [l2r_write_cbor_string_len, l2r_write_uint64_header_len t len out (by omega) hx,
      size_sub_eq _ _ (by omega) (by omega)]
    omega
  | .CBOR_Case_Tagged tag payload, hwf, out, h, hx => by
    simp only [cbor_wf] at hwf
    simp only [ser, List.length_append] at h ⊢
    simp only [cbor_l2r_write, CBOR_MAJOR_TYPE_TAGGED]
    have e := l2r_write_uint64_header_len 6 tag out (by omega) hx
    rw [cbor_l2r_write_len payload hwf.2 _ (by rw [e]; omega) (by rw [e]; omega), e]
    omega
  | .CBOR_Case_Array len items, hwf, out, h, hx => by
    simp only [cbor_wf] at hwf
    simp only [ser, List.length_append] at h ⊢
    simp only [cbor_l2r_write, CBOR_MAJOR_TYPE_ARRAY]
    have e := l2r_write_uint64_header_len 4 len out (by omega) hx
    have e2 := l2r_emit_nil_len (l2r_write_uint64_header 4 len out) (by rw [e]; omega)
    rw [cbor_l2r_write_array_loop_len items hwf.2.2 len 0 (by omega) _
      (by rw [e2, e]; omega) (by rw [e2, e]; omega), e2, e]
    omega
  | .CBOR_Case_Map len entries, hwf, out, h, hx => by
    simp only [cbor_wf] at hwf
    simp only [ser, List.length_append] at h ⊢
    simp only [cbor_l2r_write, CBOR_MAJOR_TYPE_MAP]
    have e := l2r_write_uint64_header_len 5 len out (by omega) hx
    have e2 := l2r_emit_nil_len (l2r_write_uint64_header 5 len out) (by rw [e]; omega)
    rw [cbor_l2r_write_map_loop_len entries hwf.2.2 len 0 (by omega) _
      (by rw [e2, e]; omega) (by rw [e2, e]; omega), e2, e]
    omega
  | .CBOR_Case_Serialized size bytes, hwf, out, h, hx => by
    simp only [cbor_wf] at hwf
    have hl : (bytes.take size).length = size := by
      rw [List.length_take]
      omega
    simp only [ser, hl] at h ⊢
    simp only [cbor_l2r_write]
    rw [l2r_writer_for_serialized_len, size_sub_eq _ _ h hx]
/-- The loop over the items of an array lowers the remaining length by their total length. -/
theorem cbor_l2r_write_array_loop_len : ∀ items : List cbor, cbor_wf_items items →
    ∀ len r, r + items.length = len → ∀ out : L2ROutput,
    (ser_items items).length ≤ out.len → out.len < SIZE_MOD →
    (cbor_l2r_write_array_loop items len r out).len = out.len - (ser_items items).length
  | [], _, len, r, _, out, _, _ => by
    simp only [cbor_l2r_write_array_loop, ser_items, List.length_nil, Nat.sub_zero]
  | x :: rest, hwf, len, r, hlen, out, h, hx => by
    simp only [cbor_wf_items] at hwf
    simp only [List.length_cons] at hlen
    simp only [ser_items, List.length_append] at h ⊢
    have hr : r < len := by omega
    simp only [cbor_l2r_write_array_loop, hr, if_true]
    have e := cbor_l2r_write_len x hwf.1 out (by omega) hx
    rw [cbor_l2r_write_array_loop_len rest hwf.2 len (r + 1) (by omega) _
      (by rw [e]; omega) (by rw [e]; omega), e]
    omega
/-- The loop over the entries of a map lowers the remaining length by their total length. -/
theorem cbor_l2r_write_map_loop_len : ∀ entries : List (cbor × cbor),
    cbor_wf_entries entries → ∀ len r, r + entries.length = len → ∀ out : L2ROutput,
    (ser_entries entries).length ≤ out.len → out.len < SIZE_MOD →
    (cbor_l2r_write_map_loop entries len r out).len = out.len - (ser_entries entries).length
  | [], _, len, r, _, out, _, _ => by
    simp only [cbor_l2r_write_map_loop, ser_entries, List.length_nil, Nat.sub_zero]
  | x :: rest, hwf, len, r, hlen, out, h, hx => by
    simp only [cbor_wf_entries] at hwf
    simp only [List.length_cons] at hlen
    simp only [ser_entries, List.length_append] at h ⊢
    have hr : r < len := by omega
    simp only [cbor_l2r_write_map_loop, hr, if_true]
    have e1 := cbor_l2r_write_len x.1 hwf.1 out (by omega) hx
    have e2 := cbor_l2r_write_len x.2 hwf.2.1 (cbor_l2r_write x.1 out) (by rw [e1]; omega)
      (by rw [e1]; omega)
    rw [cbor_l2r_write_map_loop_len rest hwf.2.2 len (r + 1) (by omega) _
      (by rw [e2, e1]; omega) (by rw [e2, e1]; omega), e2, e1]
    omega
end

/-! ## What a write leaves in the buffer -/

theorem wrote_take (out out2 : L2ROutput) (bytes : List Nat) (h : Wrote out out2 bytes)
    (hp : out.ptr ≤ out.buf.length) : out2.buf.take out.ptr = out.buf.take out.ptr := by
  have hl : (out.buf.take out.ptr).length = out.ptr := by
    rw [List.length_take]
    omega
  rw [h.1, List.append_assoc]
  nth_rewrite 1 [← hl]
  rw [List.take_left]

theorem wrote_drop (out out2 : L2ROutput) (bytes : List Nat) (h : Wrote out out2 bytes)
    (hp : out.ptr ≤ out.buf.length) :
    out2.buf.drop out.ptr = bytes ++ out.buf.drop (out.ptr + bytes.length) := by
  have hl : (out.buf.take out.ptr).length = out.ptr := by
    rw [List.length_take]
    omega
  rw [h.1, List.append_assoc]
  nth_rewrite 1 [← hl]
  rw [List.drop_left]

theorem wrote_drop_after (out out2 : L2ROutput) (bytes : List Nat) (h : Wrote out out2 bytes)
    (hp : out.ptr ≤ out.buf.length) :
    out2.buf.drop (out.ptr + bytes.length) = out.buf.drop (out.ptr + bytes.length) := by
  rw [← List.drop_drop, wrote_drop out out2 bytes h hp, List.drop_left]

/-- C26. Head minimality of the writer: for a major type `ty` in 0..7 and a 64-bit value `x`,
`l2r_write_uint64_header` stores at the cursor exactly 1 byte `ty*32 + x` when `x < 24`;
2 bytes with additional info 24 when `24 <= x < 2^8`; 3 bytes with additional info 25 when
`2^8 <= x < 2^16`; 5 bytes with additional info 26 when `2^16 <= x < 2^32`; and 9 bytes with
additional info 27 otherwise. The initial byte is `ty*32 + AI` and the argument bytes are `x`
in big-endian order; the cursor advances past the bytes, the remaining length drops by their
number, and the rest of the buffer is unchanged. -/
theorem writer_head_minimality (ty x n : Nat) (out : L2ROutput) (hty : ty < 8)
    (hx : x < SIZE_MOD)
    (hn : n = if x < 24 then 1 else if x < 256 then 2 else if x < 65536 then 3
      else if x < 4294967296 then 5 else 9)
    (hlen : n ≤ out.len) (hbuf : out.ptr + out.len ≤ out.buf.length)
    (hM : out.len < SIZE_MOD) :
    ∃ bytes : List Nat,
      Wrote out (l2r_write_uint64_header ty x out) bytes ∧ bytes.length = n ∧
      (l2r_write_uint64_header ty x out).len = out.len - n ∧
      (x < 24 → bytes = [ty * 32 + x]) ∧
      (24 ≤ x → x < 256 → bytes = [ty * 32 + 24, x]) ∧
      (256 ≤ x → x < 65536 → bytes = [ty * 32 + 25, x / 256, x % 256]) ∧
      (65536 ≤ x → x < 4294967296 →
        bytes = [ty * 32 + 26, x / 16777216, x / 65536 % 256, x / 256 % 256, x % 256]) ∧
      (4294967296 ≤ x →
        bytes = [ty * 32 + 27, x / 72057594037927936, x / 281474976710656 % 256,
          x / 1099511627776 % 256, x / 4294967296 % 256, x / 16777216 % 256,
          x / 65536 % 256, x / 256 % 256, x % 256]) := by
  rw [← ser_head_length ty x] at hn
  subst hn
  refine ⟨ser_head ty x, l2r_write_uint64_header_wrote ty x out hty (by omega), rfl,
    l2r_write_uint64_header_len ty x out hlen hM, ?_, ?_, ?_, ?_, ?_⟩
  · intro h1
    unfold ser_head
    rw [if_pos h1]
  · intro h1 h2
    unfold ser_head
    rw [if_neg (by omega), if_pos h2]
  · intro h1 h2
    unfold ser_head
    rw [if_neg (by omega), if_neg (by omega), if_pos h2, Nat.mod_eq_of_lt (by omega)]
  · intro h1 h2
    unfold ser_head
    rw [if_neg (by omega), if_neg (by omega), if_neg (by omega), if_pos h2,
      Nat.mod_eq_of_lt (by omega)]
  · intro h1
    unfold ser_head
    rw [if_neg (by omega), if_neg (by omega), if_neg (by omega), if_neg (by omega),
      Nat.mod_eq_of_lt (by simp only [SIZE_MOD] at hx; omega)]

theorem writer_head_minimality_witness :
    (1 : Nat) < 8 ∧ (1000 : Nat) < SIZE_MOD ∧
    (3 : Nat) ≤ ({ buf := [9, 9, 9, 9, 9], ptr := 1, len := 4 } : L2ROutput).len ∧
    (l2r_write_uint64_header 1 1000 { buf := [9, 9, 9, 9, 9], ptr := 1, len := 4 }).buf =
      [9, 0x39, 0x03, 0xE8, 9] ∧
    ∃ bytes : List Nat,
      Wrote { buf := [9, 9, 9, 9, 9], ptr := 1, len := 4 }
        (l2r_write_uint64_header 1 1000 { buf := [9, 9, 9, 9, 9], ptr := 1, len := 4 }) bytes ∧
      bytes.length = 3 ∧
      (l2r_write_uint64_header 1 1000 { buf := [9, 9, 9, 9, 9], ptr := 1, len := 4 }).len =
        ({ buf := [9, 9, 9, 9, 9], ptr := 1, len := 4 } : L2ROutput).len - 3 ∧
      ((1000 : Nat) < 24 → bytes = [1 * 32 + 1000]) ∧
      ((24 : Nat) ≤ 1000 → (1000 : Nat) < 256 → bytes = [1 * 32 + 24, 1000]) ∧
      ((256 : Nat) ≤ 1000 → (1000 : Nat) < 65536 →
        bytes = [1 * 32 + 25, 1000 / 256, 1000 % 256]) ∧
      ((65536 : Nat) ≤ 1000 → (1000 : Nat) < 4294967296 →
        bytes = [1 * 32 + 26, 1000 / 16777216, 1000 / 65536 % 256, 1000 / 256 % 256,
          1000 % 256]) ∧
      ((4294967296 : Nat) ≤ 1000 →
        bytes = [1 * 32 + 27, 1000 / 72057594037927936, 1000 / 281474976710656 % 256,
          1000 / 1099511627776 % 256, 1000 / 4294967296 % 256, 1000 / 16777216 % 256,
          1000 / 65536 % 256, 1000 / 256 % 256, 1000 % 256]) :=
  ⟨by decide, by decide, by decide, by decide,
    writer_head_minimality 1 1000 3 { buf := [9, 9, 9, 9, 9], ptr := 1, len := 4 } (by decide)
      (by decide) (by decide) (by decide) (by decide) (by decide)⟩

/-- C27. Output-cursor contract: for a value `v` whose fields are in the range of their C
types, with encoded size `s` (the length of its serialization), and an output cursor with a
remaining length of at least `s` inside its buffer, after `cbor_l2r_write v out` the cursor
pointer has advanced by exactly `s`, the remaining length has decreased by exactly `s`, the
`s` bytes from the old pointer hold the encoding of `v`, and every byte of the buffer outside
that range is unchanged. -/
theorem output_cursor_contract (v : cbor) (hwf : cbor_wf v) (out : L2ROutput)
    (hlen : (ser v).length ≤ out.len) (hbuf : out.ptr + out.len ≤ out.buf.length)
    (hM : out.len < SIZE_MOD) :
    (cbor_l2r_write v out).ptr = out.ptr + (ser v).length ∧
      (cbor_l2r_write v out).len = out.len - (ser v).length ∧
      ((cbor_l2r_write v out).buf.drop out.ptr).take (ser v).length = ser v ∧
      (cbor_l2r_write v out).buf.take out.ptr = out.buf.take out.ptr ∧
      (cbor_l2r_write v out).buf.drop (out.ptr + (ser v).length) =
        out.buf.drop (out.ptr + (ser v).length) ∧
      (cbor_l2r_write v out).buf.length = out.buf.length := by
  have hw := cbor_l2r_write_wrote v hwf out (by omega)
  refine ⟨hw.2, cbor_l2r_write_len v hwf out hlen hM, ?_, wrote_take _ _ _ hw (by omega),
    wrote_drop_after _ _ _ hw (by omega), wrote_length _ _ _ hw (by omega)⟩
  rw [wrote_drop _ _ _ hw (by omega), List.take_left]

theorem output_cursor_contract_witness :
    cbor_wf (cbor.CBOR_Case_Tagged 1 (cbor.CBOR_Case_Int64 0 1363896240)) ∧
    (cbor_l2r_write (cbor.CBOR_Case_Tagged 1 (cbor.CBOR_Case_Int64 0 1363896240))
      { buf := [9, 9, 9, 9, 9, 9, 9, 9, 9], ptr := 1, len := 7 }).buf =
        [9, 0xC1, 0x1A, 0x51, 0x4B, 0x67, 0xB0, 9, 9] ∧
    (cbor_l2r_write (cbor.CBOR_Case_Tagged 1 (cbor.CBOR_Case_Int64 0 1363896240))
      { buf := [9, 9, 9, 9, 9, 9, 9, 9, 9], ptr := 1, len := 7 }).ptr =
        1 + (ser (cbor.CBOR_Case_Tagged 1 (cbor.CBOR_Case_Int64 0 1363896240))).length ∧
    (cbor_l2r_write (cbor.CBOR_Case_Tagged 1 (cbor.CBOR_Case_Int64 0 1363896240))
      { buf := [9, 9, 9, 9, 9, 9, 9, 9, 9], ptr := 1, len := 7 }).len =
        7 - (ser (cbor.CBOR_Case_Tagged 1 (cbor.CBOR_Case_Int64 0 1363896240))).length :=
  have h := output_cursor_contract (cbor.CBOR_Case_Tagged 1 (cbor.CBOR_Case_Int64 0 1363896240))
    (by simp [cbor_wf, SIZE_MOD]) { buf := [9, 9, 9, 9, 9, 9, 9, 9, 9], ptr := 1, len := 7 }
    (by decide) (by decide) (by decide)
  ⟨by simp [cbor_wf, SIZE_MOD], by decide, h.1, h.2.1⟩

/-- C30. Header codec round trip: for a major type `ty` in 0..7 and a 64-bit value `x`, on
the bytes `h` that `l2r_write_uint64_header ty x` stores at the cursor,
`read_header_major_type h = ty`, `read_header_argument_as_uint64 h = x`, and `jump_header_ h`
is the number of bytes emitted (the advance of the cursor). -/
theorem header_codec_round_trip (ty x : Nat) (out : L2ROutput) (hty : ty < 8)
    (hx : x < SIZE_MOD)
    (hcap : out.ptr + (if x < 24 then 1 else if x < 256 then 2 else if x < 65536 then 3
      else if x < 4294967296 then 5 else 9) ≤ out.buf.length) :
    read_header_major_type ((l2r_write_uint64_header ty x out).buf.drop out.ptr) = ty ∧
      read_header_argument_as_uint64 ((l2r_write_uint64_header ty x out).buf.drop out.ptr) = x ∧
      out.ptr + jump_header_ ((l2r_write_uint64_header ty x out).buf.drop out.ptr) =
        (l2r_write_uint64_header ty x out).ptr := by
  rw [← ser_head_length ty x] at hcap
  have hw := l2r_write_uint64_header_wrote ty x out hty hcap
  rw [wrote_drop _ _ _ hw (by omega), hw.2]
  exact ⟨ser_head_major ty x hty _, ser_head_argument ty x hty hx _,
    by rw [ser_head_jump ty x hty]⟩

theorem header_codec_round_trip_witness :
    (5 : Nat) < 8 ∧ (4294967296 : Nat) < SIZE_MOD ∧
    (l2r_write_uint64_header 5 4294967296
      { buf := [9, 9, 9, 9, 9, 9, 9, 9, 9, 9], ptr := 1, len := 9 }).buf =
        [9, 0xBB, 0, 0, 0, 1, 0, 0, 0, 0] ∧
    read_header_major_type ((l2r_write_uint64_header 5 4294967296
      { buf := [9, 9, 9, 9, 9, 9, 9, 9, 9, 9], ptr := 1, len := 9 }).buf.drop 1) = 5 ∧
    read_header_argument_as_uint64 ((l2r_write_uint64_header 5 4294967296
      { buf := [9, 9, 9, 9, 9, 9, 9, 9, 9, 9], ptr := 1, len := 9 }).buf.drop 1)
        = 4294967296 ∧
    1 + jump_header_ ((l2r_write_uint64_header 5 4294967296
      { buf := [9, 9, 9, 9, 9, 9, 9, 9, 9, 9], ptr := 1, len := 9 }).buf.drop 1) =
      (l2r_write_uint64_header 5 4294967296
        { buf := [9, 9, 9, 9, 9, 9, 9, 9, 9, 9], ptr := 1, len := 9 }).ptr :=
  have h := header_codec_round_trip 5 4294967296
    { buf := [9, 9, 9, 9, 9, 9, 9, 9, 9, 9], ptr := 1, len := 9 } (by decide) (by decide)
    (by decide)
  ⟨by decide, by decide, by decide, h.1, h.2.1, h.2.2⟩

/-! ## Writing a value and reading it back -/

/-- A call of `cbor_write` that does not return 0 has written the serialization. -/
theorem cbor_write_succeeds (c : cbor) (hwf : cbor_wf c) (out : List Nat) (sz : Nat)
    (hcap : sz ≤ out.length) (h : (cbor_write c out sz).1 ≠ 0) :
    cbor_write c out sz = ((ser c).length, ser c ++ out.drop (ser c).length) := by
  by_cases hs : (ser c).length ≤ sz
  · exact cbor_write_ok c hwf out sz hs hcap
  · rw [cbor_write_short c hwf out sz (by omega)] at h
    exact absurd rfl h

/-- The bytes written for a value that satisfies the invariants are read back as the
serialized slice of those bytes, with nothing left over. -/
theorem cbor_read_cbor_write (v : cbor) (hv : cbor_valid v) (out : List Nat) (sz : Nat)
    (hcap : sz ≤ out.length) (h : (cbor_write v out sz).1 ≠ 0) :
    (cbor_write v out sz).2 = ser v ++ out.drop (ser v).length ∧
      (cbor_write v out sz).1 = (ser v).length ∧
      cbor_read (cbor_write v out sz).2 (cbor_write v out sz).1 =
        { cbor_read_is_success := true,
          cbor_read_payload :=
            cbor.CBOR_Case_Serialized (ser v).length (ser v ++ out.drop (ser v).length),
          cbor_read_remainder := out.drop (ser v).length,
          cbor_read_remainder_length := 0 } := by
  rw [cbor_write_succeeds v (cbor_valid_wf v hv) out sz hcap h]
  refine ⟨rfl, rfl, ?_⟩
  simp only []
  rw [cbor_read_written v hv, List.drop_left, Nat.sub_self]

theorem read_simple_value_eq (a : List Nat) :
    read_simple_value a = if head_info a = 24 then read_u8 (a.drop 1) else head_info a := by
  simp only [read_simple_value, head_info, ADDITIONAL_INFO_LONG_ARGUMENT_8_BITS]

theorem ser_head_simple_value (v : Nat) (hv : v < 256) (r : List Nat) :
    read_simple_value (ser_head 7 v ++ r) = v := by
  have h1 := read_header_argument_as_uint64_eq (ser_head 7 v ++ r)
  rw [ser_head_argument 7 v (by decide) (by simp only [SIZE_MOD]; omega)] at h1
  have hi := ser_head_info 7 v (by decide) r
  rw [read_simple_value_eq]
  by_cases c : head_info (ser_head 7 v ++ r) = 24
  · rw [if_pos c]
    rw [if_pos c] at h1
    exact h1.symm
  · rw [if_neg c, hi]
    rw [hi] at c
    by_cases h23 : v < 24
    · rw [if_pos h23]
    · rw [if_neg h23, if_pos hv] at c
      exact absurd rfl c

/-- A two-byte simple value below 32 fails validation. -/
theorem validate_reserved_simple_value (v : Nat) (hv : 24 ≤ v ∧ v ≤ 31) (r : List Nat) :
    validate_raw_data_item (ser_head 7 v ++ r) 2 0 = (0, VALIDATOR_ERROR_CONSTRAINT_FAILED) := by
  have hM : v < SIZE_MOD := by
    simp only [SIZE_MOD]
    omega
  have hj : jump_header_ (ser_head 7 v ++ r) = 2 := by
    rw [ser_head_jump 7 v (by decide), ser_head_length, if_neg (by omega), if_pos (by omega)]
  have hmin : ¬ head_minimal (ser_head 7 v ++ r) := by
    have hi : head_info (ser_head 7 v ++ r) = 24 := by
      rw [ser_head_info 7 v (by decide), if_neg (by omega), if_pos (by omega)]
    unfold head_minimal head_min_value
    rw [hi, ser_head_major 7 v (by decide), ser_head_argument 7 v (by decide) hM, if_pos rfl,
      if_pos rfl]
    omega
  have hleaf := validate_leaf_constraint_failed (ser_head 7 v ++ r) 2 (by omega)
    (Or.inr ⟨by omega, hmin⟩)
  exact validate_raw_data_item_at_head (ser_head 7 v ++ r) 2 0 1 ValidatorReaches.start
    (by decide) (by decide) _ (by decide) hleaf

/-- C22. Integer encode/decode round trip: for a type `t` in {0, 1} and a 64-bit value `v`,
when `cbor_write` writes `cbor_constr_int64 t v` (it does not return 0), `cbor_read` accepts
the bytes written with an empty remainder, and on the resulting value `cbor_get_major_type`
returns `t` and `cbor_destr_int64` returns `(t, v)`, as they do on the constructed value. -/
theorem int64_round_trip (t v : Nat) (out : List Nat) (sz : Nat) (ht : t = 0 ∨ t = 1)
    (hv : v < SIZE_MOD) (hcap : sz ≤ out.length)
    (hw : (cbor_write (cbor_constr_int64 t v) out sz).1 ≠ 0) :
    (cbor_read (cbor_write (cbor_constr_int64 t v) out sz).2
        (cbor_write (cbor_constr_int64 t v) out sz).1).cbor_read_is_success = true ∧
      (cbor_read (cbor_write (cbor_constr_int64 t v) out sz).2
        (cbor_write (cbor_constr_int64 t v) out sz).1).cbor_read_remainder_length = 0 ∧
      cbor_get_major_type (cbor_read (cbor_write (cbor_constr_int64 t v) out sz).2
        (cbor_write (cbor_constr_int64 t v) out sz).1).cbor_read_payload = t ∧
      cbor_destr_int64 (cbor_read (cbor_write (cbor_constr_int64 t v) out sz).2
        (cbor_write (cbor_constr_int64 t v) out sz).1).cbor_read_payload =
        some { cbor_int_type := t, cbor_int_value := v } ∧
      cbor_get_major_type (cbor_constr_int64 t v) = t ∧
      cbor_destr_int64 (cbor_constr_int64 t v) =
        some { cbor_int_type := t, cbor_int_value := v } := by
  have hvalid : cbor_valid (cbor_constr_int64 t v) := by
    simp only [cbor_constr_int64, cbor_valid]
    exact ⟨ht, hv⟩
  obtain ⟨-, -, h3⟩ := cbor_read_cbor_write _ hvalid out sz hcap hw
  rw [h3]
  have ht8 : t < 8 := by omega
  have hs : ser (cbor_constr_int64 t v) = ser_head t v := by
    simp only [cbor_constr_int64, ser]
  refine ⟨rfl, rfl, ?_, ?_, rfl, rfl⟩
  · simp only [cbor_get_major_type, read_major_type]
    rw [hs, ser_head_major t v ht8]
  · simp only [cbor_destr_int64, read_major_type, read_int64, read_argument_as_uint64_]
    rw [hs, ser_head_major t v ht8, ser_head_argument t v ht8 hv]

theorem int64_round_trip_witness :
    ((1 : Nat) = 0 ∨ (1 : Nat) = 1) ∧ (1363896240 : Nat) < SIZE_MOD ∧
    (cbor_write (cbor_constr_int64 1 1363896240) [9, 9, 9, 9, 9, 9] 6).1 ≠ 0 ∧
    (cbor_write (cbor_constr_int64 1 1363896240) [9, 9, 9, 9, 9, 9] 6).2 =
      [0x3A, 0x51, 0x4B, 0x67, 0xB0, 9] ∧
    (cbor_read (cbor_write (cbor_constr_int64 1 1363896240) [9, 9, 9, 9, 9, 9] 6).2
      (cbor_write (cbor_constr_int64 1 1363896240) [9, 9, 9, 9, 9, 9] 6).1).cbor_read_is_success
        = true ∧
    cbor_destr_int64 (cbor_read (cbor_write (cbor_constr_int64 1 1363896240)
      [9, 9, 9, 9, 9, 9] 6).2
      (cbor_write (cbor_constr_int64 1 1363896240) [9, 9, 9, 9, 9, 9] 6).1).cbor_read_payload =
        some { cbor_int_type := 1, cbor_int_value := 1363896240 } :=
  have h := int64_round_trip 1 1363896240 [9, 9, 9, 9, 9, 9] 6 (by decide) (by decide)
    (by decide) (by decide)
  ⟨by decide, by decide, by decide, by decide, h.1, h.2.2.2.1⟩

/-- C23. String encode/decode round trip: for a type `t` in {2, 3} and a byte sequence `p`
of length `n`, when `cbor_write` writes `cbor_constr_string t p n` (it does not return 0),
`cbor_read` accepts the bytes written with an empty remainder, and `cbor_destr_string` on the
resulting value returns the type `t`, the length `n` and a payload that points just after the
head (at offset `written - n` of the bytes written) and whose first `n` bytes are `p`. -/
theorem string_round_trip (t : Nat) (p : List Nat) (n : Nat) (out : List Nat) (sz : Nat)
    (ht : t = 2 ∨ t = 3) (hn : n = p.length) (hM : n < SIZE_MOD) (hcap : sz ≤ out.length)
    (hw : (cbor_write (cbor_constr_string t p n) out sz).1 ≠ 0) :
    (cbor_read (cbor_write (cbor_constr_string t p n) out sz).2
        (cbor_write (cbor_constr_string t p n) out sz).1).cbor_read_is_success = true ∧
      (cbor_read (cbor_write (cbor_constr_string t p n) out sz).2
        (cbor_write (cbor_constr_string t p n) out sz).1).cbor_read_remainder_length = 0 ∧
      cbor_destr_string (cbor_read (cbor_write (cbor_constr_string t p n) out sz).2
        (cbor_write (cbor_constr_string t p n) out sz).1).cbor_read_payload =
        some { cbor_string_type := t, cbor_string_length := n,
               cbor_string_payload := (cbor_write (cbor_constr_string t p n) out sz).2.drop
                 ((cbor_write (cbor_constr_string t p n) out sz).1 - n) } ∧
      ((cbor_write (cbor_constr_string t p n) out sz).2.drop
        ((cbor_write (cbor_constr_string t p n) out sz).1 - n)).take n = p := by
  have hvalid : cbor_valid (cbor_constr_string t p n) := by
    simp only [cbor_constr_string, cbor_valid]
    exact ⟨ht, hM, by omega⟩
  obtain ⟨h1, h2, h3⟩ := cbor_read_cbor_write _ hvalid out sz hcap hw
  rw [h3, h1, h2]
  have ht8 : t < 8 := by omega
  have hp : p.take n = p := by
    rw [hn]
    exact List.take_length p
  have hs : ser (cbor_constr_string t p n) = ser_head t n ++ p := by
    simp only [cbor_constr_string, ser, hp]
  have hl : (ser_head t n ++ p).length - n = (ser_head t n).length := by
    rw [List.length_append]
    omega
  rw [hs, hl, List.append_assoc, List.drop_left]
  refine ⟨rfl, rfl, ?_, ?_⟩
  · simp only [cbor_destr_string, read_major_type, read_argument_as_uint64,
      read_argument_as_uint64_, focus_string]
    rw [ser_head_major t n ht8, ser_head_argument t n ht8 hM, ser_head_jump t n ht8,
      List.drop_left]
  · rw [hn, List.take_left]

theorem string_round_trip_witness :
    ((3 : Nat) = 2 ∨ (3 : Nat) = 3) ∧ (2 : Nat) = [0x61, 0x62].length ∧ (2 : Nat) < SIZE_MOD ∧
    (cbor_write (cbor_constr_string 3 [0x61, 0x62] 2) [9, 9, 9, 9] 4).1 ≠ 0 ∧
    (cbor_write (cbor_constr_string 3 [0x61, 0x62] 2) [9, 9, 9, 9] 4).2 = [0x62, 0x61, 0x62, 9] ∧
    cbor_destr_string (cbor_read (cbor_write (cbor_constr_string 3 [0x61, 0x62] 2)
      [9, 9, 9, 9] 4).2
      (cbor_write (cbor_constr_string 3 [0x61, 0x62] 2) [9, 9, 9, 9] 4).1).cbor_read_payload =
        some { cbor_string_type := 3, cbor_string_length := 2,
               cbor_string_payload := [0x61, 0x62, 9] } :=
  have h := string_round_trip 3 [0x61, 0x62] 2 [9, 9, 9, 9] 4 (by decide) (by decide)
    (by decide) (by decide) (by decide)
  ⟨by decide, by decide, by decide, by decide, by decide, h.2.2.1⟩

/-- C24. Simple-value encode/decode round trip: for a byte `v`, when `cbor_write` writes
`cbor_constr_simple_value v` (it does not return 0), the bytes written are the one byte
`0xE0 + v` when `v <= 23` and the two bytes `F8 v` otherwise; for `v` in `[0, 23]` or
`[32, 255]`, `cbor_read` accepts them with an empty remainder and `cbor_destr_simple_value`
on the resulting value returns `v`; for `v` in `[24, 31]`, `cbor_read` rejects them. -/
theorem simple_value_round_trip (v : Nat) (out : List Nat) (sz : Nat) (hv : v < 256)
    (hcap : sz ≤ out.length)
    (hw : (cbor_write (cbor_constr_simple_value v) out sz).1 ≠ 0) :
    ((cbor_write (cbor_constr_simple_value v) out sz).2.take
        (cbor_write (cbor_constr_simple_value v) out sz).1 =
        if v ≤ 23 then [224 + v] else [248, v]) ∧
      (¬ (24 ≤ v ∧ v ≤ 31) →
        (cbor_read (cbor_write (cbor_constr_simple_value v) out sz).2
          (cbor_write (cbor_constr_simple_value v) out sz).1).cbor_read_is_success = true ∧
        (cbor_read (cbor_write (cbor_constr_simple_value v) out sz).2
          (cbor_write (cbor_constr_simple_value v) out sz).1).cbor_read_remainder_length = 0 ∧
        cbor_destr_simple_value (cbor_read (cbor_write (cbor_constr_simple_value v) out sz).2
          (cbor_write (cbor_constr_simple_value v) out sz).1).cbor_read_payload = some v) ∧
      (24 ≤ v ∧ v ≤ 31 →
        (cbor_read (cbor_write (cbor_constr_simple_value v) out sz).2
          (cbor_write (cbor_constr_simple_value v) out sz).1).cbor_read_is_success = false) := by
  have hwf : cbor_wf (cbor_constr_simple_value v) := by
    simp only [cbor_constr_simple_value, cbor_wf]
    exact hv
  have hws := cbor_write_succeeds _ hwf out sz hcap hw
  refine ⟨?_, ?_, ?_⟩
  · rw [hws]
    simp only [cbor_constr_simple_value, ser]
    rw [List.take_left]
  · intro hr
    have hvalid : cbor_valid (cbor_constr_simple_value v) := by
      simp only [cbor_constr_simple_value, cbor_valid]
      exact ⟨hv, hr⟩
    obtain ⟨-, -, h3⟩ := cbor_read_cbor_write _ hvalid out sz hcap hw
    rw [h3]
    refine ⟨rfl, rfl, ?_⟩
    simp only [cbor_destr_simple_value, cbor_constr_simple_value]
    rw [ser_simple_value_eq v hv, ser_head_simple_value v hv]
  · intro hr
    rw [hws]
    simp only [cbor_constr_simple_value]
    rw [ser_simple_value_eq v hv]
    have hl : (ser_head 7 v).length = 2 := by
      rw [ser_head_length, if_neg (by omega), if_pos (by omega)]
    rw [hl]
    exact (cbor_read_fails_of_error _ 2 _ 0 (by decide)
      (validate_reserved_simple_value v hr _)).1

theorem simple_value_round_trip_witness :
    (255 : Nat) < 256 ∧ (cbor_write (cbor_constr_simple_value 255) [9, 9, 9] 3).1 ≠ 0 ∧
    (cbor_write (cbor_constr_simple_value 255) [9, 9, 9] 3).2 = [0xF8, 0xFF, 9] ∧
    cbor_destr_simple_value (cbor_read (cbor_write (cbor_constr_simple_value 255) [9, 9, 9] 3).2
      (cbor_write (cbor_constr_simple_value 255) [9, 9, 9] 3).1).cbor_read_payload = some 255 ∧
    (cbor_write (cbor_constr_simple_value 24) [9, 9, 9] 3).2 = [0xF8, 0x18, 9] ∧
    (cbor_read (cbor_write (cbor_constr_simple_value 24) [9, 9, 9] 3).2
      (cbor_write (cbor_constr_simple_value 24) [9, 9, 9] 3).1).cbor_read_is_success = false :=
  ⟨by decide, by decide, by decide,
    ((simple_value_round_trip 255 [9, 9, 9] 3 (by decide) (by decide) (by decide)).2.1
      (by decide)).2.2,
    by decide,
    (simple_value_round_trip 24 [9, 9, 9] 3 (by decide) (by decide) (by decide)).2.2
      (by decide)⟩

/-! ## Tagged values -/

/-- The payload of a validated tagged item: the item that follows the head, up to the end of
the tagged item. -/
theorem cbor_destr_tagged_serialized (a : List Nat) (len c : Nat) (hlen : len ≤ a.length)
    (hM : len < SIZE_MOD) (hval : validate_raw_data_item a len 0 = (c, 0))
    (hmt : read_header_major_type a = 6) :
    jump_header_ a < c ∧
      cbor_destr_tagged (cbor.CBOR_Case_Serialized c a) =
        some { cbor_tagged_tag := read_header_argument_as_uint64 a,
               cbor_tagged_payload :=
                 cbor.CBOR_Case_Serialized (c - jump_header_ a) (a.drop (jump_header_ a)) } := by
  obtain ⟨hw, hc⟩ := walk_of_validate a len c hval
  obtain ⟨-, hw2⟩ := Walk.item_iff.1 hw
  rw [List.drop_zero, Nat.zero_add] at hw2
  have hl : leaf_length a = jump_header_ a := by
    unfold leaf_length leaf_payload
    rw [if_neg (by rw [hmt]; decide)]
    rfl
  have hch : leaf_children a = 1 := by
    unfold leaf_children
    rw [if_neg (by rw [hmt]; decide), if_neg (by rw [hmt]; decide), if_pos hmt]
  rw [hl, hch] at hw2
  have hb := hw2.bounds
  have hj := jump_raw_data_item_of_walk a (jump_header_ a) c hw2 (by omega) (by omega)
  refine ⟨by omega, ?_⟩
  simp only [cbor_destr_tagged, read_argument_as_uint64, read_argument_as_uint64_,
    focus_tagged, jump_raw_data_item, read_valid_cbor_from_buffer_with_size_strong]
  rw [hj]

/-- C21. Tagged values: (1) for a `Serialized` value over a validated item of `c` bytes whose
major type is 6, `cbor_destr_tagged` returns the tag equal to the head argument and a payload
that is the `Serialized` slice starting just after the `h`-byte head, of size `c - h`; (2)
for a constructed `Tagged{tag, pl}` that satisfies the invariants, written by `cbor_write` and
read back by `cbor_read`, `cbor_destr_tagged` returns the same tag and a payload slice whose
bytes are the encoding of `pl`. -/
theorem cbor_destr_tagged_spec (a : List Nat) (len c tag : Nat) (pl : cbor) (out : List Nat)
    (sz : Nat) (hlen : len ≤ a.length) (hM : len < SIZE_MOD)
    (hval : validate_raw_data_item a len 0 = (c, 0)) (hmt : read_header_major_type a = 6)
    (hvalid : cbor_valid (cbor_constr_tagged tag pl)) (hcap : sz ≤ out.length)
    (hM2 : sz < SIZE_MOD) (hw : (cbor_write (cbor_constr_tagged tag pl) out sz).1 ≠ 0) :
    (jump_header_ a < c ∧
      cbor_destr_tagged (cbor.CBOR_Case_Serialized c a) =
        some { cbor_tagged_tag := read_header_argument_as_uint64 a,
               cbor_tagged_payload :=
                 cbor.CBOR_Case_Serialized (c - jump_header_ a) (a.drop (jump_header_ a)) }) ∧
    ((cbor_read (cbor_write (cbor_constr_tagged tag pl) out sz).2
        (cbor_write (cbor_constr_tagged tag pl) out sz).1).cbor_read_is_success = true ∧
      cbor_destr_tagged (cbor_read (cbor_write (cbor_constr_tagged tag pl) out sz).2
        (cbor_write (cbor_constr_tagged tag pl) out sz).1).cbor_read_payload =
        some { cbor_tagged_tag := tag,
               cbor_tagged_payload :=
                 cbor.CBOR_Case_Serialized (ser pl).length
                   ((cbor_write (cbor_constr_tagged tag pl) out sz).2.drop
                     ((cbor_write (cbor_constr_tagged tag pl) out sz).1 - (ser pl).length)) } ∧
      ((cbor_write (cbor_constr_tagged tag pl) out sz).2.drop
        ((cbor_write (cbor_constr_tagged tag pl) out sz).1 - (ser pl).length)).take
          (ser pl).length = ser pl ∧
      cbor_destr_tagged (cbor_constr_tagged tag pl) =
        some { cbor_tagged_tag := tag, cbor_tagged_payload := pl }) := by
  refine ⟨cbor_destr_tagged_serialized a len c hlen hM hval hmt, ?_⟩
  obtain ⟨h1, h2, h3⟩ := cbor_read_cbor_write _ hvalid out sz hcap hw
  have hs : ser (cbor_constr_tagged tag pl) = ser_head 6 tag ++ ser pl := by
    simp only [cbor_constr_tagged, ser]
  have hwf := cbor_valid_wf _ hvalid
  have hsz : (ser (cbor_constr_tagged tag pl)).length ≤ sz := by
    by_contra hne
    rw [cbor_write_short _ hwf out sz (by omega)] at hw
    exact absurd rfl hw
  have hvalid2 := hvalid
  simp only [cbor_constr_tagged, cbor_valid] at hvalid2
  rw [h3, h1, h2]
  have hl : (ser (cbor_constr_tagged tag pl)).length - (ser pl).length =
      (ser_head 6 tag).length := by
    rw [hs, List.length_append]
    omega
  rw [hl, hs, List.append_assoc, List.drop_left]
  rw [hs, List.length_append] at hsz
  refine ⟨rfl, ?_, List.take_left _ _, rfl⟩
  simp only [cbor_destr_tagged, read_argument_as_uint64, read_argument_as_uint64_,
    focus_tagged, read_valid_cbor_from_buffer_with_size_strong]
  rw [ser_head_argument 6 tag (by decide) hvalid2.1, ser_head_jump 6 tag (by decide),
    List.drop_left, jump_raw_data_item_ser pl hvalid2.2 _ (by omega)]

theorem cbor_destr_tagged_spec_witness :
    validate_raw_data_item [0xC1, 0x1A, 0x51, 0x4B, 0x67, 0xB0] 6 0 = (6, 0) ∧
    read_header_major_type [0xC1, 0x1A, 0x51, 0x4B, 0x67, 0xB0] = 6 ∧
    cbor_valid (cbor_constr_tagged 1 (cbor.CBOR_Case_Int64 0 1363896240)) ∧
    (cbor_write (cbor_constr_tagged 1 (cbor.CBOR_Case_Int64 0 1363896240))
      [9, 9, 9, 9, 9, 9, 9] 7).2 = [0xC1, 0x1A, 0x51, 0x4B, 0x67, 0xB0, 9] ∧
    cbor_destr_tagged (cbor.CBOR_Case_Serialized 6 [0xC1, 0x1A, 0x51, 0x4B, 0x67, 0xB0]) =
      some { cbor_tagged_tag := 1,
             cbor_tagged_payload :=
               cbor.CBOR_Case_Serialized 5 [0x1A, 0x51, 0x4B, 0x67, 0xB0] } ∧
    cbor_destr_int64 (cbor.CBOR_Case_Serialized 5 [0x1A, 0x51, 0x4B, 0x67, 0xB0]) =
      some { cbor_int_type := 0, cbor_int_value := 1363896240 } ∧
    cbor_destr_tagged (cbor_read (cbor_write (cbor_constr_tagged 1
        (cbor.CBOR_Case_Int64 0 1363896240)) [9, 9, 9, 9, 9, 9, 9] 7).2
      (cbor_write (cbor_constr_tagged 1 (cbor.CBOR_Case_Int64 0 1363896240))
        [9, 9, 9, 9, 9, 9, 9] 7).1).cbor_read_payload =
      some { cbor_tagged_tag := 1,
             cbor_tagged_payload :=
               cbor.CBOR_Case_Serialized 5 [0x1A, 0x51, 0x4B, 0x67, 0xB0, 9] } :=
  have h := cbor_destr_tagged_spec [0xC1, 0x1A, 0x51, 0x4B, 0x67, 0xB0] 6 6 1
    (cbor.CBOR_Case_Int64 0 1363896240) [9, 9, 9, 9, 9, 9, 9] 7 (by decide) (by decide)
    (by decide) (by decide) (by simp [cbor_constr_tagged, cbor_valid, SIZE_MOD]) (by decide)
    (by decide) (by decide)
  ⟨by decide, by decide, by simp [cbor_constr_tagged, cbor_valid, SIZE_MOD], by decide,
    h.1.2, rfl, h.2.2.1⟩

/-! ## The map iterator -/

theorem slice_append (a : List Nat) (p v q : Nat) (h1 : p ≤ v) (h2 : v ≤ q) :
    slice a p v ++ slice a v q = slice a p q := by
  unfold slice
  rw [show q - p = (v - p) + (q - v) by omega, List.take_add, List.drop_drop,
    show p + (v - p) = v by omega]

theorem cbor_map_iterator_next_serialized_eq (n : Nat) (e : List Nat) :
    cbor_map_iterator_next
        { cbor_map_iterator_length := n,
          cbor_map_iterator_payload :=
            cbor_map_iterator_payload_t.CBOR_Map_Iterator_Payload_Serialized e } =
      ((slice_at e, slice_at (e.drop (jump_raw_data_item e))),
        { cbor_map_iterator_length := (n + SIZE_MOD - 1) % SIZE_MOD,
          cbor_map_iterator_payload :=
            cbor_map_iterator_payload_t.CBOR_Map_Iterator_Payload_Serialized
              ((e.drop (jump_raw_data_item e)).drop
                (jump_raw_data_item (e.drop (jump_raw_data_item e)))) }) := by
  unfold cbor_map_iterator_next
  simp only [slice_at, read_valid_cbor_from_buffer_with_size_strong, cbor_mk_map_entry]

theorem cbor_map_iterator_next_map_eq (n : Nat) (l : List (cbor × cbor)) :
    cbor_map_iterator_next
        { cbor_map_iterator_length := n,
          cbor_map_iterator_payload :=
            cbor_map_iterator_payload_t.CBOR_Map_Iterator_Payload_Map l } =
      (l.getD 0 (cbor_dummy, cbor_dummy),
        { cbor_map_iterator_length := (n + SIZE_MOD - 1) % SIZE_MOD,
          cbor_map_iterator_payload :=
            cbor_map_iterator_payload_t.CBOR_Map_Iterator_Payload_Map (l.drop 1) }) := by
  unfold cbor_map_iterator_next
  simp only

/-- One call of `next` on a serialized map: the key and the value at the cursor are yielded
and the cursor moves past them. -/
theorem cbor_map_iterator_next_walk (a : List Nat) (p v q n : Nat) (h1 : Walk a p 1 v)
    (h2 : Walk a v 1 q) (hq : q ≤ a.length) (hM : q < SIZE_MOD) (hn : 0 < n)
    (hnM : n < SIZE_MOD) :
    cbor_map_iterator_next
        { cbor_map_iterator_length := n,
          cbor_map_iterator_payload :=
            cbor_map_iterator_payload_t.CBOR_Map_Iterator_Payload_Serialized (a.drop p) } =
      ((cbor.CBOR_Case_Serialized (v - p) (a.drop p),
          cbor.CBOR_Case_Serialized (q - v) (a.drop v)),
        { cbor_map_iterator_length := n - 1,
          cbor_map_iterator_payload :=
            cbor_map_iterator_payload_t.CBOR_Map_Iterator_Payload_Serialized (a.drop q) }) := by
  have b1 := h1.bounds
  have b2 := h2.bounds
  have j1 : jump_raw_data_item (a.drop p) = v - p :=
    jump_raw_data_item_of_walk a p v h1 (by omega) (by omega)
  have j2 : jump_raw_data_item (a.drop v) = q - v :=
    jump_raw_data_item_of_walk a v q h2 hq hM
  have d1 : (a.drop p).drop (v - p) = a.drop v := by
    rw [List.drop_drop, show p + (v - p) = v by omega]
  have d2 : (a.drop v).drop (q - v) = a.drop q := by
    rw [List.drop_drop, show v + (q - v) = q by omega]
  have e1 : (n + SIZE_MOD - 1) % SIZE_MOD = n - 1 := by
    simp only [SIZE_MOD] at hnM ⊢
    omega
  rw [cbor_map_iterator_next_serialized_eq, j1, d1, j2, d2, e1]
  unfold slice_at
  rw [j1, j2]

/-- The iterator over a serialized map after `k` calls of `next`: the cursor has passed `2k`
items. -/
theorem cbor_map_iterator_after_walk (a : List Nat) (c : Nat) (hc : c ≤ a.length)
    (hM : c < SIZE_MOD) (k : Nat) :
    ∀ n p, Walk a p (2 * n) c → k ≤ n → n < SIZE_MOD →
      ∃ pk, Walk a p (2 * k) pk ∧ Walk a pk (2 * (n - k)) c ∧
        cbor_map_iterator_after k
            { cbor_map_iterator_length := n,
              cbor_map_iterator_payload :=
                cbor_map_iterator_payload_t.CBOR_Map_Iterator_Payload_Serialized (a.drop p) } =
          { cbor_map_iterator_length := n - k,
            cbor_map_iterator_payload :=
              cbor_map_iterator_payload_t.CBOR_Map_Iterator_Payload_Serialized (a.drop pk) } := by
  induction k with
  | zero =>
    intro n p hw _ _
    exact ⟨p, Walk.done p, hw, rfl⟩
  | succ k ih =>
    intro n p hw hk hn
    obtain ⟨v, h1, r1⟩ := hw.split 1 (2 * n - 1) (by omega)
    obtain ⟨q, h2, r2⟩ := r1.split 1 (2 * (n - 1)) (by omega)
    have b := r2.bounds
    obtain ⟨pk, w1, w2, e⟩ := ih (n - 1) q r2 (by omega) (by omega)
    refine ⟨pk, ?_, ?_, ?_⟩
    · have := Walk.append (Walk.append h1 h2) w1
      rwa [show 1 + 1 + 2 * k = 2 * (k + 1) by omega] at this
    · rwa [show n - 1 - k = n - (k + 1) by omega] at w2
    · rw [cbor_map_iterator_after,
        cbor_map_iterator_next_walk a p v q n h1 h2 (by omega) (by omega) (by omega) hn]
      simp only
      rw [e, show n - 1 - k = n - (k + 1) by omega]

/-- The slices that the iterator over a serialized map yields make up, in order, the bytes of
the entries. -/
theorem cbor_map_iterator_entries_walk (a : List Nat) (c : Nat) (hc : c ≤ a.length)
    (hM : c < SIZE_MOD) (n : Nat) :
    ∀ p, Walk a p (2 * n) c → n < SIZE_MOD →
      ser_entries (cbor_map_iterator_entries n
        { cbor_map_iterator_length := n,
          cbor_map_iterator_payload :=
            cbor_map_iterator_payload_t.CBOR_Map_Iterator_Payload_Serialized (a.drop p) }) =
        slice a p c := by
  induction n with
  | zero =>
    intro p hw _
    have := hw.zero_inv
    subst this
    simp only [cbor_map_iterator_entries, ser_entries, slice, Nat.sub_self, List.take_zero]
  | succ n ih =>
    intro p hw hn
    obtain ⟨v, h1, r1⟩ := hw.split 1 (2 * n + 1) (by omega)
    obtain ⟨q, h2, r2⟩ := r1.split 1 (2 * n) (by omega)
    have b1 := h1.bounds
    have b2 := h2.bounds
    have b := r2.bounds
    rw [cbor_map_iterator_entries,
      cbor_map_iterator_next_walk a p v q (n + 1) h1 h2 (by omega) (by omega) (by omega) hn]
    simp only [ser_entries, ser, Nat.add_sub_cancel]
    rw [ih q r2 (by omega)]
    have e1 : (a.drop p).take (v - p) = slice a p v := rfl
    have e2 : (a.drop v).take (q - v) = slice a v q := rfl
    rw [e1, e2, slice_append a p v q (by omega) (by omega),
      slice_append a p q c (by omega) (by omega)]

/-- The iterator over a constructed map after `k` calls of `next`. -/
theorem cbor_map_iterator_after_map (k n : Nat) (l : List (cbor × cbor)) (hk : k ≤ n)
    (hn : n < SIZE_MOD) :
    cbor_map_iterator_after k
        { cbor_map_iterator_length := n,
          cbor_map_iterator_payload :=
            cbor_map_iterator_payload_t.CBOR_Map_Iterator_Payload_Map l } =
      { cbor_map_iterator_length := n - k,
        cbor_map_iterator_payload :=
          cbor_map_iterator_payload_t.CBOR_Map_Iterator_Payload_Map (l.drop k) } := by
  induction k generalizing n l with
  | zero => simp only [cbor_map_iterator_after, Nat.sub_zero, List.drop_zero]
  | succ k ih =>
    have e1 : (n + SIZE_MOD - 1) % SIZE_MOD = n - 1 := by
      simp only [SIZE_MOD] at hn ⊢
      omega
    rw [cbor_map_iterator_after, cbor_map_iterator_next_map_eq, e1]
    simp only
    rw [ih (n - 1) _ (by omega) (by omega), List.drop_drop,
      show n - 1 - k = n - (k + 1) by omega, Nat.add_comm 1 k]

/-- The entries that the iterator over a constructed map yields are its payload. -/
theorem cbor_map_iterator_entries_map (l : List (cbor × cbor)) :
    ∀ n, n = l.length → n < SIZE_MOD →
      cbor_map_iterator_entries n
        { cbor_map_iterator_length := n,
          cbor_map_iterator_payload :=
            cbor_map_iterator_payload_t.CBOR_Map_Iterator_Payload_Map l } = l := by
  induction l with
  | nil =>
    intro n hn _
    subst hn
    rfl
  | cons x rest ih =>
    intro n hn hM
    obtain ⟨m, rfl⟩ : ∃ m, n = m + 1 := ⟨rest.length, hn⟩
    have e1 : (m + 1 + SIZE_MOD - 1) % SIZE_MOD = m := by
      simp only [SIZE_MOD] at hM ⊢
      omega
    rw [cbor_map_iterator_entries, cbor_map_iterator_next_map_eq, e1]
    simp only [List.getD_cons_zero, List.drop_succ_cons, List.drop_zero]
    rw [ih m (by simpa using hn) (by omega)]

/-- C25. Map iterator: (1) for a `Serialized` map over validated bytes with `n` entries, the
iterator from `cbor_map_iterator_init` is not done before each of its first `n` calls of
`cbor_map_iterator_next` and is done after them; call number `k` yields a key and a value
that are `Serialized` slices, the key starting where the `2k` items after the head end, the
value just after the key and the next key just after the value; and the yielded slices, in
order, make up the bytes of the map after its head. (2) For a constructed `Map`, call number
`k` yields entry number `k` of the payload. -/
theorem map_iterator_spec (a : List Nat) (len c n : Nat) (payload : List (cbor × cbor))
    (m : Nat) (hlen : len ≤ a.length) (hM : len < SIZE_MOD)
    (hval : validate_raw_data_item a len 0 = (c, 0)) (hmt : read_header_major_type a = 5)
    (hn : n = read_header_argument_as_uint64 a) (hm : m = payload.length)
    (hmM : m < SIZE_MOD) :
    (∃ it, cbor_map_iterator_init (cbor.CBOR_Case_Serialized c a) = some it ∧
      (∀ k, k < n →
        cbor_map_iterator_is_done (cbor_map_iterator_after k it) = false ∧
        ∃ p v q, Walk a (jump_header_ a) (2 * k) p ∧ Walk a p 1 v ∧ Walk a v 1 q ∧
          Walk a (jump_header_ a) (2 * (k + 1)) q ∧ q ≤ c ∧
          (cbor_map_iterator_next (cbor_map_iterator_after k it)).1 =
            (cbor.CBOR_Case_Serialized (v - p) (a.drop p),
              cbor.CBOR_Case_Serialized (q - v) (a.drop v))) ∧
      cbor_map_iterator_is_done (cbor_map_iterator_after n it) = true ∧
      ser_entries (cbor_map_iterator_entries n it) = slice a (jump_header_ a) c) ∧
    (∃ it, cbor_map_iterator_init (cbor.CBOR_Case_Map m payload) = some it ∧
      (∀ k, k < m →
        cbor_map_iterator_is_done (cbor_map_iterator_after k it) = false ∧
        (cbor_map_iterator_next (cbor_map_iterator_after k it)).1 =
          payload.getD k (cbor_dummy, cbor_dummy)) ∧
      cbor_map_iterator_is_done (cbor_map_iterator_after m it) = true ∧
      cbor_map_iterator_entries m it = payload) := by
  obtain ⟨hw, hc⟩ := walk_of_validate a len c hval
  obtain ⟨-, hw2⟩ := Walk.item_iff.1 hw
  rw [List.drop_zero, Nat.zero_add] at hw2
  have hl : leaf_length a = jump_header_ a := by
    unfold leaf_length leaf_payload
    rw [if_neg (by rw [hmt]; decide)]
    rfl
  have hch : leaf_children a = 2 * n := by
    unfold leaf_children
    rw [if_neg (by rw [hmt]; decide), if_pos hmt, hn]
    omega
  rw [hl, hch] at hw2
  have hnM : n < SIZE_MOD := by
    rw [hn]
    exact read_header_argument_as_uint64_lt a
  have hca : c ≤ a.length := by omega
  have hcM : c < SIZE_MOD := by omega
  refine ⟨⟨_, rfl, ?_, ?_, ?_⟩, ⟨_, rfl, ?_, ?_, ?_⟩⟩
  · intro k hk
    simp only [read_argument_as_uint64, read_argument_as_uint64_, focus_map_with_ghost_length]
    rw [← hn]
    obtain ⟨pk, w1, w2, e⟩ :=
      cbor_map_iterator_after_walk a c hca hcM k n _ hw2 (by omega) hnM
    rw [e]
    refine ⟨?_, ?_⟩
    · simp only [cbor_map_iterator_is_done, decide_eq_false_iff_not]
      omega
    · obtain ⟨v, h1, r1⟩ := w2.split 1 (2 * (n - k) - 1) (by omega)
      obtain ⟨q, h2, r2⟩ := r1.split 1 (2 * (n - k) - 2) (by omega)
      have b := r2.bounds
      refine ⟨pk, v, q, w1, h1, h2, ?_, by omega, ?_⟩
      · have := Walk.append (Walk.append w1 h1) h2
        rwa [show 2 * k + 1 + 1 = 2 * (k + 1) by omega] at this
      · rw [cbor_map_iterator_next_walk a pk v q (n - k) h1 h2 (by omega) (by omega)
          (by omega) (by omega)]
  · simp only [read_argument_as_uint64, read_argument_as_uint64_, focus_map_with_ghost_length]
    rw [← hn]
    obtain ⟨pk, -, -, e⟩ :=
      cbor_map_iterator_after_walk a c hca hcM n n _ hw2 (Nat.le_refl _) hnM
    rw [e]
    simp only [cbor_map_iterator_is_done, Nat.sub_self, decide_True]
  · simp only [read_argument_as_uint64, read_argument_as_uint64_, focus_map_with_ghost_length]
    rw [← hn]
    exact cbor_map_iterator_entries_walk a c hca hcM n _ hw2 hnM
  · intro k hk
    rw [cbor_map_iterator_after_map k m payload (by omega) hmM]
    refine ⟨?_, ?_⟩
    · simp only [cbor_map_iterator_is_done, decide_eq_false_iff_not]
      omega
    · rw [cbor_map_iterator_next_map_eq]
      simp only [List.getD_eq_getElem?_getD, List.getElem?_drop, Nat.add_zero]
  · rw [cbor_map_iterator_after_map m m payload (Nat.le_refl _) hmM]
    simp only [cbor_map_iterator_is_done, Nat.sub_self, decide_True]
  · exact cbor_map_iterator_entries_map payload m hm hmM

theorem map_iterator_spec_witness :
    validate_raw_data_item [0xA2, 0x61, 0x61, 0x01, 0x61, 0x62, 0x02] 7 0 = (7, 0) ∧
    read_header_major_type [0xA2, 0x61, 0x61, 0x01, 0x61, 0x62, 0x02] = 5 ∧
    (2 : Nat) = read_header_argument_as_uint64 [0xA2, 0x61, 0x61, 0x01, 0x61, 0x62, 0x02] ∧
    (∃ it, cbor_map_iterator_init
        (cbor.CBOR_Case_Serialized 7 [0xA2, 0x61, 0x61, 0x01, 0x61, 0x62, 0x02]) = some it ∧
      cbor_map_iterator_is_done (cbor_map_iterator_after 2 it) = true ∧
      ser_entries (cbor_map_iterator_entries 2 it) = [0x61, 0x61, 0x01, 0x61, 0x62, 0x02]) ∧
    (∃ it, cbor_map_iterator_init (cbor.CBOR_Case_Map 1
        [(cbor.CBOR_Case_Int64 0 1, cbor.CBOR_Case_Int64 0 2)]) = some it ∧
      cbor_map_iterator_entries 1 it = [(cbor.CBOR_Case_Int64 0 1, cbor.CBOR_Case_Int64 0 2)]) :=
  have h := map_iterator_spec [0xA2, 0x61, 0x61, 0x01, 0x61, 0x62, 0x02] 7 7 2
    [(cbor.CBOR_Case_Int64 0 1, cbor.CBOR_Case_Int64 0 2)] 1 (by decide) (by decide)
    (by decide) (by decide) (by decide) (by decide) (by decide)
  ⟨by decide, by decide, by decide,
    h.1.imp (fun _ hh => ⟨hh.1, hh.2.2.1, hh.2.2.2⟩),
    h.2.imp (fun _ hh => ⟨hh.1, hh.2.2.2⟩)⟩

/-! ## The child count and the key order -/

/-- C28. Child-count bound without wrap-around: when the validator, run on `(a, len)`, has
read a head at offset `r` (leaf validation succeeded) with `r1 ≠ 0` items pending and
`len - r` bytes remaining before that head, and the head introduces `k` children in exact
arithmetic (`k = N` for an array of `N` items, `2N` for a map of `N` pairs, 1 for a tag, 0
otherwise), then if `k > len - r - r1` validation fails with `NOT_ENOUGH_DATA` (and
`cbor_read` fails), and otherwise the loop goes on past the leaf with the pending count
`r1 - 1 + k`. -/
theorem child_count_bound (a : List Nat) (len r r1 k : Nat)
    (hreach : ValidatorReaches a len r r1) (hp : r1 ≠ 0) (hfit : r1 ≤ len - r)
    (hleaf : (validate_leaf (a.drop r) (len - r) 0).2 = 0)
    (hk : k = if read_header_major_type (a.drop r) = 4 then
        read_header_argument_as_uint64 (a.drop r)
      else if read_header_major_type (a.drop r) = 5 then
        2 * read_header_argument_as_uint64 (a.drop r)
      else if read_header_major_type (a.drop r) = 6 then 1 else 0) :
    (len - r - r1 < k →
      validate_raw_data_item a len 0 = (r, VALIDATOR_ERROR_NOT_ENOUGH_DATA) ∧
        (cbor_read a len).cbor_read_is_success = false) ∧
    (k ≤ len - r - r1 →
      (∀ f, validate_raw_data_item_loop (f + 1) a len r r1 0 =
        validate_raw_data_item_loop f a len (r + (validate_leaf (a.drop r) (len - r) 0).1)
          (r1 - 1 + k) 0) ∧
      ValidatorReaches a len (r + (validate_leaf (a.drop r) (len - r) 0).1) (r1 - 1 + k)) := by
  have hl : validate_leaf (a.drop r) (len - r) 0 = ((validate_leaf (a.drop r) (len - r) 0).1, 0) :=
    Prod.ext rfl hleaf
  obtain ⟨hv, hkk, hle⟩ := (validate_leaf_ok_iff _ _ _).1 hl
  have hch : leaf_children (a.drop r) = k := by
    rw [hk]
    unfold leaf_children
    split_ifs <;> omega
  constructor
  · intro hlt
    have hrun := (validatorReaches_run a len r r1 hreach).2
    have hshort := validate_raw_data_item_loop_short (len - r) a len r r1 hp hv
      (by rw [hch]; omega)
    have hval : validate_raw_data_item a len 0 = (r, VALIDATOR_ERROR_NOT_ENOUGH_DATA) := by
      unfold validate_raw_data_item
      rw [hrun, hshort]
    exact ⟨hval, (cbor_read_fails_of_error a len _ r (by decide) hval).1⟩
  · intro hge
    have hturn : ValidateTurn a len r r1 (validate_leaf (a.drop r) (len - r) 0).1 k :=
      (validateTurn_iff _ _ _ _ _ _).2 ⟨hp, hv, hkk, hch.symm, hle, by omega⟩
    have e : k + r1 - 1 = r1 - 1 + k := by omega
    refine ⟨fun f => ?_, ?_⟩
    · rw [validate_raw_data_item_loop_turn f a len r r1 _ k hturn, e]
    · have := ValidatorReaches.turn r r1 _ k hreach hturn
      rwa [e] at this

theorem child_count_bound_witness :
    ValidatorReaches [0xBB, 0x80, 0, 0, 0, 0, 0, 0, 0] 9 0 1 ∧
    (validate_leaf (List.drop 0 [0xBB, 0x80, 0, 0, 0, 0, 0, 0, 0]) (9 - 0) 0).2 = 0 ∧
    (18446744073709551616 : Nat) =
      2 * read_header_argument_as_uint64 (List.drop 0 [0xBB, 0x80, 0, 0, 0, 0, 0, 0, 0]) ∧
    validate_raw_data_item [0xBB, 0x80, 0, 0, 0, 0, 0, 0, 0] 9 0 =
      (0, VALIDATOR_ERROR_NOT_ENOUGH_DATA) ∧
    (cbor_read [0xBB, 0x80, 0, 0, 0, 0, 0, 0, 0] 9).cbor_read_is_success = false :=
  ⟨ValidatorReaches.start, by decide, by decide,
    (child_count_bound [0xBB, 0x80, 0, 0, 0, 0, 0, 0, 0] 9 0 1 18446744073709551616
      ValidatorReaches.start (by decide) (by decide) (by decide) (by decide)).1 (by decide)⟩

theorem bytes_lt_iff_lex (l1 l2 : List Nat) :
    bytes_lt l1 l2 = true ↔ List.Lex (fun x y => x < y) l1 l2 := by
  unfold bytes_lt
  induction l1 generalizing l2 with
  | nil =>
    cases l2 with
    | nil =>
      simp only [bytes_cmp]
      constructor
      · intro h
        exact absurd h (by decide)
      · intro h
        cases h
    | cons y ys =>
      simp only [bytes_cmp]
      exact ⟨fun _ => List.Lex.nil, fun _ => rfl⟩
  | cons x xs ih =>
    cases l2 with
    | nil =>
      simp only [bytes_cmp]
      constructor
      · intro h
        exact absurd h (by decide)
      · intro h
        cases h
    | cons y ys =>
      simp only [bytes_cmp]
      by_cases h1 : x < y
      · rw [if_pos h1]
        exact ⟨fun _ => List.Lex.rel h1, fun _ => rfl⟩
      · rw [if_neg h1]
        by_cases h2 : y < x
        · rw [if_pos h2]
          constructor
          · intro h
            exact absurd h (by decide)
          · intro h
            cases h with
            | cons h3 => exact absurd h2 (Nat.lt_irrefl _)
            | rel h3 => exact absurd h3 h1
        · rw [if_neg h2, ih ys]
          have hxy : x = y := by omega
          subst hxy
          constructor
          · intro h
            exact List.Lex.cons h
          · intro h
            cases h with
            | cons h3 => exact h3
            | rel h3 => exact absurd h3 h1

/-- C29. For two pointers `a1`, `a2` to validated data items (of byte values) of sizes
`n1 = jump_raw_data_item_ a1` and `n2 = jump_raw_data_item_ a2`,
`deterministically_encoded_cbor_map_key_order_impl a1 a2` returns `true` if and only if the
byte sequence `a1[0..n1)` is strictly below `a2[0..n2)` in the lexicographic order of lists
over the order of the byte values (the first differing byte decides, a proper prefix is below
its extensions); it returns `false` when the two encodings are equal. -/
theorem map_key_order_spec (a1 a2 : List Nat) (len1 len2 n1 n2 : Nat)
    (hl1 : len1 ≤ a1.length) (hM1 : len1 < SIZE_MOD)
    (hv1 : validate_raw_data_item a1 len1 0 = (n1, 0))
    (hl2 : len2 ≤ a2.length) (hM2 : len2 < SIZE_MOD)
    (hv2 : validate_raw_data_item a2 len2 0 = (n2, 0))
    (hb1 : ∀ x ∈ a1, x < 256) (hb2 : ∀ x ∈ a2, x < 256) :
    jump_raw_data_item_ a1 = n1 ∧ jump_raw_data_item_ a2 = n2 ∧
      (deterministically_encoded_cbor_map_key_order_impl a1 a2 = true ↔
        List.Lex (fun x y => x < y) (a1.take n1) (a2.take n2)) ∧
      (a1.take n1 = a2.take n2 →
        deterministically_encoded_cbor_map_key_order_impl a1 a2 = false) := by
  obtain ⟨w1, c1⟩ := walk_of_validate a1 len1 n1 hv1
  obtain ⟨w2, c2⟩ := walk_of_validate a2 len2 n2 hv2
  have j1 : jump_raw_data_item_ a1 = n1 := by
    have := jump_raw_data_item_of_walk a1 0 n1 w1 (by omega) (by omega)
    rwa [List.drop_zero, Nat.sub_zero] at this
  have j2 : jump_raw_data_item_ a2 = n2 := by
    have := jump_raw_data_item_of_walk a2 0 n2 w2 (by omega) (by omega)
    rwa [List.drop_zero, Nat.sub_zero] at this
  have h := deterministically_encoded_cbor_map_key_order_impl_eq a1 a2 (by omega) (by omega)
    hb1 hb2
  rw [j1, j2] at h
  refine ⟨j1, j2, ?_, ?_⟩
  · rw [h]
    exact bytes_lt_iff_lex _ _
  · intro he
    rw [h, he]
    have := (bytes_cmp_eq_iff (a2.take n2) (a2.take n2)).2 rfl
    unfold bytes_lt
    rw [this]
    rfl

theorem map_key_order_spec_witness :
    validate_raw_data_item [0x61, 0x61, 0x01] 3 0 = (2, 0) ∧
    validate_raw_data_item [0x62, 0x61, 0x61, 0x02] 4 0 = (3, 0) ∧
    jump_raw_data_item_ [0x61, 0x61, 0x01] = 2 ∧
    jump_raw_data_item_ [0x62, 0x61, 0x61, 0x02] = 3 ∧
    (deterministically_encoded_cbor_map_key_order_impl [0x61, 0x61, 0x01]
        [0x62, 0x61, 0x61, 0x02] = true ↔
      List.Lex (fun x y => x < y) (List.take 2 [0x61, 0x61, 0x01])
        (List.take 3 [0x62, 0x61, 0x61, 0x02])) ∧
    deterministically_encoded_cbor_map_key_order_impl [0x61, 0x61, 0x01]
      [0x62, 0x61, 0x61, 0x02] = true :=
  have h := map_key_order_spec [0x61, 0x61, 0x01] [0x62, 0x61, 0x61, 0x02] 3 4 2 3
    (by decide) (by decide) (by decide) (by decide) (by decide) (by decide) (by decide)
    (by decide)
  ⟨by decide, by decide, h.1, h.2.1, h.2.2.1, by decide⟩

/-! ## Codec primitives, the write sentinel and the independence of trailing bytes -/

theorem get_bitfield_gen8_field (b lo hi : Nat) (hb : b < 256) (h1 : lo ≤ hi) (h2 : hi ≤ 8) :
    get_bitfield_gen8 b lo hi = b / 2 ^ lo % 2 ^ (hi - lo) := by
  unfold get_bitfield_gen8
  simp only [Nat.shiftLeft_eq, Nat.shiftRight_eq_div_pow]
  interval_cases hi <;> interval_cases lo <;> norm_num <;> omega

/-- C40. Bitfield extract returns the sub-field `[lo, hi)` of a byte `b`:
`get_bitfield_gen8 b lo hi = b / 2^lo mod 2^(hi - lo)`; in particular `get_bitfield_gen8 b 5 8`
is the major type `b / 32` and `get_bitfield_gen8 b 0 5` is the additional info `b mod 32`;
for `t < 8` and `x < 32` the byte stored by `write_initial_byte t x` is `t*32 + x`, from
which the two extracts return `t` and `x`. -/
theorem bitfield_extract_spec (b lo hi t x : Nat) (hb : b < 256) (h1 : lo ≤ hi) (h2 : hi ≤ 8)
    (ht : t < 8) (hx : x < 32) :
    get_bitfield_gen8 b lo hi = b / 2 ^ lo % 2 ^ (hi - lo) ∧
      get_bitfield_gen8 b 5 8 = b / 32 ∧ get_bitfield_gen8 b 0 5 = b % 32 ∧
      write_initial_byte t x = [t * 32 + x] ∧
      get_bitfield_gen8 (t * 32 + x) 5 8 = t ∧ get_bitfield_gen8 (t * 32 + x) 0 5 = x := by
  refine ⟨get_bitfield_gen8_field b lo hi hb h1 h2, ?_, ?_, write_initial_byte_eq t x ht hx,
    ?_, ?_⟩
  · rw [get_bitfield_gen8_major]
    omega
  · rw [get_bitfield_gen8_info]
  · rw [get_bitfield_gen8_major]
    omega
  · rw [get_bitfield_gen8_info]
    omega

theorem bitfield_extract_spec_witness :
    (0xC1 : Nat) < 256 ∧ get_bitfield_gen8 0xC1 5 8 = 6 ∧ get_bitfield_gen8 0xC1 0 5 = 1 ∧
    write_initial_byte 6 1 = [0xC1] ∧
    get_bitfield_gen8 0xC1 2 6 = 0xC1 / 2 ^ 2 % 2 ^ (6 - 2) :=
  have h := bitfield_extract_spec 0xC1 2 6 6 1 (by decide) (by decide) (by decide) (by decide)
    (by decide)
  ⟨by decide, by decide, by decide, h.2.2.2.1, h.1⟩

theorem write_u16_bytes (x : Nat) (hx : x < 65536) :
    write_u16 x = [x / 256 % 256, x % 256] := by
  have := write_u16_eq x
  rwa [Nat.mod_eq_of_lt hx] at this

theorem write_u32_bytes (x : Nat) (hx : x < 4294967296) :
    write_u32 x = [x / 16777216 % 256, x / 65536 % 256, x / 256 % 256, x % 256] := by
  have := write_u32_eq x
  rwa [Nat.mod_eq_of_lt hx] at this

theorem write_u64_bytes (x : Nat) (hx : x < SIZE_MOD) :
    write_u64 x = [x / 72057594037927936 % 256, x / 281474976710656 % 256,
      x / 1099511627776 % 256, x / 4294967296 % 256, x / 16777216 % 256, x / 65536 % 256,
      x / 256 % 256, x % 256] := by
  have := write_u64_eq x
  rwa [Nat.mod_eq_of_lt hx] at this

theorem write_read_u16 (b0 b1 : Nat) (h0 : b0 < 256) (h1 : b1 < 256) (r : List Nat) :
    write_u16 (read_u16 ([b0, b1] ++ r)) = [b0, b1] := by
  unfold read_u16 write_u16
  simp only [List.cons_append, List.getD_cons_zero, List.getD_cons_succ, List.cons.injEq,
    and_true]
  constructor <;> omega

theorem write_read_u32 (b0 b1 b2 b3 : Nat) (h0 : b0 < 256) (h1 : b1 < 256) (h2 : b2 < 256)
    (h3 : b3 < 256) (r : List Nat) :
    write_u32 (read_u32 ([b0, b1, b2, b3] ++ r)) = [b0, b1, b2, b3] := by
  unfold read_u32 write_u32
  simp only [List.cons_append, List.getD_cons_zero, List.getD_cons_succ, List.cons.injEq,
    and_true]
  refine ⟨?_, ?_, ?_, ?_⟩ <;> omega

theorem read_u64_value (b0 b1 b2 b3 b4 b5 b6 b7 : Nat) (h0 : b0 < 256) (h1 : b1 < 256)
    (h2 : b2 < 256) (h3 : b3 < 256) (h4 : b4 < 256) (h5 : b5 < 256) (h6 : b6 < 256)
    (h7 : b7 < 256) (r : List Nat) :
    read_u64 ([b0, b1, b2, b3, b4, b5, b6, b7] ++ r) =
      b0 * 72057594037927936 + b1 * 281474976710656 + b2 * 1099511627776 + b3 * 4294967296 +
        b4 * 16777216 + b5 * 65536 + b6 * 256 + b7 := by
  unfold read_u64
  simp only [List.cons_append, List.getD_cons_zero, List.getD_cons_succ, SIZE_MOD]
  rw [Nat.mod_eq_of_lt h0, Nat.mod_eq_of_lt h1, Nat.mod_eq_of_lt h2, Nat.mod_eq_of_lt h3,
    Nat.mod_eq_of_lt h4, Nat.mod_eq_of_lt h5, Nat.mod_eq_of_lt h6, Nat.mod_eq_of_lt h7]
  rw [Nat.mod_eq_of_lt (a := b1 + b0 * 256) (by omega)]
  rw [Nat.mod_eq_of_lt (a := b2 + (b1 + b0 * 256) * 256) (by omega)]
  rw [Nat.mod_eq_of_lt (a := b3 + (b2 + (b1 + b0 * 256) * 256) * 256) (by omega)]
  rw [Nat.mod_eq_of_lt (a := b4 + (b3 + (b2 + (b1 + b0 * 256) * 256) * 256) * 256) (by omega)]
  rw [Nat.mod_eq_of_lt (a := b5 + (b4 + (b3 + (b2 + (b1 + b0 * 256) * 256) * 256) * 256) * 256)
    (by omega)]
  rw [Nat.mod_eq_of_lt
    (a := b6 + (b5 + (b4 + (b3 + (b2 + (b1 + b0 * 256) * 256) * 256) * 256) * 256) * 256)
    (by omega)]
  rw [Nat.mod_eq_of_lt
    (a := b7 + (b6 + (b5 + (b4 + (b3 + (b2 + (b1 + b0 * 256) * 256) * 256) * 256) * 256) * 256)
      * 256) (by omega)]
  omega

theorem write_read_u64 (b0 b1 b2 b3 b4 b5 b6 b7 : Nat) (h0 : b0 < 256) (h1 : b1 < 256)
    (h2 : b2 < 256) (h3 : b3 < 256) (h4 : b4 < 256) (h5 : b5 < 256) (h6 : b6 < 256)
    (h7 : b7 < 256) (r : List Nat) :
    write_u64 (read_u64 ([b0, b1, b2, b3, b4, b5, b6, b7] ++ r)) =
      [b0, b1, b2, b3, b4, b5, b6, b7] := by
  rw [read_u64_value b0 b1 b2 b3 b4 b5 b6 b7 h0 h1 h2 h3 h4 h5 h6 h7,
    write_u64_bytes _ (by simp only [SIZE_MOD]; omega)]
  simp only [List.cons.injEq, and_true]
  refine ⟨?_, ?_, ?_, ?_, ?_, ?_, ?_, ?_⟩ <;> omega

/-- C39. Byte codec round trip in network byte order: for `x` of width 16, 32 or 64 bits,
`write_uN x` stores `N/8` bytes, most significant first (byte `i` is
`x / 256^(N/8 - 1 - i) mod 256`), and `read_uN` on the bytes written returns `x`; conversely,
for bytes `b0 .. b7`, `write_uN` of what `read_uN` reads from the first `N/8` of them
reproduces those bytes. -/
theorem byte_codec_round_trip (x b0 b1 b2 b3 b4 b5 b6 b7 : Nat) (r : List Nat)
    (h0 : b0 < 256) (h1 : b1 < 256) (h2 : b2 < 256) (h3 : b3 < 256) (h4 : b4 < 256)
    (h5 : b5 < 256) (h6 : b6 < 256) (h7 : b7 < 256) :
    (x < 65536 →
      (write_u16 x).length = 2 ∧
      (∀ i, i < 2 → (write_u16 x).getD i 0 = x / 256 ^ (1 - i) % 256) ∧
      read_u16 (write_u16 x ++ r) = x) ∧
    (x < 4294967296 →
      (write_u32 x).length = 4 ∧
      (∀ i, i < 4 → (write_u32 x).getD i 0 = x / 256 ^ (3 - i) % 256) ∧
      read_u32 (write_u32 x ++ r) = x) ∧
    (x < SIZE_MOD →
      (write_u64 x).length = 8 ∧
      (∀ i, i < 8 → (write_u64 x).getD i 0 = x / 256 ^ (7 - i) % 256) ∧
      read_u64 (write_u64 x ++ r) = x) ∧
    write_u16 (read_u16 ([b0, b1] ++ r)) = [b0, b1] ∧
    write_u32 (read_u32 ([b0, b1, b2, b3] ++ r)) = [b0, b1, b2, b3] ∧
    write_u64 (read_u64 ([b0, b1, b2, b3, b4, b5, b6, b7] ++ r)) =
      [b0, b1, b2, b3, b4, b5, b6, b7] := by
  refine ⟨?_, ?_, ?_, write_read_u16 b0 b1 h0 h1 r, write_read_u32 b0 b1 b2 b3 h0 h1 h2 h3 r,
    write_read_u64 b0 b1 b2 b3 b4 b5 b6 b7 h0 h1 h2 h3 h4 h5 h6 h7 r⟩
  · intro hx
    rw [write_u16_bytes x hx]
    refine ⟨rfl, ?_, read_u16_bytes x hx r⟩
    intro i hi
    interval_cases i <;> norm_num
  · intro hx
    rw [write_u32_bytes x hx]
    refine ⟨rfl, ?_, read_u32_bytes x hx r⟩
    intro i hi
    interval_cases i <;> norm_num
  · intro hx
    rw [write_u64_bytes x hx]
    refine ⟨rfl, ?_, read_u64_bytes x hx r⟩
    intro i hi
    interval_cases i <;> norm_num

theorem byte_codec_round_trip_witness :
    write_u32 1363896240 = [0x51, 0x4B, 0x67, 0xB0] ∧
    read_u32 (write_u32 1363896240 ++ [9]) = 1363896240 ∧
    write_u64 (read_u64 ([1, 2, 3, 4, 5, 6, 7, 8] ++ [9])) = [1, 2, 3, 4, 5, 6, 7, 8] :=
  have h := byte_codec_round_trip 1363896240 1 2 3 4 5 6 7 8 [9] (by decide) (by decide)
    (by decide) (by decide) (by decide) (by decide) (by decide) (by decide)
  ⟨by decide, (h.2.1 (by decide)).2.2, h.2.2.2.2.2⟩

theorem ser_length_pos (v : cbor) (hv : cbor_valid v) : 1 ≤ (ser v).length := by
  have hw := walk_ser v hv (ser v) 0 [] (by rw [List.drop_zero, List.append_nil])
  have := hw.bounds
  omega

/-- C38. The failure sentinel of `cbor_write` is unambiguous: a value that satisfies the
invariants has an encoded size `s` of at least one byte (`cbor_size_comp` subtracts `s` from
every budget that covers it), so `cbor_write v out sz` returns 0 if and only if `sz < s`, and
a successful write returns `s >= 1`. -/
theorem cbor_write_sentinel (v : cbor) (hv : cbor_valid v) (out : List Nat) (sz : Nat) :
    1 ≤ (ser v).length ∧
      ((ser v).length ≤ sz → cbor_size_comp v sz false = (sz - (ser v).length, false)) ∧
      ((cbor_write v out sz).1 = 0 ↔ sz < (ser v).length) ∧
      ((cbor_write v out sz).1 ≠ 0 →
        (cbor_write v out sz).1 = (ser v).length ∧ 1 ≤ (cbor_write v out sz).1) := by
  have hwf := cbor_valid_wf v hv
  have hpos := ser_length_pos v hv
  have hok : (ser v).length ≤ sz → (cbor_write v out sz).1 = (ser v).length := by
    intro hs
    have h1 := (cbor_size_comp_exact v hwf sz).1 hs
    simp only at h1
    unfold cbor_write
    simp only [h1, Bool.false_eq_true, if_false]
    omega
  refine ⟨hpos, ?_, ⟨?_, ?_⟩, ?_⟩
  · intro hs
    exact (cbor_size_comp_exact v hwf sz).1 hs
  · intro h0
    by_contra hge
    rw [hok (by omega)] at h0
    omega
  · intro hlt
    rw [cbor_write_short v hwf out sz hlt]
  · intro hne
    have hs : (ser v).length ≤ sz := by
      by_contra hlt
      rw [cbor_write_short v hwf out sz (by omega)] at hne
      exact hne rfl
    rw [hok hs]
    exact ⟨rfl, hpos⟩

theorem cbor_write_sentinel_witness :
    cbor_valid (cbor.CBOR_Case_Array 0 []) ∧
    ser (cbor.CBOR_Case_Array 0 []) = [0x80] ∧
    (cbor_write (cbor.CBOR_Case_Array 0 []) [9, 9] 0).1 = 0 ∧
    (cbor_write (cbor.CBOR_Case_Array 0 []) [9, 9] 1).1 = 1 ∧
    ((cbor_write (cbor.CBOR_Case_Array 0 []) [9, 9] 1).1 = 0 ↔
      1 < (ser (cbor.CBOR_Case_Array 0 [])).length) :=
  ⟨by simp [cbor_valid, cbor_valid_items, SIZE_MOD], by decide, by decide, by decide,
    (cbor_write_sentinel (cbor.CBOR_Case_Array 0 [])
      (by simp [cbor_valid, cbor_valid_items, SIZE_MOD]) [9, 9] 1).2.2.1⟩

/-- C37. Validation of an item does not depend on what follows it: when validation succeeds
on `(a, len)` (a buffer of at least `len` bytes) with consumed count `c`, then on every
buffer `b` that agrees with `a` on the first `c` bytes, with any length `len2 >= c`,
validation succeeds with the same count `c`, and the two values that `cbor_read` returns
have the same payload bytes. -/
theorem validation_ignores_trailing_bytes (a b : List Nat) (len len2 c : Nat)
    (hlen : len ≤ a.length) (hval : validate_raw_data_item a len 0 = (c, 0))
    (hagree : b.take c = a.take c) (hlen2 : c ≤ len2) :
    validate_raw_data_item b len2 0 = (c, 0) ∧
      (cbor_read b len2).cbor_read_is_success = true ∧
      ser (cbor_read b len2).cbor_read_payload = ser (cbor_read a len).cbor_read_payload := by
  obtain ⟨hw, hc⟩ := walk_of_validate a len c hval
  have hb : b.drop 0 = (a.drop 0).take (c - 0) ++ b.drop c := by
    rw [List.drop_zero, List.drop_zero, Nat.sub_zero, ← hagree, List.take_append_drop]
  have hw2 := hw.transport (b := b) 0 (b.drop c) (by omega) hb
  rw [Nat.zero_add, Nat.sub_zero] at hw2
  have hval2 := validate_of_walk b len2 c hw2 hlen2
  refine ⟨hval2, ?_, ?_⟩
  · rw [cbor_read_of_ok b len2 c hval2]
  · rw [cbor_read_of_ok b len2 c hval2, cbor_read_of_ok a len c hval]
    simp only [ser]
    exact hagree

theorem validation_ignores_trailing_bytes_witness :
    validate_raw_data_item [0x82, 0x01, 0x02, 0xFF, 0xFF] 5 0 = (3, 0) ∧
    List.take 3 [0x82, 0x01, 0x02, 0x1F] = List.take 3 [0x82, 0x01, 0x02, 0xFF, 0xFF] ∧
    validate_raw_data_item [0x82, 0x01, 0x02, 0x1F] 4 0 = (3, 0) ∧
    ser (cbor_read [0x82, 0x01, 0x02, 0x1F] 4).cbor_read_payload =
      ser (cbor_read [0x82, 0x01, 0x02, 0xFF, 0xFF] 5).cbor_read_payload :=
  have h := validation_ignores_trailing_bytes [0x82, 0x01, 0x02, 0xFF, 0xFF]
    [0x82, 0x01, 0x02, 0x1F] 5 4 3 (by decide) (by decide) (by decide) (by decide)
  ⟨by decide, by decide, h.1, h.2.2⟩

/-- C33. Floating-point heads are rejected: when the validator, run on `(a, len)`, reaches a
head byte (at offset `r`, with `r1 ≠ 0` items pending that fit in the bytes left) of major
type 7 with additional info 25, 26 or 27 (bytes F9, FA, FB), validation fails with
`CONSTRAINT_FAILED` whatever bytes follow, and both `cbor_read` and
`cbor_read_deterministically_encoded` fail. -/
theorem float_heads_rejected (a : List Nat) (len r r1 : Nat)
    (hreach : ValidatorReaches a len r r1) (hp : r1 ≠ 0) (hfit : r1 ≤ len - r)
    (hmt : read_header_major_type (a.drop r) = 7)
    (hinfo : head_info (a.drop r) = 25 ∨ head_info (a.drop r) = 26 ∨
      head_info (a.drop r) = 27) :
    validate_raw_data_item a len 0 = (r, VALIDATOR_ERROR_CONSTRAINT_FAILED) ∧
      (cbor_read a len).cbor_read_is_success = false ∧
      (cbor_read_deterministically_encoded a len).cbor_read_is_success = false := by
  have hna : ¬ head_assigned (a.drop r) := by
    unfold head_assigned CBOR_MAJOR_TYPE_SIMPLE_VALUE ADDITIONAL_INFO_LONG_ARGUMENT_8_BITS
    intro h
    have := h.1 hmt
    omega
  have hleaf := validate_leaf_constraint_failed (a.drop r) (len - r) (by omega) (Or.inl hna)
  have hv := validate_raw_data_item_at_head a len r r1 hreach hp hfit _ (by decide) hleaf
  exact ⟨hv, cbor_read_fails_of_error a len _ r (by decide) hv⟩

theorem float_heads_rejected_witness :
    read_header_major_type (List.drop 0 [0xF9, 0x3C, 0x00]) = 7 ∧
    head_info (List.drop 0 [0xF9, 0x3C, 0x00]) = 25 ∧
    validate_raw_data_item [0xF9, 0x3C, 0x00] 3 0 = (0, VALIDATOR_ERROR_CONSTRAINT_FAILED) ∧
    (cbor_read [0xF9, 0x3C, 0x00] 3).cbor_read_is_success = false ∧
    (cbor_read_deterministically_encoded [0xF9, 0x3C, 0x00] 3).cbor_read_is_success = false :=
  ⟨by decide, by decide,
    float_heads_rejected [0xF9, 0x3C, 0x00] 3 0 1 ValidatorReaches.start (by decide)
      (by decide) (by decide) (Or.inl (by decide))⟩

/-- C32. Written output is always readable: for a constructed value that satisfies the
invariants (`Int64` of type 0 or 1; `String` of type 2 or 3 with its payload bytes present;
simple value outside `[24, 31]`; `Array` and `Map` payloads of exactly `length` elements;
`Tagged`; `Serialized` sub-values over validated bytes), the `s` bytes that `cbor_write`
produces are accepted by `cbor_read`, which consumes exactly `s` bytes (its payload is the
slice of size `s` at the start of the bytes written) and leaves an empty remainder. -/
theorem written_output_readable (v : cbor) (hv : cbor_valid v) (out : List Nat) (sz : Nat)
    (hcap : sz ≤ out.length) (hw : (cbor_write v out sz).1 ≠ 0) :
    (cbor_read (cbor_write v out sz).2 (cbor_write v out sz).1).cbor_read_is_success = true ∧
      (cbor_read (cbor_write v out sz).2 (cbor_write v out sz).1).cbor_read_payload =
        cbor.CBOR_Case_Serialized (cbor_write v out sz).1 (cbor_write v out sz).2 ∧
      (cbor_read (cbor_write v out sz).2 (cbor_write v out sz).1).cbor_read_remainder_length
        = 0 ∧
      (cbor_read (cbor_write v out sz).2 (cbor_write v out sz).1).cbor_read_remainder =
        (cbor_write v out sz).2.drop (cbor_write v out sz).1 ∧
      validate_raw_data_item (cbor_write v out sz).2 (cbor_write v out sz).1 0 =
        ((cbor_write v out sz).1, 0) := by
  obtain ⟨h1, h2, h3⟩ := cbor_read_cbor_write v hv out sz hcap hw
  rw [h3, h1, h2]
  refine ⟨rfl, rfl, rfl, by rw [List.drop_left], ?_⟩
  have hwk := walk_ser v hv (ser v ++ out.drop (ser v).length) 0 _ (List.drop_zero _)
  rw [Nat.zero_add] at hwk
  exact validate_of_walk _ _ _ hwk (Nat.le_refl _)

theorem written_output_readable_witness :
    cbor_valid (cbor.CBOR_Case_Map 1
      [(cbor.CBOR_Case_String 3 1 [0x61],
        cbor.CBOR_Case_Array 2 [cbor.CBOR_Case_Simple_value 32,
          cbor.CBOR_Case_Serialized 1 [0x20]])]) ∧
    (cbor_write (cbor.CBOR_Case_Map 1
      [(cbor.CBOR_Case_String 3 1 [0x61],
        cbor.CBOR_Case_Array 2 [cbor.CBOR_Case_Simple_value 32,
          cbor.CBOR_Case_Serialized 1 [0x20]])]) [9, 9, 9, 9, 9, 9, 9, 9] 8) =
      (7, [0xA1, 0x61, 0x61, 0x82, 0xF8, 0x20, 0x20, 9]) ∧
    (cbor_read (cbor_write (cbor.CBOR_Case_Map 1
      [(cbor.CBOR_Case_String 3 1 [0x61],
        cbor.CBOR_Case_Array 2 [cbor.CBOR_Case_Simple_value 32,
          cbor.CBOR_Case_Serialized 1 [0x20]])]) [9, 9, 9, 9, 9, 9, 9, 9] 8).2
      (cbor_write (cbor.CBOR_Case_Map 1
      [(cbor.CBOR_Case_String 3 1 [0x61],
        cbor.CBOR_Case_Array 2 [cbor.CBOR_Case_Simple_value 32,
          cbor.CBOR_Case_Serialized 1 [0x20]])])
        [9, 9, 9, 9, 9, 9, 9, 9] 8).1).cbor_read_is_success = true :=
  have hv : cbor_valid (cbor.CBOR_Case_Map 1
      [(cbor.CBOR_Case_String 3 1 [0x61],
        cbor.CBOR_Case_Array 2 [cbor.CBOR_Case_Simple_value 32,
          cbor.CBOR_Case_Serialized 1 [0x20]])]) := by
    simp [cbor_valid, cbor_valid_items, cbor_valid_entries, SIZE_MOD]
    decide
  ⟨hv, by decide, (written_output_readable _ hv [9, 9, 9, 9, 9, 9, 9, 9] 8 (by decide)
    (by decide)).1⟩

/-! ## Keys of a map after a strict read -/

theorem lex_trans {l1 l2 l3 : List Nat} (h1 : List.Lex (fun x y => x < y) l1 l2)
    (h2 : List.Lex (fun x y => x < y) l2 l3) : List.Lex (fun x y => x < y) l1 l3 := by
  induction h1 generalizing l3 with
  | nil =>
    cases h2 with
    | cons _ => exact List.Lex.nil
    | rel _ => exact List.Lex.nil
  | cons _ ih =>
    cases h2 with
    | cons h => exact List.Lex.cons (ih h)
    | rel h => exact List.Lex.rel h
  | rel h =>
    cases h2 with
    | cons _ => exact List.Lex.rel h
    | rel h3 => exact List.Lex.rel (Nat.lt_trans h h3)

theorem bytes_lt_trans (l1 l2 l3 : List Nat) (h1 : bytes_lt l1 l2 = true)
    (h2 : bytes_lt l2 l3 = true) : bytes_lt l1 l3 = true :=
  (bytes_lt_iff_lex l1 l3).2 (lex_trans ((bytes_lt_iff_lex l1 l2).1 h1)
    ((bytes_lt_iff_lex l2 l3).1 h2))

theorem bytes_lt_irrefl (l : List Nat) : bytes_lt l l = false := by
  unfold bytes_lt
  rw [(bytes_cmp_eq_iff l l).2 rfl]
  rfl

/-- In a run of `2n` items whose adjacent keys are ascending, every key is below every later
key. -/
theorem keys_ascending_of_adjacent (a : List Nat) (p0 n : Nat)
    (hadj : ∀ t k1 v1 k2 e2, t + 1 < n → Walk a p0 (2 * t) k1 → Walk a k1 1 v1 →
      Walk a v1 1 k2 → Walk a k2 1 e2 → bytes_lt (slice a k1 v1) (slice a k2 e2) = true)
    (i ki vi : Nat) (hki : Walk a p0 (2 * i) ki) (hvi : Walk a ki 1 vi) (d : Nat) :
    ∀ kj vj, i + 1 + d < n → Walk a p0 (2 * (i + 1 + d)) kj → Walk a kj 1 vj →
      bytes_lt (slice a ki vi) (slice a kj vj) = true := by
  induction d with
  | zero =>
    intro kj vj hj hkj hvj
    obtain ⟨x, wx, wr⟩ := hkj.split (2 * i) 2 (by omega)
    have ex := Walk.unique hki wx
    subst ex
    obtain ⟨y, wy, wr2⟩ := wr.split 1 1 (by omega)
    have ey := Walk.unique hvi wy
    subst ey
    exact hadj i ki vi kj vj (by omega) hki hvi wr2 hvj
  | succ d ih =>
    intro kj vj hj hkj hvj
    obtain ⟨km, wkm, wr⟩ := hkj.split (2 * (i + 1 + d)) 2 (by omega)
    obtain ⟨vm, wvm, wr2⟩ := wr.split 1 1 (by omega)
    have h1 := ih km vm (by omega) wkm wvm
    have h2 := hadj (i + 1 + d) km vm kj vj (by omega) wkm wvm wr2 hvj
    exact bytes_lt_trans _ _ _ h1 h2

/-- C34. No duplicate keys after strict reading: when `cbor_read_deterministically_encoded`
succeeds on a buffer `a` of at least `len` bytes (of byte values), then in every map of the
item at every nesting depth (`SubItem a 0 s`), for all indices `i < j`, the encoding of key
`i` is strictly below the encoding of key `j` in byte-lexicographic order; hence the two
encodings differ. -/
theorem strict_read_keys_ascending (a : List Nat) (len s i j ki vi kj vj : Nat)
    (hlen : len ≤ a.length) (hM : len < SIZE_MOD) (hb : ∀ x ∈ a, x < 256)
    (hok : (cbor_read_deterministically_encoded a len).cbor_read_is_success = true)
    (hsub : SubItem a 0 s) (hi : MapKey a s i ki vi) (hj : MapKey a s j kj vj)
    (hij : i < j) :
    bytes_lt (slice a ki vi) (slice a kj vj) = true ∧
      List.Lex (fun x y => x < y) (slice a ki vi) (slice a kj vj) ∧
      slice a ki vi ≠ slice a kj vj := by
  obtain ⟨h0, hdet, -⟩ := cbor_read_deterministically_encoded_success a len hok
  have hv : validate_raw_data_item a len 0 = ((validate_raw_data_item a len 0).1, 0) :=
    Prod.ext rfl h0
  have hsorted := (deterministic_loop_sorted_iff a len _ hv hlen hM hb).1 hdet
  have hadj : ∀ t k1 v1 k2 e2, t + 1 < read_header_argument_as_uint64 (a.drop s) →
      Walk a (s + leaf_length (a.drop s)) (2 * t) k1 → Walk a k1 1 v1 →
      Walk a v1 1 k2 → Walk a k2 1 e2 → bytes_lt (slice a k1 v1) (slice a k2 e2) = true := by
    intro t k1 v1 k2 e2 ht w1 w2 w3 w4
    exact hsorted s t k1 v1 k2 e2 hsub ⟨hi.is_map, hi.valid, ht, w1, w2, w3, w4⟩
  have hkj := hj.key
  rw [show j = i + 1 + (j - i - 1) by omega] at hkj
  have hlt := keys_ascending_of_adjacent a _ _ hadj i ki vi hi.key hi.stop (j - i - 1)
    kj vj (by have := hj.index; omega) hkj hj.stop
  refine ⟨hlt, (bytes_lt_iff_lex _ _).1 hlt, ?_⟩
  intro heq
  rw [heq, bytes_lt_irrefl] at hlt
  exact Bool.noConfusion hlt

theorem Walk.cast {a : List Nat} {p n q p2 n2 q2 : Nat} (h : Walk a p n q) (h1 : p = p2)
    (h2 : n = n2) (h3 : q = q2) : Walk a p2 n2 q2 := by
  subst h1 h2 h3
  exact h

theorem strict_read_keys_ascending_witness :
    (cbor_read_deterministically_encoded
      [0xA3, 0x61, 0x61, 0x01, 0x61, 0x62, 0x02, 0x61, 0x63, 0x03] 10).cbor_read_is_success
        = true ∧
    MapKey [0xA3, 0x61, 0x61, 0x01, 0x61, 0x62, 0x02, 0x61, 0x63, 0x03] 0 0 1 3 ∧
    MapKey [0xA3, 0x61, 0x61, 0x01, 0x61, 0x62, 0x02, 0x61, 0x63, 0x03] 0 2 7 9 ∧
    bytes_lt (slice [0xA3, 0x61, 0x61, 0x01, 0x61, 0x62, 0x02, 0x61, 0x63, 0x03] 1 3)
      (slice [0xA3, 0x61, 0x61, 0x01, 0x61, 0x62, 0x02, 0x61, 0x63, 0x03] 7 9) = true ∧
    slice [0xA3, 0x61, 0x61, 0x01, 0x61, 0x62, 0x02, 0x61, 0x63, 0x03] 1 3 ≠
      slice [0xA3, 0x61, 0x61, 0x01, 0x61, 0x62, 0x02, 0x61, 0x63, 0x03] 7 9 :=
  have w1 := walk_item_of_validate
    [0xA3, 0x61, 0x61, 0x01, 0x61, 0x62, 0x02, 0x61, 0x63, 0x03] 1 9 2 (by decide)
  have w2 := walk_item_of_validate
    [0xA3, 0x61, 0x61, 0x01, 0x61, 0x62, 0x02, 0x61, 0x63, 0x03] 3 7 1 (by decide)
  have w3 := walk_item_of_validate
    [0xA3, 0x61, 0x61, 0x01, 0x61, 0x62, 0x02, 0x61, 0x63, 0x03] 4 6 2 (by decide)
  have w4 := walk_item_of_validate
    [0xA3, 0x61, 0x61, 0x01, 0x61, 0x62, 0x02, 0x61, 0x63, 0x03] 6 4 1 (by decide)
  have w5 := walk_item_of_validate
    [0xA3, 0x61, 0x61, 0x01, 0x61, 0x62, 0x02, 0x61, 0x63, 0x03] 7 3 2 (by decide)
  have hi : MapKey [0xA3, 0x61, 0x61, 0x01, 0x61, 0x62, 0x02, 0x61, 0x63, 0x03] 0 0 1 3 :=
    ⟨by decide, by decide, by decide, Walk.of_eq (by decide), w1⟩
  have hj : MapKey [0xA3, 0x61, 0x61, 0x01, 0x61, 0x62, 0x02, 0x61, 0x63, 0x03] 0 2 7 9 :=
    ⟨by decide, by decide, by decide,
      (Walk.append (Walk.append (Walk.append w1 w2) w3) w4).cast (by decide) (by decide)
        (by decide), w5⟩
  have h := strict_read_keys_ascending
    [0xA3, 0x61, 0x61, 0x01, 0x61, 0x62, 0x02, 0x61, 0x63, 0x03] 10 0 0 2 1 3 7 9 (by decide)
    (by decide) (by decide) (by decide) (SubItem.self 0) hi hj (by decide)
  ⟨by decide, hi, hj, h.1, h.2.2⟩

/-! ## Termination of the validator -/

/-- A leaf validation that leaves `*perr` at 0 started with `*perr = 0`, found the head within
the bytes available and returns a length of at least one byte within them. -/
theorem validate_leaf_ok_bounds (a : List Nat) (len1 perr : Nat)
    (h : (validate_leaf a len1 perr).2 = 0) :
    1 ≤ (validate_leaf a len1 perr).1 ∧ (validate_leaf a len1 perr).1 ≤ len1 ∧
      jump_header_ a ≤ len1 ∧ perr = 0 := by
  have hj := jump_header_pos a
  rw [validate_leaf_eq] at h ⊢
  by_cases h1 : len1 < 1
  · rw [if_pos h1] at h
    exact absurd h (by decide)
  rw [if_neg h1] at h ⊢
  by_cases h2 : ¬ head_assigned a
  · rw [if_pos h2] at h
    exact absurd h (by decide)
  rw [if_neg h2] at h ⊢
  by_cases h3 : len1 < jump_header_ a
  · rw [if_pos h3] at h
    exact absurd h (by decide)
  rw [if_neg h3] at h ⊢
  by_cases h4 : ¬ head_minimal a
  · rw [if_pos h4] at h
    exact absurd h (by decide)
  rw [if_neg h4] at h ⊢
  by_cases h5 : leaf_payload a ≤ len1 - jump_header_ a
  · rw [if_pos h5] at h ⊢
    simp only at h ⊢
    unfold leaf_length
    omega
  · rw [if_neg h5] at h
    exact absurd (show VALIDATOR_ERROR_NOT_ENOUGH_DATA = 0 from h) (by decide)

theorem validate_raw_data_item_body_eq (a0 : List Nat) (len : Nat) (s : validate_state) :
    validate_raw_data_item_body a0 len s =
      if s.r1 = 0 then { s with r2 := false }
      else if s.r1 > len - s.r then
        { s with perr := validate_recursive_error_not_enough_data, r2 := false }
      else if (validate_leaf (a0.drop s.r) (len - s.r) s.perr).2 ≠ 0 then
        { s with perr := (validate_leaf (a0.drop s.r) (len - s.r) s.perr).2, r2 := false }
      else if (if (count_remaining_data_items (a0.drop s.r) (len - s.r - s.r1)
              (validate_leaf (a0.drop s.r) (len - s.r) s.perr).2).2 = 0
            then decide ((count_remaining_data_items (a0.drop s.r) (len - s.r - s.r1)
              (validate_leaf (a0.drop s.r) (len - s.r) s.perr).2).1 > len - s.r - s.r1)
            else true) = true then
        { s with
          perr := if (count_remaining_data_items (a0.drop s.r) (len - s.r - s.r1)
              (validate_leaf (a0.drop s.r) (len - s.r) s.perr).2).2 = 0
            then validate_recursive_error_not_enough_data
            else (count_remaining_data_items (a0.drop s.r) (len - s.r - s.r1)
              (validate_leaf (a0.drop s.r) (len - s.r) s.perr).2).2,
          r2 := false }
      else
        { r := s.r + (validate_leaf (a0.drop s.r) (len - s.r) s.perr).1,
          r1 := (count_remaining_data_items (a0.drop s.r) (len - s.r - s.r1)
              (validate_leaf (a0.drop s.r) (len - s.r) s.perr).2).1 + s.r1 - 1,
          r2 := true,
          perr := (count_remaining_data_items (a0.drop s.r) (len - s.r - s.r1)
              (validate_leaf (a0.drop s.r) (len - s.r) s.perr).2).2 } := by
  rfl

/-- One run of the body either stops the loop, and then the loop function returns the
counters of the state reached, or it consumes at least one byte, stays within `len`, and the
loop function goes on from the state reached. -/
theorem validate_raw_data_item_body_spec (a0 : List Nat) (len : Nat) (s : validate_state)
    (hr : s.r ≤ len) :
    ((validate_raw_data_item_body a0 len s).r2 = false ∧
      ∀ f, validate_raw_data_item_loop (f + 1) a0 len s.r s.r1 s.perr =
        ((validate_raw_data_item_body a0 len s).r, (validate_raw_data_item_body a0 len s).perr))
    ∨ ((validate_raw_data_item_body a0 len s).r2 = true ∧
      s.r + 1 ≤ (validate_raw_data_item_body a0 len s).r ∧
      (validate_raw_data_item_body a0 len s).r ≤ len ∧
      ∀ f, validate_raw_data_item_loop (f + 1) a0 len s.r s.r1 s.perr =
        validate_raw_data_item_loop f a0 len (validate_raw_data_item_body a0 len s).r
          (validate_raw_data_item_body a0 len s).r1
          (validate_raw_data_item_body a0 len s).perr) := by
  rw [validate_raw_data_item_body_eq]
  by_cases h1 : s.r1 = 0
  · left
    rw [if_pos h1]
    exact ⟨rfl, fun f => by rw [validate_raw_data_item_loop_succ, if_pos h1]⟩
  rw [if_neg h1]
  by_cases h2 : s.r1 > len - s.r
  · left
    rw [if_pos h2]
    exact ⟨rfl, fun f => by rw [validate_raw_data_item_loop_succ, if_neg h1, if_pos h2]⟩
  rw [if_neg h2]
  by_cases h3 : (validate_leaf (a0.drop s.r) (len - s.r) s.perr).2 ≠ 0
  · left
    rw [if_pos h3]
    exact ⟨rfl, fun f => by
      rw [validate_raw_data_item_loop_succ, if_neg h1, if_neg h2, if_pos h3]⟩
  rw [if_neg h3]
  by_cases h4 : (if (count_remaining_data_items (a0.drop s.r) (len - s.r - s.r1)
              (validate_leaf (a0.drop s.r) (len - s.r) s.perr).2).2 = 0
            then decide ((count_remaining_data_items (a0.drop s.r) (len - s.r - s.r1)
              (validate_leaf (a0.drop s.r) (len - s.r) s.perr).2).1 > len - s.r - s.r1)
            else true) = true
  · left
    rw [if_pos h4]
    exact ⟨rfl, fun f => by
      rw [validate_raw_data_item_loop_succ, if_neg h1, if_neg h2, if_neg h3, if_pos h4]⟩
  · right
    rw [if_neg h4]
    obtain ⟨b1, b2, -, -⟩ := validate_leaf_ok_bounds _ _ _ (not_not.1 h3)
    refine ⟨rfl, ?_, ?_, fun f => ?_⟩
    · simp only
      omega
    · simp only
      omega
    · rw [validate_raw_data_item_loop_succ, if_neg h1, if_neg h2, if_neg h3, if_neg h4]

/-- From a state within the input, the loop stops within one more run of its body than bytes
are left, and the loop function returns the counters of the state where it stops. -/
theorem validate_raw_data_item_body_stops (a0 : List Nat) (len : Nat) :
    ∀ m s, s.r ≤ len → len - s.r ≤ m →
      ∃ n, 1 ≤ n ∧ n ≤ m + 1 ∧
        (Nat.iterate (validate_raw_data_item_body a0 len) n s).r2 = false ∧
        (∀ k, 1 ≤ k → k < n →
          (Nat.iterate (validate_raw_data_item_body a0 len) k s).r2 = true ∧
          (Nat.iterate (validate_raw_data_item_body a0 len) k s).r ≤ len) ∧
        (∀ k, k + 1 < n →
          (Nat.iterate (validate_raw_data_item_body a0 len) k s).r + 1 ≤
            (Nat.iterate (validate_raw_data_item_body a0 len) (k + 1) s).r) ∧
        (∀ f, n ≤ f → validate_raw_data_item_loop f a0 len s.r s.r1 s.perr =
          ((Nat.iterate (validate_raw_data_item_body a0 len) n s).r,
            (Nat.iterate (validate_raw_data_item_body a0 len) n s).perr)) := by
  intro m
  induction m with
  | zero =>
    intro s hr hm
    rcases validate_raw_data_item_body_spec a0 len s hr with ⟨c1, c2⟩ | ⟨-, c2, c3, -⟩
    · refine ⟨1, by omega, by omega, c1, ?_, ?_, ?_⟩
      · intro k hk1 hk2
        omega
      · intro k hk
        omega
      · intro f hf
        obtain ⟨f, rfl⟩ : ∃ g, f = g + 1 := ⟨f - 1, by omega⟩
        exact c2 f
    · omega
  | succ m ih =>
    intro s hr hm
    rcases validate_raw_data_item_body_spec a0 len s hr with ⟨c1, c2⟩ | ⟨c1, c2, c3, c4⟩
    · refine ⟨1, by omega, by omega, c1, ?_, ?_, ?_⟩
      · intro k hk1 hk2
        omega
      · intro k hk
        omega
      · intro f hf
        obtain ⟨f, rfl⟩ : ∃ g, f = g + 1 := ⟨f - 1, by omega⟩
        exact c2 f
    · obtain ⟨n, n1, n2, e1, e2, e3, e4⟩ :=
        ih (validate_raw_data_item_body a0 len s) c3 (by omega)
      refine ⟨n + 1, by omega, by omega, e1, ?_, ?_, ?_⟩
      · intro k hk1 hk2
        obtain ⟨k, rfl⟩ : ∃ j, k = j + 1 := ⟨k - 1, by omega⟩
        by_cases hk0 : k = 0
        · subst hk0
          exact ⟨c1, c3⟩
        · exact e2 k (by omega) (by omega)
      · intro k hk
        cases k with
        | zero => exact c2
        | succ k => exact e3 k (by omega)
      · intro f hf
        obtain ⟨f, rfl⟩ : ∃ g, f = g + 1 := ⟨f - 1, by omega⟩
        rw [c4 f]
        exact e4 f (by omega)

/-- C31. The validator is a single loop that terminates on every input `(a, len)`: from the
initial state (`consumed = 0`, `pending = 1`), the loop flag is cleared after `n` runs of the
body with `1 <= n <= len + 1`; every run before the last leaves the flag set, consumes at
least one more byte and keeps `consumed <= len`; and `validate_raw_data_item_` returns the
counters of the state where the loop stops (so does the loop with any larger bound on its
runs), whatever the nesting of the input. -/
theorem validator_terminates (a0 : List Nat) (len perr : Nat) :
    ∃ n, 1 ≤ n ∧ n ≤ len + 1 ∧
      (Nat.iterate (validate_raw_data_item_body a0 len) n
        { r := 0, r1 := 1, r2 := true, perr := perr }).r2 = false ∧
      (∀ k, k < n →
        (Nat.iterate (validate_raw_data_item_body a0 len) k
          { r := 0, r1 := 1, r2 := true, perr := perr }).r2 = true ∧
        (Nat.iterate (validate_raw_data_item_body a0 len) k
          { r := 0, r1 := 1, r2 := true, perr := perr }).r ≤ len) ∧
      (∀ k, k + 1 < n →
        (Nat.iterate (validate_raw_data_item_body a0 len) k
          { r := 0, r1 := 1, r2 := true, perr := perr }).r + 1 ≤
        (Nat.iterate (validate_raw_data_item_body a0 len) (k + 1)
          { r := 0, r1 := 1, r2 := true, perr := perr }).r) ∧
      (∀ f, n ≤ f → validate_raw_data_item_loop f a0 len 0 1 perr =
        ((Nat.iterate (validate_raw_data_item_body a0 len) n
            { r := 0, r1 := 1, r2 := true, perr := perr }).r,
          (Nat.iterate (validate_raw_data_item_body a0 len) n
            { r := 0, r1 := 1, r2 := true, perr := perr }).perr)) ∧
      validate_raw_data_item_ a0 len perr =
        ((Nat.iterate (validate_raw_data_item_body a0 len) n
            { r := 0, r1 := 1, r2 := true, perr := perr }).r,
          (Nat.iterate (validate_raw_data_item_body a0 len) n
            { r := 0, r1 := 1, r2 := true, perr := perr }).perr) := by
  obtain ⟨n, n1, n2, e1, e2, e3, e4⟩ := validate_raw_data_item_body_stops a0 len len
    { r := 0, r1 := 1, r2 := true, perr := perr } (Nat.zero_le _) (by simp only; omega)
  refine ⟨n, n1, n2, e1, ?_, e3, e4, ?_⟩
  · intro k hk
    by_cases hk0 : k = 0
    · subst hk0
      exact ⟨rfl, Nat.zero_le _⟩
    · exact e2 k (by omega) hk
  · unfold validate_raw_data_item_
    exact e4 (len + 1) n2

/-! ## The reads of the validator -/

theorem read_within_of_le (avail width v : Nat) (h : width ≤ avail) :
    read_within avail width v = some v := by
  unfold read_within
  rw [if_pos h]

theorem validate_long_argument_checked_eq (v : Nat) (ar : List Nat)
    (avail len1 len11 len2 width min_value : Nat) (read_arg : List Nat → Nat) (perr : Nat)
    (h : len2 ≤ avail) :
    validate_long_argument_checked v ar avail len1 len11 len2 width min_value read_arg perr =
      some (validate_long_argument v ar len1 len11 len2 width min_value read_arg perr) := by
  unfold validate_long_argument_checked validate_long_argument
  by_cases hw : width ≤ len2
  · simp only [hw, if_true, read_within_of_le avail width _ (Nat.le_trans hw h)]
    by_cases hm : min_value ≤ read_arg ar
    · simp only [hm, not_true_eq_false, if_false]
    · simp only [hm, not_false_eq_true, if_true]
  · simp only [hw, if_false, VALIDATOR_ERROR_NOT_ENOUGH_DATA, Nat.succ_ne_zero]

/-- The leaf validation reads no byte beyond the `len1` bytes it is given. -/
theorem validate_leaf_checked_eq (a : List Nat) (avail len1 perr : Nat) (h : len1 ≤ avail) :
    validate_leaf_checked a avail len1 perr = some (validate_leaf a len1 perr) := by
  unfold validate_leaf_checked validate_leaf
  by_cases h1 : 1 ≤ len1
  · simp only [h1, if_true, read_within_of_le avail 1 _ (Nat.le_trans h1 h)]
    have hl : len1 - 1 ≤ avail - 1 := by omega
    split_ifs <;>
      first
      | rfl
      | exact validate_long_argument_checked_eq _ _ _ _ _ _ _ _ _ _ hl
  · simp only [h1, if_false, VALIDATOR_ERROR_NOT_ENOUGH_DATA, Nat.succ_ne_zero]

theorem read_header_major_type_checked_eq (a : List Nat) (avail : Nat) (h : 1 ≤ avail) :
    read_header_major_type_checked a avail = some (read_header_major_type a) := by
  unfold read_header_major_type_checked read_header_major_type
  rw [read_within_of_le avail 1 _ h]

/-- The head argument is read within the bytes of the head. -/
theorem read_header_argument_as_uint64_checked_eq (a : List Nat) (avail : Nat)
    (h : jump_header_ a ≤ avail) :
    read_header_argument_as_uint64_checked a avail =
      some (read_header_argument_as_uint64 a) := by
  have hj := jump_header_pos a
  have hje := jump_header_eq a
  have hi : head_info a = get_bitfield_gen8 (read_u8 a) 0 5 := rfl
  rw [hi] at hje
  unfold read_header_argument_as_uint64_checked read_header_argument_as_uint64
  simp only [read_within_of_le avail 1 _ (by omega : 1 ≤ avail),
    ADDITIONAL_INFO_LONG_ARGUMENT_8_BITS, ADDITIONAL_INFO_LONG_ARGUMENT_16_BITS,
    ADDITIONAL_INFO_LONG_ARGUMENT_32_BITS, ADDITIONAL_INFO_LONG_ARGUMENT_64_BITS]
  by_cases c1 : get_bitfield_gen8 (read_u8 a) 0 5 = 24
  · rw [if_pos c1] at hje
    simp only [c1, if_true, ite_self]
    exact read_within_of_le _ _ _ (by omega)
  rw [if_neg c1] at hje
  by_cases c2 : get_bitfield_gen8 (read_u8 a) 0 5 = 25
  · rw [if_pos c2] at hje
    simp only [c2, if_true]
    rw [if_neg (by decide)]
    exact read_within_of_le _ _ _ (by omega)
  rw [if_neg c2] at hje
  by_cases c3 : get_bitfield_gen8 (read_u8 a) 0 5 = 26
  · rw [if_pos c3] at hje
    simp only [c3, if_true]
    rw [if_neg (by decide), if_neg (by decide)]
    exact read_within_of_le _ _ _ (by omega)
  rw [if_neg c3] at hje
  by_cases c4 : get_bitfield_gen8 (read_u8 a) 0 5 = 27
  · rw [if_pos c4] at hje
    simp only [c4, if_true]
    rw [if_neg (by decide), if_neg (by decide), if_neg (by decide)]
    exact read_within_of_le _ _ _ (by omega)
  simp only [c1, c2, c3, c4, if_false]

/-- The child count reads no byte beyond the head. -/
theorem count_remaining_data_items_checked_eq (a : List Nat) (avail bound perr : Nat)
    (h : jump_header_ a ≤ avail) :
    count_remaining_data_items_checked a avail bound perr =
      some (count_remaining_data_items a bound perr) := by
  have hj := jump_header_pos a
  unfold count_remaining_data_items_checked count_remaining_data_items
  simp only [read_header_major_type_checked_eq a avail (by omega),
    read_header_argument_as_uint64_checked_eq a avail h]
  split_ifs <;> rfl

/-- The loop with checked reads never meets a read outside the input: it computes what the
loop computes. -/
theorem validate_raw_data_item_loop_checked_eq (a0 : List Nat) (len : Nat) (f : Nat) :
    ∀ r r1 perr, validate_raw_data_item_loop_checked f a0 len r r1 perr =
      some (validate_raw_data_item_loop f a0 len r r1 perr) := by
  induction f with
  | zero =>
    intro r r1 perr
    rfl
  | succ f ih =>
    intro r r1 perr
    rw [validate_raw_data_item_loop_succ]
    unfold validate_raw_data_item_loop_checked
    by_cases h1 : r1 = 0
    · simp only [h1, if_true]
    simp only [h1, if_false]
    by_cases h2 : r1 > len - r
    · simp only [h2, if_true]
    simp only [h2, if_false]
    rw [validate_leaf_checked_eq _ _ _ _ (Nat.le_refl _)]
    simp only
    by_cases h3 : (validate_leaf (a0.drop r) (len - r) perr).2 ≠ 0
    · rw [if_pos h3, if_pos h3]
    rw [if_neg h3, if_neg h3]
    obtain ⟨-, -, hj, -⟩ := validate_leaf_ok_bounds _ _ _ (not_not.1 h3)
    rw [count_remaining_data_items_checked_eq _ _ _ _ hj]
    simp only
    split_ifs <;> first | rfl | exact ih _ _ _

/-- C35 as stated fails: on the three bytes `82 41 61` (an array of two items of which only
the first is present) the second run of the loop body leaves the loop flag set with
`consumed = 3` and `pending = 1`, so the loop continues with `consumed + pending > len = 3`;
the third run stops on its first test, with `NOT_ENOUGH_DATA`. -/
theorem validator_pending_exceeds_len :
    (Nat.iterate (validate_raw_data_item_body [0x82, 0x41, 0x61] 3) 2
      { r := 0, r1 := 1, r2 := true, perr := 0 }).r2 = true ∧
    ¬ ((Nat.iterate (validate_raw_data_item_body [0x82, 0x41, 0x61] 3) 2
        { r := 0, r1 := 1, r2 := true, perr := 0 }).r +
      (Nat.iterate (validate_raw_data_item_body [0x82, 0x41, 0x61] 3) 2
        { r := 0, r1 := 1, r2 := true, perr := 0 }).r1 ≤ 3) ∧
    ValidatorReaches [0x82, 0x41, 0x61] 3 3 1 ∧
    validate_raw_data_item [0x82, 0x41, 0x61] 3 0 = (3, VALIDATOR_ERROR_NOT_ENOUGH_DATA) :=
  ⟨by decide, by decide,
    ValidatorReaches.turn 1 2 2 0
      (ValidatorReaches.turn 0 1 1 2 ValidatorReaches.start
        ⟨by decide, by decide, by decide, by decide, by decide⟩)
      ⟨by decide, by decide, by decide, by decide, by decide⟩,
    by decide⟩

/-- C35, amended. The validator never reads outside its input: with every read of the input
checked against the bytes that remain (`len - consumed` at the pointer `a0 + consumed`), the
loop never meets a read that fails, and returns what `validate_raw_data_item_` returns. At
every state that the loop reaches `consumed <= len`; and at every turn that goes past its
tests, `consumed + pending <= len`, the head read lies within the input and so does the leaf
(after such a turn the counters may exceed `len` by their sum, and the next turn then stops
on its first test before reading). -/
theorem validator_reads_in_bounds (a : List Nat) (len perr r r1 : Nat)
    (hreach : ValidatorReaches a len r r1) :
    validate_raw_data_item_checked a len perr = some (validate_raw_data_item_ a len perr) ∧
      r ≤ len ∧
      (∀ k n_, ValidateTurn a len r r1 k n_ →
        r + r1 ≤ len ∧ r + jump_header_ (a.drop r) ≤ len ∧ r + k ≤ len ∧
          count_remaining_data_items_checked (a.drop r) (len - r) (len - r - r1) 0 =
            some (n_, 0) ∧
          validate_leaf_checked (a.drop r) (len - r) (len - r) 0 = some (k, 0)) := by
  have hr := (validatorReaches_run a len r r1 hreach).1
  refine ⟨validate_raw_data_item_loop_checked_eq a len (len + 1) 0 1 perr, hr, ?_⟩
  intro k n_ ht
  have hfit := ht.fits
  have hb := ht.leaf_bounds
  have hl := ht.leaf
  obtain ⟨-, -, hj, -⟩ := validate_leaf_ok_bounds (a.drop r) (len - r) 0 (by rw [hl])
  refine ⟨by omega, by omega, by omega, ?_, ?_⟩
  · rw [count_remaining_data_items_checked_eq _ _ _ _ hj, ht.count]
  · rw [validate_leaf_checked_eq _ _ _ _ (Nat.le_refl _), hl]

theorem validator_reads_in_bounds_witness :
    ValidatorReaches [0x82, 0x41, 0x61] 3 1 2 ∧
    validate_raw_data_item_checked [0x82, 0x41, 0x61] 3 0 =
      some (validate_raw_data_item_ [0x82, 0x41, 0x61] 3 0) ∧
    (1 : Nat) ≤ 3 :=
  have hreach : ValidatorReaches [0x82, 0x41, 0x61] 3 1 2 :=
    ValidatorReaches.turn 0 1 1 2 ValidatorReaches.start
      ⟨by decide, by decide, by decide, by decide, by decide⟩
  have h := validator_reads_in_bounds [0x82, 0x41, 0x61] 3 0 1 2 hreach
  ⟨hreach, h.1, h.2.1⟩

/-! ## Injectivity of the encoding -/

/-- Two minimal heads that start equal byte strings are the same head. -/
theorem ser_head_inj (t x t2 x2 : Nat) (r1 r2 : List Nat) (ht : t < 8) (ht2 : t2 < 8)
    (hx : x < SIZE_MOD) (hx2 : x2 < SIZE_MOD) (he : ser_head t x ++ r1 = ser_head t2 x2 ++ r2) :
    t = t2 ∧ x = x2 ∧ r1 = r2 := by
  have e1 : t = t2 := by
    have := congrArg read_header_major_type he
    rwa [ser_head_major t x ht, ser_head_major t2 x2 ht2] at this
  have e2 : x = x2 := by
    have := congrArg read_header_argument_as_uint64 he
    rwa [ser_head_argument t x ht hx, ser_head_argument t2 x2 ht2 hx2] at this
  subst e1 e2
  exact ⟨rfl, rfl, List.append_cancel_left he⟩

mutual
/-- The serialization of a value without serialized parts determines the value, and no such
serialization is a proper prefix of another. -/
theorem ser_inj : ∀ v : cbor, cbor_valid v → cbor_plain v → ∀ (w : cbor) (r1 r2 : List Nat),
    cbor_valid w → cbor_plain w → ser v ++ r1 = ser w ++ r2 → v = w ∧ r1 = r2
  | .CBOR_Case_Int64 t x, hv, hpv, w, r1, r2, hw, hpw, he => by
    simp only [cbor_valid] at hv
    cases w with
    | CBOR_Case_Int64 t2 x2 =>
      simp only [cbor_valid] at hw
      simp only [ser, List.append_assoc] at he
      obtain ⟨e1, e2, e3⟩ := ser_head_inj t x t2 x2 _ _ (by omega) (by omega) hv.2 hw.2 he
      subst e1 e2
      exact ⟨rfl, e3⟩
    | CBOR_Case_Simple_value x2 =>
      simp only [cbor_valid] at hw
      rw [ser_simple_value_eq x2 hw.1] at he
      simp only [ser, List.append_assoc] at he
      have := (ser_head_inj t x 7 x2 _ _
        (by omega) (by decide) hv.2 (by simp only [SIZE_MOD]; omega) he).1
      omega
    | CBOR_Case_String t2 x2 p2 =>
      simp only [cbor_valid] at hw
      simp only [ser, List.append_assoc] at he
      have := (ser_head_inj t x t2 x2 _ _ (by omega) (by omega) hv.2 hw.2.1 he).1
      omega
    | CBOR_Case_Tagged x2 p2 =>
      simp only [cbor_valid] at hw
      simp only [ser, List.append_assoc] at he
      have := (ser_head_inj t x 6 x2 _ _ (by omega) (by decide) hv.2 hw.1 he).1
      omega
    | CBOR_Case_Array x2 p2 =>
      simp only [cbor_valid] at hw
      simp only [ser, List.append_assoc] at he
      have := (ser_head_inj t x 4 x2 _ _ (by omega) (by decide) hv.2 hw.1 he).1
      omega
    | CBOR_Case_Map x2 p2 =>
      simp only [cbor_valid] at hw
      simp only [ser, List.append_assoc] at he
      have := (ser_head_inj t x 5 x2 _ _ (by omega) (by decide) hv.2 hw.1 he).1
      omega
    | CBOR_Case_Serialized s2 b2 =>
      simp only [cbor_plain] at hpw
  | .CBOR_Case_Simple_value x, hv, hpv, w, r1, r2, hw, hpw, he => by
    simp only [cbor_valid] at hv
    rw [ser_simple_value_eq x hv.1] at he
    cases w with
    | CBOR_Case_Int64 t2 x2 =>
      simp only [cbor_valid] at hw
      simp only [ser, List.append_assoc] at he
      have := (ser_head_inj 7 x t2 x2 _ _
        (by decide) (by omega) (by simp only [SIZE_MOD]; omega) hw.2 he).1
      omega
    | CBOR_Case_Simple_value x2 =>
      simp only [cbor_valid] at hw
      rw [ser_simple_value_eq x2 hw.1] at he
      obtain ⟨e1, e2, e3⟩ := ser_head_inj 7 x 7 x2 _ _
        (by decide) (by decide) (by simp only [SIZE_MOD]; omega) (by simp only [SIZE_MOD]; omega) he
      subst e2
      exact ⟨rfl, e3⟩
    | CBOR_Case_String t2 x2 p2 =>
      simp only [cbor_valid] at hw
      simp only [ser, List.append_assoc] at he
      have := (ser_head_inj 7 x t2 x2 _ _
        (by decide) (by omega) (by simp only [SIZE_MOD]; omega) hw.2.1 he).1
      omega
    | CBOR_Case_Tagged x2 p2 =>
      simp only [cbor_valid] at hw
      simp only [ser, List.append_assoc] at he
      have := (ser_head_inj 7 x 6 x2 _ _
        (by decide) (by decide) (by simp only [SIZE_MOD]; omega) hw.1 he).1
      omega
    | CBOR_Case_Array x2 p2 =>
      simp only [cbor_valid] at hw
      simp only [ser, List.append_assoc] at he
      have := (ser_head_inj 7 x 4 x2 _ _
        (by decide) (by decide) (by simp only [SIZE_MOD]; omega) hw.1 he).1
      omega
    | CBOR_Case_Map x2 p2 =>
      simp only [cbor_valid] at hw
      simp only [ser, List.append_assoc] at he
      have := (ser_head_inj 7 x 5 x2 _ _
        (by decide) (by decide) (by simp only [SIZE_MOD]; omega) hw.1 he).1
      omega
    | CBOR_Case_Serialized s2 b2 =>
      simp only [cbor_plain] at hpw
  | .CBOR_Case_String t x p, hv, hpv, w, r1, r2, hw, hpw, he => by
    simp only [cbor_valid] at hv
    cases w with
    | CBOR_Case_Int64 t2 x2 =>
      simp only [cbor_valid] at hw
      simp only [ser, List.append_assoc] at he
      have := (ser_head_inj t x t2 x2 _ _ (by omega) (by omega) hv.2.1 hw.2 he).1
      omega
    | CBOR_Case_Simple_value x2 =>
      simp only [cbor_valid] at hw
      rw [ser_simple_value_eq x2 hw.1] at he
      simp only [ser, List.append_assoc] at he
      have := (ser_head_inj t x 7 x2 _ _
        (by omega) (by decide) hv.2.1 (by simp only [SIZE_MOD]; omega) he).1
      omega
    | CBOR_Case_String t2 x2 p2 =>
      simp only [cbor_valid] at hw
      simp only [ser, List.append_assoc] at he
      obtain ⟨e1, e2, e3⟩ := ser_head_inj t x t2 x2 _ _ (by omega) (by omega) hv.2.1 hw.2.1 he
      simp only [cbor_plain] at hpv hpw
      subst e1 e2
      have hl1 : p.take x = p := by rw [hpv]; exact List.take_length p
      have hl2 : p2.take x = p2 := by rw [hpw]; exact List.take_length p2
      rw [hl1, hl2] at e3
      obtain ⟨e4, e5⟩ := List.append_inj e3 (by omega)
      subst e4
      exact ⟨rfl, e5⟩
    | CBOR_Case_Tagged x2 p2 =>
      simp only [cbor_valid] at hw
      simp only [ser, List.append_assoc] at he
      have := (ser_head_inj t x 6 x2 _ _ (by omega) (by decide) hv.2.1 hw.1 he).1
      omega
    | CBOR_Case_Array x2 p2 =>
      simp only [cbor_valid] at hw
      simp only [ser, List.append_assoc] at he
      have := (ser_head_inj t x 4 x2 _ _ (by omega) (by decide) hv.2.1 hw.1 he).1
      omega
    | CBOR_Case_Map x2 p2 =>
      simp only [cbor_valid] at hw
      simp only [ser, List.append_assoc] at he
      have := (ser_head_inj t x 5 x2 _ _ (by omega) (by decide) hv.2.1 hw.1 he).1
      omega
    | CBOR_Case_Serialized s2 b2 =>
      simp only [cbor_plain] at hpw
  | .CBOR_Case_Tagged x p, hv, hpv, w, r1, r2, hw, hpw, he => by
    simp only [cbor_valid] at hv
    cases w with
    | CBOR_Case_Int64 t2 x2 =>
      simp only [cbor_valid] at hw
      simp only [ser, List.append_assoc] at he
      have := (ser_head_inj 6 x t2 x2 _ _ (by decide) (by omega) hv.1 hw.2 he).1
      omega
    | CBOR_Case_Simple_value x2 =>
      simp only [cbor_valid] at hw
      rw [ser_simple_value_eq x2 hw.1] at he
      simp only [ser, List.append_assoc] at he
      have := (ser_head_inj 6 x 7 x2 _ _
        (by decide) (by decide) hv.1 (by simp only [SIZE_MOD]; omega) he).1
      omega
    | CBOR_Case_String t2 x2 p2 =>
      simp only [cbor_valid] at hw
      simp only [ser, List.append_assoc] at he
      have := (ser_head_inj 6 x t2 x2 _ _ (by decide) (by omega) hv.1 hw.2.1 he).1
      omega
    | CBOR_Case_Tagged x2 p2 =>
      simp only [cbor_valid] at hw
      simp only [ser, List.append_assoc] at he
      obtain ⟨e1, e2, e3⟩ := ser_head_inj 6 x 6 x2 _ _ (by decide) (by decide) hv.1 hw.1 he
      simp only [cbor_plain] at hpv hpw
      subst e2
      obtain ⟨e4, e5⟩ := ser_inj p hv.2 hpv p2 r1 r2 hw.2 hpw e3
      subst e4
      exact ⟨rfl, e5⟩
    | CBOR_Case_Array x2 p2 =>
      simp only [cbor_valid] at hw
      simp only [ser, List.append_assoc] at he
      have := (ser_head_inj 6 x 4 x2 _ _ (by decide) (by decide) hv.1 hw.1 he).1
      omega
    | CBOR_Case_Map x2 p2 =>
      simp only [cbor_valid] at hw
      simp only [ser, List.append_assoc] at he
      have := (ser_head_inj 6 x 5 x2 _ _ (by decide) (by decide) hv.1 hw.1 he).1
      omega
    | CBOR_Case_Serialized s2 b2 =>
      simp only [cbor_plain] at hpw
  | .CBOR_Case_Array x p, hv, hpv, w, r1, r2, hw, hpw, he => by
    simp only [cbor_valid] at hv
    cases w with
    | CBOR_Case_Int64 t2 x2 =>
      simp only [cbor_valid] at hw
      simp only [ser, List.append_assoc] at he
      have := (ser_head_inj 4 x t2 x2 _ _ (by decide) (by omega) hv.1 hw.2 he).1
      omega
    | CBOR_Case_Simple_value x2 =>
      simp only [cbor_valid] at hw
      rw [ser_simple_value_eq x2 hw.1] at he
      simp only [ser, List.append_assoc] at he
      have := (ser_head_inj 4 x 7 x2 _ _
        (by decide) (by decide) hv.1 (by simp only [SIZE_MOD]; omega) he).1
      omega
    | CBOR_Case_String t2 x2 p2 =>
      simp only [cbor_valid] at hw
      simp only [ser, List.append_assoc] at he
      have := (ser_head_inj 4 x t2 x2 _ _ (by decide) (by omega) hv.1 hw.2.1 he).1
      omega
    | CBOR_Case_Tagged x2 p2 =>
      simp only [cbor_valid] at hw
      simp only [ser, List.append_assoc] at he
      have := (ser_head_inj 4 x 6 x2 _ _ (by decide) (by decide) hv.1 hw.1 he).1
      omega
    | CBOR_Case_Array x2 p2 =>
      simp only [cbor_valid] at hw
      simp only [ser, List.append_assoc] at he
      obtain ⟨e1, e2, e3⟩ := ser_head_inj 4 x 4 x2 _ _ (by decide) (by decide) hv.1 hw.1 he
      simp only [cbor_plain] at hpv hpw
      subst e2
      obtain ⟨e4, e5⟩ := ser_items_inj p hv.2.2 hpv p2 r1 r2 hw.2.2 hpw (by omega) e3
      subst e4
      exact ⟨rfl, e5⟩
    | CBOR_Case_Map x2 p2 =>
      simp only [cbor_valid] at hw
      simp only [ser, List.append_assoc] at he
      have := (ser_head_inj 4 x 5 x2 _ _ (by decide) (by decide) hv.1 hw.1 he).1
      omega
    | CBOR_Case_Serialized s2 b2 =>
      simp only [cbor_plain] at hpw
  | .CBOR_Case_Map x p, hv, hpv, w, r1, r2, hw, hpw, he => by
    simp only [cbor_valid] at hv
    cases w with
    | CBOR_Case_Int64 t2 x2 =>
      simp only [cbor_valid] at hw
      simp only [ser, List.append_assoc] at he
      have := (ser_head_inj 5 x t2 x2 _ _ (by decide) (by omega) hv.1 hw.2 he).1
      omega
    | CBOR_Case_Simple_value x2 =>
      simp only [cbor_valid] at hw
      rw [ser_simple_value_eq x2 hw.1] at he
      simp only [ser, List.append_assoc] at he
      have := (ser_head_inj 5 x 7 x2 _ _
        (by decide) (by decide) hv.1 (by simp only [SIZE_MOD]; omega) he).1
      omega
    | CBOR_Case_String t2 x2 p2 =>
      simp only [cbor_valid] at hw
      simp only [ser, List.append_assoc] at he
      have := (ser_head_inj 5 x t2 x2 _ _ (by decide) (by omega) hv.1 hw.2.1 he).1
      omega
    | CBOR_Case_Tagged x2 p2 =>
      simp only [cbor_valid] at hw
      simp only [ser, List.append_assoc] at he
      have := (ser_head_inj 5 x 6 x2 _ _ (by decide) (by decide) hv.1 hw.1 he).1
      omega
    | CBOR_Case_Array x2 p2 =>
      simp only [cbor_valid] at hw
      simp only [ser, List.append_assoc] at he
      have := (ser_head_inj 5 x 4 x2 _ _ (by decide) (by decide) hv.1 hw.1 he).1
      omega
    | CBOR_Case_Map x2 p2 =>
      simp only [cbor_valid] at hw
      simp only [ser, List.append_assoc] at he
      obtain ⟨e1, e2, e3⟩ := ser_head_inj 5 x 5 x2 _ _ (by decide) (by decide) hv.1 hw.1 he
      simp only [cbor_plain] at hpv hpw
      subst e2
      obtain ⟨e4, e5⟩ := ser_entries_inj p hv.2.2 hpv p2 r1 r2 hw.2.2 hpw (by omega) e3
      subst e4
      exact ⟨rfl, e5⟩
    | CBOR_Case_Serialized s2 b2 =>
      simp only [cbor_plain] at hpw
  | .CBOR_Case_Serialized s b, _, hpv, _, _, _, _, _, _ => by
    simp only [cbor_plain] at hpv
/-- Two lists of as many values with equal serializations are equal. -/
theorem ser_items_inj : ∀ l : List cbor, cbor_valid_items l → cbor_plain_items l →
    ∀ (l2 : List cbor) (r1 r2 : List Nat), cbor_valid_items l2 → cbor_plain_items l2 →
    l.length = l2.length → ser_items l ++ r1 = ser_items l2 ++ r2 → l = l2 ∧ r1 = r2
  | [], _, _, l2, r1, r2, _, _, hl, he => by
    cases l2 with
    | nil =>
      simp only [ser_items, List.nil_append] at he
      exact ⟨rfl, he⟩
    | cons y rest2 => simp only [List.length_nil, List.length_cons] at hl; omega
  | x :: rest, hv, hpv, l2, r1, r2, hw, hpw, hl, he => by
    cases l2 with
    | nil => simp only [List.length_nil, List.length_cons] at hl; omega
    | cons y rest2 =>
      simp only [cbor_valid_items] at hv hw
      simp only [cbor_plain_items] at hpv hpw
      simp only [ser_items, List.append_assoc] at he
      simp only [List.length_cons] at hl
      obtain ⟨e1, e2⟩ := ser_inj x hv.1 hpv.1 y _ _ hw.1 hpw.1 he
      subst e1
      obtain ⟨e3, e4⟩ := ser_items_inj rest hv.2 hpv.2 rest2 r1 r2 hw.2 hpw.2 (by omega) e2
      subst e3
      exact ⟨rfl, e4⟩
/-- Two lists of as many entries with equal serializations are equal. -/
theorem ser_entries_inj : ∀ l : List (cbor × cbor), cbor_valid_entries l →
    cbor_plain_entries l → ∀ (l2 : List (cbor × cbor)) (r1 r2 : List Nat),
    cbor_valid_entries l2 → cbor_plain_entries l2 →
    l.length = l2.length → ser_entries l ++ r1 = ser_entries l2 ++ r2 → l = l2 ∧ r1 = r2
  | [], _, _, l2, r1, r2, _, _, hl, he => by
    cases l2 with
    | nil =>
      simp only [ser_entries, List.nil_append] at he
      exact ⟨rfl, he⟩
    | cons y rest2 => simp only [List.length_nil, List.length_cons] at hl; omega
  | x :: rest, hv, hpv, l2, r1, r2, hw, hpw, hl, he => by
    cases l2 with
    | nil => simp only [List.length_nil, List.length_cons] at hl; omega
    | cons y rest2 =>
      simp only [cbor_valid_entries] at hv hw
      simp only [cbor_plain_entries] at hpv hpw
      simp only [ser_entries, List.append_assoc] at he
      simp only [List.length_cons] at hl
      obtain ⟨e1, e2⟩ := ser_inj x.1 hv.1 hpv.1 y.1 _ _ hw.1 hpw.1 he
      obtain ⟨e3, e4⟩ := ser_inj x.2 hv.2.1 hpv.2.1 y.2 _ _ hw.2.1 hpw.2.1 e2
      obtain ⟨e5, e6⟩ := ser_entries_inj rest hv.2.2 hpv.2.2 rest2 r1 r2 hw.2.2 hpw.2.2
        (by omega) e4
      subst e5
      exact ⟨by rw [Prod.ext e1 e3], e6⟩
end

/-- C36. The encoding is injective on constructed values: for two values `v` and `w` that
satisfy the invariants and contain no `Serialized` sub-value (each string payload having
exactly the declared length), if `cbor_write` succeeds on both and produces the same byte
sequence, then `v` and `w` are equal: same variant, same fields, same payload bytes, same
children in the same order. -/
theorem encoding_injective (v w : cbor) (out1 out2 : List Nat) (sz1 sz2 : Nat)
    (hv : cbor_valid v) (hpv : cbor_plain v) (hw : cbor_valid w) (hpw : cbor_plain w)
    (hcap1 : sz1 ≤ out1.length) (hcap2 : sz2 ≤ out2.length)
    (hw1 : (cbor_write v out1 sz1).1 ≠ 0) (hw2 : (cbor_write w out2 sz2).1 ≠ 0)
    (heq : (cbor_write v out1 sz1).2.take (cbor_write v out1 sz1).1 =
      (cbor_write w out2 sz2).2.take (cbor_write w out2 sz2).1) :
    v = w := by
  rw [cbor_write_succeeds v (cbor_valid_wf v hv) out1 sz1 hcap1 hw1,
    cbor_write_succeeds w (cbor_valid_wf w hw) out2 sz2 hcap2 hw2] at heq
  simp only [List.take_left] at heq
  have he : ser v ++ [] = ser w ++ [] := by
    rw [List.append_nil, List.append_nil]
    exact heq
  exact (ser_inj v hv hpv w [] [] hw hpw he).1

theorem encoding_injective_witness :
    cbor_valid (cbor.CBOR_Case_Array 2
      [cbor.CBOR_Case_Int64 1 1000, cbor.CBOR_Case_String 3 2 [0x61, 0x62]]) ∧
    cbor_plain (cbor.CBOR_Case_Array 2
      [cbor.CBOR_Case_Int64 1 1000, cbor.CBOR_Case_String 3 2 [0x61, 0x62]]) ∧
    (cbor_write (cbor.CBOR_Case_Array 2
      [cbor.CBOR_Case_Int64 1 1000, cbor.CBOR_Case_String 3 2 [0x61, 0x62]])
      [9, 9, 9, 9, 9, 9, 9, 9] 8).2.take 7 = [0x82, 0x39, 0x03, 0xE8, 0x62, 0x61, 0x62] ∧
    (cbor_write (cbor.CBOR_Case_Array 2
      [cbor.CBOR_Case_Int64 1 1000, cbor.CBOR_Case_String 3 2 [0x61, 0x62]])
      [0, 0, 0, 0, 0, 0, 0] 7).2.take 7 = [0x82, 0x39, 0x03, 0xE8, 0x62, 0x61, 0x62] ∧
    cbor.CBOR_Case_Array 2
      [cbor.CBOR_Case_Int64 1 1000, cbor.CBOR_Case_String 3 2 [0x61, 0x62]] =
    cbor.CBOR_Case_Array 2
      [cbor.CBOR_Case_Int64 1 1000, cbor.CBOR_Case_String 3 2 [0x61, 0x62]] :=
  have hv : cbor_valid (cbor.CBOR_Case_Array 2
      [cbor.CBOR_Case_Int64 1 1000, cbor.CBOR_Case_String 3 2 [0x61, 0x62]]) := by
    simp [cbor_valid, cbor_valid_items, SIZE_MOD]
  have hp : cbor_plain (cbor.CBOR_Case_Array 2
      [cbor.CBOR_Case_Int64 1 1000, cbor.CBOR_Case_String 3 2 [0x61, 0x62]]) := by
    simp [cbor_plain, cbor_plain_items]
  ⟨hv, hp, by decide, by decide,
    encoding_injective _ _ [9, 9, 9, 9, 9, 9, 9, 9] [0, 0, 0, 0, 0, 0, 0] 8 7 hv hp hv hp
      (by decide) (by decide) (by decide) (by decide) (by decide)⟩

end CBOR
